import Mathlib

/-!
# sgensys: the program builder (`builder.c`)

A shallow embedding of the lowering pass that turns a parse result into a
flat list of program events, allocating voice and operator ids on the way.

Conventions of the embedding.

* Pointers to parse nodes are node references (`ref : Nat`). The two fields the
  builder writes into parse nodes, `operator_id` and `voice_id`, live in a store
  keyed by reference (`BuildState.operator_id`, `BuildState.voice_id`); the
  initial store is part of the parse result, as the fields are in C.
* A pointer list `SGS_PList` is a Lean list of nodes together with its
  `copy_count`; `count` is the length of the list.
* Dereferencing a null pointer or indexing an allocation table outside its
  allocated size is a fault: the function returns `none`.
* `duration_ms` is a `uint32_t` and `wait_ms`, `time_ms` are `int32_t`; casts
  between the two are explicit (`toI32`, `toU32`). Ids, table sizes and counters
  (`uint32_t` in C) are kept in `Nat`: the embedding is exact as long as fewer
  than 2^31 voices and operators are allocated, beyond which the size handed to
  `realloc` itself overflows.
* `SGS_Program_print_info`, called at the end of `SGS_create_Program`, only
  prints and is left out.
* The flag constants come from a header that is not part of the sources at hand
  and are taken as a parameter (`Flags`).
-/

namespace Sgensys

/-- Flag constants used by `builder.c`; their values are declared in headers
outside the translated sources, so every definition takes them as a parameter. -/
structure Flags where
  P_GRAPH : Nat
  P_ADJCS : Nat
  PSED_VOICE_LATER_USED : Nat
  PSOD_MULTIPLE_OPERATORS : Nat
  PSSO_AMPMULT : Nat
  PROG_AMP_DIV_VOICES : Nat

/-- The constant `INT16_MAX` of `<stdint.h>`. -/
def INT16_MAX : Nat := 32767

/-- Reinterpretation of a 32-bit unsigned value as `int32_t`: the cast `(int32_t)x`. -/
def toI32 (n : Nat) : Int :=
  if n % 4294967296 < 2147483648 then ((n % 4294967296 : Nat) : Int)
  else ((n % 4294967296 : Nat) : Int) - 4294967296

/-- Conversion of an integer to `uint32_t` (reduction modulo 2^32). -/
def toU32 (i : Int) : Nat := (i % 4294967296).toNat

/-- Plain data copied verbatim from parse nodes to program data (floats, ramps). -/
abbrev RawBits := Nat

/-- Scalar fields of `SGS_ParseOperatorData` read by the builder. `event_wait_ms`
is `op->event->wait_ms`; `on_prev` is the reference of the previous node, if any;
`operator_id` itself is kept in the store of the build state. -/
structure OperatorFields where
  ref : Nat
  event_wait_ms : Int
  on_prev : Option Nat
  od_flags : Nat
  operator_params : Nat
  attr : Nat
  wave : Nat
  time_ms : Int
  silence_ms : Int
  freq : RawBits
  dynfreq : RawBits
  phase : RawBits
  amp : RawBits
  dynamp : RawBits
  valitfreq : RawBits
  valitamp : RawBits
  fmods_copy_count : Nat
  pmods_copy_count : Nat
  amods_copy_count : Nat

/-- An operator node of the parse tree with its three modulator lists. -/
inductive ParseOperatorData where
  | mk (d : OperatorFields) (fmods pmods amods : List ParseOperatorData)

namespace ParseOperatorData

/-- The scalar fields of a node. -/
def d : ParseOperatorData → OperatorFields
  | mk d _ _ _ => d

/-- The frequency modulators of a node (`op->fmods`). -/
def fmods : ParseOperatorData → List ParseOperatorData
  | mk _ f _ _ => f

/-- The phase modulators of a node (`op->pmods`). -/
def pmods : ParseOperatorData → List ParseOperatorData
  | mk _ _ p _ => p

/-- The amplitude modulators of a node (`op->amods`). -/
def amods : ParseOperatorData → List ParseOperatorData
  | mk _ _ _ a => a

end ParseOperatorData

/-- An event node of the parse tree (`SGS_ParseEventData`); the `next` link is
the order of the list of events in `ParseResult`. -/
structure ParseEventData where
  ref : Nat
  wait_ms : Int
  ed_flags : Nat
  voice_params : Nat
  voice_prev : Option Nat
  voice_attr : Nat
  panning : RawBits
  valitpanning : RawBits
  operators : List ParseOperatorData
  operators_copy_count : Nat
  graph : List ParseOperatorData

/-- The parser output handed to `SGS_create_Program`. `operator_id` and
`voice_id` hold the values of these node fields before lowering. -/
structure ParseResult where
  events : List ParseEventData
  name : String
  sopt_changed : Nat
  operator_id : Nat → Nat
  voice_id : Nat → Nat

/-- Carrier graph of a voice (`SGS_ProgramGraph`): `opc` ids. -/
structure ProgramGraph where
  opc : Nat
  ops : List Nat
  deriving DecidableEq

/-- Adjacency of an operator (`SGS_ProgramGraphAdjcs`): the ids of its
frequency, phase and amplitude modulators in one list, with the three counts. -/
structure ProgramGraphAdjcs where
  fmodc : Nat
  pmodc : Nat
  amodc : Nat
  adjcs : List Nat
  deriving DecidableEq

/-- Voice update of a program event (`SGS_ProgramVoiceData`). -/
structure ProgramVoiceData where
  graph : Option ProgramGraph
  attr : Nat
  panning : RawBits
  valitpanning : RawBits
  deriving DecidableEq

/-- Operator update of a program event (`SGS_ProgramOperatorData`). -/
structure ProgramOperatorData where
  adjcs : Option ProgramGraphAdjcs
  operator_id : Nat
  attr : Nat
  wave : Nat
  time_ms : Int
  silence_ms : Int
  freq : RawBits
  dynfreq : RawBits
  phase : RawBits
  amp : RawBits
  dynamp : RawBits
  valitfreq : RawBits
  valitamp : RawBits
  deriving DecidableEq

/-- Program event (`SGS_ProgramEvent`): `voice` and `operator` are `none` for null. -/
structure ProgramEvent where
  wait_ms : Int
  params : Nat
  voice_id : Nat
  voice : Option ProgramVoiceData
  operator : Option ProgramOperatorData
  deriving DecidableEq

/-- The built program (`SGS_Program`). Its declaration is in a header that is
not part of the sources at hand; the counts are stored as the builder computes
them (`prg->voice_count = va->count`), without narrowing. -/
structure Program where
  events : List ProgramEvent
  event_count : Nat
  operator_count : Nat
  voice_count : Nat
  flags : Nat
  name : String
  deriving DecidableEq

/-- Entry of the voice table. `last` is the `ed_flags` field of the event the
C pointer `last` refers to (the only field read through it), `none` for null. -/
structure VoiceAllocData where
  last : Option Nat
  duration_ms : Nat
  deriving DecidableEq

/-- The voice table (`VoiceAlloc`): `data` has `alloc` entries, `count` in use. -/
structure VoiceAlloc where
  data : List VoiceAllocData
  count : Nat
  alloc : Nat
  deriving DecidableEq

/-- Entry of the operator table. `last` is the reference of the node last given
this id, `out` the index in the event list of the event `out` points to. -/
structure OperatorAllocData where
  last : Option Nat
  out : Option Nat
  duration_ms : Nat
  deriving DecidableEq

/-- The operator table (`OperatorAlloc`): `data` has `alloc` entries, `count` in use. -/
structure OperatorAlloc where
  data : List OperatorAllocData
  count : Nat
  alloc : Nat
  deriving DecidableEq

/-- `ProgramAlloc`: `event` is the index in `ev_list` of the event `pa->event`
points to, `none` for null. -/
structure ProgramAlloc where
  va : VoiceAlloc
  oa : OperatorAlloc
  ev_list : List ProgramEvent
  event : Option Nat

/-- State of a build: the allocation data and the id fields of the parse nodes. -/
structure BuildState where
  pa : ProgramAlloc
  operator_id : Nat → Nat
  voice_id : Nat → Nat

/-- `voice_alloc_init`: one zeroed entry (`calloc`), none in use. -/
def voice_alloc_init : VoiceAlloc :=
  { data := [{ last := none, duration_ms := 0 }], count := 0, alloc := 1 }

/-- `operator_alloc_init`: one zeroed entry (`calloc`), none in use. -/
def operator_alloc_init : OperatorAlloc :=
  { data := [{ last := none, out := none, duration_ms := 0 }], count := 0, alloc := 1 }

/-- `program_alloc_init`: empty event list, no current event. -/
def program_alloc_init : ProgramAlloc :=
  { va := voice_alloc_init, oa := operator_alloc_init, ev_list := [], event := none }

/-- The body of the first loop of `voice_alloc_inc` and `operator_alloc_inc`:
`if ((int32_t)d < wait_ms) d = 0; else d -= wait_ms;`. -/
def residual_after_wait (duration_ms : Nat) (wait_ms : Int) : Nat :=
  if toI32 duration_ms < wait_ms then 0 else toU32 ((duration_ms : Int) - wait_ms)

/-- First loop of `voice_alloc_inc`, over the entries `voice < count`. -/
def voice_wait_loop (wait_ms : Int) : Nat → List VoiceAllocData → List VoiceAllocData
  | 0, l => l
  | _ + 1, [] => []
  | n + 1, x :: xs =>
    { x with duration_ms := residual_after_wait x.duration_ms wait_ms }
      :: voice_wait_loop wait_ms n xs

/-- First loop of `operator_alloc_inc`, over the entries `operator < count`. -/
def operator_wait_loop (wait_ms : Int) : Nat → List OperatorAllocData → List OperatorAllocData
  | 0, l => l
  | _ + 1, [] => []
  | n + 1, x :: xs =>
    { x with duration_ms := residual_after_wait x.duration_ms wait_ms }
      :: operator_wait_loop wait_ms n xs

/-- `voice_duration`: the loop starts from 0 and takes `time_ms` whenever
`op->time_ms > (int32_t)duration_ms`. -/
def voice_duration_loop : Nat → List ParseOperatorData → Nat
  | duration_ms, [] => duration_ms
  | duration_ms, op :: ops =>
    if op.d.time_ms > toI32 duration_ms then voice_duration_loop (toU32 op.d.time_ms) ops
    else voice_duration_loop duration_ms ops

/-- `voice_duration`: the longest duration among the top-level operators. -/
def voice_duration (ve : ParseEventData) : Nat :=
  voice_duration_loop 0 ve.operators

/-- The search loop of `voice_alloc_inc`: starting at index `voice` with `n`
entries left below `count`, stop at the first entry whose last event lacks
`SGS_PSED_VOICE_LATER_USED` and whose duration is 0; the result is the final
value of `voice` (`count` when the loop runs out). -/
def voice_search (k : Flags) : Nat → Nat → List VoiceAllocData → Option Nat
  | 0, voice, _ => some voice
  | _ + 1, _, [] => none
  | n + 1, voice, x :: xs =>
    match x.last with
    | none => none
    | some ed_flags =>
      if ed_flags &&& k.PSED_VOICE_LATER_USED = 0 ∧ x.duration_ms = 0 then some voice
      else voice_search k n (voice + 1) xs

/-- The growth step shared by both tables: `++count` and, when the count exceeds
`alloc`, doubling with the new entries cleared. -/
def voice_alloc_grow (va : VoiceAlloc) : VoiceAlloc :=
  if va.count + 1 > va.alloc then
    { data := va.data ++ List.replicate va.alloc { last := none, duration_ms := 0 },
      count := va.count + 1, alloc := va.alloc * 2 }
  else { va with count := va.count + 1 }

/-- `voice_alloc_inc`: returns the table, the store of `voice_id` fields and the
voice id. -/
def voice_alloc_inc (k : Flags) (va : VoiceAlloc) (voice_id : Nat → Nat) (e : ParseEventData) :
    Option (VoiceAlloc × (Nat → Nat) × Nat) :=
  let va1 : VoiceAlloc := { va with data := voice_wait_loop e.wait_ms va.count va.data }
  let found : Option (VoiceAlloc × Nat) :=
    match e.voice_prev with
    | some prev => some (va1, voice_id prev)
    | none =>
      match voice_search k va1.count 0 va1.data with
      | none => none
      | some voice =>
        if voice = va1.count then some (voice_alloc_grow va1, voice) else some (va1, voice)
  match found with
  | none => none
  | some (va2, voice) =>
    match va2.data.get? voice with
    | none => none
    | some ad =>
      let ad1 : VoiceAllocData := { ad with last := some e.ed_flags }
      let ad2 : VoiceAllocData :=
        if e.voice_params &&& k.P_GRAPH ≠ 0 then { ad1 with duration_ms := voice_duration e }
        else ad1
      some ({ va2 with data := va2.data.set voice ad2 },
        Function.update voice_id e.ref voice, voice)

/-- The growth step of `operator_alloc_inc`, as `voice_alloc_grow`. -/
def operator_alloc_grow (oa : OperatorAlloc) : OperatorAlloc :=
  if oa.count + 1 > oa.alloc then
    { data := oa.data ++ List.replicate oa.alloc { last := none, out := none, duration_ms := 0 },
      count := oa.count + 1, alloc := oa.alloc * 2 }
  else { oa with count := oa.count + 1 }

/-- `operator_alloc_inc`: the search for a free slot is commented out in the
source, so after the first loop `operator` equals `count` when `on_prev` is null. -/
def operator_alloc_inc (oa : OperatorAlloc) (operator_id : Nat → Nat) (op : OperatorFields) :
    Option (OperatorAlloc × (Nat → Nat) × Nat) :=
  let oa1 : OperatorAlloc :=
    { oa with data := operator_wait_loop op.event_wait_ms oa.count oa.data }
  let (oa2, operator) : OperatorAlloc × Nat :=
    match op.on_prev with
    | some pop => (oa1, operator_id pop)
    | none =>
      let operator := oa1.count
      if operator = oa1.count then (operator_alloc_grow oa1, operator) else (oa1, operator)
  match oa2.data.get? operator with
  | none => none
  | some ad =>
    some ({ oa2 with data := oa2.data.set operator { ad with last := some op.ref } },
      Function.update operator_id op.ref operator, operator)

/-- The event made by `calloc` in `program_add_event`, with its voice id set. -/
def new_event (voice_id : Nat) : ProgramEvent :=
  { wait_ms := 0, params := 0, voice_id := voice_id, voice := none, operator := none }

/-- `program_add_event`: a zeroed event with the given voice id is appended and
becomes the current event. -/
def program_add_event (pa : ProgramAlloc) (voice_id : Nat) : ProgramAlloc :=
  { pa with
    ev_list := pa.ev_list ++ [new_event voice_id],
    event := some pa.ev_list.length }

/-- `build_adjcs` on the event `root`, whose operator data must be present. -/
def build_adjcs (k : Flags) (operator_id : Nat → Nat) (root : ProgramEvent)
    (operator_in : ParseOperatorData) : Option ProgramEvent :=
  if operator_in.d.operator_params &&& k.P_ADJCS = 0 then some root
  else
    match root.operator with
    | none => none
    | some ood =>
      let size := operator_in.fmods.length + operator_in.pmods.length + operator_in.amods.length
      if size = 0 then some { root with operator := some { ood with adjcs := none } }
      else
        let adjcs : ProgramGraphAdjcs :=
          { fmodc := operator_in.fmods.length,
            pmodc := operator_in.pmods.length,
            amodc := operator_in.amods.length,
            adjcs := operator_in.fmods.map (fun o => operator_id o.d.ref)
              ++ operator_in.pmods.map (fun o => operator_id o.d.ref)
              ++ operator_in.amods.map (fun o => operator_id o.d.ref) }
        some { root with operator := some { ood with adjcs := some adjcs } }

/-- `build_graph` on the event `root`, whose voice data must be present. The
guard is `!voice_in->voice_params & SGS_P_GRAPH`, negation binding first. -/
def build_graph (k : Flags) (operator_id : Nat → Nat) (root : ProgramEvent)
    (voice_in : ParseEventData) : Option ProgramEvent :=
  if (if voice_in.voice_params = 0 then 1 else 0) &&& k.P_GRAPH ≠ 0 then some root
  else
    match root.voice with
    | none => none
    | some ovd =>
      if voice_in.graph.length = 0 then some { root with voice := some { ovd with graph := none } }
      else
        let graph : ProgramGraph :=
          { opc := voice_in.graph.length,
            ops := voice_in.graph.map (fun o => operator_id o.d.ref) }
        some { root with voice := some { ovd with graph := some graph } }

/-- `program_convert_onode`: the event written is `pa->oa.data[operator_id].out`. -/
def program_convert_onode (k : Flags) (s : BuildState) (op : ParseOperatorData)
    (operator_id : Nat) : Option BuildState :=
  match s.pa.oa.data.get? operator_id with
  | none => none
  | some ad =>
    match ad.out with
    | none => none
    | some out =>
      match s.pa.ev_list.get? out with
      | none => none
      | some out_ev =>
        let ood : ProgramOperatorData :=
          { adjcs := none, operator_id := operator_id, attr := op.d.attr, wave := op.d.wave,
            time_ms := op.d.time_ms, silence_ms := op.d.silence_ms, freq := op.d.freq,
            dynfreq := op.d.dynfreq, phase := op.d.phase, amp := op.d.amp,
            dynamp := op.d.dynamp, valitfreq := op.d.valitfreq, valitamp := op.d.valitamp }
        let ev1 : ProgramEvent :=
          { out_ev with operator := some ood, params := out_ev.params ||| op.d.operator_params }
        let ev2 : Option ProgramEvent :=
          if op.d.operator_params &&& k.P_ADJCS ≠ 0 then build_adjcs k s.operator_id ev1 op
          else some ev1
        match ev2 with
        | none => none
        | some ev =>
          some { s with pa := { s.pa with ev_list := s.pa.ev_list.set out ev } }

/-- The part of the loop body of `program_follow_onodes` after the three
recursive calls: open a new event if the current one has operator data, record
the current event in the operator table and convert the node. -/
def program_follow_finish (k : Flags) (s : BuildState) (op : ParseOperatorData)
    (operator_id : Nat) : Option BuildState :=
  match s.pa.event with
  | none => none
  | some cur =>
    match s.pa.ev_list.get? cur with
    | none => none
    | some cur_ev =>
      let pa1 : ProgramAlloc :=
        if cur_ev.operator.isSome then program_add_event s.pa cur_ev.voice_id else s.pa
      match pa1.oa.data.get? operator_id with
      | none => none
      | some ad =>
        let oa1 : OperatorAlloc :=
          { pa1.oa with data := pa1.oa.data.set operator_id { ad with out := pa1.event } }
        program_convert_onode k { s with pa := { pa1 with oa := oa1 } } op operator_id

/-- The build state after `operator_alloc_inc` returned the table `oa` and the
store `ids` of `operator_id` fields. -/
def BuildState.set_operators (s : BuildState) (oa : OperatorAlloc) (ids : Nat → Nat) :
    BuildState :=
  { s with pa := { s.pa with oa := oa }, operator_id := ids }

mutual
/-- One iteration of the loop of `program_follow_onodes`, for the node `op`. -/
def program_follow_onode (k : Flags) (s : BuildState) : ParseOperatorData → Option BuildState
  | .mk d fmods pmods amods =>
    if d.od_flags &&& k.PSOD_MULTIPLE_OPERATORS ≠ 0 then some s
    else
      match operator_alloc_inc s.pa.oa s.operator_id d with
      | none => none
      | some (oa, ids, operator_id) =>
        match program_follow_onodes k d.fmods_copy_count (s.set_operators oa ids) fmods with
        | none => none
        | some s2 =>
          match program_follow_onodes k d.pmods_copy_count s2 pmods with
          | none => none
          | some s3 =>
            match program_follow_onodes k d.amods_copy_count s3 amods with
            | none => none
            | some s4 => program_follow_finish k s4 (.mk d fmods pmods amods) operator_id
/-- `program_follow_onodes` on the items of a list still to be looked at, the
first `copy_count` of which are passed over (the loop starts at `copy_count`). -/
def program_follow_onodes (k : Flags) (copy_count : Nat) (s : BuildState) :
    List ParseOperatorData → Option BuildState
  | [] => some s
  | op :: ops =>
    match copy_count with
    | n + 1 => program_follow_onodes k n s ops
    | 0 =>
      match program_follow_onode k s op with
      | none => none
      | some s1 => program_follow_onodes k 0 s1 ops
end

/-- First statements of `program_convert_enode`: allocate the voice, add the
output event for it and set its `wait_ms`. -/
def program_convert_start (k : Flags) (s : BuildState) (e : ParseEventData) :
    Option BuildState :=
  match voice_alloc_inc k s.pa.va s.voice_id e with
  | none => none
  | some (va, vids, voice) =>
    let pa1 : ProgramAlloc := program_add_event { s.pa with va := va } voice
    match pa1.event with
    | none => none
    | some out =>
      match pa1.ev_list.get? out with
      | none => none
      | some out_ev =>
        some { s with
          pa := { pa1 with ev_list := pa1.ev_list.set out { out_ev with wait_ms := e.wait_ms } },
          voice_id := vids }

/-- Last statements of `program_convert_enode`: the voice data, written to the
event that is current after the operator nodes were followed. -/
def program_convert_voice (k : Flags) (s : BuildState) (e : ParseEventData) :
    Option BuildState :=
  if e.voice_params = 0 then some s
  else
    match s.pa.event with
    | none => none
    | some out =>
      match s.pa.ev_list.get? out with
      | none => none
      | some out_ev =>
        let ovd : ProgramVoiceData :=
          { graph := none, attr := e.voice_attr, panning := e.panning,
            valitpanning := e.valitpanning }
        let ev1 : ProgramEvent :=
          { out_ev with voice := some ovd, params := out_ev.params ||| e.voice_params }
        let ev2 : Option ProgramEvent :=
          if e.voice_params &&& k.P_GRAPH ≠ 0 then build_graph k s.operator_id ev1 e
          else some ev1
        match ev2 with
        | none => none
        | some ev => some { s with pa := { s.pa with ev_list := s.pa.ev_list.set out ev } }

/-- `program_convert_enode`: convert one parse event into a series of output events. -/
def program_convert_enode (k : Flags) (s : BuildState) (e : ParseEventData) :
    Option BuildState :=
  match program_convert_start k s e with
  | none => none
  | some s1 =>
    match program_follow_onodes k e.operators_copy_count s1 e.operators with
    | none => none
    | some s2 => program_convert_voice k s2 e

/-- The loop of `SGS_create_Program` over the linked list of parse events. -/
def program_convert_enodes (k : Flags) (s : BuildState) : List ParseEventData → Option BuildState
  | [] => some s
  | e :: es =>
    match program_convert_enode k s e with
    | none => none
    | some s1 => program_convert_enodes k s1 es

/-- `program_alloc_fini` with `operator_alloc_fini` and `voice_alloc_fini`. The
test `va->count > INT16_MAX` guards an empty block, so both branches store the
count. -/
def program_alloc_fini (pa : ProgramAlloc) (prg : Program) : Program :=
  let prg1 : Program := { prg with events := pa.ev_list, event_count := pa.ev_list.length }
  let prg2 : Program := { prg1 with operator_count := pa.oa.count }
  if pa.va.count > INT16_MAX then { prg2 with voice_count := pa.va.count }
  else { prg2 with voice_count := pa.va.count }

/-- The state `SGS_create_Program` starts from. -/
def build_init (parse : ParseResult) : BuildState :=
  { pa := program_alloc_init, operator_id := parse.operator_id, voice_id := parse.voice_id }

/-- `SGS_create_Program`. -/
def SGS_create_Program (k : Flags) (parse : ParseResult) : Option Program :=
  match program_convert_enodes k (build_init parse) parse.events with
  | none => none
  | some s =>
    let o : Program :=
      { events := [], event_count := 0, operator_count := 0, voice_count := 0, flags := 0,
        name := parse.name }
    let o1 : Program :=
      if parse.sopt_changed &&& k.PSSO_AMPMULT = 0 then
        { o with flags := o.flags ||| k.PROG_AMP_DIV_VOICES }
      else o
    some (program_alloc_fini s.pa o1)

/-! ## The order of visits

`Visits` records, along the traversal made by `SGS_create_Program`, which parse
nodes have been handled so far, and whether the references met on the way
pointed to nodes handled before. It is the vocabulary for statements such as
"`on_prev` points to an earlier-processed node". -/

/-- Record of a traversal. `seen`: operator nodes given an id (most recent first);
`done`: operator nodes converted to program data; `events`: parse events given a
voice. `fresh`: no operator node was visited twice; `prev_ok`: every `on_prev`
named a node in `seen`; `lists_ok`: every node listed in an adjacency or carrier
graph that was built was in `done`; `voice_ok`: every `voice_prev` named an event
in `events`. -/
structure Visits where
  seen : List Nat
  done : List Nat
  events : List Nat
  fresh : Bool
  prev_ok : Bool
  lists_ok : Bool
  voice_ok : Bool

/-- Nothing visited yet. -/
def Visits.init : Visits :=
  { seen := [], done := [], events := [], fresh := true, prev_ok := true, lists_ok := true,
    voice_ok := true }

/-- The node `d` is given an id (`operator_alloc_inc`). -/
def Visits.alloc (t : Visits) (d : OperatorFields) : Visits :=
  { t with
    seen := d.ref :: t.seen,
    fresh := t.fresh && !decide (d.ref ∈ t.seen),
    prev_ok := t.prev_ok &&
      (match d.on_prev with
       | none => true
       | some pop => decide (pop ∈ t.seen)) }

/-- References of the nodes in the three modulator lists of `op`, in the order
`build_adjcs` reads them. -/
def listed_refs (op : ParseOperatorData) : List Nat :=
  op.fmods.map (fun o => o.d.ref) ++ op.pmods.map (fun o => o.d.ref)
    ++ op.amods.map (fun o => o.d.ref)

/-- The node `op` is converted (`program_convert_onode`). -/
def Visits.finish (k : Flags) (t : Visits) (op : ParseOperatorData) : Visits :=
  { t with
    done := op.d.ref :: t.done,
    lists_ok := t.lists_ok &&
      (if op.d.operator_params &&& k.P_ADJCS ≠ 0 then
        (listed_refs op).all (fun r => decide (r ∈ t.done))
       else true) }

/-- The event `e` is given a voice (`voice_alloc_inc`). -/
def Visits.start (t : Visits) (e : ParseEventData) : Visits :=
  { t with
    events := e.ref :: t.events,
    voice_ok := t.voice_ok &&
      (match e.voice_prev with
       | none => true
       | some prev => decide (prev ∈ t.events)) }

/-- The voice data of `e` is converted, with its carrier graph if flagged. -/
def Visits.voice (k : Flags) (t : Visits) (e : ParseEventData) : Visits :=
  { t with
    lists_ok := t.lists_ok &&
      (if e.voice_params &&& k.P_GRAPH ≠ 0 then
        (e.graph.map (fun o => o.d.ref)).all (fun r => decide (r ∈ t.done))
       else true) }

mutual
/-- Visits made by `program_follow_onode`. -/
def visit_onode (k : Flags) (t : Visits) : ParseOperatorData → Visits
  | .mk d fmods pmods amods =>
    if d.od_flags &&& k.PSOD_MULTIPLE_OPERATORS ≠ 0 then t
    else
      Visits.finish k
        (visit_onodes k d.amods_copy_count
          (visit_onodes k d.pmods_copy_count
            (visit_onodes k d.fmods_copy_count (t.alloc d) fmods) pmods) amods)
        (.mk d fmods pmods amods)
/-- Visits made by `program_follow_onodes`. -/
def visit_onodes (k : Flags) (copy_count : Nat) (t : Visits) : List ParseOperatorData → Visits
  | [] => t
  | op :: ops =>
    match copy_count with
    | n + 1 => visit_onodes k n t ops
    | 0 => visit_onodes k 0 (visit_onode k t op) ops
end

/-- Visits made by `program_convert_enode`. -/
def visit_enode (k : Flags) (t : Visits) (e : ParseEventData) : Visits :=
  Visits.voice k (visit_onodes k e.operators_copy_count (t.start e) e.operators) e

/-- Visits made by the loop of `SGS_create_Program`. -/
def visit_enodes (k : Flags) (t : Visits) : List ParseEventData → Visits
  | [] => t
  | e :: es => visit_enodes k (visit_enode k t e) es

/-- Visits made by `SGS_create_Program` on a parse result. -/
def visits (k : Flags) (parse : ParseResult) : Visits :=
  visit_enodes k Visits.init parse.events

/-! ## Invariants carried through the traversal -/

/-- Conditions under which a property `Inv` of the build state (relative to the
visits made so far) survives `program_follow_onodes`. `Q d id` is what is known
about a node `d` between the allocation of its id `id` and its conversion. -/
structure FollowInv (k : Flags) (Inv : Visits → BuildState → Prop)
    (Q : OperatorFields → Nat → Visits → BuildState → Prop) : Prop where
  alloc : ∀ t s d oa ids id, Inv t s →
    operator_alloc_inc s.pa.oa s.operator_id d = some (oa, ids, id) →
    Inv (t.alloc d) (s.set_operators oa ids) ∧ Q d id (t.alloc d) (s.set_operators oa ids)
  alloc_keep : ∀ t s d oa ids id d0 j, Inv t s → Q d0 j t s →
    operator_alloc_inc s.pa.oa s.operator_id d = some (oa, ids, id) →
    Q d0 j (t.alloc d) (s.set_operators oa ids)
  finish : ∀ t s op id s1, Inv t s → Q op.d id t s →
    program_follow_finish k s op id = some s1 → Inv (t.finish k op) s1
  finish_keep : ∀ t s op id s1 d0 j, Inv t s → Q op.d id t s → Q d0 j t s →
    program_follow_finish k s op id = some s1 → Q d0 j (t.finish k op) s1

/-- The table is as `operator_alloc_init` and `operator_alloc_inc` leave it:
`alloc` entries are allocated and `count` of them are in use. -/
def OperatorAlloc.WF (oa : OperatorAlloc) : Prop :=
  oa.alloc = oa.data.length ∧ oa.count ≤ oa.alloc ∧ 0 < oa.alloc

/-- The table is as `voice_alloc_init` and `voice_alloc_inc` leave it. -/
def VoiceAlloc.WF (va : VoiceAlloc) : Prop :=
  va.alloc = va.data.length ∧ va.count ≤ va.alloc ∧ 0 < va.alloc

/-- The adjacency `build_adjcs` leaves in the operator data of a node. -/
def adjcs_of (k : Flags) (ids : Nat → Nat) (op : ParseOperatorData) : Option ProgramGraphAdjcs :=
  if op.d.operator_params &&& k.P_ADJCS ≠ 0 ∧
      op.fmods.length + op.pmods.length + op.amods.length ≠ 0 then
    some { fmodc := op.fmods.length, pmodc := op.pmods.length, amodc := op.amods.length,
           adjcs := (listed_refs op).map ids }
  else none

/-- The operator data `program_convert_onode` writes for node `op` with id `id`. -/
def converted_operator (k : Flags) (ids : Nat → Nat) (op : ParseOperatorData) (id : Nat) :
    ProgramOperatorData :=
  { adjcs := adjcs_of k ids op, operator_id := id, attr := op.d.attr, wave := op.d.wave,
    time_ms := op.d.time_ms, silence_ms := op.d.silence_ms, freq := op.d.freq,
    dynfreq := op.d.dynfreq, phase := op.d.phase, amp := op.d.amp,
    dynamp := op.d.dynamp, valitfreq := op.d.valitfreq, valitamp := op.d.valitamp }

/-- The event `out_ev` after `program_convert_onode` wrote the data of `op` to it. -/
def converted_event (k : Flags) (ids : Nat → Nat) (out_ev : ProgramEvent)
    (op : ParseOperatorData) (id : Nat) : ProgramEvent :=
  { out_ev with
    operator := some (converted_operator k ids op id),
    params := out_ev.params ||| op.d.operator_params }

/-- A voice table entry is free for an event that waits `wait_ms`: its last
event is not flagged as used later and its duration, after the wait, is 0. -/
def voice_is_free (k : Flags) (wait_ms : Int) (x : VoiceAllocData) : Prop :=
  (∃ ed_flags, x.last = some ed_flags ∧ ed_flags &&& k.PSED_VOICE_LATER_USED = 0) ∧
    residual_after_wait x.duration_ms wait_ms = 0

/-! ## Sample inputs -/

/-- Flag values for the sample runs; the theorems hold for any values. -/
def sampleFlags : Flags :=
  { P_GRAPH := 1, P_ADJCS := 16, PSED_VOICE_LATER_USED := 1, PSOD_MULTIPLE_OPERATORS := 1,
    PSSO_AMPMULT := 1, PROG_AMP_DIV_VOICES := 1 }

/-- Scalar fields of a sample operator node: reference, `time_ms`, the wait of
its event, `on_prev`, `od_flags` and `operator_params`. -/
def sample_fields (ref : Nat) (time_ms wait_ms : Int) (on_prev : Option Nat)
    (od_flags operator_params : Nat) : OperatorFields :=
  { ref := ref, event_wait_ms := wait_ms, on_prev := on_prev, od_flags := od_flags,
    operator_params := operator_params, attr := 0, wave := 0, time_ms := time_ms,
    silence_ms := 0, freq := 0, dynfreq := 0, phase := 0, amp := 0, dynamp := 0,
    valitfreq := 0, valitamp := 0, fmods_copy_count := 0, pmods_copy_count := 0,
    amods_copy_count := 0 }

/-- A sample operator node without modulators. -/
def sample_op (ref : Nat) (time_ms wait_ms : Int) (on_prev : Option Nat)
    (operator_params : Nat) : ParseOperatorData :=
  .mk (sample_fields ref time_ms wait_ms on_prev 0 operator_params) [] [] []

/-- A sample event: reference, wait, `voice_params`, `voice_prev`, operators and
carrier graph. -/
def sample_event (ref : Nat) (wait_ms : Int) (voice_params : Nat) (voice_prev : Option Nat)
    (operators graph : List ParseOperatorData) : ParseEventData :=
  { ref := ref, wait_ms := wait_ms, ed_flags := 0, voice_params := voice_params,
    voice_prev := voice_prev, voice_attr := 0, panning := 0, valitpanning := 0,
    operators := operators, operators_copy_count := 0, graph := graph }

/-- The voice table after a first event whose carrier lasts 200 ms. -/
def sample_va : VoiceAlloc :=
  { data := [{ last := some 0, duration_ms := 200 }], count := 1, alloc := 1 }

/-- Second event of `W sin f 300 t 200 | W sin f 400 t 300`: it starts 200 ms
after the first and has one carrier lasting 300 ms. -/
def sample_second_event : ParseEventData :=
  sample_event 101 200 1 none [sample_op 2 300 200 none 0] [sample_op 2 300 200 none 0]

/-- An event that updates the voice of event 100 without touching its graph:
`voice_params` lacks `P_GRAPH`; its operator node updates the carrier's time. -/
def sample_update_event : ParseEventData :=
  sample_event 102 0 2 (some 100) [sample_op 3 500 0 (some 1) 0] []

/-- First event of `W sin f 300 t 200 | W sin f 400 t 300`. -/
def sample_first_event : ParseEventData :=
  sample_event 100 0 1 none [sample_op 1 200 0 none 0] [sample_op 1 200 0 none 0]

/-- A voice table holding a residual that does not fit `int32_t`. -/
def sample_va_large : VoiceAlloc :=
  { data := [{ last := some 0, duration_ms := 2147483648 }], count := 1, alloc := 1 }

/-- The operator table after one node was given id 0. -/
def sample_oa : OperatorAlloc :=
  { data := [{ last := some 1, out := none, duration_ms := 0 }], count := 1, alloc := 1 }

/-- The carrier graph `build_graph` leaves in the voice data of an event. -/
def graph_of (k : Flags) (ids : Nat → Nat) (e : ParseEventData) : Option ProgramGraph :=
  if e.voice_params &&& k.P_GRAPH ≠ 0 ∧ e.graph.length ≠ 0 then
    some { opc := e.graph.length, ops := e.graph.map (fun o => ids o.d.ref) }
  else none

/-- The event `out_ev` after `program_convert_enode` wrote the voice data of `e`. -/
def converted_voice (k : Flags) (ids : Nat → Nat) (out_ev : ProgramEvent)
    (e : ParseEventData) : ProgramEvent :=
  { out_ev with
    voice := some { graph := graph_of k ids e, attr := e.voice_attr, panning := e.panning,
                    valitpanning := e.valitpanning },
    params := out_ev.params ||| e.voice_params }

/-- Conditions under which a property that survives `program_follow_onodes`
also survives the rest of `program_convert_enode`. -/
structure ConvertInv (k : Flags) (Inv : Visits → BuildState → Prop) : Prop where
  start : ∀ t s e s1, Inv t s → program_convert_start k s e = some s1 → Inv (t.start e) s1
  voice : ∀ t s e s1, Inv t s → program_convert_voice k s e = some s1 → Inv (t.voice k e) s1

/-- The operator updates carried by a list of program events, in order. -/
def operator_updates (evs : List ProgramEvent) : List ProgramOperatorData :=
  evs.filterMap (fun ev => ev.operator)

/-- A parse result with two events: a carrier (node 1) with one frequency
modulator (node 2), then 200 ms later a carrier (node 3) on a new event. -/
def sample_parse : ParseResult :=
  { events :=
      [sample_event 100 0 1 none
          [.mk (sample_fields 1 200 0 none 0 16) [sample_op 2 100 0 none 0] [] []]
          [sample_op 1 200 0 none 16],
        sample_event 101 200 1 none [sample_op 3 300 200 none 0] [sample_op 3 300 200 none 0]],
    name := "sample", sopt_changed := 0, operator_id := fun _ => 0, voice_id := fun _ => 0 }

/-- The operator data written for a sample node. -/
def sample_operator_data (operator_id : Nat) (time_ms : Int)
    (adjcs : Option ProgramGraphAdjcs) : ProgramOperatorData :=
  { adjcs := adjcs, operator_id := operator_id, attr := 0, wave := 0, time_ms := time_ms,
    silence_ms := 0, freq := 0, dynfreq := 0, phase := 0, amp := 0, dynamp := 0,
    valitfreq := 0, valitamp := 0 }

/-- The voice data written for a sample event. -/
def sample_voice_data (ops : List Nat) : ProgramVoiceData :=
  { graph := some { opc := ops.length, ops := ops }, attr := 0, panning := 0,
    valitpanning := 0 }

/-- The program built from `sample_parse`. -/
def sample_program : Program :=
  { events :=
      [{ wait_ms := 0, params := 0, voice_id := 0, voice := none,
         operator := some (sample_operator_data 1 100 none) },
       { wait_ms := 0, params := 17, voice_id := 0, voice := some (sample_voice_data [0]),
         operator := some (sample_operator_data 0 200
           (some { fmodc := 1, pmodc := 0, amodc := 0, adjcs := [1] })) },
       { wait_ms := 200, params := 1, voice_id := 0, voice := some (sample_voice_data [2]),
         operator := some (sample_operator_data 2 300 none) }],
    event_count := 3, operator_count := 3, voice_count := 1, flags := 1, name := "sample" }

/-- The operator id of the operator update an event carries, if any. -/
def update_ids (ev : ProgramEvent) : List Nat :=
  match ev.operator with
  | none => []
  | some o => [o.operator_id]

/-- The operator ids in the adjacency list an event carries, if any. -/
def adjcs_ids (ev : ProgramEvent) : List Nat :=
  match ev.operator with
  | none => []
  | some o =>
    match o.adjcs with
    | none => []
    | some a => a.adjcs

/-- The operator ids in the carrier graph an event carries, if any. -/
def graph_ids (ev : ProgramEvent) : List Nat :=
  match ev.voice with
  | none => []
  | some v =>
    match v.graph with
    | none => []
    | some g => g.ops

/-- A parse result whose only event lists in its carrier graph a node that the
builder passes over (it is flagged `MULTIPLE_OPERATORS`); no `on_prev` is set. -/
def sample_parse_unvisited : ParseResult :=
  { events :=
      [sample_event 100 0 1 none
        [.mk (sample_fields 1 200 0 none 1 0) [] [] []]
        [.mk (sample_fields 1 200 0 none 1 0) [] [] []]],
    name := "unvisited", sopt_changed := 0, operator_id := fun _ => 0, voice_id := fun _ => 0 }

/-- Every operator id an event stores: in its operator update, in the adjacency
list of that update, and in its carrier graph. -/
def stored_ids (ev : ProgramEvent) : List Nat :=
  update_ids ev ++ adjcs_ids ev ++ graph_ids ev

/-- Invariant for the operator ids: when all references so far were in order,
the ids of the nodes seen and all ids stored in events are below the count. -/
def IdsInv (t : Visits) (s : BuildState) : Prop :=
  (t.prev_ok = true ∧ t.lists_ok = true) →
    (∀ r ∈ t.seen, s.operator_id r < s.pa.oa.count) ∧
    (∀ r ∈ t.done, r ∈ t.seen) ∧
    (∀ ev ∈ s.pa.ev_list, ∀ x ∈ stored_ids ev, x < s.pa.oa.count)

/-- What is known of a node between its allocation and its conversion. -/
def IdsPending (d : OperatorFields) (id : Nat) (t : Visits) (s : BuildState) : Prop :=
  (t.prev_ok = true ∧ t.lists_ok = true) → id < s.pa.oa.count ∧ d.ref ∈ t.seen

/-- The operator ids for which a list of events carries an operator update. -/
def defined_ids (evs : List ProgramEvent) : List Nat :=
  (operator_updates evs).map (fun o => o.operator_id)

/-- Every operator id listed by an event, in an adjacency or a carrier graph,
has its operator update in that event or an earlier one. -/
def ListedDefined (evs : List ProgramEvent) : Prop :=
  ∀ pre ev post, evs = pre ++ ev :: post →
    ∀ x ∈ adjcs_ids ev ++ graph_ids ev, x ∈ defined_ids (pre ++ [ev])

/-- Invariant for the order of definitions: when no node was visited twice and
every listed node had been converted, the current event is the last one, the
nodes converted have their update in the list, and `ListedDefined` holds. -/
def DefinedInv (t : Visits) (s : BuildState) : Prop :=
  (t.fresh = true ∧ t.lists_ok = true) →
    (∀ cur, s.pa.event = some cur → cur + 1 = s.pa.ev_list.length) ∧
    (∀ r ∈ t.done, r ∈ t.seen) ∧
    (∀ r ∈ t.done, s.operator_id r ∈ defined_ids s.pa.ev_list) ∧
    ListedDefined s.pa.ev_list

/-- What is known of a node between its allocation and its conversion. -/
def DefinedPending (d : OperatorFields) (id : Nat) (t : Visits) (s : BuildState) : Prop :=
  (t.fresh = true ∧ t.lists_ok = true) → d.ref ∈ t.seen ∧ s.operator_id d.ref = id

/-- The references met so far were in order: every `on_prev` named a node seen
before and every `voice_prev` an event processed before. -/
def Visits.Good (t : Visits) : Prop :=
  t.prev_ok = true ∧ t.voice_ok = true

/-- Invariant under which the build does not fault. -/
def TotalInv (t : Visits) (s : BuildState) : Prop :=
  t.Good →
    s.pa.oa.WF ∧ (∀ r ∈ t.seen, s.operator_id r < s.pa.oa.count) ∧
    s.pa.va.WF ∧
    (∀ j x, j < s.pa.va.count → s.pa.va.data.get? j = some x → x.last ≠ none) ∧
    (∀ r ∈ t.events, s.voice_id r < s.pa.va.count)

/-- The current event `pa->event` is set and lies in the event list. -/
def HasEvent (s : BuildState) : Prop :=
  ∃ cur, s.pa.event = some cur ∧ cur < s.pa.ev_list.length

/-- What is known of a node between its allocation and its conversion. -/
def TotalPending (_d : OperatorFields) (id : Nat) (t : Visits) (s : BuildState) : Prop :=
  t.Good → id < s.pa.oa.count

/-- An event that starts a voice with one carrier lasting 1000 ms, at the same
time as the event before it (`wait_ms = 0`): a line `W sin t 1`. -/
def sounding_event (i : Nat) : ParseEventData :=
  sample_event i 0 1 none [sample_op i 1000 0 none 0] [sample_op i 1000 0 none 0]

/-- A list of `n` events, each starting a voice at time 0. -/
def sounding_events : Nat → List ParseEventData
  | 0 => []
  | n + 1 => sounding_event n :: sounding_events n

/-- A parse result with `n` voices sounding at the same time. -/
def many_voices (n : Nat) : ParseResult :=
  { events := sounding_events n, name := "many", sopt_changed := 0,
    operator_id := fun _ => 0, voice_id := fun _ => 0 }

/-- The voice table holds `n` voices, all sounding for another 1000 ms. -/
def AllSounding (n : Nat) (va : VoiceAlloc) : Prop :=
  va.WF ∧ va.count = n ∧
    ∀ j x, j < n → va.data.get? j = some x → x.last = some 0 ∧ x.duration_ms = 1000

/-- The events emitted so far for one parse event, after the list `base` that
was there before: a first event with the wait `w` and further events with wait
0, all with voice id `v`; the current event is the last of them. -/
def EmittedFor (base : List ProgramEvent) (w : Int) (v : Nat) (s : BuildState) : Prop :=
  ∃ first rest, s.pa.ev_list = base ++ first :: rest ∧ first.wait_ms = w ∧
    first.voice_id = v ∧ (∀ ev ∈ rest, ev.wait_ms = 0 ∧ ev.voice_id = v) ∧
    s.pa.event = some (base.length + rest.length)

/-- Sum of `wait_ms` over a list of program events. -/
def wait_sum (evs : List ProgramEvent) : Int :=
  (evs.map (fun ev => ev.wait_ms)).sum

/-- Sum of `wait_ms` over a list of parse events. -/
def parse_wait_sum (es : List ParseEventData) : Int :=
  (es.map (fun e => e.wait_ms)).sum

/-- A carrier (node 1, adjacency flagged) listing the frequency modulator 2,
the phase modulator 3 and the amplitude modulators 4 and 5. -/
def sample_carrier : ParseOperatorData :=
  .mk (sample_fields 1 200 0 none 0 16)
    [sample_op 2 100 0 none 0] [sample_op 3 100 0 none 0]
    [sample_op 4 100 0 none 0, sample_op 5 100 0 none 0]

/-- An event that already carries the operator update of node 1 with id 0. -/
def sample_root : ProgramEvent :=
  { wait_ms := 0, params := 16, voice_id := 0, voice := none,
    operator := some (sample_operator_data 0 200 none) }

/-! ## Flattening of composite events (`reader/parseconv.c`)

`flatten_events` works on the singly linked list of parse events. Here the
events that follow the main event `e` (`e->next`, `->next`, ...) are a list, and
so is the chain of composite events (`e->composite`, `->next`, ...); the result
is the list that follows `e` afterwards. The locals `wait_ms` and
`added_wait_ms` are `uint32_t`, so sums and differences are taken modulo 2^32. -/

/-- Modelled from the spec: a parse event as far as `flatten_events` reads and
writes it. The spec has `wait_ms` non-negative, and the function computes with
it in `uint32_t`; the struct itself is declared in `parser.h`, outside the
translated sources. `ref` identifies the event. -/
structure ParseEvent where
  ref : Nat
  wait_ms : Nat
  deriving DecidableEq, Repr

/-- Reduction of a `uint32_t` result. -/
def u32 (n : Nat) : Nat := n % 4294967296

/-- Difference `a - b` in `uint32_t`. -/
def u32_sub (a b : Nat) : Nat := (a + (4294967296 - b % 4294967296)) % 4294967296

/-- The part of the loop of `flatten_events` that skips ahead in the ordinary
sequence: `se` is the current ordinary event, the list holds the events after
it, `wait_ms` is the local before `wait_ms += se->wait_ms`, and `target` is
`ce->wait_ms + added_wait_ms`. Returns the events passed over (which stay in
front), the ordinary event at which the loop stops skipping, the events after
it and the value of `wait_ms` there. -/
def skip_ahead (target : Nat) (wait_ms : Nat) (se : ParseEvent) :
    List ParseEvent → List ParseEvent × ParseEvent × List ParseEvent × Nat
  | [] => ([], se, [], u32 (wait_ms + se.wait_ms))
  | se_next :: ss =>
    let w := u32 (wait_ms + se.wait_ms)
    if u32 (w + se_next.wait_ms) ≤ target then
      let r := skip_ahead target w se_next ss
      (se :: r.1, r.2.1, r.2.2.1, r.2.2.2)
    else ([], se, se_next :: ss, w)

/-- The loop of `flatten_events`. `out` holds the events from `e->next` up to
`se_prev`, `ses` the ordinary events from `se` on, the last argument the
composites from `ce` on. -/
def flatten_loop (out : List ParseEvent) (ses : List ParseEvent) (wait_ms added_wait_ms : Nat) :
    List ParseEvent → List ParseEvent
  | [] => out ++ ses
  | ce :: ces =>
    match ses with
    | [] => out ++ ce :: ces
    | se0 :: ss0 =>
      let target := u32 (ce.wait_ms + added_wait_ms)
      let r := skip_ahead target wait_ms se0 ss0
      let out1 := out ++ r.1
      let se := r.2.1
      let ss := r.2.2.1
      let w := r.2.2.2
      if se.wait_ms ≥ target then
        flatten_loop (out1 ++ [ce]) ({ se with wait_ms := u32_sub se.wait_ms target } :: ss)
          0 0 ces
      else
        let ce1 : ParseEvent := { ce with wait_ms := u32_sub ce.wait_ms w }
        flatten_loop (out1 ++ [se, ce1]) ss 0 (u32 (added_wait_ms + ce1.wait_ms)) ces

/-- `flatten_events` on the main event whose `next` chain is `next` and whose
`composite` chain is `composite`: the new `next` chain (`composite` is set to
null). -/
def flatten_events (next composite : List ParseEvent) : List ParseEvent :=
  flatten_loop [] next 0 0 composite

/-- The absolute time of the event `ref` in a chain that follows the main
event: the sum of `wait_ms`, as natural numbers, from the main event up to and
including that event; `none` if the event is not in the chain. -/
def absolute_time (ref : Nat) : List ParseEvent → Option Nat
  | [] => none
  | ev :: evs =>
    if ev.ref = ref then some ev.wait_ms
    else (absolute_time ref evs).map (fun t => ev.wait_ms + t)

/-- Two ordinary events, 10 ms and 6 ms apart. -/
def sample_ordinary : List ParseEvent := [⟨1, 10⟩, ⟨2, 6⟩]

/-- Two composite events, 15 ms after the main event and 3 ms after that. -/
def sample_composite : List ParseEvent := [⟨11, 15⟩, ⟨12, 3⟩]

/-! ## Floating-point values

`float`, `double` and `long double` values are rationals, extended by the
infinities and NaN (`Num`); there are no signed zeros. What the C
implementation makes of an exact result when it stores it in one of the three
formats is the rounding of that format (`Rounding`): a parameter of the
embedding, with IEEE 754 binary32 and binary64 and the 80-bit extended format
of the x87 as the instance `ieee_rounding` (rounding to nearest, ties to
even, overflow to infinity). -/

/-- A `float`, `double` or `long double` value: a rational, an infinity or
NaN. -/
inductive Num where
  | val (q : ℚ)
  | inf (negative : Bool)
  | nan
  deriving DecidableEq

/-- Negation. -/
def Num.neg : Num → Num
  | .val q => .val (-q)
  | .inf b => .inf (!b)
  | .nan => .nan

/-- Sum. -/
def Num.add : Num → Num → Num
  | .val a, .val b => .val (a + b)
  | .inf s, .inf t => if s = t then .inf s else .nan
  | .inf s, .val _ => .inf s
  | .val _, .inf t => .inf t
  | _, _ => .nan

/-- Difference. -/
def Num.sub (a b : Num) : Num := a.add b.neg

/-- Product. -/
def Num.mul : Num → Num → Num
  | .val a, .val b => .val (a * b)
  | .inf s, .val b => if b = 0 then .nan else .inf (xor s (decide (b < 0)))
  | .val a, .inf t => if a = 0 then .nan else .inf (xor t (decide (a < 0)))
  | .inf s, .inf t => .inf (xor s t)
  | _, _ => .nan

/-- Quotient. -/
def Num.div : Num → Num → Num
  | .val a, .val b =>
    if b = 0 then (if a = 0 then .nan else .inf (decide (a < 0))) else .val (a / b)
  | .val _, .inf _ => .val 0
  | .inf s, .val b => .inf (xor s (decide (b < 0)))
  | _, _ => .nan

/-- `isnan`. -/
def Num.isnan : Num → Bool
  | .nan => true
  | _ => false

/-- `isinf`. -/
def Num.isinf : Num → Bool
  | .inf _ => true
  | _ => false

/-- The comparison `a < b`. -/
def Num.lt : Num → Num → Bool
  | .val a, .val b => decide (a < b)
  | .val _, .inf t => !t
  | .inf s, .val _ => s
  | .inf s, .inf t => s && !t
  | _, _ => false

/-- `fmod(a, b)`: the remainder with the sign of `a`. -/
def Num.fmod : Num → Num → Num
  | .val a, .val b => if b = 0 then .nan else .val (a - b * ((a / b).num.tdiv (a / b).den : Int))
  | .val a, .inf _ => .val a
  | _, _ => .nan

/-- The floating-point formats of the C implementation: what an exact value
becomes when it is stored in a `float`, a `double` or a `long double`. -/
structure Rounding where
  to_float : ℚ → Num
  to_double : ℚ → Num
  to_long_double : ℚ → Num

/-- A value stored in a `float`. -/
def Rounding.flt (R : Rounding) : Num → Num
  | .val q => R.to_float q
  | x => x

/-- A value stored in a `double`. -/
def Rounding.dbl (R : Rounding) : Num → Num
  | .val q => R.to_double q
  | x => x

/-- A value stored in a `long double`. -/
def Rounding.ldbl (R : Rounding) : Num → Num
  | .val q => R.to_long_double q
  | x => x

/-- The largest `e` below 2^16 with `2^e ≤ n`, found by bisection (0 for
`n = 0`). -/
def log2_floor (n : Nat) : Nat :=
  [32768, 16384, 8192, 4096, 2048, 1024, 512, 256, 128, 64, 32, 16, 8, 4, 2, 1].foldl
    (fun e b => if 2 ^ (e + b) ≤ n then e + b else e) 0

/-- Rounding to a binary format with `prec` significant bits, the smallest
step `2^-tiny` and the largest exponent `emax`: to the nearest value of the
format, ties to the even one; a result of `2^(emax+1)` or more is an infinity.
The scaled value `|q| * 2^tiny` is `m / q.den`, its integer part `n` has
`log2_floor n + 1` bits, and `shift` is the exponent of the step at `|q|`
counted from the smallest step. -/
def round_bin (prec tiny emax : Nat) (q : ℚ) : Num :=
  let m : Nat := q.num.natAbs * 2 ^ tiny
  let n : Nat := m / q.den
  let shift : Nat := if n < 2 ^ prec then 0 else log2_floor n + 1 - prec
  let den : Nat := q.den * 2 ^ shift
  let fl : Nat := m / den
  let k : Nat :=
    if 2 * (m % den) < den then fl
    else if den < 2 * (m % den) then fl + 1
    else if fl % 2 = 0 then fl
    else fl + 1
  if 2 ^ (emax + 1 + tiny) ≤ k * 2 ^ shift then .inf (decide (q.num < 0))
  else .val (mkRat (if q.num < 0 then -((k * 2 ^ shift : Nat) : Int)
    else ((k * 2 ^ shift : Nat) : Int)) (2 ^ tiny))

/-- Rounding to IEEE 754 binary32 (`float`). -/
def round_f32 (q : ℚ) : Num := round_bin 24 149 127 q

/-- Rounding to IEEE 754 binary64 (`double`). -/
def round_f64 (q : ℚ) : Num := round_bin 53 1074 1023 q

/-- Rounding to the 80-bit extended format of the x87 (`long double` on x86
with the System V ABI). -/
def round_x87 (q : ℚ) : Num := round_bin 64 16445 16383 q

/-- The formats of an x86 machine with the System V ABI. -/
def ieee_rounding : Rounding :=
  { to_float := round_f32, to_double := round_f64, to_long_double := round_x87 }

/-- Exact arithmetic: nothing is rounded and nothing overflows. -/
def exact_rounding : Rounding :=
  { to_float := fun q => .val q, to_double := fun q => .val q,
    to_long_double := fun q => .val q }

/-! ## The text source (`builder/file.c`)

The reader keeps the text in a ring buffer that is filled area by area; the
macros that move in it (`SAU_File_GETC`, `SAU_FBufMode_DECP`, `SAU_File_UNGETN`,
`SAU_File_AFTER_EOF`) are declared in `file.h`, outside the translated sources.
Here the stream is the text itself with a read position: reading at or past
the end of the text yields the end marker, the status byte `add_end_marker`
writes after the last character, every time.

* A byte is a `Nat` below 256.
* `*var` and the buffer of `SAU_File_gets` are passed in and returned, so that
  "not written" is "returned as passed in". The pointer `str_len` is not null.
* `int32_t` arithmetic wraps modulo 2^32 (`wrap32`).
* `SAU_File_getd` computes in `long double` and stores a `double`: every
  operation is the exact one followed by the rounding of the format
  (`Rounding`). The constants `0.f`, `1.f` and `10.f` are exact in every
  `float` format; `0.1f` is the `float` next to 1/10, `to_float (1/10)`.
* A loop that would never end (reading end markers that it accepts for ever)
  makes the function return `none`. -/

/-- Modelled from the spec: the text source as a byte stream. `text` is the
content, `pos` the read position, `status` the end marker byte read at and
after the end of the text. -/
structure File where
  text : List Nat
  pos : Nat
  status : Nat
  deriving DecidableEq, Repr

/-- Modelled from the spec: the largest value an end marker can have
(`SAU_FILE_MARKER`). -/
def SAU_FILE_MARKER : Nat := 7

/-- Modelled from the spec: `SAU_File_GETC`, the character at the read position,
which moves on by one. -/
def SAU_File_GETC (o : File) : Nat × File :=
  (o.text.getD o.pos o.status, { o with pos := o.pos + 1 })

/-- Modelled from the spec: `SAU_FBufMode_DECP`, one character back. -/
def SAU_FBufMode_DECP (o : File) : File := { o with pos := o.pos - 1 }

/-- Modelled from the spec: `SAU_File_UNGETN`, `n` characters back. -/
def SAU_File_UNGETN (o : File) (n : Nat) : File := { o with pos := o.pos - n }

/-- Modelled from the spec: `SAU_File_AFTER_EOF`, true when the character just
read was the end marker. -/
def SAU_File_AFTER_EOF (o : File) : Bool := decide (o.text.length < o.pos)

/-- `IS_DIGIT`. -/
def IS_DIGIT (c : Nat) : Bool := decide (48 ≤ c) && decide (c ≤ 57)

/-- `IS_SPACE`. -/
def IS_SPACE (c : Nat) : Bool := decide (c = 32) || decide (c = 9)

/-- `IS_LNBRK`. -/
def IS_LNBRK (c : Nat) : Bool := decide (c = 10) || decide (c = 13)

/-- The bytes of a string. -/
def bytes (s : String) : List Nat := s.toList.map Char.toNat

/-- A text opened for reading. -/
def open_text (s : String) : File := { text := bytes s, pos := 0, status := 1 }

/-! ### `SAU_File_gets` -/

/-- Result of `SAU_File_gets`: the reader, the buffer, `*str_len` and the
return value. -/
structure GetsResult where
  o : File
  buf : List Nat
  str_len : Nat
  ret : Bool
  deriving DecidableEq, Repr

/-- Writing `dst[i] = c`; outside the buffer it is a fault. -/
def store (buf : List Nat) (i c : Nat) : Option (List Nat) :=
  if i < buf.length then some (buf.set i c) else none

/-- The two loops of `SAU_File_gets` (with and without a filter); the first
argument is `max_len - i`. Returns the reader, the buffer, `i` and `truncate`. -/
def gets_loop (c_filter : Option (Nat → Nat)) :
    Nat → File → List Nat → Nat → Option (File × List Nat × Nat × Bool)
  | 0, o, buf, i => some (o, buf, i, true)
  | n + 1, o, buf, i =>
    let r := SAU_File_GETC o
    match c_filter with
    | some f =>
      let c := f r.1 % 256
      if c = 0 then some (SAU_FBufMode_DECP r.2, buf, i, false)
      else
        match store buf i c with
        | none => none
        | some buf1 => gets_loop c_filter n r.2 buf1 (i + 1)
    | none =>
      if r.1 ≤ SAU_FILE_MARKER ∧ SAU_File_AFTER_EOF r.2 = true then
        some (SAU_FBufMode_DECP r.2, buf, i, false)
      else
        match store buf i r.1 with
        | none => none
        | some buf1 => gets_loop c_filter n r.2 buf1 (i + 1)

/-- The difference `buf_len - 1` in `size_t` (64 bits). -/
def size_pred (buf_len : Nat) : Nat :=
  if buf_len = 0 then 18446744073709551615 else buf_len - 1

/-- `SAU_File_gets`. -/
def SAU_File_gets (o : File) (buf : List Nat) (buf_len : Nat)
    (c_filter : Option (Nat → Nat)) : Option GetsResult :=
  let max_len := size_pred buf_len
  match gets_loop c_filter max_len o buf 0 with
  | none => none
  | some (o1, buf1, i, truncate) =>
    match store buf1 i 0 with
    | none => none
    | some buf2 => some { o := o1, buf := buf2, str_len := i, ret := !truncate }

/-- Whether the character `j` places after the read position is accepted by
the filter (without a filter: is not an end marker after the end). -/
def accepted_at (c_filter : Option (Nat → Nat)) (o : File) (j : Nat) : Bool :=
  match c_filter with
  | some f => decide (f (o.text.getD (o.pos + j) o.status) % 256 ≠ 0)
  | none => !(decide (o.text.getD (o.pos + j) o.status ≤ SAU_FILE_MARKER) &&
      decide (o.text.length ≤ o.pos + j))

/-- The character stored for the character `j` places after the read position. -/
def stored_at (c_filter : Option (Nat → Nat)) (o : File) (j : Nat) : Nat :=
  match c_filter with
  | some f => f (o.text.getD (o.pos + j) o.status) % 256
  | none => o.text.getD (o.pos + j) o.status

/-- Length of the longest run of accepted characters from the read position,
cut to `n`. -/
def accepted_run (c_filter : Option (Nat → Nat)) (o : File) (n : Nat) : Nat :=
  ((List.range n).takeWhile (accepted_at c_filter o)).length

/-- `SAU_File_skips`: the loop runs over the characters from the read
position on (second argument); `i` counts the characters skipped. Never
returns when the filter accepts the end marker. -/
def skips_loop (c_filter : Nat → Nat) (status : Nat) : List Nat → Nat → Option Nat
  | [], i => if c_filter status % 256 = 0 then some i else none
  | c :: cs, i => if c_filter c % 256 = 0 then some i else skips_loop c_filter status cs (i + 1)

/-- `SAU_File_skips`: the reader and the number of characters skipped. -/
def SAU_File_skips (o : File) (c_filter : Nat → Nat) : Option (File × Nat) :=
  match skips_loop c_filter o.status (o.text.drop o.pos) 0 with
  | none => none
  | some i => some (SAU_FBufMode_DECP { o with pos := o.pos + i + 1 }, i)

/-! ### `SAU_File_geti` -/

/-- `INT32_MAX`. -/
def INT32_MAX : Int := 2147483647

/-- `INT32_MIN`. -/
def INT32_MIN : Int := -2147483648

/-- An `int32_t` result, wrapped modulo 2^32. -/
def wrap32 (i : Int) : Int := (i + 2147483648) % 4294967296 - 2147483648

/-- Result of `SAU_File_geti`: the reader, `*var`, `*str_len` and the return
value. -/
structure GetiResult where
  o : File
  var : Int
  str_len : Nat
  ret : Bool
  deriving DecidableEq, Repr

/-- The body of the two `do ... while (IS_DIGIT(c))` loops of `SAU_File_geti`
up to the reading of the next character, for the digit `c`. -/
def geti_step (minus : Bool) (c : Nat) (num : Int) (truncate : Bool) : Int × Bool :=
  if minus then
    let new_num := wrap32 (wrap32 (num * 10) - ((c : Int) - 48))
    if new_num > num then (num, true) else (new_num, truncate)
  else
    let new_num := wrap32 (wrap32 (num * 10) + ((c : Int) - 48))
    if new_num < num then (num, true) else (new_num, truncate)

/-- The `do ... while (IS_DIGIT(c))` loops of `SAU_File_geti`: `c` is the
current digit, the list holds the characters after it, `n` counts the
characters the loop has read. Returns `num`, `truncate` and `n`. -/
def geti_loop (minus : Bool) (status : Nat) :
    List Nat → Nat → Int → Bool → Nat → Option (Int × Bool × Nat)
  | [], c, num, truncate, n =>
    let r := geti_step minus c num truncate
    if IS_DIGIT status = true then none else some (r.1, r.2, n + 1)
  | c1 :: cs, c, num, truncate, n =>
    let r := geti_step minus c num truncate
    if IS_DIGIT c1 = true then geti_loop minus status cs c1 r.1 r.2 (n + 1)
    else some (r.1, r.2, n + 1)

/-- `SAU_File_geti`. -/
def SAU_File_geti (o : File) (var : Int) (allow_sign : Bool) : Option GetiResult :=
  let r0 := SAU_File_GETC o
  let signed : Bool := allow_sign && (decide (r0.1 = 43) || decide (r0.1 = 45))
  let minus : Bool := signed && decide (r0.1 = 45)
  let r1 := if signed then SAU_File_GETC r0.2 else r0
  let len := if signed then 2 else 1
  if IS_DIGIT r1.1 = false then
    some { o := SAU_File_UNGETN r1.2 len, var := var, str_len := 0, ret := true }
  else
    match geti_loop minus o.status (o.text.drop r1.2.pos) r1.1 0 false 0 with
    | none => none
    | some (num, truncate, n) =>
      let num1 := if truncate then (if minus then INT32_MIN else INT32_MAX) else num
      some { o := SAU_FBufMode_DECP { r1.2 with pos := r1.2.pos + n }, var := num1,
             str_len := len + n - 1, ret := !truncate }

/-- Value of a string of decimal digits. -/
def digits_value (ds : List Nat) : Nat := ds.foldl (fun v c => v * 10 + (c - 48)) 0

/-- The text at the read position does not start with an integer: the first
character, or the one after a sign where a sign is allowed, is not a digit. -/
def no_integer_here (o : File) (allow_sign : Bool) : Bool :=
  let c0 := o.text.getD o.pos o.status
  if allow_sign && (decide (c0 = 43) || decide (c0 = 45)) then
    !IS_DIGIT (o.text.getD (o.pos + 1) o.status)
  else !IS_DIGIT c0

/-! ### `SAU_File_getd` -/

/-- Result of `SAU_File_getd`: the reader, `*var`, `*str_len` and the return
value. -/
structure GetdResult where
  o : File
  var : Num
  str_len : Nat
  ret : Bool
  deriving DecidableEq

/-- The statement `num = num * 10.f + (c - '0')` for the digit `c`: a product
and a sum in `long double`. -/
def getd_int_step (R : Rounding) (num : Num) (c : Nat) : Num :=
  R.ldbl ((R.ldbl (num.mul (.val 10))).add (.val ((c : ℚ) - 48)))

/-- The statement `pos_mul *= 0.1f`. -/
def getd_pos_mul (R : Rounding) (pos_mul : Num) : Num :=
  R.ldbl (pos_mul.mul (R.to_float (1 / 10)))

/-- The statement `num += (c - '0') * pos_mul` for the digit `c`. -/
def getd_frac_step (R : Rounding) (num pos_mul : Num) (c : Nat) : Num :=
  R.ldbl (num.add (R.ldbl ((Num.val ((c : ℚ) - 48)).mul pos_mul)))

/-- The loop `do ... while (IS_DIGIT(c))` of `SAU_File_getd` over the digits
before the point: `c` is the current digit, the list holds the characters
after it. Returns `num`, the character the loop stopped at and the number of
characters read. -/
def getd_int_loop (R : Rounding) (status : Nat) :
    List Nat → Nat → Num → Nat → Option (Num × Nat × Nat)
  | [], c, num, n =>
    if IS_DIGIT status = true then none else some (getd_int_step R num c, status, n + 1)
  | c1 :: cs, c, num, n =>
    if IS_DIGIT c1 = true then getd_int_loop R status cs c1 (getd_int_step R num c) (n + 1)
    else some (getd_int_step R num c, c1, n + 1)

/-- The loop `while (IS_DIGIT(c))` of `SAU_File_getd` over the digits after the
point: `c` is the current character, the list holds the characters after it.
Returns `num` and the number of characters read. -/
def getd_frac_loop (R : Rounding) (status : Nat) :
    List Nat → Nat → Num → Num → Nat → Option (Num × Nat)
  | [], c, num, pos_mul, n =>
    if IS_DIGIT c = false then some (num, n)
    else if IS_DIGIT status = true then none
    else some (getd_frac_step R num (getd_pos_mul R pos_mul) c, n + 1)
  | c1 :: cs, c, num, pos_mul, n =>
    if IS_DIGIT c = false then some (num, n)
    else getd_frac_loop R status cs c1 (getd_frac_step R num (getd_pos_mul R pos_mul) c)
      (getd_pos_mul R pos_mul) (n + 1)

/-- The end of `SAU_File_getd` from the label `DONE`, the reader having read
`len` characters and standing at `pos`: `res = (double) num`, and the result
is reported as truncated when `res` is `INFINITY`. -/
def getd_done (R : Rounding) (o : File) (pos : Nat) (num : Num) (minus : Bool) (len : Nat) :
    GetdResult :=
  let res := R.dbl num
  let truncate : Bool := decide (res = .inf false)
  { o := SAU_FBufMode_DECP { o with pos := pos }, var := if minus then res.neg else res,
    str_len := len - 1, ret := !truncate }

/-- `SAU_File_getd`. -/
def SAU_File_getd (R : Rounding) (o : File) (var : Num) (allow_sign : Bool) :
    Option GetdResult :=
  let r0 := SAU_File_GETC o
  let signed : Bool := allow_sign && (decide (r0.1 = 43) || decide (r0.1 = 45))
  let minus : Bool := signed && decide (r0.1 = 45)
  let r1 := if signed then SAU_File_GETC r0.2 else r0
  let len := if signed then 2 else 1
  if r1.1 ≠ 46 then
    if IS_DIGIT r1.1 = false then
      some { o := SAU_File_UNGETN r1.2 len, var := var, str_len := 0, ret := true }
    else
      match getd_int_loop R o.status (o.text.drop r1.2.pos) r1.1 (.val 0) 0 with
      | none => none
      | some (num, c, n) =>
        if c ≠ 46 then some (getd_done R o (r1.2.pos + n) num minus (len + n))
        else
          let r2 := SAU_File_GETC { r1.2 with pos := r1.2.pos + n }
          match getd_frac_loop R o.status (o.text.drop r2.2.pos) r2.1 num (.val 1) 0 with
          | none => none
          | some (num1, n1) =>
            some (getd_done R o (r2.2.pos + n1) num1 minus (len + n + 1 + n1))
  else
    let r2 := SAU_File_GETC r1.2
    if IS_DIGIT r2.1 = false then
      some { o := SAU_File_UNGETN r2.2 (len + 1), var := var, str_len := 0, ret := true }
    else
      match getd_frac_loop R o.status (o.text.drop r2.2.pos) r2.1 (.val 0) (.val 1) 0 with
      | none => none
      | some (num1, n1) => some (getd_done R o (r2.2.pos + n1) num1 minus (len + 1 + n1))

/-- The text at the read position does not start with a decimal number: after
the sign, where one is allowed, comes neither a digit nor a point followed by
a digit. -/
def no_number_here (o : File) (allow_sign : Bool) : Bool :=
  let c0 := o.text.getD o.pos o.status
  let signed : Bool := allow_sign && (decide (c0 = 43) || decide (c0 = 45))
  let p := if signed then o.pos + 1 else o.pos
  let c := o.text.getD p o.status
  if c = 46 then !IS_DIGIT (o.text.getD (p + 1) o.status) else !IS_DIGIT c

/-- The value of the digits `ds` after the sign characters `sign` (none, `+`
or `-`). -/
def signed_value (sign ds : List Nat) : Int :=
  if sign = [45] then -(digits_value ds : Int) else (digits_value ds : Int)

/-- The characters the loops of `SAU_File_gets` store in at most `n` rounds. -/
def gets_run (c_filter : Option (Nat → Nat)) (o : File) : Nat → List Nat
  | 0 => []
  | n + 1 =>
    if accepted_at c_filter o 0 = true then
      stored_at c_filter o 0 :: gets_run c_filter { o with pos := o.pos + 1 } n
    else []

/-- `filter_symchar` of `builder/parser.c`: letters, digits and `_` pass. -/
def filter_symchar (c : Nat) : Nat :=
  if (97 ≤ c ∧ c ≤ 122) ∨ (65 ≤ c ∧ c ≤ 90) ∨ (48 ≤ c ∧ c ≤ 57) ∨ c = 95 then c else 0

/-- A filter that accepts lower-case letters and stores them as upper case. -/
def filter_upcase (c : Nat) : Nat := if 97 ≤ c ∧ c ≤ 122 then c - 32 else 0

/-! ### `scan_sym` (`builder/parser.c`)

The parser calls the reader through `MGS_File_getstr` and `MGS_File_skipstr`,
the names `SAU_File_gets` and `SAU_File_skips` have in the library the parser
is built with. The symbol table hands out one entry per name, so the entry
`*sym` is identified with the name. -/

/-- `SYMKEY_MAXLEN`. -/
def SYMKEY_MAXLEN : Nat := 79

/-- Result of `scan_sym`: the reader, the symbol buffer, `*sym`, whether the
warning `limiting symbol name to 79 characters` was printed, and the return
value. -/
structure ScanSymResult where
  f : File
  symbuf : List Nat
  sym : Option (List Nat)
  truncated : Bool
  ret : Bool
  deriving DecidableEq, Repr

/-- `scan_sym`, with the reader and the symbol buffer of the parser. -/
def scan_sym (f : File) (symbuf : List Nat) (sym : Option (List Nat)) :
    Option ScanSymResult :=
  match SAU_File_gets f symbuf (SYMKEY_MAXLEN + 1) (some filter_symchar) with
  | none => none
  | some r =>
    let truncated := !r.ret
    if r.str_len = 0 then
      some { f := r.o, symbuf := r.buf, sym := sym, truncated := false, ret := false }
    else
      let name := r.buf.take r.str_len
      if truncated = true then
        match SAU_File_skips r.o filter_symchar with
        | none => none
        | some r1 =>
          some { f := r1.1, symbuf := r.buf, sym := some name, truncated := true, ret := true }
      else
        some { f := r.o, symbuf := r.buf, sym := some name, truncated := false, ret := true }

/-- A reader at the start of `n` letters `a` followed by a space. -/
def letters_then_space (n : Nat) : File :=
  { text := List.replicate n 97 ++ [32], pos := 0, status := 1 }

/-! ## The sample generator (`program.c`, `run_block` and `run_voice`)

The two functions stand in a block of `program.c` that is compiled out; the
types they work on and the macros `SGS_TIME_INF`, `BUF_LEN`, `SET_I2FV` and
`SGS_FLAG_EXEC` are declared nowhere in the sources at hand.

What is translated exactly is the bookkeeping: block lengths, remaining time
and silence of the operators, the order of the nested calls, zero fill,
accumulation and the panning split. The values the oscillators and parameter
ramps compute in floating point are given by the parameters `wave` and
`pan_part`. `uint32_t` values are natural numbers reduced modulo 2^32 and
`int32_t` values integers wrapped by `wrap32`; an index outside the operator
array or the output buffer is a fault (`none`), and so is an exhausted `fuel`,
which bounds the depth of the nested calls and the number of blocks. -/

/-- Modelled from the spec: the constants of the generator, with the sample
`wave id i` that the oscillator of operator `id` yields as the `i`-th of a
call, and the part `pan_part s i` of the sample `s` that `SET_I2FV` sends to
the right channel at index `i`. -/
structure GenParams where
  TIME_INF : Int
  BUF_LEN : Nat
  FLAG_EXEC : Nat
  wave : Nat → Nat → Int
  pan_part : Int → Nat → Int

/-- Modelled from the spec: an operator node of the generator, as far as
`run_block` keeps books on it (remaining time and silence in samples, and
the modulators). -/
structure OperatorNode where
  time : Int
  silence : Nat
  adjcs : Option ProgramGraphAdjcs
  deriving DecidableEq

/-- Modelled from the spec: a voice node of the generator. -/
structure VoiceNode where
  graph : Option ProgramGraph
  flag : Nat
  pos : Nat
  deriving DecidableEq

/-- What one call of `run_block` did to its buffer: `zero_len` samples of
silence, then `len` samples of the wave, then `skip_len` samples cleared
(when `tail` is set, the time being finite); `ret` is the return value. -/
structure BlockRun where
  zero_len : Nat
  len : Nat
  skip_len : Nat
  tail : Bool
  ret : Nat
  deriving DecidableEq, Repr

/-- First part of `run_block`, "if silence, zero-fill and delay processing":
the node afterwards, `zero_len` and the remaining `len`. -/
def run_block_silence (K : GenParams) (n : OperatorNode) (buf_len : Nat) :
    OperatorNode × Nat × Nat :=
  if n.silence ≠ 0 then
    let zero_len := if n.silence > buf_len then buf_len else n.silence
    ({ n with
        time := if n.time ≠ K.TIME_INF then wrap32 (n.time - (zero_len : Int)) else n.time,
        silence := n.silence - zero_len },
      zero_len, buf_len - zero_len)
  else (n, 0, buf_len)

/-- Second part of `run_block`, "limit length to time duration of operator":
the new `len` and `skip_len`. -/
def run_block_limit (K : GenParams) (n : OperatorNode) (len : Nat) : Nat × Nat :=
  if n.time < toI32 len ∧ n.time ≠ K.TIME_INF then
    (toU32 n.time, toU32 ((len : Int) - n.time))
  else (len, 0)

/-- A loop of nested calls `run_block(o, nextbuf, len, &o->operators[mods[i]], ...)`
over the modulator ids `mods`; `rb` is the nested call. -/
def run_mods (rb : List OperatorNode → Nat → Option (List OperatorNode)) :
    List Nat → List OperatorNode → Option (List OperatorNode)
  | [], ops => some ops
  | m :: ms, ops =>
    match rb ops m with
    | none => none
    | some ops1 => run_mods rb ms ops1

/-- The ids `adjcs[from]` to `adjcs[from + count - 1]`; reading past the list
is a fault. -/
def mod_ids (adjcs : List Nat) (start count : Nat) : Option (List Nat) :=
  if start + count ≤ adjcs.length then some ((adjcs.drop start).take count) else none

/-- `run_block` on the operator `id` of the array `ops`: the array afterwards
and what the call did to its buffer. -/
def run_block (K : GenParams) :
    Nat → List OperatorNode → Nat → Nat → Bool → Option (List OperatorNode × BlockRun)
  | 0, _, _, _, _ => none
  | fuel + 1, ops, buf_len, id, wave_env =>
    match ops.get? id with
    | none => none
    | some n =>
      let fmodc := match n.adjcs with | some a => a.fmodc % 256 | none => 0
      let pmodc := match n.adjcs with | some a => a.pmodc % 256 | none => 0
      let amodc := match n.adjcs with | some a => a.amodc % 256 | none => 0
      let adjcs := match n.adjcs with | some a => a.adjcs | none => []
      let s := run_block_silence K n buf_len
      let ops1 := ops.set id s.1
      if n.silence ≠ 0 ∧ s.2.2 = 0 then
        some (ops1, { zero_len := s.2.1, len := 0, skip_len := 0, tail := false, ret := s.2.1 })
      else
        let l := run_block_limit K s.1 s.2.2
        match mod_ids adjcs 0 fmodc, mod_ids adjcs fmodc pmodc,
            mod_ids adjcs (fmodc + pmodc) (if wave_env then 0 else amodc) with
        | some fmods, some pmods, some amods =>
          match run_mods (fun o m => (run_block K fuel o l.1 m true).map Prod.fst) fmods ops1 with
          | none => none
          | some ops2 =>
            match run_mods (fun o m => (run_block K fuel o l.1 m false).map Prod.fst)
                pmods ops2 with
            | none => none
            | some ops3 =>
              match run_mods (fun o m => (run_block K fuel o l.1 m true).map Prod.fst)
                  amods ops3 with
              | none => none
              | some ops4 =>
                match ops4.get? id with
                | none => none
                | some n4 =>
                  let r : BlockRun :=
                    { zero_len := s.2.1, len := l.1, skip_len := l.2,
                      tail := decide (n4.time ≠ K.TIME_INF), ret := u32 (s.2.1 + l.1) }
                  if n4.time ≠ K.TIME_INF then
                    some (ops4.set id { n4 with time := wrap32 (n4.time - (l.1 : Int)) }, r)
                  else some (ops4, r)
        | _, _, _ => none

/-- The buffer `sbuf` after a call of `run_block` with `wave_env = 0` that did
`r`, for the operator `id` and the accumulation index `acc_ind`. -/
def write_block (K : GenParams) (id acc_ind : Nat) (r : BlockRun) (sbuf : Nat → Int) :
    Nat → Int :=
  fun i =>
    if i < r.zero_len then (if acc_ind = 0 then 0 else sbuf i)
    else if i < r.zero_len + r.len then
      (if acc_ind ≠ 0 then wrap32 (K.wave id (i - r.zero_len) + sbuf i)
       else K.wave id (i - r.zero_len))
    else if r.tail = true ∧ acc_ind = 0 ∧ i < r.zero_len + r.len + r.skip_len then 0
    else sbuf i

/-- An `int16_t` result. -/
def wrap16 (i : Int) : Int := (i + 32768) % 65536 - 32768

/-- The panning split of `run_voice`: for the mono sample `s` and the part `p`
that `SET_I2FV` computed, the amounts added to the left and to the right
output slot, `s - p` and `p`. -/
def pan_split (s p : Int) : Int × Int := (wrap32 (s - p), p)

/-- The loop of `run_voice` over the operators of the graph that calls
`run_block` for each one with time left: the array, the buffer `blocks[0]`,
`acc_ind` and `gen_len`. -/
def carriers_loop (K : GenParams) (fuel len : Nat) :
    List Nat → List OperatorNode → (Nat → Int) → Nat → Nat →
      Option (List OperatorNode × (Nat → Int) × Nat × Nat)
  | [], ops, blk, acc_ind, gen_len => some (ops, blk, acc_ind, gen_len)
  | id :: ids, ops, blk, acc_ind, gen_len =>
    match ops.get? id with
    | none => none
    | some n =>
      if n.time = 0 then carriers_loop K fuel len ids ops blk acc_ind gen_len
      else
        match run_block K fuel ops len id false with
        | none => none
        | some r =>
          carriers_loop K fuel len ids r.1 (write_block K id acc_ind r.2 blk) (acc_ind + 1)
            (if r.2.ret > gen_len then r.2.ret else gen_len)

/-- The two loops of `run_voice` that mix `gen_len` samples into the
interleaved output: `n` samples are left, `i` is the sample index and `sp` the
output index. -/
def pan_loop (K : GenParams) (blk : Nat → Int) :
    Nat → Nat → Nat → List Int → Option (List Int × Nat)
  | 0, _, sp, out => some (out, sp)
  | n + 1, i, sp, out =>
    let lr := pan_split (blk i) (wrap32 (K.pan_part (blk i) i))
    match out.get? sp, out.get? (sp + 1) with
    | some a, some b =>
      pan_loop K blk n (i + 1) (sp + 2)
        ((out.set sp (wrap16 (a + lr.1))).set (sp + 1) (wrap16 (b + lr.2)))
    | _, _ => none

/-- The first loop of `run_voice`: the largest finite time among the
operators of the graph that have time left. -/
def longest_time (K : GenParams) (ops : List OperatorNode) : List Nat → Int → Option Int
  | [], time => some time
  | id :: ids, time =>
    match ops.get? id with
    | none => none
    | some n =>
      if n.time = 0 then longest_time K ops ids time
      else if n.time > time ∧ n.time ≠ K.TIME_INF then longest_time K ops ids n.time
      else longest_time K ops ids time

/-- The last loop of `run_voice`: whether every operator of the graph has
time 0. -/
def carriers_done (ops : List OperatorNode) : List Nat → Option Bool
  | [] => some true
  | id :: ids =>
    match ops.get? id with
    | none => none
    | some n => if n.time ≠ 0 then some false else carriers_done ops ids

/-- State of `run_voice` when it leaves the loop `while (time)`: the operator
array, the output, `ret_len`, and whether the loop was left by
`if (!gen_len) goto RETURN`. -/
structure VoiceLoop where
  ops : List OperatorNode
  out : List Int
  ret_len : Nat
  early : Bool

/-- The loop `while (time)` of `run_voice`. -/
def run_voice_loop (K : GenParams) (ids : List Nat) :
    Nat → Int → List OperatorNode → (Nat → Int) → List Int → Nat → Nat → Option VoiceLoop
  | fuel, time, ops, blk, out, sp, ret_len =>
    if time = 0 then some { ops := ops, out := out, ret_len := ret_len, early := false }
    else
      match fuel with
      | 0 => none
      | fuel1 + 1 =>
        let len := if time < (K.BUF_LEN : Int) then toU32 time else u32 K.BUF_LEN
        match carriers_loop K fuel1 len ids ops blk 0 0 with
        | none => none
        | some r =>
          if r.2.2.2 = 0 then
            some { ops := r.1, out := out, ret_len := ret_len, early := true }
          else
            match pan_loop K r.2.1 r.2.2.2 0 sp out with
            | none => none
            | some p =>
              run_voice_loop K ids fuel1 (wrap32 (time - (len : Int))) r.1 r.2.1 p.1 p.2
                (u32 (ret_len + r.2.2.2))

/-- Clearing the bits `mask` in `flag`. -/
def clear_flag (flag mask : Nat) : Nat := flag ^^^ (flag &&& mask)

/-- The ids `ops[0]` to `ops[opc - 1]` of a graph; reading past the list is a
fault. -/
def graph_carriers (g : ProgramGraph) : Option (List Nat) :=
  if g.opc ≤ g.ops.length then some (g.ops.take g.opc) else none

/-- Result of `run_voice`: the operator array, the voice, the output buffer
and the return value. -/
structure VoiceRun where
  ops : List OperatorNode
  vn : VoiceNode
  out : List Int
  ret : Nat
  deriving DecidableEq

/-- `run_voice`; `blk` is the content of `blocks[0]` before the call. -/
def run_voice (K : GenParams) (fuel : Nat) (ops : List OperatorNode) (blk : Nat → Int)
    (vn : VoiceNode) (out : List Int) (buf_len : Nat) : Option VoiceRun :=
  match vn.graph with
  | none =>
    some { ops := ops, vn := { vn with pos := vn.pos + 0, flag := clear_flag vn.flag K.FLAG_EXEC },
           out := out, ret := 0 }
  | some g =>
    match graph_carriers g with
    | none => none
    | some ids =>
      match longest_time K ops ids 0 with
      | none => none
      | some time0 =>
        let time := if time0 > toI32 buf_len then toI32 buf_len else time0
        match run_voice_loop K ids fuel time ops blk out 0 0 with
        | none => none
        | some r =>
          match (if r.early then some true else carriers_done r.ops ids) with
          | none => none
          | some finished =>
            some { ops := r.ops,
                   vn := { vn with pos := vn.pos + r.ret_len,
                                   flag := if finished then clear_flag vn.flag K.FLAG_EXEC
                                           else vn.flag },
                   out := r.out, ret := r.ret_len }

/-- Sample constants: infinite time -1, blocks of 256 samples, `EXEC` bit 1, a
constant wave of 1000 and everything panned to the right. -/
def sampleGen : GenParams :=
  { TIME_INF := -1, BUF_LEN := 256, FLAG_EXEC := 1, wave := fun _ _ => 1000,
    pan_part := fun s _ => s }

/-- An operator without modulators. -/
def sample_node (time : Int) (silence : Nat) : OperatorNode :=
  { time := time, silence := silence, adjcs := none }

/-- A voice with the given carriers that is being executed. -/
def sample_voice (ops : List Nat) : VoiceNode :=
  { graph := some { opc := ops.length, ops := ops }, flag := 1, pos := 0 }

/-- Constants and operations the parser gets from headers and libraries that
are not part of the translated sources: the bits of the change mask
(`MGS_AMP`, ...), `MGS_PARAM_MASK`, `MGS_MODS_MASK`, the flag `MGS_TIME_SET`
and the power `exp(log(a) * b)`; with them the floating-point formats of the
C implementation. -/
structure PFlags extends Rounding where
  PMODS : Nat
  FMODS : Nat
  AMODS : Nat
  TIME : Nat
  WAVE : Nat
  FREQ : Nat
  DYNFREQ : Nat
  PHASE : Nat
  AMP : Nat
  DYNAMP : Nat
  PAN : Nat
  ATTR : Nat
  PARAM_MASK : Nat
  MODS_MASK : Nat
  TIME_SET : Nat
  pow : Num → Num → Num

/-- A value stored into a `float`: a finite value is rounded and may overflow
to an infinity. -/
def PFlags.store (K : PFlags) : Num → Num
  | .val q => K.to_float q
  | x => x

/-- `IS_ALPHA`. -/
def IS_ALPHA (c : Nat) : Bool :=
  (decide (97 ≤ c) && decide (c ≤ 122)) || (decide (65 ≤ c) && decide (c ≤ 90))

/-- `IS_SYMCHAR`. -/
def IS_SYMCHAR (c : Nat) : Bool := IS_ALPHA c || IS_DIGIT c || decide (c = 95)

/-- Modelled from the spec: `MGS_File_RETC`, the character at the read
position, which stays. -/
def MGS_File_RETC (f : File) : Nat := f.text.getD f.pos f.status

/-- Modelled from the spec: `MGS_File_TESTC`, whether the character at the read
position is `c`. -/
def MGS_File_TESTC (f : File) (c : Nat) : Bool := decide (MGS_File_RETC f = c)

/-- Modelled from the spec: `MGS_File_TRYC`, which reads the character at the
read position if it is `c`. -/
def MGS_File_TRYC (f : File) (c : Nat) : Bool × File :=
  if MGS_File_RETC f = c then (true, { f with pos := f.pos + 1 }) else (false, f)

/-- Modelled from the spec: `MGS_File_AT_EOF`, true when the read position is
at the end marker. -/
def MGS_File_AT_EOF (f : File) : Bool := decide (f.text.length ≤ f.pos)

/-- `SAU_File_skipspace`: the loop runs over the characters from the read
position on. Never returns when the end marker is a space. -/
def skipspace_loop (status : Nat) : List Nat → Nat → Option Nat
  | [], i => if IS_SPACE status = true then none else some i
  | c :: cs, i => if IS_SPACE c = true then skipspace_loop status cs (i + 1) else some i

/-- `SAU_File_skipspace`: the reader afterwards. -/
def SAU_File_skipspace (f : File) : Option File :=
  match skipspace_loop f.status (f.text.drop f.pos) 0 with
  | none => none
  | some i => some { f with pos := f.pos + i }

/-- `SAU_File_skipline`: the loop runs over the characters from the read
position on. Never returns when the end marker is above `SAU_FILE_MARKER` and
no line break. -/
def skipline_loop (status : Nat) : List Nat → Nat → Option Nat
  | [], i => if IS_LNBRK status = true ∨ status ≤ SAU_FILE_MARKER then some i else none
  | c :: cs, i => if IS_LNBRK c = true then some i else skipline_loop status cs (i + 1)

/-- `SAU_File_skipline`: the reader afterwards. -/
def SAU_File_skipline (f : File) : Option File :=
  match skipline_loop f.status (f.text.drop f.pos) 0 with
  | none => none
  | some i => some { f with pos := f.pos + i }

/-- The loop of `skip_ws`; every round but the last reads at least one
character of the text, so `fuel` above the length of the rest is enough. -/
def skip_ws_loop : Nat → File → Nat → Option (File × Nat)
  | 0, _, _ => none
  | fuel + 1, f, line =>
    let r := SAU_File_GETC f
    if IS_SPACE r.1 = true then skip_ws_loop fuel r.2 line
    else if r.1 = 10 then skip_ws_loop fuel (MGS_File_TRYC r.2 13).2 (line + 1)
    else if r.1 = 13 then skip_ws_loop fuel r.2 (line + 1)
    else if r.1 = 35 then
      match SAU_File_skipline r.2 with
      | none => none
      | some f1 => skip_ws_loop fuel (SAU_File_GETC f1).2 line
    else some (SAU_FBufMode_DECP r.2, line)

/-- `skip_ws`: the reader and the line count afterwards. -/
def skip_ws (f : File) (line : Nat) : Option (File × Nat) :=
  skip_ws_loop (f.text.length - f.pos + 1) f line

/-- What `scan_num_r` reads and writes outside its arguments: the reader, the
line count of the parser and `has_infnum` of the `NumParser`. -/
structure NumScan where
  f : File
  line : Nat
  has_infnum : Bool
  deriving DecidableEq

/-- `numsym_channel`: the reader afterwards, `*val` if set and the length. -/
def numsym_channel (f : File) : File × Option Num × Nat :=
  let r := SAU_File_GETC f
  if r.1 = 67 then (r.2, some (.val 0), 1)
  else if r.1 = 76 then (r.2, some (.val (-1)), 1)
  else if r.1 = 82 then (r.2, some (.val 1), 1)
  else (SAU_FBufMode_DECP r.2, none, 0)

/-- `NUMEXP_SUB`. -/
def NUMEXP_SUB : Nat := 0
/-- `NUMEXP_ADT`. -/
def NUMEXP_ADT : Nat := 1
/-- `NUMEXP_MLT`. -/
def NUMEXP_MLT : Nat := 2
/-- `NUMEXP_POW`. -/
def NUMEXP_POW : Nat := 3
/-- `NUMEXP_NUM`. -/
def NUMEXP_NUM : Nat := 4

/-- `skip_ws` when `level > 0`, on the state of a number scan. -/
def NumScan.skip_ws (s : NumScan) (level : Nat) : Option NumScan :=
  if level > 0 then
    match Sgensys.skip_ws s.f s.line with
    | none => none
    | some r => some { s with f := r.1, line := r.2 }
  else some s

/-- The atom of `scan_num_r` that is no parenthesis: a named number (when
`numsym_f` is given and `c` a letter) or a decimal number; `s` is the state
after `c` was read. `none` inside is the result `NAN` returned at once. -/
def scan_atom (R : Rounding) (numsym_f : Option (File → File × Option Num × Nat))
    (s : NumScan) (c : Nat) : Option (NumScan × Option Num) :=
  match numsym_f with
  | some nf =>
    if IS_ALPHA c = true then
      let r := nf (SAU_FBufMode_DECP s.f)
      if r.2.2 = 0 then some ({ s with f := r.1 }, none)
      else if IS_SYMCHAR (MGS_File_RETC r.1) = true then
        some ({ s with f := SAU_File_UNGETN r.1 r.2.2 }, none)
      else some ({ s with f := r.1 }, r.2.1)
    else
      match SAU_File_getd R (SAU_FBufMode_DECP s.f) (.val 0) false with
      | none => none
      | some r =>
        if r.str_len = 0 then some ({ s with f := r.o }, none)
        else some ({ s with f := r.o }, some r.var)
  | none =>
    match SAU_File_getd R (SAU_FBufMode_DECP s.f) (.val 0) false with
    | none => none
    | some r =>
      if r.str_len = 0 then some ({ s with f := r.o }, none)
      else some ({ s with f := r.o }, some r.var)

mutual
/-- `scan_num_r`: the state afterwards and the number returned. -/
def scan_num_r (K : PFlags) (numsym_f : Option (File → File × Option Num × Nat)) :
    Nat → NumScan → Nat → Nat → Option (NumScan × Num)
  | 0, _, _, _ => none
  | fuel + 1, s, pri, level =>
    match s.skip_ws level with
    | none => none
    | some s1 =>
      let r := SAU_File_GETC s1.f
      let signed : Bool := decide (level > 0) && (decide (r.1 = 43) || decide (r.1 = 45))
      let minus : Bool := signed && decide (r.1 = 45)
      match (if signed then ({ s1 with f := r.2 } : NumScan).skip_ws level
             else some { s1 with f := r.2 }) with
      | none => none
      | some s2 =>
        let r1 := if signed then SAU_File_GETC s2.f else (r.1, s2.f)
        let s3 : NumScan := { s2 with f := r1.2 }
        let atom : Option (NumScan × Option Num) :=
          if r1.1 = 40 then
            match scan_num_r K numsym_f fuel s3 NUMEXP_SUB (level + 1) with
            | none => none
            | some x => some (x.1, some x.2)
          else scan_atom K.toRounding numsym_f s3 r1.1
        match atom with
        | none => none
        | some (s4, none) => some (s4, .nan)
        | some (s4, some num0) =>
          let num := if minus then num0.neg else num0
          if level = 0 ∨ pri = NUMEXP_NUM then some (s4, num)
          else scan_num_loop K numsym_f fuel s4 num pri level
/-- The loop `for (;;)` of `scan_num_r` with the label `DEFER`. -/
def scan_num_loop (K : PFlags) (numsym_f : Option (File → File × Option Num × Nat)) :
    Nat → NumScan → Num → Nat → Nat → Option (NumScan × Num)
  | 0, _, _, _, _ => none
  | fuel + 1, s, num, pri, level =>
    let s0 : NumScan := if num.isinf = true then { s with has_infnum := true } else s
    match s0.skip_ws level with
    | none => none
    | some s1 =>
      let r := SAU_File_GETC s1.f
      let s2 : NumScan := { s1 with f := r.2 }
      let defer : Option (NumScan × Num) := some ({ s2 with f := SAU_FBufMode_DECP s2.f }, num)
      let next (pri1 level1 : Nat) (op : Num → Num → Num) : Option (NumScan × Num) :=
        match scan_num_r K numsym_f fuel s2 pri1 level1 with
        | none => none
        | some x =>
          if (op num x.2).isnan = true then
            some ({ x.1 with f := SAU_FBufMode_DECP x.1.f }, op num x.2)
          else scan_num_loop K numsym_f fuel x.1 (op num x.2) pri level
      if r.1 = 40 then
        if pri ≥ NUMEXP_MLT then defer else next NUMEXP_SUB (level + 1) Num.mul
      else if r.1 = 41 then
        if pri ≠ NUMEXP_SUB then defer else some (s2, num)
      else if r.1 = 94 then
        if pri ≥ NUMEXP_POW then defer else next NUMEXP_POW level K.pow
      else if r.1 = 42 then
        if pri ≥ NUMEXP_MLT then defer else next NUMEXP_MLT level Num.mul
      else if r.1 = 47 then
        if pri ≥ NUMEXP_MLT then defer else next NUMEXP_MLT level Num.div
      else if r.1 = 43 then
        if pri ≥ NUMEXP_ADT then defer else next NUMEXP_ADT level Num.add
      else if r.1 = 45 then
        if pri ≥ NUMEXP_ADT then defer else next NUMEXP_ADT level Num.sub
      else defer
end

/-- `scan_num`: the reader and the line count afterwards, and `*var` if the
function returned true. -/
def scan_num (K : PFlags) (numsym_f : Option (File → File × Option Num × Nat)) (fuel : Nat)
    (f : File) (line : Nat) : Option (File × Nat × Option Num) :=
  match scan_num_r K numsym_f fuel { f := f, line := line, has_infnum := false } NUMEXP_NUM 0 with
  | none => none
  | some r =>
    let num := K.store r.2
    if num.isnan = true then some (r.1.f, r.1.line, none)
    else if (num.isinf || r.1.has_infnum) = true then some (r.1.f, r.1.line, none)
    else some (r.1.f, r.1.line, some num)

/-- `scan_timeval`. -/
def scan_timeval (K : PFlags) (fuel : Nat) (f : File) (line : Nat) :
    Option (File × Nat × Option Num) :=
  match scan_num K none fuel f line with
  | none => none
  | some r =>
    match r.2.2 with
    | none => some r
    | some tval => if tval.lt (.val 0) = true then some (r.1, r.2.1, none) else some r

/-- Sample constants of the parser with exact arithmetic: mask bits in the
order of the listing, no power function. -/
def samplePFlags : PFlags :=
  { exact_rounding with
    PMODS := 1, FMODS := 2, AMODS := 4, TIME := 8, WAVE := 16, FREQ := 32, DYNFREQ := 64,
    PHASE := 128, AMP := 256, DYNAMP := 512, PAN := 1024, ATTR := 2048, PARAM_MASK := 4095,
    MODS_MASK := 7, TIME_SET := 1, pow := fun _ _ => .nan }


/-! ### Nodes and parser state -/

/-- The node types `MGS_TYPE_OP`, `MGS_TYPE_DUR`, `MGS_TYPE_ARR` and
`MGS_TYPE_ENV`. -/
inductive NodeType where
  | op
  | dur
  | arr
  | env
  deriving DecidableEq, Repr

/-- The time of a sound (`sound.time`): the value and the flags. -/
structure TimeVal where
  v : Num
  flags : Nat
  deriving DecidableEq

/-- Modelled from the spec: the operator data `MGS_ProgramOpData` with the
sound data `sound` it begins with; the modulator lists are positions in the
list of `MGS_ProgramArrData`. -/
structure OpData where
  amp : Num
  dynamp : Num
  pan : Num
  params : Nat
  time : TimeVal
  amod : Option Nat
  freq : Num
  dynfreq : Num
  phase : Num
  attr : Nat
  wave : Nat
  fmod : Option Nat
  pmod : Option Nat
  deriving DecidableEq

/-- A scope: the first and the last node of a range of the node list. -/
structure NodeScope where
  first_node : Option Nat
  last_node : Option Nat
  deriving DecidableEq

/-- Modelled from the spec: `MGS_ProgramArrData`, a list of modulators. -/
structure ArrData where
  mod_type : Nat
  count : Nat
  scope : NodeScope
  deriving DecidableEq

/-- What `n->data` points to. -/
inductive NodeData where
  | null
  | op (d : OpData)
  | dur (scope : NodeScope)
  | arr (a : Nat)
  deriving DecidableEq

/-- Modelled from the spec: `MGS_ProgramNode`; `next` is the node with the next
id. -/
structure ProgramNode where
  ref_prev : Option Nat
  type : NodeType
  id : Nat
  first_id : Nat
  root_id : Nat
  base_id : Nat
  delay : Num
  use_next : Option Nat
  data : NodeData
  deriving DecidableEq

/-- Modelled from the spec: `MGS_Program` as far as the parser uses it, with
the symbol table (`syms` maps a name to the `data` of its entry) and the names
of the wave types. -/
structure MGS_Program where
  nodes : List ProgramNode
  arrs : List ArrData
  syms : List (List Nat × Option Nat)
  node_count : Nat
  root_count : Nat
  base_count_sound : Nat
  wave_names : List (List Nat)
  deriving DecidableEq

/-- `MGS_NodeData`, the state of one `parse_level`. -/
structure LevelData where
  node : Option Nat
  target : Option Nat
  cur_setsym : Option (List Nat)
  flags : Nat
  n_time_delay : Nat
  n_delay_next : Num
  deriving DecidableEq

/-- `MGS_Parser`; `nds` is `cur_nd` with its chain of `up` pointers. -/
structure Parser where
  f : File
  prg : MGS_Program
  symbuf : List Nat
  line : Nat
  reclevel : Nat
  level : Nat
  setdef : Nat
  setnode : Nat
  cur_node : Option Nat
  cur_root : Option Nat
  prev_node : Option Nat
  prev_root : Option Nat
  cur_dur : Option Nat
  nds : List LevelData
  next_setsym : Option (List Nat)
  n_pan : Num
  n_ampmult : Num
  n_time : Num
  n_freq : Num
  n_ratio : Num
  deriving DecidableEq

/-- `ND_OWN_NODE`. -/
def ND_OWN_NODE : Nat := 1

/-- `MGS_ATTR_FREQRATIO` (`program.h`). -/
def MGS_ATTR_FREQRATIO : Nat := 1

/-- `MGS_ATTR_DYNFREQRATIO` (`program.h`). -/
def MGS_ATTR_DYNFREQRATIO : Nat := 2

/-- Modelled from the spec: `MGS_ProgramNode_get_data` for the sound and
operator data, which only operator nodes have. The outer `none` is the fault
of a null node, the inner one the result `NULL`. -/
def get_opdata (prg : MGS_Program) (n : Option Nat) : Option (Option OpData) :=
  match n with
  | none => none
  | some id =>
    match prg.nodes.get? id with
    | none => none
    | some node =>
      match node.type, node.data with
      | .op, .op d => some (some d)
      | _, _ => some none

/-- Writing through the pointer to the operator data of node `id`. -/
def set_opdata (prg : MGS_Program) (id : Nat) (d : OpData) : Option MGS_Program :=
  match prg.nodes.get? id with
  | none => none
  | some node => some { prg with nodes := prg.nodes.set id { node with data := .op d } }

/-- The `data` of the symbol table entry `name`. -/
def sym_data (prg : MGS_Program) (name : List Nat) : Option Nat :=
  match prg.syms.find? (fun e => decide (e.1 = name)) with
  | some e => e.2
  | none => none

/-- Assignment to the `data` of the symbol table entry `name`. -/
def set_sym_data (prg : MGS_Program) (name : List Nat) (n : Option Nat) : MGS_Program :=
  if prg.syms.any (fun e => decide (e.1 = name)) = true then
    { prg with syms := prg.syms.map (fun e => if e.1 = name then (e.1, n) else e) }
  else { prg with syms := prg.syms ++ [(name, n)] }

/-- `MGS_SymTab_get_symstr`: the entry is made if the name is new. -/
def get_symstr (prg : MGS_Program) (name : List Nat) : MGS_Program :=
  if prg.syms.any (fun e => decide (e.1 = name)) = true then prg
  else { prg with syms := prg.syms ++ [(name, none)] }

/-- The current `MGS_NodeData` replaced. -/
def Parser.set_nd (o : Parser) (nd : LevelData) : Parser :=
  { o with nds := nd :: o.nds.tail }

/-- `end_opdata` for the node `n`. -/
def end_opdata (K : PFlags) (o : Parser) (n : ProgramNode) : Option Parser :=
  match n.data with
  | .op op =>
    let params1 :=
      if n.ref_prev.isNone then
        op.params ||| clear_flag K.PARAM_MASK K.MODS_MASK
      else if op.time.flags &&& K.TIME_SET ≠ 0 then op.params ||| K.TIME
      else op.params
    let amp1 :=
      if params1 &&& K.AMP ≠ 0 ∧ n.first_id = n.root_id then K.store (op.amp.mul o.n_ampmult)
      else op.amp
    match set_opdata o.prg n.id { op with params := params1, amp := amp1 } with
    | none => none
    | some prg1 => some { o with prg := prg1 }
  | _ => none

/-- `end_node` on the current `MGS_NodeData`. -/
def end_node (K : PFlags) (o : Parser) : Option Parser :=
  match o.nds with
  | [] => none
  | nd :: _ =>
    if nd.flags &&& ND_OWN_NODE = 0 then some o
    else
      match nd.node with
      | none => none
      | some id =>
        match o.prg.nodes.get? id with
        | none => none
        | some n =>
          match (if n.type = .op then end_opdata K o n else some o) with
          | none => none
          | some o1 =>
            let o2 : Parser :=
              match nd.cur_setsym with
              | some name => { o1 with prg := set_sym_data o1.prg name (some id) }
              | none => o1
            some (o2.set_nd { nd with node := none, cur_setsym := none,
                                      flags := clear_flag nd.flags ND_OWN_NODE })

/-- `new_opdata` for the node `n`, which is not yet in the node list: the
node with its data and the program. -/
def new_opdata (o : Parser) (n : ProgramNode) : Option (ProgramNode × MGS_Program) :=
  match n.ref_prev with
  | none =>
    let op : OpData :=
      { amp := .val 1, dynamp := .val 1, pan := o.n_pan, params := 0,
        time := { v := o.n_time, flags := 0 }, amod := none, freq := o.n_freq,
        dynfreq := o.n_freq, phase := .val 0, attr := 0, wave := 0, fmod := none,
        pmod := none }
    some ({ n with data := .op op, base_id := o.prg.base_count_sound },
      { o.prg with base_count_sound := o.prg.base_count_sound + 1 })
  | some r =>
    match o.prg.nodes.get? r with
    | none => none
    | some ref =>
      match ref.data with
      | .op d =>
        some ({ n with data := .op { d with params := 0, time := { v := o.n_time, flags := 0 } },
                       base_id := ref.base_id }, o.prg)
      | _ => none

/-- The scope `s` after the node `id` was added at its end. -/
def NodeScope.add (s : NodeScope) (id : Nat) : NodeScope :=
  { first_node := if s.first_node.isNone then some id else s.first_node, last_node := some id }

/-- The part of `new_node` for the duration scope the new node `id` falls in:
the node list after the scope of `o->cur_dur` was extended. -/
def new_node_scope (o : Parser) (id : Nat) (type : NodeType) : Option (List ProgramNode) :=
  match o.cur_dur with
  | some d =>
    if type ≠ .dur then
      match o.prg.nodes.get? d with
      | some dn =>
        match dn.data with
        | .dur sc => some (o.prg.nodes.set d { dn with data := .dur (sc.add id) })
        | _ => none
      | none => none
    else some o.prg.nodes
  | none => some o.prg.nodes

/-- The part of `new_node` that handles ids and linking for the new node `id`:
its `first_id` and `root_id`, the new `o->cur_root` and `p->root_count`, the
node list and the modulator lists. -/
def new_node_link (o : Parser) (nd1 : LevelData) (nodes1 : List ProgramNode) (id : Nat)
    (ref_prev : Option Nat) :
    Option (Nat × Nat × Option Nat × Nat × List ProgramNode × List ArrData) :=
  match ref_prev with
  | none =>
    match nd1.target with
    | none => some (id, id, some id, o.prg.root_count + 1, nodes1, o.prg.arrs)
    | some t =>
      match o.cur_root, o.prg.arrs.get? t with
      | some cr, some arr =>
        match nodes1.get? cr with
        | none => none
        | some crn =>
          let nodes2 : Option (List ProgramNode) :=
            match arr.scope.first_node, arr.scope.last_node with
            | none, _ => some nodes1
            | some _, some l =>
              match nodes1.get? l with
              | some ln => some (nodes1.set l { ln with use_next := some id })
              | none => none
            | some _, none => none
          match nodes2 with
          | none => none
          | some nodes2 =>
            some (id, crn.first_id, o.cur_root, o.prg.root_count, nodes2,
              o.prg.arrs.set t { arr with scope := arr.scope.add id,
                                          count := arr.count + 1 })
      | _, _ => none
  | some r =>
    match nodes1.get? r with
    | some rn => some (rn.first_id, rn.root_id, o.cur_root, o.prg.root_count, nodes1,
        o.prg.arrs)
    | none => none

/-- The `switch (type)` at the end of `new_node`: the data of the new node `n`
is made and the node is put at the end of the list. -/
def new_node_data (o2 : Parser) (n : ProgramNode) (type : NodeType) : Option Parser :=
  match type with
  | .op =>
    match new_opdata o2 n with
    | none => none
    | some (n1, prg1) => some { o2 with prg := { prg1 with nodes := prg1.nodes ++ [n1] } }
  | .dur =>
    let n1 : ProgramNode := { n with data := .dur { first_node := none, last_node := none } }
    let nodes3 : Option (List ProgramNode) :=
      match o2.cur_dur with
      | some d =>
        match o2.prg.nodes.get? d with
        | some dn => some (o2.prg.nodes.set d { dn with use_next := some n.id })
        | none => none
      | none => some o2.prg.nodes
    match nodes3 with
    | none => none
    | some nodes3 =>
      some { o2 with prg := { o2.prg with nodes := nodes3 ++ [n1] }, cur_dur := some n.id }
  | .arr =>
    some { o2 with prg := { o2.prg with
      nodes := o2.prg.nodes ++ [{ n with data := .arr o2.prg.arrs.length }],
      arrs := o2.prg.arrs ++ [{ mod_type := 0, count := 0,
                                scope := { first_node := none, last_node := none } }] } }
  | .env => some { o2 with prg := { o2.prg with nodes := o2.prg.nodes ++ [n] } }

/-- `new_node` on the current `MGS_NodeData`. -/
def new_node (K : PFlags) (o0 : Parser) (ref_prev : Option Nat) (type : NodeType) :
    Option Parser :=
  match end_node K o0 with
  | none => none
  | some o =>
    match o.nds with
    | [] => none
    | nd0 :: _ =>
      let id := o.prg.node_count
      let nd1 : LevelData :=
        { nd0 with node := some id,
                   cur_setsym := if o.next_setsym.isSome then o.next_setsym else nd0.cur_setsym,
                   flags := nd0.flags ||| ND_OWN_NODE }
      match new_node_scope o id type with
      | none => none
      | some nodes1 =>
        match new_node_link o nd1 nodes1 id ref_prev with
        | none => none
        | some (first_id, root_id, cur_root, root_count, nodes2, arrs2) =>
          let n : ProgramNode :=
            { ref_prev := ref_prev, type := type, id := id, first_id := first_id,
              root_id := root_id, base_id := 0, delay := nd1.n_delay_next, use_next := none,
              data := .null }
          let o1 : Parser :=
            { o with
              next_setsym := none, prev_node := o.cur_node, prev_root := o.cur_root,
              cur_node := some id, cur_root := cur_root,
              prg := { o.prg with nodes := nodes2, arrs := arrs2, node_count := id + 1,
                                  root_count := root_count } }
          new_node_data (o1.set_nd { nd1 with n_delay_next := .val 0 }) n type

/-- `MGS_init_NodeData` for a `parse_level` with the list `target`. -/
def MGS_init_NodeData (K : PFlags) (o : Parser) (target : Option Nat) : Option Parser :=
  let target1 : Option Nat :=
    match o.nds with
    | up :: _ => if target.isNone then up.target else target
    | [] => target
  let nd : LevelData :=
    { node := none, target := target1, cur_setsym := none, flags := 0, n_time_delay := 0,
      n_delay_next := .val 0 }
  let o1 : Parser := { o with nds := nd :: o.nds }
  if o.cur_dur.isNone then new_node K o1 none .dur else some o1

/-- `MGS_fini_NodeData`. -/
def MGS_fini_NodeData (K : PFlags) (o : Parser) : Option Parser :=
  match end_node K o with
  | none => none
  | some o1 => some { o1 with nds := o1.nds.tail }


/-! ### Parsing -/

/-- `scan_sym` on the parser: the name read is entered in the symbol table.
Returns the parser, `*sym` and the return value. -/
def Parser.scan_sym (o : Parser) (sym : Option (List Nat)) :
    Option (Parser × Option (List Nat) × Bool) :=
  match Sgensys.scan_sym o.f o.symbuf sym with
  | none => none
  | some r =>
    let o1 : Parser := { o with f := r.f, symbuf := r.symbuf }
    match r.ret, r.sym with
    | true, some name => some ({ o1 with prg := get_symstr o1.prg name }, some name, true)
    | _, _ => some (o1, sym, false)

/-- `scan_symafind` with `scan_wavetype`: the position of the name read in the
list of wave names, if it is one. -/
def scan_wavetype (o : Parser) : Option (Parser × Option Nat) :=
  match Sgensys.scan_sym o.f o.symbuf none with
  | none => none
  | some r =>
    let o1 : Parser := { o with f := r.f, symbuf := r.symbuf }
    match r.ret, r.sym with
    | true, some name =>
      if o.prg.wave_names.indexOf name < o.prg.wave_names.length then
        some (o1, some (o.prg.wave_names.indexOf name))
      else some (o1, none)
    | _, _ => some (o1, none)

/-- `scan_num` on the parser. -/
def Parser.scan_num (K : PFlags) (numsym_f : Option (File → File × Option Num × Nat))
    (fuel : Nat) (o : Parser) : Option (Parser × Option Num) :=
  match Sgensys.scan_num K numsym_f fuel o.f o.line with
  | none => none
  | some r => some ({ o with f := r.1, line := r.2.1 }, r.2.2)

/-- `scan_timeval` on the parser. -/
def Parser.scan_timeval (K : PFlags) (fuel : Nat) (o : Parser) : Option (Parser × Option Num) :=
  match Sgensys.scan_timeval K fuel o.f o.line with
  | none => none
  | some r => some ({ o with f := r.1, line := r.2.1 }, r.2.2)

/-- `MGS_File_TRYC` on the parser. -/
def Parser.tryc (o : Parser) (c : Nat) : Bool × Parser :=
  ((MGS_File_TRYC o.f c).1, { o with f := (MGS_File_TRYC o.f c).2 })

/-- The `mod_type` of the list the current level fills, if any. -/
def Parser.target_type (o : Parser) : Option (Option Nat) :=
  match o.nds with
  | [] => none
  | nd :: _ =>
    match nd.target with
    | none => some none
    | some t =>
      match o.prg.arrs.get? t with
      | none => none
      | some arr => some (some arr.mod_type)

/-- The part of `parse_amp`, `parse_freq` and `parse_phase` that opens a list
of modulators after `{`: the list is allocated with its `mod_type`, stored by
`link` in the operator data of the node `id`, filled by the nested
`parse_level` (`pl`), and `bit` is set in the change mask. -/
def parse_mods (pl : Parser → Option Nat → Option Parser) (o : Parser) (id : Nat)
    (mod_type bit : Nat) (link : OpData → Nat → OpData) : Option Parser :=
  match get_opdata o.prg (some id) with
  | some (some d) =>
    let a := o.prg.arrs.length
    let arr : ArrData :=
      { mod_type := mod_type, count := 0, scope := { first_node := none, last_node := none } }
    match set_opdata { o.prg with arrs := o.prg.arrs ++ [arr] } id (link d a) with
    | none => none
    | some prg1 =>
      match pl { o with prg := prg1 } (some a) with
      | none => none
      | some o1 =>
        match get_opdata o1.prg (some id) with
        | some (some d1) =>
          match set_opdata o1.prg id { d1 with params := d1.params ||| bit } with
          | none => none
          | some prg2 => some { o1 with prg := prg2 }
        | _ => none
  | _ => none

/-- `parse_amp`: the parser and the return value. -/
def parse_amp (K : PFlags) (pl : Parser → Option Nat → Option Parser) (fuel : Nat)
    (o : Parser) (n : Option Nat) : Option (Parser × Bool) :=
  match n, get_opdata o.prg n, o.target_type with
  | some id, some (some d), some tt =>
    if tt = some K.AMODS ∨ tt = some K.FMODS then some (o, false)
    else
      let t := o.tryc 33
      if t.1 = true then
        let r1 : Option (Parser × Bool) :=
          if MGS_File_TESTC t.2.f 123 = false then
            match t.2.scan_num K none fuel with
            | none => none
            | some (o1, none) => some (o1, false)
            | some (o1, some f) =>
              match set_opdata o1.prg id { d with dynamp := f, params := d.params ||| K.DYNAMP } with
              | none => none
              | some prg1 => some ({ o1 with prg := prg1 }, true)
          else some (t.2, true)
        match r1 with
        | none => none
        | some (o1, false) => some (o1, false)
        | some (o1, true) =>
          let t1 := o1.tryc 123
          if t1.1 = true then
            match parse_mods pl t1.2 id K.AMODS K.AMODS (fun d a => { d with amod := some a }) with
            | none => none
            | some o2 => some (o2, true)
          else some (o1, true)
      else
        match t.2.scan_num K none fuel with
        | none => none
        | some (o1, none) => some (o1, false)
        | some (o1, some f) =>
          match set_opdata o1.prg id { d with amp := f, params := d.params ||| K.AMP } with
          | none => none
          | some prg1 => some ({ o1 with prg := prg1 }, true)
  | some _, some none, _ => some (o, false)
  | _, _, _ => none

/-- `parse_channel`. -/
def parse_channel (K : PFlags) (fuel : Nat) (o : Parser) (n : Option Nat) :
    Option (Parser × Bool) :=
  match n, get_opdata o.prg n, o.target_type with
  | some id, some (some d), some tt =>
    if (match tt with | some m => decide (m ≠ 0) | none => false) = true then some (o, false)
    else
      match o.scan_num K (some numsym_channel) fuel with
      | none => none
      | some (o1, none) => some (o1, false)
      | some (o1, some f) =>
        match set_opdata o1.prg id { d with pan := f, params := d.params ||| K.PAN } with
        | none => none
        | some prg1 => some ({ o1 with prg := prg1 }, true)
  | some _, some none, _ => some (o, false)
  | _, _, _ => none

/-- `parse_freq`. -/
def parse_freq (K : PFlags) (pl : Parser → Option Nat → Option Parser) (fuel : Nat)
    (o : Parser) (n : Option Nat) (ratio : Bool) : Option (Parser × Bool) :=
  match n, get_opdata o.prg n with
  | some id, some (some d) =>
    match o.prg.nodes.get? id with
    | none => none
    | some node =>
      if ratio = true ∧ node.first_id = node.root_id then some (o, false)
      else
        let t := o.tryc 33
        if t.1 = true then
          let r1 : Option (Parser × Bool) :=
            if MGS_File_TESTC t.2.f 123 = false then
              match t.2.scan_num K none fuel with
              | none => none
              | some (o1, none) => some (o1, false)
              | some (o1, some f) =>
                let d1 : OpData :=
                  if ratio = true then
                    { d with dynfreq := K.store ((Num.val 1).div f),
                             attr := d.attr ||| MGS_ATTR_DYNFREQRATIO }
                  else { d with dynfreq := f, attr := clear_flag d.attr MGS_ATTR_DYNFREQRATIO }
                match set_opdata o1.prg id
                    { d1 with params := d1.params ||| (K.DYNFREQ ||| K.ATTR) } with
                | none => none
                | some prg1 => some ({ o1 with prg := prg1 }, true)
            else some (t.2, true)
          match r1 with
          | none => none
          | some (o1, false) => some (o1, false)
          | some (o1, true) =>
            let t1 := o1.tryc 123
            if t1.1 = true then
              match parse_mods pl t1.2 id K.FMODS K.FMODS (fun d a => { d with fmod := some a }) with
              | none => none
              | some o2 => some (o2, true)
            else some (o1, true)
        else
          match t.2.scan_num K none fuel with
          | none => none
          | some (o1, none) => some (o1, false)
          | some (o1, some f) =>
            let d1 : OpData :=
              if ratio = true then
                { d with freq := K.store ((Num.val 1).div f),
                         attr := d.attr ||| MGS_ATTR_FREQRATIO }
              else { d with freq := f, attr := clear_flag d.attr MGS_ATTR_FREQRATIO }
            match set_opdata o1.prg id { d1 with params := d1.params ||| (K.FREQ ||| K.ATTR) } with
            | none => none
            | some prg1 => some ({ o1 with prg := prg1 }, true)
  | some _, some none => some (o, false)
  | _, _ => none

/-- The phase `parse_phase` stores for the scanned value `f`. -/
def wrap_phase (K : PFlags) (f : Num) : Num :=
  let phase := K.store (f.fmod (.val 1))
  if phase.lt (.val 0) = true then K.store (phase.add (.val 1)) else phase

/-- `parse_phase`. -/
def parse_phase (K : PFlags) (pl : Parser → Option Nat → Option Parser) (fuel : Nat)
    (o : Parser) (n : Option Nat) : Option (Parser × Bool) :=
  match n, get_opdata o.prg n with
  | some id, some (some d) =>
    let t := o.tryc 33
    if t.1 = true then
      let t1 := t.2.tryc 123
      if t1.1 = true then
        match parse_mods pl t1.2 id K.PMODS K.PMODS (fun d a => { d with pmod := some a }) with
        | none => none
        | some o2 => some (o2, true)
      else some (t.2, true)
    else
      match t.2.scan_num K none fuel with
      | none => none
      | some (o1, none) => some (o1, false)
      | some (o1, some f) =>
        match set_opdata o1.prg id
            { d with phase := wrap_phase K f, params := d.params ||| K.PHASE } with
        | none => none
        | some prg1 => some ({ o1 with prg := prg1 }, true)
  | some _, some none => some (o, false)
  | _, _ => none

/-- `parse_time`. -/
def parse_time (K : PFlags) (fuel : Nat) (o : Parser) (n : Option Nat) :
    Option (Parser × Bool) :=
  match n, get_opdata o.prg n with
  | some id, some (some d) =>
    match o.scan_timeval K fuel with
    | none => none
    | some (o1, none) => some (o1, false)
    | some (o1, some f) =>
      match set_opdata o1.prg id
          { d with time := { v := f, flags := d.time.flags ||| K.TIME_SET } } with
      | none => none
      | some prg1 => some ({ o1 with prg := prg1 }, true)
  | some _, some none => some (o, false)
  | _, _ => none

/-- `parse_wave`. -/
def parse_wave (K : PFlags) (o : Parser) (n : Option Nat) : Option (Parser × Bool) :=
  match n, get_opdata o.prg n with
  | some id, some (some d) =>
    match scan_wavetype o with
    | none => none
    | some (o1, none) => some (o1, false)
    | some (o1, some wave) =>
      match set_opdata o1.prg id { d with wave := wave, params := d.params ||| K.WAVE } with
      | none => none
      | some prg1 => some ({ o1 with prg := prg1 }, true)
  | some _, some none => some (o, false)
  | _, _ => none

/-- `parse_ref`. -/
def parse_ref (K : PFlags) (o : Parser) : Option (Parser × Bool) :=
  match o.nds with
  | [] => none
  | nd :: _ =>
    if nd.target.isSome then some (o, false)
    else
      match o.scan_sym none with
      | none => none
      | some (o1, _, false) => some (o1, false)
      | some (o1, none, true) => some (o1, true)
      | some (o1, some name, true) =>
        match sym_data o1.prg name with
        | none => some (o1, true)
        | some ref =>
          match o1.prg.nodes.get? ref with
          | none => none
          | some rn =>
            match new_node K { o1 with next_setsym := some name } (some ref) rn.type with
            | none => none
            | some o2 => some ({ o2 with setnode := o2.level + 1 }, true)

/-- How one round of the loop of `parse_level` ends: with `break` (the loop
goes on), at the label `FINISH` or at the label `RETURN`. -/
inductive LoopExit where
  | go
  | finish
  | ret
  deriving DecidableEq, Repr

/-- The label `INVALID` with `check_invalid`. -/
def invalid (o : Parser) : Parser × LoopExit :=
  if MGS_File_AT_EOF o.f = true then (o, .finish) else (o, .go)

/-- The end of a line or of a `<...>` level in `parse_level`: settings or the
current node end when they were opened above the level. -/
def close_level (K : PFlags) (o : Parser) : Option Parser :=
  if o.setdef > o.level then some { o with setdef := if o.level ≠ 0 then o.level - 1 else 0 }
  else if o.setnode > o.level then
    end_node K { o with setnode := if o.level ≠ 0 then o.level - 1 else 0 }
  else some o

/-- A parameter character (`a`, `c`, `f`, `r`, `t`) in settings mode
(`setdef > setnode`): the scanned value becomes a default of the parser. -/
def parse_default (r : Option (Parser × Option Num))
    (set : Parser → Num → Parser) : Option (Parser × LoopExit) :=
  match r with
  | none => none
  | some (o1, none) => some (invalid o1)
  | some (o1, some f) => some (set o1 f, .go)

/-- A parameter character outside settings mode: the `parse_...` function for
the current node decides. -/
def parse_param (r : Option (Parser × Bool)) : Option (Parser × LoopExit) :=
  match r with
  | none => none
  | some (o1, true) => some (o1, .go)
  | some (o1, false) => some (invalid o1)

/-- The `switch` of `parse_level` for the character `c`, after
`MGS_File_skipspace`; `pl` is the nested `parse_level`. -/
def parse_char (K : PFlags) (pl : Parser → Option Nat → Option Parser) (fuel : Nat)
    (o : Parser) (c : Nat) (entrylevel : Nat) : Option (Parser × LoopExit) :=
  match o.nds with
  | [] => none
  | nd :: _ =>
    if c = 10 ∨ c = 13 then
      let o1 := if c = 10 then (o.tryc 13).2 else o
      match (if nd.target.isNone then close_level K o1 else some o1) with
      | none => none
      | some o2 => some ({ o2 with line := o2.line + 1 }, .go)
    else if c = 9 ∨ c = 32 then
      match SAU_File_skipspace o.f with
      | none => none
      | some f1 => some ({ o with f := f1 }, .go)
    else if c = 35 then
      match SAU_File_skipline o.f with
      | none => none
      | some f1 => some ({ o with f := f1 }, .go)
    else if c = 47 then
      if o.setdef > o.setnode then some (invalid o)
      else
        let t := o.tryc 116
        if t.1 = true then some (t.2.set_nd { nd with n_time_delay := 1 }, .go)
        else
          match o.scan_timeval K fuel with
          | none => none
          | some (o1, none) => some (invalid o1)
          | some (o1, some f) =>
            some (o1.set_nd { nd with n_time_delay := 0,
                                      n_delay_next := K.store (nd.n_delay_next.add f) }, .go)
    else if c = 123 then some (o, .go)
    else if c = 125 then
      if nd.target.isNone then some (invalid o)
      else some ({ o with level := entrylevel }, .ret)
    else if c = 60 then some ({ o with level := o.level + 1 }, .go)
    else if c = 62 then
      if o.level = 0 then some (o, .go)
      else
        match close_level K o with
        | none => none
        | some o1 => some ({ o1 with level := o1.level - 1 }, .go)
    else if c = 69 then
      match new_node K o none .env with
      | none => none
      | some o1 => some ({ o1 with setnode := o1.level + 1 }, .go)
    else if c = 81 then some (o, .finish)
    else if c = 83 then some ({ o with setdef := o.level + 1 }, .go)
    else if c = 87 then
      match scan_wavetype o with
      | none => none
      | some (o1, none) => some (o1, .go)
      | some (o1, some wave) =>
        match new_node K o1 none .op with
        | none => none
        | some o2 =>
          match o2.nds with
          | [] => none
          | nd2 :: _ =>
            match nd2.node, get_opdata o2.prg nd2.node with
            | some id, some (some d) =>
              match set_opdata o2.prg id { d with wave := wave } with
              | none => none
              | some prg1 => some ({ o2 with prg := prg1, setnode := o2.level + 1 }, .go)
            | _, _ => none
    else if c = 124 then
      match o.cur_dur with
      | none => none
      | some d =>
        match o.prg.nodes.get? d with
        | none => none
        | some dn =>
          match dn.data with
          | .dur sc =>
            if sc.first_node.isNone then some (o, .go)
            else
              match new_node K o none .dur with
              | none => none
              | some o1 => some (o1, .go)
          | _ => none
    else if c = 92 then
      if o.setdef > o.setnode then some (invalid o)
      else
        match o.scan_timeval K fuel with
        | none => none
        | some (o1, none) => some (invalid o1)
        | some (o1, some f) =>
          match nd.node with
          | none => none
          | some id =>
            match o1.prg.nodes.get? id with
            | none => none
            | some n =>
              some ({ o1 with prg := { o1.prg with
                nodes := o1.prg.nodes.set id { n with delay := K.store (n.delay.add f) } } }, .go)
    else if c = 39 then
      match end_node K o with
      | none => none
      | some o1 =>
        if o1.next_setsym.isSome then some (o1, .go)
        else
          match o1.scan_sym o1.next_setsym with
          | none => none
          | some (o2, sym, ok) =>
            if ok = true then some ({ o2 with next_setsym := sym }, .go)
            else some (invalid { o2 with next_setsym := sym })
    else if c = 58 then
      match end_node K o with
      | none => none
      | some o1 => parse_param (parse_ref K o1)
    else if c = 97 then
      if o.setdef > o.setnode then
        parse_default (o.scan_num K none fuel) (fun p f => { p with n_ampmult := f })
      else if o.setnode ≤ 0 then some (invalid o)
      else parse_param (parse_amp K pl fuel o nd.node)
    else if c = 99 then
      if o.setdef > o.setnode then
        parse_default (o.scan_num K (some numsym_channel) fuel) (fun p f => { p with n_pan := f })
      else if o.setnode ≤ 0 then some (invalid o)
      else parse_param (parse_channel K fuel o nd.node)
    else if c = 102 then
      if o.setdef > o.setnode then
        parse_default (o.scan_num K none fuel) (fun p f => { p with n_freq := f })
      else if o.setnode ≤ 0 then some (invalid o)
      else parse_param (parse_freq K pl fuel o nd.node false)
    else if c = 112 then
      if o.setdef > o.setnode ∨ o.setnode ≤ 0 then some (invalid o)
      else parse_param (parse_phase K pl fuel o nd.node)
    else if c = 114 then
      if o.setdef > o.setnode then
        parse_default (o.scan_num K none fuel)
          (fun p f => { p with n_ratio := K.store ((Num.val 1).div f) })
      else if o.setnode ≤ 0 then some (invalid o)
      else parse_param (parse_freq K pl fuel o nd.node true)
    else if c = 116 then
      if o.setdef > o.setnode then
        parse_default (o.scan_timeval K fuel) (fun p f => { p with n_time := f })
      else if o.setnode ≤ 0 then some (invalid o)
      else parse_param (parse_time K fuel o nd.node)
    else if c = 119 then
      if o.setdef > o.setnode ∨ o.setnode ≤ 0 then some (invalid o)
      else parse_param (parse_wave K o nd.node)
    else some (invalid o)

/-- `parse_level` around its loop: `MGS_init_NodeData`, the loop (`loop`, which
gets the entry level) and `MGS_fini_NodeData`. -/
def parse_level_with (K : PFlags) (loop : Parser → Nat → Option (Parser × LoopExit))
    (o : Parser) (chain : Option Nat) : Option Parser :=
  match MGS_init_NodeData K { o with reclevel := o.reclevel + 1 } chain with
  | none => none
  | some o1 =>
    match loop o1 o.level with
    | none => none
    | some r =>
      match MGS_fini_NodeData K r.1 with
      | none => none
      | some o2 => some { o2 with reclevel := o2.reclevel - 1 }

/-- One round of the loop of `parse_level`: a character is read, space after
it is skipped, and the `switch` runs. -/
def parse_round (K : PFlags) (pl : Parser → Option Nat → Option Parser) (fuel : Nat)
    (o : Parser) (entrylevel : Nat) : Option (Parser × LoopExit) :=
  let r := SAU_File_GETC o.f
  match SAU_File_skipspace r.2 with
  | none => none
  | some f1 => parse_char K pl fuel { o with f := f1 } r.1 entrylevel

/-- The loop `for (;;)` of `parse_level`: the parser and how the loop was
left (`finish` or `ret`). -/
def parse_loop (K : PFlags) : Nat → Parser → Nat → Option (Parser × LoopExit)
  | 0, _, _ => none
  | fuel + 1, o, entrylevel =>
    match parse_round K (fun p chain => parse_level_with K (parse_loop K fuel) p chain) fuel
        o entrylevel with
    | none => none
    | some (o1, .go) => parse_loop K fuel o1 entrylevel
    | some x => some x

/-- `parse_level`. -/
def parse_level (K : PFlags) (fuel : Nat) (o : Parser) (chain : Option Nat) : Option Parser :=
  parse_level_with K (parse_loop K fuel) o chain

/-- `parse`: the program read from the text `f`. -/
def parse (K : PFlags) (fuel : Nat) (f : File) (wave_names : List (List Nat)) :
    Option Parser :=
  parse_level K fuel
    { f := f,
      prg := { nodes := [], arrs := [], syms := [], node_count := 0, root_count := 0,
               base_count_sound := 0, wave_names := wave_names },
      symbuf := List.replicate (SYMKEY_MAXLEN + 1) 0, line := 1, reclevel := 0, level := 0,
      setdef := 0, setnode := 0, cur_node := none, cur_root := none, prev_node := none,
      prev_root := none, cur_dur := none, nds := [], next_setsym := none, n_pan := .val 0,
      n_ampmult := .val 1, n_time := .val 1, n_freq := .val 100, n_ratio := .val 1 }
    none

/-- Modelled from the spec: the names of the wave types (`MGS_Wave_names`). -/
def sample_wave_names : List (List Nat) := [bytes "sin", bytes "sqr", bytes "tri", bytes "saw"]

/-- The operator data of node `id` after a parse. -/
def parsed_op (o : Option Parser) (id : Nat) : Option OpData :=
  match o with
  | none => none
  | some p =>
    match get_opdata p.prg (some id) with
    | some (some d) => some d
    | _ => none

/-- The ids of the nodes of a program: `id`, `first_id`, `root_id` and
`base_id` of each node. -/
def node_ids (o : Option Parser) : List (List Nat) :=
  match o with
  | none => []
  | some p => p.prg.nodes.map (fun n => [n.id, n.first_id, n.root_id, n.base_id])

/-- The types of the nodes of a program. -/
def node_types (o : Option Parser) : List NodeType :=
  match o with
  | none => []
  | some p => p.prg.nodes.map (fun n => n.type)


/-! ### Vocabulary for statements about the parser -/

/-- The reader `f` moved to the position `q`. -/
def File.seek (f : File) (q : Nat) : File := { f with pos := q }

/-- The character at the position `q` of the text. -/
def File.char_at (f : File) (q : Nat) : Nat := f.text.getD q f.status

/-- A character at which `skip_ws` stops: no space, tab, line break or `#`. -/
def not_blank (c : Nat) : Bool :=
  !IS_SPACE c && !decide (c = 10) && !decide (c = 13) && !decide (c = 35)

/-- A numeric literal of `len` characters stands at the position `p`: it
begins with a digit or a point, and `SAU_File_getd` reads it as the `double`
`x`, which is `INFINITY` with the return value false when the literal is too
large, leaving the reader `len` characters further. -/
def NumberAt (R : Rounding) (f : File) (p len : Nat) (x : Num) : Prop :=
  (IS_DIGIT (f.char_at p) = true ∨ f.char_at p = 46) ∧ 0 < len ∧
  SAU_File_getd R (f.seek p) (.val 0) false
    = some { o := f.seek (p + len), var := x, str_len := len,
             ret := !decide (x = Num.inf false) }

/-- A numeric literal of `len` characters with the finite value `v` stands at
the position `p`: it begins with a digit or a point and `SAU_File_getd` reads
it as `v`, leaving the reader `len` characters further. -/
def LiteralAt (R : Rounding) (f : File) (p len : Nat) (v : ℚ) : Prop :=
  (IS_DIGIT (f.char_at p) = true ∨ f.char_at p = 46) ∧ 0 < len ∧
  SAU_File_getd R (f.seek p) (.val 0) false
    = some { o := f.seek (p + len), var := .val v, str_len := len, ret := true }

/-- The characters `+`, `-`, `*` and `/`. -/
def IsBinOp (c : Nat) : Prop := c = 43 ∨ c = 45 ∨ c = 42 ∨ c = 47

/-- The priority with which `scan_num_r` reads the right operand of the
operator `c`. -/
def op_pri (c : Nat) : Nat := if c = 43 ∨ c = 45 then NUMEXP_ADT else NUMEXP_MLT

/-- The operation `scan_num_r` performs for the operator `c`. -/
def op_fun (c : Nat) : Num → Num → Num :=
  if c = 43 then Num.add else if c = 45 then Num.sub else if c = 42 then Num.mul else Num.div

/-- The operator `c` on rationals (exact arithmetic). -/
def bin_op (c : Nat) (x y : ℚ) : ℚ :=
  if c = 43 then x + y else if c = 45 then x - y else if c = 42 then x * y else x / y

/-- The sample constants of the parser on an x86 machine: `float` stores in
binary32, numbers read in the 80-bit `long double` and stored as binary64. -/
def sampleFloatFlags : PFlags := { samplePFlags with toRounding := ieee_rounding }


/-! ### The timing pass (`adjust_nodes`) -/

/-- Modelled from the spec: `MGS_ProgramNode_get_data` on a node for the sound
data, which only operator nodes have. -/
def node_sound (n : ProgramNode) : Option OpData :=
  match n.type, n.data with
  | .op, .op d => some d
  | _, _ => none

/-- The pointer `n->next` of the node `i`: the node created after it. -/
def next_node (nodes : List ProgramNode) (i : Nat) : Option Nat :=
  if i + 1 < nodes.length then some (i + 1) else none

/-- The flag `MGS_TIME_SET` set in a time. -/
def TimeVal.set_flag (K : PFlags) (t : TimeVal) : TimeVal :=
  { t with flags := t.flags ||| K.TIME_SET }

/-- `time_sound` on the sound data `d` of the node `n`. -/
def time_sound (K : PFlags) (n : ProgramNode) (d : OpData) : OpData :=
  if d.time.flags &&& K.TIME_SET = 0 then
    if n.first_id ≠ n.root_id then { d with time := d.time.set_flag K } else d
  else d

/-- The first loop of `time_durscope`, from `step` on: the values of `delay`
and `delaycount` and the node list when `step` reaches `n_after`. A round that
ends with `continue` without moving `step` runs again with the same state. -/
def durscope_max (K : PFlags) (n_after : Option Nat) :
    Nat → Option Nat → Num → Num → List ProgramNode → Option (Num × Num × List ProgramNode)
  | 0, _, _, _, _ => none
  | fuel + 1, step, delay, delaycount, nodes =>
    if step = n_after then some (delay, delaycount, nodes)
    else
      match step with
      | none => none
      | some s =>
        match nodes.get? s with
        | none => none
        | some n =>
          if n.first_id ≠ n.root_id then
            durscope_max K n_after fuel (next_node nodes s) delay delaycount nodes
          else
            match node_sound n with
            | none => durscope_max K n_after fuel step delay delaycount nodes
            | some d =>
              let d1 : OpData :=
                if next_node nodes s = n_after then { d with time := d.time.set_flag K } else d
              let nodes1 := nodes.set s { n with data := .op d1 }
              let delay1 := if delay.lt d1.time.v = true then d1.time.v else delay
              let delaycount1 : Num :=
                match next_node nodes s with
                | none => delaycount
                | some t =>
                  match nodes1.get? t with
                  | some m => delaycount.add m.delay
                  | none => delaycount
              durscope_max K n_after fuel (next_node nodes s) delay1 delaycount1 nodes1

/-- The second loop of `time_durscope`, from `step` on. -/
def durscope_fill (K : PFlags) (n_after : Option Nat) (delay : Num) :
    Nat → Option Nat → Num → List ProgramNode → Option (List ProgramNode)
  | 0, _, _, _ => none
  | fuel + 1, step, delaycount, nodes =>
    if step = n_after then some nodes
    else
      match step with
      | none => none
      | some s =>
        match nodes.get? s with
        | none => none
        | some n =>
          if n.first_id ≠ n.root_id then
            durscope_fill K n_after delay fuel (next_node nodes s) delaycount nodes
          else
            match node_sound n with
            | none => durscope_fill K n_after delay fuel step delaycount nodes
            | some d =>
              let d1 : OpData :=
                if d.time.flags &&& K.TIME_SET = 0 then
                  { d with time := { v := K.store (delay.add delaycount),
                                     flags := d.time.flags ||| K.TIME_SET } }
                else d
              let nodes1 := nodes.set s { n with data := .op d1 }
              let delaycount1 : Num :=
                match next_node nodes s with
                | none => delaycount
                | some t =>
                  match nodes1.get? t with
                  | some m => delaycount.sub m.delay
                  | none => delaycount
              durscope_fill K n_after delay fuel (next_node nodes s) delaycount1 nodes1

/-- `time_durscope` for the duration data with the scope `sc`. -/
def time_durscope (K : PFlags) (fuel : Nat) (nodes : List ProgramNode) (sc : NodeScope) :
    Option (List ProgramNode) :=
  match sc.last_node with
  | none => none
  | some l =>
    if l < nodes.length then
      let n_after := next_node nodes l
      match durscope_max K n_after fuel sc.first_node (.val 0) (.val 0) nodes with
      | none => none
      | some (delay, delaycount, nodes1) =>
        match durscope_fill K n_after delay fuel sc.first_node delaycount nodes1 with
        | none => none
        | some nodes2 =>
          match n_after with
          | none => some nodes2
          | some a =>
            match nodes2.get? a with
            | none => none
            | some na => some (nodes2.set a { na with delay := K.store (na.delay.add delay) })
    else none

/-- The part of the loop of `adjust_nodes` for the sound data of the node `n`,
which stands at `i`: `time_sound` if the node has sound data. -/
def adjust_sound (K : PFlags) (nodes : List ProgramNode) (i : Nat) (n : ProgramNode) :
    List ProgramNode :=
  match node_sound n with
  | some d => nodes.set i { n with data := .op (time_sound K n d) }
  | none => nodes

/-- The part of the loop of `adjust_nodes` for the duration group:
`if (n == dur->scope.last_node) time_durscope(dur);` at the node `i`. -/
def adjust_group (K : PFlags) (fuel : Nat) (nodes : List ProgramNode) (dur : Option Nat)
    (i : Nat) : Option (List ProgramNode) :=
  match dur with
  | none => none
  | some di =>
    match nodes.get? di with
    | none => none
    | some dn =>
      match dn.data with
      | .dur sc => if sc.last_node = some i then time_durscope K fuel nodes sc else some nodes
      | _ => none

/-- The loop of `adjust_nodes` from the node `n` on; `dur` is the node whose
duration data the variable `dur` points to. -/
def adjust_loop (K : PFlags) :
    Nat → Option Nat → Option Nat → List ProgramNode → Option (List ProgramNode)
  | 0, _, _, _ => none
  | _ + 1, none, _, nodes => some nodes
  | fuel + 1, some i, dur, nodes =>
    match nodes.get? i with
    | none => none
    | some n =>
      if n.type = .dur then adjust_loop K fuel (next_node nodes i) (some i) nodes
      else
        match adjust_group K fuel (adjust_sound K nodes i n) dur i with
        | none => none
        | some nodes2 => adjust_loop K fuel (next_node nodes i) dur nodes2

/-- `adjust_nodes` on the node list. -/
def adjust_nodes (K : PFlags) (fuel : Nat) (nodes : List ProgramNode) :
    Option (List ProgramNode) :=
  adjust_loop K fuel (if nodes.length = 0 then none else some 0) none nodes

/-- The parse of the text `f` followed by the timing pass, as in
`MGS_create_Program`. -/
def create_nodes (K : PFlags) (fuel : Nat) (f : File) (wave_names : List (List Nat)) :
    Option (List ProgramNode) :=
  match parse K fuel f wave_names with
  | none => none
  | some p => adjust_nodes K fuel p.prg.nodes

/-! ### Vocabulary for statements about the timing pass -/

/-- The time of the node if it is a top-level sound node (`first_id` equal to
`root_id`), the nodes `time_durscope` takes into account. -/
def top_time (n : ProgramNode) : Option Num :=
  if n.first_id = n.root_id then (node_sound n).map (fun d => d.time.v) else none

/-- The largest of `start` and the times in `ts`, found with `<` from left to
right. -/
def max_time (start : Num) (ts : List (Option Num)) : Num :=
  ts.foldl (fun m t => match t with
    | some v => if m.lt v = true then v else m
    | none => m) start

/-- The maximum time among the top-level sound nodes from the node `first` up
to the node before `after`. -/
def group_max_time (nodes : List ProgramNode) (first after : Nat) : Num :=
  max_time (.val 0) (((nodes.map top_time).drop first).take (after - first))

/-- The node `dur` points to in `adjust_nodes` when the loop reaches the node
`k`: the last duration node before it. -/
def cur_dur_at (nodes : List ProgramNode) : Nat → Option Nat
  | 0 => none
  | k + 1 =>
    match nodes.get? k with
    | some n => if n.type = .dur then some k else cur_dur_at nodes k
    | none => cur_dur_at nodes k

/-- A scope with a last node has a first node, which is not after the last. -/
def scope_ok (sc : NodeScope) : Bool :=
  match sc.last_node with
  | none => true
  | some l =>
    match sc.first_node with
    | some f => decide (f ≤ l)
    | none => false

/-- The node `i` lies in the scope of the duration node before it, and the
scope ends at a node of the same group. -/
def in_group (nodes : List ProgramNode) (i : Nat) : Bool :=
  match cur_dur_at nodes i with
  | none => false
  | some d =>
    match nodes.get? d with
    | none => false
    | some dn =>
      match dn.data with
      | .dur sc =>
        match sc.first_node, sc.last_node with
        | some f, some l =>
          decide (d < f) && decide (f ≤ i) && decide (i ≤ l) && decide (l < nodes.length) &&
            decide (cur_dur_at nodes (l + 1) = some d)
        | _, _ => false
      | _ => false

/-- Every top-level sound node lies in the scope of its duration node, and the
scope of every duration node is in order. -/
def grouped (nodes : List ProgramNode) : Bool :=
  (List.range nodes.length).all (fun i =>
    match nodes.get? i with
    | some n =>
      (decide (top_time n = none) || in_group nodes i) &&
        (match n.data with
         | .dur sc => scope_ok sc
         | _ => true)
    | none => true)

/-- The time of every sound node has the flag `MGS_TIME_SET`. -/
def all_time_set (K : PFlags) (nodes : List ProgramNode) : Prop :=
  ∀ i n d, nodes.get? i = some n → node_sound n = some d → d.time.flags &&& K.TIME_SET ≠ 0

/-- The node list `b` has the nodes of `a` with the same types and ids; the
data of a node are the same or, for operator data, may differ, but no time flag
of `a` is missing in `b`. -/
def TimeExt (K : PFlags) (a b : List ProgramNode) : Prop :=
  a.length = b.length ∧
  ∀ i n, a.get? i = some n → ∃ m, b.get? i = some m ∧ m.type = n.type ∧
    m.first_id = n.first_id ∧ m.root_id = n.root_id ∧
    (m.data = n.data ∨ ∃ d e, n.data = .op d ∧ m.data = .op e ∧
      (d.time.flags &&& K.TIME_SET ≠ 0 → e.time.flags &&& K.TIME_SET ≠ 0))

/-- The node `j` has sound data with the flag `MGS_TIME_SET` in its time. -/
def flagged_at (K : PFlags) (nodes : List ProgramNode) (j : Nat) : Prop :=
  ∃ m e, nodes.get? j = some m ∧ m.data = .op e ∧ e.time.flags &&& K.TIME_SET ≠ 0

/-- The scope of every duration node is in order. -/
def ScopesOk (nodes : List ProgramNode) : Prop :=
  ∀ i n sc, nodes.get? i = some n → n.data = .dur sc → scope_ok sc = true

/-- The fields of a node that say what it is and how it is linked. -/
def ProgramNode.links (n : ProgramNode) :
    Option Nat × NodeType × Nat × Nat × Nat × Nat × Option Nat :=
  (n.ref_prev, n.type, n.id, n.first_id, n.root_id, n.base_id, n.use_next)

/-- The nodes of a parser state after the timing pass. -/
def timed_nodes (K : PFlags) (fuel : Nat) (o : Option Parser) : Option (List ProgramNode) :=
  match o with
  | none => none
  | some p => adjust_nodes K fuel p.prg.nodes

/-- The position a pointer into a node list of the length `len` stands for:
the id of the node, or `len` for `NULL`, the end of the list. -/
def pos_of (len : Nat) : Option Nat → Nat
  | some s => s
  | none => len

/-- The nodes the parser makes for a script, before the timing pass (no nodes
when the parse fails). -/
def parsed_nodes (K : PFlags) (fuel : Nat) (script : String) : List ProgramNode :=
  match parse K fuel (open_text script) sample_wave_names with
  | some p => p.prg.nodes
  | none => []

/-- A sample script with two duration groups: the first group has a node of
the time 1 and, after the delay 2, a node of the time 3. -/
def sample_groups : List ProgramNode :=
  parsed_nodes samplePFlags 40 "W sin t 1 / 2 W sin t 3 | W sin"

/-- The node the parser makes for `E`: a top-level node without data. -/
def sample_env_node : ProgramNode :=
  { ref_prev := none, type := .env, id := 1, first_id := 1, root_id := 1, base_id := 0,
    delay := .val 0, use_next := none, data := .null }

/-- The nodes the parser makes for the script `E`. -/
def sample_env_nodes : List ProgramNode :=
  [{ ref_prev := none, type := .dur, id := 0, first_id := 0, root_id := 0, base_id := 0,
     delay := .val 0, use_next := none,
     data := .dur { first_node := some 1, last_node := some 1 } },
   sample_env_node]

/-- The node `j` of the list is one the loops of `time_durscope` step over: a
nested node or a node with sound data. -/
def step_ok (nodes : List ProgramNode) (j : Nat) : Bool :=
  match nodes.get? j with
  | some m => decide (m.first_id ≠ m.root_id) || (node_sound m).isSome
  | none => false

/-- The node list is one the timing pass gets through. A duration node comes
before every other node. A duration node has duration data, and if its scope
has a last node, the scope runs from a first node to it within the list, over
nested nodes and nodes with sound data only. -/
def timeable (nodes : List ProgramNode) : Bool :=
  (List.range nodes.length).all (fun i =>
    match nodes.get? i with
    | some n =>
      if n.type = .dur then
        match n.data with
        | .dur sc =>
          match sc.last_node with
          | none => true
          | some l =>
            match sc.first_node with
            | some f => decide (f ≤ l) && decide (l < nodes.length) &&
                (List.range (l + 1 - f)).all (fun k => step_ok nodes (f + k))
            | none => false
        | _ => false
      else (cur_dur_at nodes i).isSome
    | none => true)

/-- What `timeable` says, node by node. -/
def Timeable (nodes : List ProgramNode) : Prop :=
  (∀ i n, nodes.get? i = some n → n.type ≠ .dur → ∃ di, cur_dur_at nodes i = some di) ∧
  (∀ i n, nodes.get? i = some n → n.type = .dur → ∃ sc, n.data = .dur sc ∧
    ∀ l, sc.last_node = some l → ∃ f, sc.first_node = some f ∧ f ≤ l ∧ l < nodes.length ∧
      ∀ j, f ≤ j → j ≤ l → step_ok nodes j = true)

/-- The time flags of the nodes of a list: the flags of the sound data, `none`
for a node without sound data. -/
def time_flags (nodes : List ProgramNode) : List (Option Nat) :=
  nodes.map (fun n => (node_sound n).map (fun d => d.time.flags))


/-- The program `b` has the counters and modulator lists of `a`, and its nodes
are linked as those of `a`. -/
def same_frame (a b : MGS_Program) : Prop :=
  b.node_count = a.node_count ∧ b.root_count = a.root_count ∧
  b.base_count_sound = a.base_count_sound ∧ b.arrs = a.arrs ∧
  b.nodes.map ProgramNode.links = a.nodes.map ProgramNode.links

/-- A sample of operator data: a square wave of 440 Hz with the time 5 set. -/
def sample_opdata : OpData :=
  { amp := .val 1, dynamp := .val 1, pan := .val 0, params := 0,
    time := { v := .val 5, flags := 1 }, amod := none, freq := .val 440, dynfreq := .val 440,
    phase := .val 0, attr := 0, wave := 1, fmod := none, pmod := none }

/-- A sample state of the parser inside the top `parse_level`: the duration
node 0 and the operator node 1, which is the current node and has the label
`a`. -/
def sample_state : Parser :=
  { f := open_text " a 0.5",
    prg := { nodes := [{ ref_prev := none, type := .dur, id := 0, first_id := 0, root_id := 0,
                         base_id := 0, delay := .val 0, use_next := none,
                         data := .dur { first_node := some 1, last_node := some 1 } },
                       { ref_prev := none, type := .op, id := 1, first_id := 1, root_id := 1,
                         base_id := 0, delay := .val 0, use_next := none,
                         data := .op sample_opdata }],
             arrs := [], syms := [(bytes "a", some 1)], node_count := 2, root_count := 2,
             base_count_sound := 1, wave_names := sample_wave_names },
    symbuf := List.replicate (SYMKEY_MAXLEN + 1) 0, line := 1, reclevel := 1, level := 0,
    setdef := 0, setnode := 1, cur_node := some 1, cur_root := some 1, prev_node := some 0,
    prev_root := none, cur_dur := some 0,
    nds := [{ node := some 1, target := none, cur_setsym := none, flags := 1, n_time_delay := 0,
              n_delay_next := .val 0 }],
    next_setsym := none, n_pan := .val 0, n_ampmult := .val 1, n_time := .val 1,
    n_freq := .val 100, n_ratio := .val 1 }

/-- The sample state after `new_node` made a reference to the node 1. -/
def sample_reference : Parser :=
  (new_node samplePFlags sample_state (some 1) .op).getD sample_state

/-- The parameter fields of operator data that a reference takes over. -/
def OpData.copied (d : OpData) : Nat × Num × Num × Num × Num × Num × Num × Nat :=
  (d.wave, d.freq, d.dynfreq, d.phase, d.amp, d.dynamp, d.pan, d.attr)

/-- A sample state of the parser inside a nested `parse_level`: the operator
node 2 is the current node, a member of the list of frequency modulators of
the node 1. -/
def sample_nested : Parser :=
  { sample_state with
    f := open_text "2 ",
    prg := { sample_state.prg with
      nodes := sample_state.prg.nodes.map
          (fun n => if n.id = 1 then
            { n with data := .op { sample_opdata with fmod := some 0 } } else n) ++
        [{ ref_prev := none, type := .op, id := 2, first_id := 2, root_id := 1, base_id := 1,
           delay := .val 0, use_next := none, data := .op sample_opdata }],
      arrs := [{ mod_type := samplePFlags.FMODS, count := 1,
                 scope := { first_node := some 2, last_node := some 2 } }],
      node_count := 3, base_count_sound := 2 },
    reclevel := 2, cur_node := some 2, prev_node := some 1, prev_root := some 1,
    nds := [{ node := some 2, target := some 0, cur_setsym := none, flags := 1,
              n_time_delay := 0, n_delay_next := .val 0 },
            { node := some 1, target := none, cur_setsym := none, flags := 1,
              n_time_delay := 0, n_delay_next := .val 0 }] }

/-- A sample state of the parser in settings mode, before the number `0.5`: no
node is open. -/
def sample_settings : Parser :=
  { sample_state with
    f := open_text "0.5 ", setdef := 1, setnode := 0,
    nds := [{ node := none, target := none, cur_setsym := none, flags := 0, n_time_delay := 0,
              n_delay_next := .val 0 }] }

/-- The sample state before settings mode: no node is open and no `S` was
read. -/
def sample_plain : Parser := { sample_settings with setdef := 0 }

/-- The sample state in settings mode after the number was read. -/
def sample_settings_read : Parser := { sample_settings with f := sample_settings.f.seek 3 }

/-- The sample state with the node 1 open, before the text `'x \1`: a label
and a delay for the current node. -/
def sample_label : Parser := { sample_state with f := open_text "'x \\1" }

/-- The node of the current level and the settings levels of a state. -/
def Parser.node_state (o : Parser) : List (Option Nat) × Nat × Nat :=
  (o.nds.map (fun nd => nd.node), o.setdef, o.setnode)

/-- The state `o` with the node `id` as the node of the current level. -/
def Parser.with_node (o : Parser) (id : Nat) : Parser :=
  match o.nds with
  | nd :: rest => { o with nds := { nd with node := some id } :: rest }
  | [] => o

/-! ### The change mask of an open node

What the rounds of `parse_level` may do to the operator data of a node is
stated over node lists: `new_node` gives a node the id `p->node_count` and puts
it at the end of the list, so a node is found at the position of its id. -/

/-- The operator data in the data of a node. -/
def ProgramNode.op (n : ProgramNode) : Option OpData :=
  match n.data with
  | .op d => some d
  | _ => none

/-- The node list is sound: it has `count` nodes and each has its position as
the id. -/
def WfNodes (nodes : List ProgramNode) (count : Nat) : Prop :=
  count = nodes.length ∧ ∀ i n, nodes.get? i = some n → n.id = i

/-- The test of `WfNodes`. -/
def wf_nodes (nodes : List ProgramNode) (count : Nat) : Bool :=
  decide (count = nodes.length) &&
    (List.range nodes.length).all (fun i =>
      match nodes.get? i with
      | some n => decide (n.id = i)
      | none => true)

/-- Every node of the list `a` is in the list `b` at its place, as the same
kind of node (`ref_prev`, `type`, `id`), and with the same operator data unless
it is the node `j`. -/
def NodesKept (j : Option Nat) (a b : List ProgramNode) : Prop :=
  ∀ i n, a.get? i = some n →
    ∃ m, b.get? i = some m ∧ m.ref_prev = n.ref_prev ∧ m.type = n.type ∧ m.id = n.id ∧
      (j ≠ some i → m.op = n.op)

/-- The node of the current level (`o->cur_nd->node`). -/
def Parser.node (o : Parser) : Option Nat :=
  match o.nds with
  | nd :: _ => nd.node
  | [] => none

/-- The state of the parser inside a `parse_level` is sound: the node list is,
and the node of the current level, if there is one, is a node of the list that
the level owns (`ND_OWN_NODE`). -/
def LevelOk (o : Parser) : Prop :=
  WfNodes o.prg.nodes o.prg.node_count ∧
    ∃ nd rest, o.nds = nd :: rest ∧
      ∀ j, nd.node = some j → nd.flags &&& ND_OWN_NODE ≠ 0 ∧ j < o.prg.node_count

/-- The test of `LevelOk`. -/
def level_ok (o : Parser) : Bool :=
  wf_nodes o.prg.nodes o.prg.node_count &&
    match o.nds with
    | nd :: _ =>
      (match nd.node with
       | some j => decide (nd.flags &&& ND_OWN_NODE ≠ 0) && decide (j < o.prg.node_count)
       | none => true)
    | [] => false

/-- The nested `parse_level` `pl` returns with the levels it was called with,
and with the nodes it found kept with their operator data. -/
def NestedOk (pl : Parser → Option Nat → Option Parser) : Prop :=
  ∀ p chain p1, pl p chain = some p1 → WfNodes p.prg.nodes p.prg.node_count →
    WfNodes p1.prg.nodes p1.prg.node_count ∧ p.prg.node_count ≤ p1.prg.node_count ∧
      p1.nds = p.nds ∧ NodesKept none p.prg.nodes p1.prg.nodes

/-- The bits that the parameter character `c` can set in the change mask of
the current node, each entry one outcome: `a`, `f`, `r` and `p` set the bit of
the value, or with `!` (`bang`) the bits of the dynamic value and of the list of
modulators; `c` sets the panning bit and `w` the wave bit. `t` sets no bit of
the mask, nor does any other character. -/
def own_bits (K : PFlags) (c : Nat) (bang : Bool) : List Nat :=
  if c = 97 then
    if bang = true then [K.DYNAMP, K.AMODS, K.DYNAMP ||| K.AMODS] else [K.AMP]
  else if c = 99 then [K.PAN]
  else if c = 102 ∨ c = 114 then
    if bang = true then [K.DYNFREQ ||| K.ATTR, K.FMODS, (K.DYNFREQ ||| K.ATTR) ||| K.FMODS]
    else [K.FREQ ||| K.ATTR]
  else if c = 112 then
    if bang = true then [K.PMODS] else [K.PHASE]
  else if c = 119 then [K.WAVE]
  else []

/-- The sample state after `new_node` made a reference to the node 1, before
the text ` a 0.25`. -/
def sample_reference_amp : Parser := { sample_reference with f := open_text "0.25" }

/-- A step of the parser from `o` to `o1` that keeps the levels and the nodes,
and may change the operator data of the node `id` only. -/
def NodeStep (id : Nat) (o o1 : Parser) : Prop :=
  WfNodes o1.prg.nodes o1.prg.node_count ∧ o.prg.node_count ≤ o1.prg.node_count ∧
    o1.nds = o.nds ∧ NodesKept (some id) o.prg.nodes o1.prg.nodes

/-- What one round of `parse_level` for the character `c` may do to the
operator data `d` of the node of the level, which stays that node: in the data
`e` after the round the change mask has one of the outcomes for `c` more, or
none, and the time flags are the same unless `c` is `t`, which sets
`MGS_TIME_SET`. -/
def MaskStep (K : PFlags) (c : Nat) (bang : Bool) (d e : OpData) : Prop :=
  (∃ B ∈ 0 :: own_bits K c bang, e.params = d.params ||| B) ∧
    (e.time.flags = d.time.flags ∨ (c = 116 ∧ e.time.flags = d.time.flags ||| K.TIME_SET))

/-- A step of the parser inside a `parse_level`: the state stays sound, the
levels above stay, and the nodes are kept, with their operator data except for
the node of the level. -/
def FrameStep (o o1 : Parser) : Prop :=
  LevelOk o1 ∧ o.prg.node_count ≤ o1.prg.node_count ∧ o1.nds.tail = o.nds.tail ∧
    NodesKept o.node o.prg.nodes o1.prg.nodes

/-- A step after which the node of the level is the same node, with its
operator data changed as `MaskStep` says. -/
def SameStep (K : PFlags) (c : Nat) (bang : Bool) (o o1 : Parser) : Prop :=
  FrameStep o o1 ∧ o1.node = o.node ∧
    ∀ j n d, o.node = some j → o.prg.nodes.get? j = some n → n.type = .op →
      n.data = .op d →
      ∃ m e, o1.prg.nodes.get? j = some m ∧ m.data = .op e ∧ MaskStep K c bang d e

/-- A step that ended the node of the level (`end_node`): the level has no
node after it or a new one, and the change mask of the node that ended is the
one `end_opdata` leaves. -/
def ClosedStep (K : PFlags) (o o1 : Parser) : Prop :=
  FrameStep o o1 ∧ (∀ i, o1.node = some i → o.prg.node_count ≤ i) ∧
    ∀ j n d, o.node = some j → o.prg.nodes.get? j = some n → n.type = .op →
      n.data = .op d →
      ∃ m e, o1.prg.nodes.get? j = some m ∧ m.data = .op e ∧
        e.params = (if n.ref_prev.isNone then
            d.params ||| clear_flag K.PARAM_MASK K.MODS_MASK
          else if d.time.flags &&& K.TIME_SET ≠ 0 then d.params ||| K.TIME
          else d.params)

/-- The parser states `o` and `p` have the same nodes and levels. -/
def Quiet (o p : Parser) : Prop :=
  p.prg.nodes = o.prg.nodes ∧ p.prg.node_count = o.prg.node_count ∧ p.nds = o.nds

/-- Every node of the list `a` with an id below `N` is in the list `b` at its
place, as the same kind of node and with the same operator data. -/
def KeptBelow (N : Nat) (a b : List ProgramNode) : Prop :=
  ∀ i n, i < N → a.get? i = some n →
    ∃ m, b.get? i = some m ∧ m.ref_prev = n.ref_prev ∧ m.type = n.type ∧ m.id = n.id ∧
      m.op = n.op

/-- The state of a level is sound, the program has at least `N` nodes, and the
node of the level, if there is one, has an id from `N` on. -/
def LevelAbove (N : Nat) (o : Parser) : Prop :=
  LevelOk o ∧ N ≤ o.prg.node_count ∧ ∀ j, o.node = some j → N ≤ j

/-- The loop `loop` of a `parse_level` keeps the levels above its own and the
nodes below `N` when the node of its level is none of them. -/
def LoopOk (loop : Parser → Nat → Option (Parser × LoopExit)) : Prop :=
  ∀ N o el o1 x, loop o el = some (o1, x) → LevelAbove N o →
    LevelAbove N o1 ∧ o1.nds.tail = o.nds.tail ∧ KeptBelow N o.prg.nodes o1.prg.nodes


/-! ### Acyclic graphs and the buffers of `run_block` -/

/-- The modulator graph of the operators is acyclic: `rank` falls along every
link from an operator to one of its modulators. -/
def Ranked (ops : List OperatorNode) (rank : Nat → Nat) : Prop :=
  ∀ id n a, ops.get? id = some n → n.adjcs = some a → ∀ m ∈ a.adjcs, rank m < rank id

/-- A rank for a sample array: the modulators come after their carriers. -/
def sample_rank (id : Nat) : Nat := 10 - id

/-- The loop of `calc_blocks` and of `upsize_blocks` over the ids `mods`:
`res = calc_blocks(...); if (res > count) count = res;` with `cb` for the
call. -/
def calc_mods (cb : Nat → Option Nat) : List Nat → Nat → Option Nat
  | [], count => some count
  | m :: ms, count =>
    match cb m with
    | none => none
    | some res => calc_mods cb ms (if res > count then res else count)

/-- `calc_blocks` for the operator `id`; `fuel` bounds the depth of the
recursion. -/
def calc_blocks (ops : List OperatorNode) : Nat → Nat → Option Nat
  | 0, _ => none
  | fuel + 1, id =>
    match ops.get? id with
    | none => none
    | some n =>
      match n.adjcs with
      | none => some (u32 (0 + 5))
      | some a =>
        match mod_ids a.adjcs 0 (u32 (a.fmodc + a.pmodc + a.amodc)) with
        | none => none
        | some mods =>
          match calc_mods (calc_blocks ops fuel) mods 0 with
          | none => none
          | some count => some (u32 (count + 5))

/-- `upsize_blocks` for the voice `vn`: the new `o->blockc`. -/
def upsize_blocks (ops : List OperatorNode) (fuel : Nat) (vn : VoiceNode) (blockc : Nat) :
    Option Nat :=
  match vn.graph with
  | none => some blockc
  | some g =>
    match graph_carriers g with
    | none => none
    | some ids =>
      match calc_mods (calc_blocks ops fuel) ids 0 with
      | none => none
      | some count => some (if count > blockc then count else blockc)

/-- A loop of nested calls of `run_block` with the buffers from `nextbuf` on,
which is `blocks + base`: the largest buffer index so far, `top`, with the
indices the calls use (`bt` gives the largest index of a call, counted from
its own `blocks`). -/
def top_mods (bt : Nat → Option Nat) (base : Nat) : List Nat → Nat → Option Nat
  | [], top => some top
  | m :: ms, top =>
    match bt m with
    | none => none
    | some t => top_mods bt base ms (max top (base + t))

/-- The locals `fmodc`, `pmodc` and `amodc` of `run_block` (`uint8_t`) and the
list of modulator ids of the node. -/
def node_mods (n : OperatorNode) : Nat × Nat × Nat × List Nat :=
  match n.adjcs with
  | some a => (a.fmodc % 256, a.pmodc % 256, a.amodc % 256, a.adjcs)
  | none => (0, 0, 0, [])

/-- The largest index `i` of a buffer `blocks[i]` that `run_block` for the
operator `id` uses when it does not return early, the nested calls included:
`sbuf` is `blocks[0]`, `freq` is `blocks[1]`, the frequency and phase
modulators run from `blocks + 2` on with `fmbuf` and `pm` in `blocks[2]`, and
`amp` and the amplitude modulators take the next buffer (`blocks[3]` after
phase modulators, else `blocks[2]`). -/
def buf_top (ops : List OperatorNode) : Nat → Nat → Bool → Option Nat
  | 0, _, _ => none
  | fuel + 1, id, wave_env =>
    match ops.get? id with
    | none => none
    | some n =>
      match mod_ids (node_mods n).2.2.2 0 (node_mods n).1,
          mod_ids (node_mods n).2.2.2 (node_mods n).1 (node_mods n).2.1,
          mod_ids (node_mods n).2.2.2 ((node_mods n).1 + (node_mods n).2.1)
            (if wave_env then 0 else (node_mods n).2.2.1) with
      | some fmods, some pmods, some amods =>
        match top_mods (fun m => buf_top ops fuel m true) 2 fmods 1 with
        | none => none
        | some t1 =>
          match top_mods (fun m => buf_top ops fuel m false) 2 pmods
              (if (node_mods n).1 ≠ 0 then max t1 2 else t1) with
          | none => none
          | some t2 =>
            if wave_env = true then some (if (node_mods n).2.1 ≠ 0 then max t2 2 else t2)
            else
              match top_mods (fun m => buf_top ops fuel m true)
                  (if (node_mods n).2.1 ≠ 0 then 3 else 2) amods
                  (if (node_mods n).2.1 ≠ 0 then max t2 2 else t2) with
              | none => none
              | some t3 => some (max t3 (if (node_mods n).2.1 ≠ 0 then 3 else 2))
      | _, _, _ => none

/-- The modulator counts of every operator are `uint8_t` values. -/
def CountsSmall (ops : List OperatorNode) : Prop :=
  ∀ id n a, ops.get? id = some n → n.adjcs = some a →
    a.fmodc < 256 ∧ a.pmodc < 256 ∧ a.amodc < 256

/-- The adjacency lists are as the builder makes them: a list holds as many
ids as its three counts say, and every id is the index of an operator. -/
def GraphClosed (ops : List OperatorNode) : Prop :=
  ∀ id n a, ops.get? id = some n → n.adjcs = some a →
    a.fmodc + a.pmodc + a.amodc ≤ a.adjcs.length ∧ ∀ m ∈ a.adjcs, m < ops.length

/-- A sample array: the carrier 0 with the frequency modulator 1 and the
amplitude modulator 2, which has the phase modulator 3. -/
def sample_graph : List OperatorNode :=
  [{ time := 100, silence := 0,
     adjcs := some { fmodc := 1, pmodc := 0, amodc := 1, adjcs := [1, 2] } },
   { time := 100, silence := 0, adjcs := none },
   { time := 100, silence := 0,
     adjcs := some { fmodc := 0, pmodc := 1, amodc := 0, adjcs := [3] } },
   { time := 100, silence := 0, adjcs := none }]

/-- The main event handed to `flatten_events`, as far as the function reads and
writes it: the chain of events that follow it (`e->next`) and the chain of its
composite events (`e->composite`), two chains without a node in common. -/
structure MainEvent where
  next : List ParseEvent
  composite : List ParseEvent
  deriving DecidableEq, Repr

/-- `flatten_events(e)`: the loop leaves the merged chain in `e->next`, and the
last statement sets `e->composite` to null. -/
def flatten_events_at (e : MainEvent) : MainEvent :=
  { next := flatten_events e.next e.composite, composite := [] }

/-- The list `cs` is made of the items of `as` and of `bs`, each taken once,
those of `as` in their order and those of `bs` in their order. -/
inductive Interleaved : List Nat → List Nat → List Nat → Prop
  | nil : Interleaved [] [] []
  | left (a : Nat) {as bs cs : List Nat} :
      Interleaved as bs cs → Interleaved (a :: as) bs (a :: cs)
  | right (b : Nat) {as bs cs : List Nat} :
      Interleaved as bs cs → Interleaved as (b :: bs) (b :: cs)

/-- One composite event, 15 ms after the main event. -/
def sample_one_composite : List ParseEvent := [⟨11, 15⟩]

/-! ## The builder: order of allocation, and the guard of `build_graph` -/

mutual
/-- The operator nodes `program_follow_onode` hands to `operator_alloc_inc` for
the node `op` and its modulators, in the order of the calls: the node itself,
then what its three lists give. A node flagged `SGS_PSOD_MULTIPLE_OPERATORS`
is passed over together with its lists. -/
def allocated_onode (k : Flags) : ParseOperatorData → List OperatorFields
  | .mk d fmods pmods amods =>
    if d.od_flags &&& k.PSOD_MULTIPLE_OPERATORS ≠ 0 then []
    else
      d :: (allocated_onodes k d.fmods_copy_count fmods ++
        (allocated_onodes k d.pmods_copy_count pmods ++
          allocated_onodes k d.amods_copy_count amods))
/-- The operator nodes `program_follow_onodes` hands to `operator_alloc_inc`
for a list, the first `copy_count` items of which are passed over. -/
def allocated_onodes (k : Flags) (copy_count : Nat) :
    List ParseOperatorData → List OperatorFields
  | [] => []
  | op :: ops =>
    match copy_count with
    | n + 1 => allocated_onodes k n ops
    | 0 => allocated_onode k op ++ allocated_onodes k 0 ops
end

/-- The operator nodes handed to `operator_alloc_inc` by the loop of
`SGS_create_Program`, in the order of the calls. -/
def allocated_enodes (k : Flags) : List ParseEventData → List OperatorFields
  | [] => []
  | e :: es => allocated_onodes k e.operators_copy_count e.operators ++ allocated_enodes k es

/-- The nodes without `on_prev` among the nodes `l`, in the same order. -/
def new_operators (l : List OperatorFields) : List OperatorFields :=
  l.filter (fun d => d.on_prev.isNone)

/-- After the nodes `l` were given ids: the table counts the nodes without
`on_prev`, and the one at position `i` among them holds `i` in `operator_id`. -/
def DenseIds (l : List OperatorFields) (s : BuildState) : Prop :=
  s.pa.oa.count = (new_operators l).length ∧
    ∀ i d, (new_operators l).get? i = some d → s.operator_id d.ref = i

/-- Two events: a carrier (node 1) with a frequency modulator (node 2); then an
update of the carrier (node 3, `on_prev` node 1) next to a new carrier (node 4). -/
def sample_parse_update : ParseResult :=
  { events :=
      [sample_event 100 0 1 none
          [.mk (sample_fields 1 200 0 none 0 16) [sample_op 2 100 0 none 0] [] []]
          [sample_op 1 200 0 none 16],
        sample_event 101 50 1 none
          [sample_op 3 500 50 (some 1) 0, sample_op 4 300 50 none 0]
          [sample_op 4 300 50 none 0]],
    name := "update", sopt_changed := 0, operator_id := fun _ => 0, voice_id := fun _ => 0 }

/-- A parse event whose `voice_params` is 2, without the bit of
`sampleFlags.P_GRAPH`, with one node in its carrier list. -/
def sample_pan_event : ParseEventData :=
  sample_event 103 0 2 none [] [sample_op 4 100 0 none 0]

/-- The program built from `sample_parse_update`. -/
def sample_program_update : Program :=
  { events :=
      [{ wait_ms := 0, params := 0, voice_id := 0, voice := none,
         operator := some (sample_operator_data 1 100 none) },
       { wait_ms := 0, params := 17, voice_id := 0, voice := some (sample_voice_data [0]),
         operator := some (sample_operator_data 0 200
           (some { fmodc := 1, pmodc := 0, amodc := 0, adjcs := [1] })) },
       { wait_ms := 50, params := 0, voice_id := 1, voice := none,
         operator := some (sample_operator_data 0 500 none) },
       { wait_ms := 0, params := 1, voice_id := 1, voice := some (sample_voice_data [2]),
         operator := some (sample_operator_data 2 300 none) }],
    event_count := 4, operator_count := 3, voice_count := 2, flags := 1, name := "update" }

/-- A build state in which the current event is the only event of the list:
the state of `program_convert_enode` before the voice data are written. -/
def sample_build_state : BuildState :=
  { pa := { program_alloc_init with ev_list := [new_event 0], event := some 0 },
    operator_id := fun _ => 7, voice_id := fun _ => 0 }

/-! # Theorems -/

mutual
theorem follow_onode_inv {k : Flags} {Inv : Visits → BuildState → Prop}
    {Q : OperatorFields → Nat → Visits → BuildState → Prop} (h : FollowInv k Inv Q) :
    ∀ (op : ParseOperatorData) (t : Visits) (s s1 : BuildState), Inv t s →
      program_follow_onode k s op = some s1 →
      Inv (visit_onode k t op) s1 ∧ ∀ d0 j, Q d0 j t s → Q d0 j (visit_onode k t op) s1
  | .mk d fmods pmods amods, t, s, s1, hi, hs => by
    rw [program_follow_onode] at hs
    rw [visit_onode]
    by_cases hm : d.od_flags &&& k.PSOD_MULTIPLE_OPERATORS ≠ 0
    · rw [if_pos hm] at hs ⊢
      cases hs
      exact ⟨hi, fun _ _ hq => hq⟩
    · rw [if_neg hm] at hs ⊢
      cases ha : operator_alloc_inc s.pa.oa s.operator_id d with
      | none => rw [ha] at hs; cases hs
      | some r =>
        obtain ⟨oa, ids, id⟩ := r
        rw [ha] at hs
        simp only at hs
        cases h2 : program_follow_onodes k d.fmods_copy_count (s.set_operators oa ids) fmods with
        | none => rw [h2] at hs; cases hs
        | some s2 =>
          rw [h2] at hs
          simp only at hs
          cases h3 : program_follow_onodes k d.pmods_copy_count s2 pmods with
          | none => rw [h3] at hs; cases hs
          | some s3 =>
            rw [h3] at hs
            simp only at hs
            cases h4 : program_follow_onodes k d.amods_copy_count s3 amods with
            | none => rw [h4] at hs; cases hs
            | some s4 =>
              rw [h4] at hs
              simp only at hs
              have a1 := h.alloc t s d oa ids id hi ha
              have b2 := follow_onodes_inv h fmods d.fmods_copy_count _ _ _ a1.1 h2
              have b3 := follow_onodes_inv h pmods d.pmods_copy_count _ _ _ b2.1 h3
              have b4 := follow_onodes_inv h amods d.amods_copy_count _ _ _ b3.1 h4
              have q4 := b4.2 _ _ (b3.2 _ _ (b2.2 _ _ a1.2))
              refine ⟨h.finish _ _ _ _ _ b4.1 q4 hs, ?_⟩
              intro d0 j hq
              have c1 := h.alloc_keep t s d oa ids id d0 j hi hq ha
              have c4 := b4.2 _ _ (b3.2 _ _ (b2.2 _ _ c1))
              exact h.finish_keep _ _ _ _ _ d0 j b4.1 q4 c4 hs
theorem follow_onodes_inv {k : Flags} {Inv : Visits → BuildState → Prop}
    {Q : OperatorFields → Nat → Visits → BuildState → Prop} (h : FollowInv k Inv Q) :
    ∀ (ops : List ParseOperatorData) (c : Nat) (t : Visits) (s s1 : BuildState), Inv t s →
      program_follow_onodes k c s ops = some s1 →
      Inv (visit_onodes k c t ops) s1 ∧ ∀ d0 j, Q d0 j t s → Q d0 j (visit_onodes k c t ops) s1
  | [], c, t, s, s1, hi, hs => by
    rw [program_follow_onodes] at hs
    rw [visit_onodes]
    cases hs
    exact ⟨hi, fun _ _ hq => hq⟩
  | op :: ops, 0, t, s, s1, hi, hs => by
    rw [program_follow_onodes] at hs
    rw [visit_onodes]
    cases h1 : program_follow_onode k s op with
    | none => rw [h1] at hs; cases hs
    | some s2 =>
      rw [h1] at hs
      simp only at hs
      have a := follow_onode_inv h op t s s2 hi h1
      have b := follow_onodes_inv h ops 0 _ _ _ a.1 hs
      exact ⟨b.1, fun d0 j hq => b.2 _ _ (a.2 _ _ hq)⟩
  | op :: ops, n + 1, t, s, s1, hi, hs => by
    rw [program_follow_onodes] at hs
    rw [visit_onodes]
    exact follow_onodes_inv h ops n t s s1 hi hs
end

/-! ## The allocation tables -/

theorem voice_wait_loop_length (w : Int) :
    ∀ (n : Nat) (l : List VoiceAllocData), (voice_wait_loop w n l).length = l.length
  | 0, l => by simp [voice_wait_loop]
  | _ + 1, [] => by simp [voice_wait_loop]
  | n + 1, x :: xs => by simp [voice_wait_loop, voice_wait_loop_length w n xs]

theorem operator_wait_loop_length (w : Int) :
    ∀ (n : Nat) (l : List OperatorAllocData), (operator_wait_loop w n l).length = l.length
  | 0, l => by simp [operator_wait_loop]
  | _ + 1, [] => by simp [operator_wait_loop]
  | n + 1, x :: xs => by simp [operator_wait_loop, operator_wait_loop_length w n xs]

theorem operator_alloc_grow_count (oa : OperatorAlloc) :
    (operator_alloc_grow oa).count = oa.count + 1 := by
  unfold operator_alloc_grow
  split <;> rfl

theorem operator_alloc_grow_wf (oa : OperatorAlloc) (h : oa.WF) : (operator_alloc_grow oa).WF := by
  obtain ⟨h1, h2, h3⟩ := h
  unfold operator_alloc_grow
  split
  · refine ⟨?_, ?_, ?_⟩ <;> simp <;> omega
  · refine ⟨?_, ?_, ?_⟩ <;> simp <;> omega

theorem operator_alloc_grow_length (oa : OperatorAlloc) :
    oa.data.length ≤ (operator_alloc_grow oa).data.length := by
  unfold operator_alloc_grow
  split <;> simp

/-- What `operator_alloc_inc` returns and does to the table, in one statement. -/
theorem operator_alloc_inc_spec {oa oa1 : OperatorAlloc} {ids ids1 : Nat → Nat}
    {d : OperatorFields} {id : Nat}
    (h : operator_alloc_inc oa ids d = some (oa1, ids1, id)) :
    ids1 = Function.update ids d.ref id ∧
    id < oa1.data.length ∧
    oa.data.length ≤ oa1.data.length ∧
    (∀ pop, d.on_prev = some pop → id = ids pop ∧ oa1.count = oa.count) ∧
    (d.on_prev = none → id = oa.count ∧ oa1.count = oa.count + 1) ∧
    (oa.WF → oa1.WF) := by
  unfold operator_alloc_inc at h
  cases hp : d.on_prev with
  | some pop =>
    simp only [hp] at h
    split at h
    · cases h
    · rename_i ad hget
      simp only [Option.some.injEq, Prod.mk.injEq] at h
      obtain ⟨h1, h2, h3⟩ := h
      subst h1 h2 h3
      have hlt := (List.get?_eq_some.mp hget).1
      simp only [operator_wait_loop_length] at hlt
      refine ⟨rfl, ?_, ?_, ?_, ?_, ?_⟩
      · simpa [operator_wait_loop_length] using hlt
      · simp [operator_wait_loop_length]
      · intro p hp1; cases hp1; exact ⟨rfl, rfl⟩
      · intro hn; cases hn
      · intro hw
        obtain ⟨a, b, c⟩ := hw
        exact ⟨by simp [operator_wait_loop_length, a], b, c⟩
  | none =>
    simp only [hp, if_true] at h
    split at h
    · cases h
    · rename_i ad hget
      simp only [Option.some.injEq, Prod.mk.injEq] at h
      obtain ⟨h1, h2, h3⟩ := h
      subst h1 h2 h3
      have hlt := (List.get?_eq_some.mp hget).1
      have hgl := operator_alloc_grow_length
        { oa with data := operator_wait_loop d.event_wait_ms oa.count oa.data }
      simp only [operator_wait_loop_length] at hgl
      refine ⟨rfl, ?_, ?_, ?_, ?_, ?_⟩
      · simpa using hlt
      · simpa using hgl
      · intro p hp1; cases hp1
      · intro _
        exact ⟨rfl, by simp [operator_alloc_grow_count]⟩
      · intro hw
        have hw1 : OperatorAlloc.WF
            { oa with data := operator_wait_loop d.event_wait_ms oa.count oa.data } := by
          obtain ⟨a, b, c⟩ := hw
          exact ⟨by simp [operator_wait_loop_length, a], b, c⟩
        obtain ⟨a, b, c⟩ := operator_alloc_grow_wf _ hw1
        exact ⟨by simp [a], b, c⟩

/-! ## What one conversion writes -/

theorem program_convert_onode_spec {k : Flags} {s s1 : BuildState} {op : ParseOperatorData}
    {id : Nat} (h : program_convert_onode k s op id = some s1) :
    ∃ ad out out_ev, s.pa.oa.data.get? id = some ad ∧ ad.out = some out ∧
      s.pa.ev_list.get? out = some out_ev ∧
      s1 = { s with pa := { s.pa with
        ev_list := s.pa.ev_list.set out (converted_event k s.operator_id out_ev op id) } } := by
  unfold program_convert_onode at h
  split at h
  · cases h
  · rename_i ad had
    split at h
    · cases h
    · rename_i out hout
      split at h
      · cases h
      · rename_i out_ev hev
        refine ⟨ad, out, out_ev, had, hout, hev, ?_⟩
        by_cases hf : op.d.operator_params &&& k.P_ADJCS ≠ 0
        · simp only [hf, if_true, ne_eq, not_false_eq_true] at h
          unfold build_adjcs at h
          have hf0 : ¬ (op.d.operator_params &&& k.P_ADJCS = 0) := hf
          simp only [hf0, if_false] at h
          by_cases hz : op.fmods.length + op.pmods.length + op.amods.length = 0
          · simp only [hz, if_true] at h
            cases h
            simp [converted_event, converted_operator, adjcs_of, hz]
          · simp only [hz, if_false] at h
            cases h
            simp [converted_event, converted_operator, adjcs_of, hz, hf, listed_refs, Function.comp_def]
        · simp only [hf, if_false] at h
          cases h
          simp [converted_event, converted_operator, adjcs_of, hf]

/-- The two ways `program_follow_finish` ends: the data of `op` goes to the
current event when that has no operator data yet, and to a new event with the
same voice id otherwise. -/
theorem program_follow_finish_spec {k : Flags} {s s1 : BuildState} {op : ParseOperatorData}
    {id : Nat} (h : program_follow_finish k s op id = some s1) :
    ∃ cur cur_ev, s.pa.event = some cur ∧ s.pa.ev_list.get? cur = some cur_ev ∧
      id < s.pa.oa.data.length ∧
      s1.operator_id = s.operator_id ∧ s1.voice_id = s.voice_id ∧ s1.pa.va = s.pa.va ∧
      s1.pa.oa.count = s.pa.oa.count ∧ s1.pa.oa.alloc = s.pa.oa.alloc ∧
      s1.pa.oa.data.length = s.pa.oa.data.length ∧
      ((cur_ev.operator = none ∧ s1.pa.event = some cur ∧
          s1.pa.ev_list = s.pa.ev_list.set cur (converted_event k s.operator_id cur_ev op id)) ∨
       (cur_ev.operator ≠ none ∧ s1.pa.event = some s.pa.ev_list.length ∧
          s1.pa.ev_list = s.pa.ev_list ++
            [converted_event k s.operator_id (new_event cur_ev.voice_id) op id])) := by
  unfold program_follow_finish at h
  split at h
  · cases h
  · rename_i cur hcur
    split at h
    · cases h
    · rename_i cur_ev hcev
      refine ⟨cur, cur_ev, hcur, hcev, ?_⟩
      by_cases hop : cur_ev.operator.isSome = true
      · simp only [hop, if_true, program_add_event] at h
        split at h
        · cases h
        · rename_i ad had
          obtain ⟨ad1, out, out_ev, h1, h2, h3, h4⟩ := program_convert_onode_spec h
          simp only at h1 h2 h3 h4
          have hlt := (List.get?_eq_some.mp had).1
          rw [List.get?_eq_getElem?, List.getElem?_set_self hlt] at h1
          cases h1
          simp only [Option.some.injEq] at h2
          subst h2
          rw [List.get?_eq_getElem?, List.getElem?_append_right (Nat.le_refl _)] at h3
          simp only [Nat.sub_self, List.getElem?_cons_zero, Option.some.injEq] at h3
          subst h3
          subst h4
          refine ⟨hlt, rfl, rfl, rfl, rfl, rfl, by simp, Or.inr ⟨?_, rfl, ?_⟩⟩
          · intro hn; rw [hn] at hop; cases hop
          · simp
      · simp only [hop, Bool.false_eq_true, if_false] at h
        split at h
        · cases h
        · rename_i ad had
          obtain ⟨ad1, out, out_ev, h1, h2, h3, h4⟩ := program_convert_onode_spec h
          simp only at h1 h2 h3 h4
          have hlt := (List.get?_eq_some.mp had).1
          rw [List.get?_eq_getElem?, List.getElem?_set_self hlt] at h1
          cases h1
          simp only at h2
          rw [hcur] at h2
          cases h2
          rw [hcev] at h3
          cases h3
          subst h4
          refine ⟨hlt, rfl, rfl, rfl, rfl, rfl, by simp, Or.inl ⟨?_, hcur, rfl⟩⟩
          cases ho : cur_ev.operator with
          | none => rfl
          | some x => rw [ho] at hop; simp at hop

/-! ## Voice allocation -/

theorem voice_wait_loop_get (w : Int) :
    ∀ (n : Nat) (l : List VoiceAllocData) (i : Nat),
      (voice_wait_loop w n l).get? i =
        (l.get? i).map (fun x =>
          if i < n then { x with duration_ms := residual_after_wait x.duration_ms w } else x)
  | 0, l, i => by simp [voice_wait_loop]
  | _ + 1, [], i => by simp [voice_wait_loop]
  | n + 1, x :: xs, 0 => by simp [voice_wait_loop]
  | n + 1, x :: xs, i + 1 => by
    simp only [voice_wait_loop, List.get?_cons_succ, voice_wait_loop_get w n xs i,
      Nat.add_lt_add_iff_right]

/-- The search loop on a table whose first `n` entries have been through the
wait loop: it stops `m` steps on, at the first free entry, or runs out (`m = n`). -/
theorem voice_search_spec (k : Flags) (w : Int) :
    ∀ (l : List VoiceAllocData) (n i : Nat), n ≤ l.length →
      (∀ j x, j < n → l.get? j = some x → x.last ≠ none) →
      ∃ m, voice_search k n i (voice_wait_loop w n l) = some (i + m) ∧ m ≤ n ∧
        (∀ u x, u < m → l.get? u = some x → ¬ voice_is_free k w x) ∧
        (m < n → ∃ x, l.get? m = some x ∧ voice_is_free k w x)
  | l, 0, i, _, _ => ⟨0, by simp [voice_search], Nat.le_refl _, by simp, by simp⟩
  | [], n + 1, i, hlen, _ => by simp at hlen
  | x :: xs, n + 1, i, hlen, hlast => by
    have hx := hlast 0 x (Nat.succ_pos n) rfl
    cases hl : x.last with
    | none => exact absurd hl hx
    | some fl =>
      simp only [voice_wait_loop, voice_search, hl]
      by_cases hfree : fl &&& k.PSED_VOICE_LATER_USED = 0 ∧
          residual_after_wait x.duration_ms w = 0
      · refine ⟨0, by simp [hfree], Nat.zero_le _, by simp, ?_⟩
        intro _
        exact ⟨x, rfl, ⟨fl, hl, hfree.1⟩, hfree.2⟩
      · have hlen1 : n ≤ xs.length := by simpa using hlen
        have hlast1 : ∀ j y, j < n → xs.get? j = some y → y.last ≠ none := by
          intro j y hj hy
          exact hlast (j + 1) y (Nat.succ_lt_succ hj) (by simpa using hy)
        obtain ⟨m, h1, h2, h3, h4⟩ := voice_search_spec k w xs n (i + 1) hlen1 hlast1
        refine ⟨m + 1, ?_, Nat.succ_le_succ h2, ?_, ?_⟩
        · simp only [hfree, if_false]
          rw [h1]
          congr 1
          omega
        · intro u y hu hy
          cases u with
          | zero =>
            simp only [List.get?_cons_zero, Option.some.injEq] at hy
            subst hy
            rintro ⟨⟨fl1, hfl1, hz⟩, hr⟩
            rw [hl] at hfl1
            cases hfl1
            exact hfree ⟨hz, hr⟩
          | succ u =>
            exact h3 u y (Nat.lt_of_succ_lt_succ hu) (by simpa using hy)
        · intro hm
          obtain ⟨y, hy, hf⟩ := h4 (Nat.lt_of_succ_lt_succ hm)
          exact ⟨y, by simpa using hy, hf⟩

theorem voice_alloc_grow_count (va : VoiceAlloc) : (voice_alloc_grow va).count = va.count + 1 := by
  unfold voice_alloc_grow
  split <;> rfl

theorem voice_alloc_grow_wf (va : VoiceAlloc) (h : va.WF) : (voice_alloc_grow va).WF := by
  obtain ⟨h1, h2, h3⟩ := h
  unfold voice_alloc_grow
  split
  · refine ⟨?_, ?_, ?_⟩ <;> simp <;> omega
  · refine ⟨?_, ?_, ?_⟩ <;> simp <;> omega

theorem voice_alloc_grow_get (va : VoiceAlloc) (i : Nat) (hi : i < va.data.length) :
    (voice_alloc_grow va).data.get? i = va.data.get? i := by
  unfold voice_alloc_grow
  split
  · simp [List.getElem?_append_left hi]
  · rfl

theorem voice_search_bound (k : Flags) :
    ∀ (l : List VoiceAllocData) (n i r : Nat), voice_search k n i l = some r → i ≤ r ∧ r ≤ i + n
  | l, 0, i, r, h => by
    simp only [voice_search, Option.some.injEq] at h
    omega
  | [], n + 1, i, r, h => by simp [voice_search] at h
  | x :: xs, n + 1, i, r, h => by
    simp only [voice_search] at h
    split at h
    · cases h
    · split at h
      · cases h; omega
      · have := voice_search_bound k xs n (i + 1) r h
        omega

/-- What `voice_alloc_inc` returns and does to the table, when it returns. -/
theorem voice_alloc_inc_spec {k : Flags} {va va1 : VoiceAlloc} {vids vids1 : Nat → Nat}
    {e : ParseEventData} {v : Nat}
    (h : voice_alloc_inc k va vids e = some (va1, vids1, v)) :
    vids1 = Function.update vids e.ref v ∧
    v < va1.data.length ∧
    (∀ prev, e.voice_prev = some prev → v = vids prev ∧ va1.count = va.count) ∧
    (e.voice_prev = none →
      (v < va.count ∧ va1.count = va.count) ∨ (v = va.count ∧ va1.count = va.count + 1)) ∧
    (va.WF → va1.WF) ∧
    (∃ ad, va1.data.get? v = some ad ∧ ad.last = some e.ed_flags ∧
      (e.voice_params &&& k.P_GRAPH ≠ 0 → ad.duration_ms = voice_duration e)) := by
  unfold voice_alloc_inc at h
  simp only at h
  split at h
  · cases h
  · rename_i va2 v2 hfound
    split at h
    · cases h
    · rename_i ad hget
      simp only [Option.some.injEq, Prod.mk.injEq] at h
      obtain ⟨h1, h2, h3⟩ := h
      subst h1 h2 h3
      have hlt := (List.get?_eq_some.mp hget).1
      have hentry : ∃ ad1, (va2.data.set v2
          (if e.voice_params &&& k.P_GRAPH ≠ 0 then
            { last := some e.ed_flags, duration_ms := voice_duration e }
           else { last := some e.ed_flags, duration_ms := ad.duration_ms })).get? v2 = some ad1 ∧
          ad1.last = some e.ed_flags ∧
          (e.voice_params &&& k.P_GRAPH ≠ 0 → ad1.duration_ms = voice_duration e) := by
        rw [List.get?_eq_getElem?, List.getElem?_set_self hlt]
        refine ⟨_, rfl, ?_, ?_⟩
        · split <;> rfl
        · intro hg; simp [hg]
      have hwf2 : ∀ x : VoiceAllocData, va2.WF →
          VoiceAlloc.WF { va2 with data := va2.data.set v2 x } := by
        rintro x ⟨a, b, c⟩
        exact ⟨by simp [a], b, c⟩
      have hwf1 : va.WF → VoiceAlloc.WF
          { va with data := voice_wait_loop e.wait_ms va.count va.data } := by
        rintro ⟨a, b, c⟩
        exact ⟨by simp [voice_wait_loop_length, a], b, c⟩
      cases hp : e.voice_prev with
      | some prev =>
        simp only [hp, Option.some.injEq, Prod.mk.injEq] at hfound
        obtain ⟨hf1, hf2⟩ := hfound
        subst hf1 hf2
        refine ⟨rfl, by simpa using hlt, ?_, ?_, ?_, hentry⟩
        · intro p hp1; cases hp1; exact ⟨rfl, rfl⟩
        · intro hn; cases hn
        · intro hw; exact hwf2 _ (hwf1 hw)
      | none =>
        simp only [hp] at hfound
        split at hfound
        · cases hfound
        · rename_i voice hsearch
          have hb := voice_search_bound k _ _ _ _ hsearch
          by_cases hv : voice = va.count
          · simp only [hv, if_true, Option.some.injEq, Prod.mk.injEq] at hfound
            obtain ⟨hf1, hf2⟩ := hfound
            subst hf1 hf2
            refine ⟨rfl, by simpa using hlt, ?_, ?_, ?_, hentry⟩
            · intro p hp1; cases hp1
            · intro _
              exact Or.inr ⟨rfl, by simp [voice_alloc_grow_count]⟩
            · intro hw
              exact hwf2 _ (voice_alloc_grow_wf _ (hwf1 hw))
          · simp only [hv, if_false, Option.some.injEq, Prod.mk.injEq] at hfound
            obtain ⟨hf1, hf2⟩ := hfound
            subst hf1 hf2
            refine ⟨rfl, by simpa using hlt, ?_, ?_, ?_, hentry⟩
            · intro p hp1; cases hp1
            · intro _
              refine Or.inl ⟨?_, rfl⟩
              simp only [Nat.zero_add] at hb
              omega
            · intro hw; exact hwf2 _ (hwf1 hw)

/-- C5: `voice_alloc_inc`, on a table in use (`count` entries with a last event)
and an event whose `voice_prev`, if any, has a voice id in the table, returns:
the voice id of `voice_prev` when there is one, the count unchanged; otherwise
the smallest index below `count` whose entry is free (last event not flagged
`VOICE_LATER_USED`, duration 0 after this event's wait), the count unchanged;
otherwise the old count, the count then being one more. -/
theorem voice_alloc_inc_returns (k : Flags) (va : VoiceAlloc) (vids : Nat → Nat)
    (e : ParseEventData) (hwf : va.WF)
    (hlast : ∀ j x, j < va.count → va.data.get? j = some x → x.last ≠ none)
    (hprev : ∀ prev, e.voice_prev = some prev → vids prev < va.count) :
    ∃ va1 vids1 v, voice_alloc_inc k va vids e = some (va1, vids1, v) ∧
      (∀ prev, e.voice_prev = some prev → v = vids prev ∧ va1.count = va.count) ∧
      (e.voice_prev = none →
        v ≤ va.count ∧
        (∀ u x, u < v → va.data.get? u = some x → ¬ voice_is_free k e.wait_ms x) ∧
        (v < va.count →
          (∃ x, va.data.get? v = some x ∧ voice_is_free k e.wait_ms x) ∧ va1.count = va.count) ∧
        (v = va.count → va1.count = va.count + 1)) := by
  obtain ⟨w1, w2, w3⟩ := hwf
  have key : ∀ (va2 : VoiceAlloc) (v2 : Nat), v2 < va2.data.length →
      ∀ found : Option (VoiceAlloc × Nat), found = some (va2, v2) →
      ∃ va1 vids1, (match found with
        | none => none
        | some (va2, voice) =>
          match va2.data.get? voice with
          | none => none
          | some ad =>
            let ad1 : VoiceAllocData := { ad with last := some e.ed_flags }
            let ad2 : VoiceAllocData :=
              if e.voice_params &&& k.P_GRAPH ≠ 0 then { ad1 with duration_ms := voice_duration e }
              else ad1
            some ({ va2 with data := va2.data.set voice ad2 },
              Function.update vids e.ref voice, voice)) = some (va1, vids1, v2) ∧
        va1.count = va2.count := by
    intro va2 v2 hlt found hf
    subst hf
    simp only
    rw [List.get?_eq_getElem?, List.getElem?_eq_getElem hlt]
    exact ⟨_, _, rfl, rfl⟩
  unfold voice_alloc_inc
  simp only
  cases hp : e.voice_prev with
  | some prev =>
    have hv := hprev prev hp
    obtain ⟨va1, vids1, h1, h2⟩ := key
      { va with data := voice_wait_loop e.wait_ms va.count va.data } (vids prev)
      (by simp only [voice_wait_loop_length]; omega) _ rfl
    refine ⟨va1, vids1, vids prev, h1, ?_, ?_⟩
    · intro p hp1; cases hp1; exact ⟨rfl, h2⟩
    · intro hn; cases hn
  | none =>
    obtain ⟨m, hs, hm, hnot, hfree⟩ :=
      voice_search_spec k e.wait_ms va.data va.count 0 (by omega) hlast
    simp only [hs, Nat.zero_add]
    by_cases hv : m = va.count
    · simp only [hv, if_true]
      have hwf1 : VoiceAlloc.WF
          { va with data := voice_wait_loop e.wait_ms va.count va.data } :=
        ⟨by simp [voice_wait_loop_length, w1], w2, w3⟩
      obtain ⟨g1, g2, g3⟩ := voice_alloc_grow_wf _ hwf1
      rw [voice_alloc_grow_count] at g2
      obtain ⟨va1, vids1, h1, h2⟩ := key (voice_alloc_grow
        { va with data := voice_wait_loop e.wait_ms va.count va.data }) va.count
        (by simp only at g2; omega) _ rfl
      refine ⟨va1, vids1, va.count, h1, ?_, ?_⟩
      · intro p hp1; cases hp1
      · intro _
        refine ⟨Nat.le_refl _, ?_, ?_, ?_⟩
        · intro u x hu hx; exact hnot u x (by omega) hx
        · intro hlt; omega
        · intro _; rw [h2, voice_alloc_grow_count]
    · simp only [hv, if_false]
      obtain ⟨va1, vids1, h1, h2⟩ := key
        { va with data := voice_wait_loop e.wait_ms va.count va.data } m
        (by simp only [voice_wait_loop_length]; omega) _ rfl
      refine ⟨va1, vids1, m, h1, ?_, ?_⟩
      · intro p hp1; cases hp1
      · intro _
        refine ⟨hm, hnot, ?_, ?_⟩
        · intro hlt; exact ⟨hfree hlt, h2⟩
        · intro he; exact absurd he hv

/-- Witness for C5 on the second event of `W sin f 300 t 200 | W sin f 400 t 300`. -/
theorem voice_alloc_inc_returns_witness :
    ∃ va1 vids1 v,
      voice_alloc_inc sampleFlags sample_va (fun _ => 0) sample_second_event
        = some (va1, vids1, v) ∧
      (∀ prev, sample_second_event.voice_prev = some prev →
        v = (fun _ => 0) prev ∧ va1.count = sample_va.count) ∧
      (sample_second_event.voice_prev = none →
        v ≤ sample_va.count ∧
        (∀ u x, u < v → sample_va.data.get? u = some x →
          ¬ voice_is_free sampleFlags sample_second_event.wait_ms x) ∧
        (v < sample_va.count →
          (∃ x, sample_va.data.get? v = some x ∧
            voice_is_free sampleFlags sample_second_event.wait_ms x) ∧
          va1.count = sample_va.count) ∧
        (v = sample_va.count → va1.count = sample_va.count + 1)) :=
  voice_alloc_inc_returns sampleFlags sample_va (fun _ => 0) sample_second_event
    ⟨rfl, by decide, by decide⟩
    (by
      intro j x hj hx
      have hj0 : j = 0 := by simp [sample_va] at hj; omega
      subst hj0
      simp [sample_va] at hx
      subst hx
      simp)
    (by intro prev hp; simp [sample_second_event, sample_event] at hp)

/-- The sample run of C5: the second event reuses voice id 0 and the count stays 1. -/
theorem voice_alloc_inc_reuses_voice :
    (voice_alloc_inc sampleFlags sample_va (fun _ => 0) sample_second_event).map
      (fun r => (r.2.2, r.1.count)) = some (0, 1) := by
  decide!


theorem sample_va_reached :
    (voice_alloc_inc sampleFlags voice_alloc_init (fun _ => 0) sample_first_event).map
      (fun r => (r.1, r.2.2)) = some (sample_va, 0) := by
  decide!

/-! ## Durations -/

theorem toI32_of_lt {n : Nat} (h : n < 2147483648) : toI32 n = (n : Int) := by
  unfold toI32
  have h1 : n % 4294967296 = n := Nat.mod_eq_of_lt (by omega)
  rw [h1, if_pos h]

theorem toU32_of_nonneg {i : Int} (h0 : 0 ≤ i) (h1 : i < 4294967296) :
    ((toU32 i : Nat) : Int) = i := by
  unfold toU32
  rw [Int.emod_eq_of_lt h0 h1]
  exact Int.toNat_of_nonneg h0

/-- The wait loop on a residual that fits `int32_t`: subtraction clamped at 0. -/
theorem residual_after_wait_eq {d : Nat} {w : Int} (hd : d < 2147483648) (hw : 0 ≤ w) :
    ((residual_after_wait d w : Nat) : Int) = max 0 ((d : Int) - w) := by
  unfold residual_after_wait
  rw [toI32_of_lt hd]
  by_cases h : (d : Int) < w
  · rw [if_pos h]
    have : (d : Int) - w ≤ 0 := by omega
    simp [max_eq_left this]
  · rw [if_neg h]
    have h0 : 0 ≤ (d : Int) - w := by omega
    rw [toU32_of_nonneg h0 (by omega), max_eq_right h0]

/-- A residual of 2^31 or more reads as negative and is cleared by any wait
that is not negative. -/
theorem residual_after_wait_large {d : Nat} {w : Int} (hd : 2147483648 ≤ d)
    (hd1 : d < 4294967296) (hw : 0 ≤ w) : residual_after_wait d w = 0 := by
  have h1 : d % 4294967296 = d := Nat.mod_eq_of_lt hd1
  have h2 : toI32 d = (d : Int) - 4294967296 := by
    unfold toI32
    rw [h1, if_neg (by omega)]
  unfold residual_after_wait
  rw [h2, if_pos (by omega)]

/-- C7, counterexample: with a residual of 2^31 ms and a wait of 0 ms the loop
at the start of `voice_alloc_inc` leaves 0, where `max(0, d - wait_ms)` is 2^31. -/
theorem voice_wait_loop_clears_large :
    (voice_wait_loop 0 sample_va_large.count sample_va_large.data).map (fun x => x.duration_ms)
        = [0] ∧
      sample_va_large.data.map (fun x => max 0 ((x.duration_ms : Int) - 0)) = [2147483648] := by
  decide

/-- C7, amended: for an event with `wait_ms ≥ 0`, the loop at the start of
`voice_alloc_inc` replaces the residual `d` of each existing voice (index below
`count`) by `max(0, d - wait_ms)`, for every residual `d` below 2^31; the rest
of the entry and the entries from `count` on are left as they are. -/
theorem voice_wait_loop_residual (w : Int) (hw : 0 ≤ w) (n : Nat) (l : List VoiceAllocData)
    (i : Nat) (x : VoiceAllocData) (hx : l.get? i = some x) :
    ∃ y, (voice_wait_loop w n l).get? i = some y ∧ y.last = x.last ∧
      (i < n → x.duration_ms < 2147483648 →
        (y.duration_ms : Int) = max 0 ((x.duration_ms : Int) - w)) ∧
      (¬ i < n → y = x) := by
  rw [voice_wait_loop_get, hx]
  by_cases hi : i < n
  · refine ⟨_, rfl, ?_, ?_, ?_⟩
    · simp [hi]
    · intro _ hd
      simp only [hi, if_true]
      exact residual_after_wait_eq hd hw
    · intro hn; exact absurd hi hn
  · refine ⟨x, by simp [hi], rfl, ?_, fun _ => rfl⟩
    intro h; exact absurd h hi

/-- Witness for the amended C7: a residual of 200 ms after a wait of 50 ms. -/
theorem voice_wait_loop_residual_witness :
    ∃ y, (voice_wait_loop 50 1 sample_va.data).get? 0 = some y ∧
      y.last = (⟨some 0, 200⟩ : VoiceAllocData).last ∧
      (0 < 1 → (⟨some 0, 200⟩ : VoiceAllocData).duration_ms < 2147483648 →
        (y.duration_ms : Int) = max 0 ((((⟨some 0, 200⟩ : VoiceAllocData).duration_ms : Nat) : Int) - 50)) ∧
      (¬ 0 < 1 → y = ⟨some 0, 200⟩) :=
  voice_wait_loop_residual 50 (by decide) 1 sample_va.data 0 ⟨some 0, 200⟩ rfl


/-- The loop of `voice_duration` computes a running maximum, for times and a
starting value that fit `int32_t`. -/
theorem voice_duration_loop_eq :
    ∀ (ops : List ParseOperatorData) (d : Nat), d < 2147483648 →
      (∀ op ∈ ops, op.d.time_ms < 2147483648) →
      ((voice_duration_loop d ops : Nat) : Int)
        = (ops.map (fun op => op.d.time_ms)).foldl max (d : Int)
  | [], d, _, _ => by simp [voice_duration_loop]
  | op :: ops, d, hd, ht => by
    have h1 : op.d.time_ms < 2147483648 := ht op (List.mem_cons_self _ _)
    have h2 : ∀ o ∈ ops, o.d.time_ms < 2147483648 := fun o ho => ht o (List.mem_cons_of_mem _ ho)
    simp only [voice_duration_loop, List.map_cons, List.foldl_cons]
    rw [toI32_of_lt hd]
    by_cases hgt : op.d.time_ms > (d : Int)
    · rw [if_pos hgt]
      have h0 : 0 ≤ op.d.time_ms := by omega
      have hu : ((toU32 op.d.time_ms : Nat) : Int) = op.d.time_ms :=
        toU32_of_nonneg h0 (by omega)
      have hlt : toU32 op.d.time_ms < 2147483648 := by omega
      rw [voice_duration_loop_eq ops _ hlt h2, hu, max_eq_right (le_of_lt hgt)]
    · rw [if_neg hgt]
      rw [voice_duration_loop_eq ops d hd h2, max_eq_left (by omega)]

/-- C6, counterexample: `sample_update_event` refers to the voice of an earlier
event and does not flag a graph change. `voice_alloc_inc` picks voice 0 and
leaves its residual at the 200 ms it had, while the event's only top-level
operator has `time_ms` 500 (which is what `voice_duration` computes). -/
theorem voice_alloc_inc_keeps_duration :
    (voice_alloc_inc sampleFlags sample_va (fun _ => 0) sample_update_event).map
        (fun r => (r.2.2, (r.1.data.get? r.2.2).map (fun x => x.duration_ms)))
        = some (0, some 200) ∧
      sample_update_event.operators.map (fun op => op.d.time_ms) = [500] ∧
      voice_duration sample_update_event = 500 := by
  decide!

/-- C6, amended: for every event whose `voice_params` carry `SGS_P_GRAPH`, after
`voice_alloc_inc` the chosen voice's residual `duration_ms` equals the maximum
`time_ms` among the event's top-level operators (0 if none is positive), as
computed by `voice_duration`. -/
theorem voice_alloc_inc_duration (k : Flags) (va va1 : VoiceAlloc) (vids vids1 : Nat → Nat)
    (e : ParseEventData) (v : Nat)
    (h : voice_alloc_inc k va vids e = some (va1, vids1, v))
    (hg : e.voice_params &&& k.P_GRAPH ≠ 0)
    (ht : ∀ op ∈ e.operators, op.d.time_ms < 2147483648) :
    ∃ ad, va1.data.get? v = some ad ∧ ad.duration_ms = voice_duration e ∧
      ((voice_duration e : Nat) : Int)
        = (e.operators.map (fun op => op.d.time_ms)).foldl max 0 := by
  obtain ⟨_, _, _, _, _, ad, h1, _, h3⟩ := voice_alloc_inc_spec h
  refine ⟨ad, h1, h3 hg, ?_⟩
  unfold voice_duration
  exact voice_duration_loop_eq e.operators 0 (by decide) ht

/-- Witness for the amended C6: the second event of the sample script. -/
theorem voice_alloc_inc_duration_witness :
    ∃ ad, ({ data := [{ last := some 0, duration_ms := 300 }], count := 1, alloc := 1 } :
        VoiceAlloc).data.get? 0 = some ad ∧
      ad.duration_ms = voice_duration sample_second_event ∧
      ((voice_duration sample_second_event : Nat) : Int)
        = (sample_second_event.operators.map (fun op => op.d.time_ms)).foldl max 0 :=
  voice_alloc_inc_duration sampleFlags sample_va
    { data := [{ last := some 0, duration_ms := 300 }], count := 1, alloc := 1 }
    (fun _ => 0) (Function.update (fun _ => 0) 101 0) sample_second_event 0
    (by rfl) (by decide)
    (by
      intro op hop
      simp [sample_second_event, sample_event] at hop
      subst hop
      decide)


/-! ## Operator allocation -/

theorem operator_alloc_inc_on_prev_some (oa : OperatorAlloc) (ids : Nat → Nat)
    (d : OperatorFields) (pop : Nat) (hp : d.on_prev = some pop)
    (hlt : ids pop < oa.data.length) :
    ∃ oa1 ids1, operator_alloc_inc oa ids d = some (oa1, ids1, ids pop) := by
  unfold operator_alloc_inc
  simp only [hp]
  have hl : ids pop < (operator_wait_loop d.event_wait_ms oa.count oa.data).length := by
    rw [operator_wait_loop_length]; exact hlt
  rw [List.get?_eq_getElem?, List.getElem?_eq_getElem hl]
  exact ⟨_, _, rfl⟩

theorem operator_alloc_inc_appends_some (oa : OperatorAlloc) (ids : Nat → Nat)
    (d : OperatorFields) (hp : d.on_prev = none) (hwf : oa.WF) :
    ∃ oa1 ids1, operator_alloc_inc oa ids d = some (oa1, ids1, oa.count) := by
  unfold operator_alloc_inc
  simp only [hp, if_true]
  have hwf1 : OperatorAlloc.WF
      { oa with data := operator_wait_loop d.event_wait_ms oa.count oa.data } := by
    obtain ⟨a, b, c⟩ := hwf
    exact ⟨by simp [operator_wait_loop_length, a], b, c⟩
  obtain ⟨g1, g2, g3⟩ := operator_alloc_grow_wf _ hwf1
  rw [operator_alloc_grow_count] at g2
  have hl : oa.count < (operator_alloc_grow
      { oa with data := operator_wait_loop d.event_wait_ms oa.count oa.data }).data.length := by
    simp only at g2; omega
  rw [List.get?_eq_getElem?, List.getElem?_eq_getElem hl]
  exact ⟨_, _, rfl⟩

/-- C8: `operator_alloc_inc`, for a node whose `on_prev` is set, returns the
`operator_id` of `on_prev`, stores it in the node's `operator_id` and leaves the
operator count unchanged; and it does return when that id lies in the table. -/
theorem operator_alloc_inc_on_prev (oa : OperatorAlloc) (ids : Nat → Nat)
    (d : OperatorFields) (pop : Nat) (hp : d.on_prev = some pop) :
    (∀ oa1 ids1 id, operator_alloc_inc oa ids d = some (oa1, ids1, id) →
      id = ids pop ∧ ids1 d.ref = ids pop ∧ oa1.count = oa.count) ∧
    (ids pop < oa.data.length →
      ∃ oa1 ids1, operator_alloc_inc oa ids d = some (oa1, ids1, ids pop)) := by
  constructor
  · intro oa1 ids1 id h
    obtain ⟨h1, _, _, h4, _, _⟩ := operator_alloc_inc_spec h
    obtain ⟨h5, h6⟩ := h4 pop hp
    refine ⟨h5, ?_, h6⟩
    rw [h1, Function.update_same, h5]
  · intro hlt
    exact operator_alloc_inc_on_prev_some oa ids d pop hp hlt

/-- Witness for C8: a node that continues the node holding id 0. -/
theorem operator_alloc_inc_on_prev_witness :
    (∀ oa1 ids1 id, operator_alloc_inc sample_oa (fun _ => 0)
        (sample_fields 3 500 0 (some 1) 0 0) = some (oa1, ids1, id) →
      id = (fun _ => 0) 1 ∧ ids1 (sample_fields 3 500 0 (some 1) 0 0).ref = (fun _ => 0) 1 ∧
        oa1.count = sample_oa.count) ∧
    ((fun _ => 0) 1 < sample_oa.data.length →
      ∃ oa1 ids1, operator_alloc_inc sample_oa (fun _ => 0)
        (sample_fields 3 500 0 (some 1) 0 0) = some (oa1, ids1, (fun _ => 0) 1)) :=
  operator_alloc_inc_on_prev sample_oa (fun _ => 0) (sample_fields 3 500 0 (some 1) 0 0) 1 rfl

/-- The sample run of C8: id 0 is returned and the count stays 1. -/
theorem operator_alloc_inc_on_prev_run :
    (operator_alloc_inc sample_oa (fun _ => 0) (sample_fields 3 500 0 (some 1) 0 0)).map
      (fun r => (r.2.2, r.2.1 3, r.1.count)) = some (0, 0, 1) := by
  decide!

/-- C9, counterexample: after a first node (no flags set, so not used later) was
given id 0, slot 0 has duration 0 and is free; a second node without `on_prev`
is nevertheless given the new id 1 and the count becomes 2. -/
theorem operator_alloc_inc_does_not_reuse :
    (operator_alloc_inc operator_alloc_init (fun _ => 0) (sample_fields 1 200 0 none 0 0)).bind
      (fun r =>
        (operator_alloc_inc r.1 r.2.1 (sample_fields 2 300 200 none 0 0)).map
          (fun r2 => (r.2.2, r.1.data.map (fun x => x.duration_ms), r.1.count, r2.2.2,
            r2.1.count)))
      = some (0, [0], 1, 1, 2) := by
  decide!

/-- C9, amended: `operator_alloc_inc`, for a node without `on_prev`, never
reuses a slot: it returns the old operator count as the id, stores it in the
node's `operator_id` and increments the operator count by one; and it does
return on a table as the builder keeps it. -/
theorem operator_alloc_inc_appends (oa : OperatorAlloc) (ids : Nat → Nat)
    (d : OperatorFields) (hp : d.on_prev = none) :
    (∀ oa1 ids1 id, operator_alloc_inc oa ids d = some (oa1, ids1, id) →
      id = oa.count ∧ ids1 d.ref = oa.count ∧ oa1.count = oa.count + 1) ∧
    (oa.WF → ∃ oa1 ids1, operator_alloc_inc oa ids d = some (oa1, ids1, oa.count)) := by
  constructor
  · intro oa1 ids1 id h
    obtain ⟨h1, _, _, _, h5, _⟩ := operator_alloc_inc_spec h
    obtain ⟨h6, h7⟩ := h5 hp
    refine ⟨h6, ?_, h7⟩
    rw [h1, Function.update_same, h6]
  · intro hwf
    exact operator_alloc_inc_appends_some oa ids d hp hwf

/-- Witness for the amended C9: a second node on the table holding one id. -/
theorem operator_alloc_inc_appends_witness :
    (∀ oa1 ids1 id, operator_alloc_inc sample_oa (fun _ => 0)
        (sample_fields 2 300 200 none 0 0) = some (oa1, ids1, id) →
      id = sample_oa.count ∧ ids1 (sample_fields 2 300 200 none 0 0).ref = sample_oa.count ∧
        oa1.count = sample_oa.count + 1) ∧
    (sample_oa.WF → ∃ oa1 ids1, operator_alloc_inc sample_oa (fun _ => 0)
        (sample_fields 2 300 200 none 0 0) = some (oa1, ids1, sample_oa.count)) :=
  operator_alloc_inc_appends sample_oa (fun _ => 0) (sample_fields 2 300 200 none 0 0) rfl


/-! ## Conversion of an event -/

theorem program_convert_start_spec {k : Flags} {s s1 : BuildState} {e : ParseEventData}
    (h : program_convert_start k s e = some s1) :
    ∃ va vids v, voice_alloc_inc k s.pa.va s.voice_id e = some (va, vids, v) ∧
      s1.pa.va = va ∧ s1.voice_id = vids ∧ s1.operator_id = s.operator_id ∧
      s1.pa.oa = s.pa.oa ∧ s1.pa.event = some s.pa.ev_list.length ∧
      s1.pa.ev_list = s.pa.ev_list ++ [{ new_event v with wait_ms := e.wait_ms }] := by
  unfold program_convert_start at h
  split at h
  · cases h
  · rename_i va vids v hv
    simp only [program_add_event] at h
    rw [List.get?_eq_getElem?, List.getElem?_append_right (Nat.le_refl _)] at h
    simp only [Nat.sub_self, List.getElem?_cons_zero, Option.some.injEq] at h
    subst h
    refine ⟨va, vids, v, hv, rfl, rfl, rfl, rfl, rfl, ?_⟩
    simp

theorem program_convert_start_some {k : Flags} {s : BuildState} {e : ParseEventData}
    {va : VoiceAlloc} {vids : Nat → Nat} {v : Nat}
    (h : voice_alloc_inc k s.pa.va s.voice_id e = some (va, vids, v)) :
    ∃ s1, program_convert_start k s e = some s1 := by
  unfold program_convert_start
  rw [h]
  simp only [program_add_event]
  rw [List.get?_eq_getElem?, List.getElem?_append_right (Nat.le_refl _)]
  simp

theorem program_convert_voice_spec {k : Flags} {s s1 : BuildState} {e : ParseEventData}
    (h : program_convert_voice k s e = some s1) :
    (e.voice_params = 0 ∧ s1 = s) ∨
    (e.voice_params ≠ 0 ∧ ∃ out out_ev, s.pa.event = some out ∧
      s.pa.ev_list.get? out = some out_ev ∧
      s1 = { s with pa := { s.pa with
        ev_list := s.pa.ev_list.set out (converted_voice k s.operator_id out_ev e) } }) := by
  unfold program_convert_voice at h
  by_cases hz : e.voice_params = 0
  · rw [if_pos hz] at h
    cases h
    exact Or.inl ⟨hz, rfl⟩
  · rw [if_neg hz] at h
    refine Or.inr ⟨hz, ?_⟩
    split at h
    · cases h
    · rename_i out hout
      split at h
      · cases h
      · rename_i out_ev hev
        refine ⟨out, out_ev, hout, hev, ?_⟩
        by_cases hg : e.voice_params &&& k.P_GRAPH ≠ 0
        · simp only [hg, if_true, ne_eq, not_false_eq_true] at h
          unfold build_graph at h
          simp only [hz, if_false, Nat.zero_and, ne_eq, not_true_eq_false] at h
          by_cases hl : e.graph.length = 0
          · simp only [hl, if_true] at h
            cases h
            simp [converted_voice, graph_of, hl]
          · simp only [hl, if_false] at h
            cases h
            simp [converted_voice, graph_of, hl, hg]
        · simp only [hg, if_false] at h
          cases h
          simp [converted_voice, graph_of, hg]

theorem convert_enodes_inv {k : Flags} {Inv : Visits → BuildState → Prop}
    {Q : OperatorFields → Nat → Visits → BuildState → Prop} (hf : FollowInv k Inv Q)
    (hc : ConvertInv k Inv) :
    ∀ (es : List ParseEventData) (t : Visits) (s s1 : BuildState), Inv t s →
      program_convert_enodes k s es = some s1 → Inv (visit_enodes k t es) s1
  | [], t, s, s1, hi, h => by
    simp only [program_convert_enodes, Option.some.injEq] at h
    subst h
    exact hi
  | e :: es, t, s, s1, hi, h => by
    simp only [program_convert_enodes] at h
    split at h
    · cases h
    · rename_i s2 he
      simp only [visit_enodes]
      refine convert_enodes_inv hf hc es _ _ _ ?_ h
      unfold program_convert_enode at he
      split at he
      · cases he
      · rename_i s3 h3
        split at he
        · cases he
        · rename_i s4 h4
          unfold visit_enode
          exact hc.voice _ _ _ _
            ((follow_onodes_inv hf e.operators _ _ _ _ (hc.start _ _ _ _ hi h3) h4).1) he

theorem program_alloc_fini_fields (pa : ProgramAlloc) (prg : Program) :
    (program_alloc_fini pa prg).events = pa.ev_list ∧
    (program_alloc_fini pa prg).event_count = pa.ev_list.length ∧
    (program_alloc_fini pa prg).operator_count = pa.oa.count ∧
    (program_alloc_fini pa prg).voice_count = pa.va.count := by
  unfold program_alloc_fini
  by_cases h : pa.va.count > INT16_MAX
  · simp only [h, if_true, and_self]
  · simp only [h, if_false, and_self]

/-- An invariant that holds of the initial state holds of the state the program
is read off from. -/
theorem create_program_inv {k : Flags} {Inv : Visits → BuildState → Prop}
    {Q : OperatorFields → Nat → Visits → BuildState → Prop} (hf : FollowInv k Inv Q)
    (hc : ConvertInv k Inv) (parse : ParseResult) (prg : Program)
    (h0 : Inv Visits.init (build_init parse))
    (h : SGS_create_Program k parse = some prg) :
    ∃ s, Inv (visits k parse) s ∧ prg.events = s.pa.ev_list ∧
      prg.event_count = s.pa.ev_list.length ∧ prg.operator_count = s.pa.oa.count ∧
      prg.voice_count = s.pa.va.count := by
  unfold SGS_create_Program at h
  split at h
  · cases h
  · rename_i s hs
    simp only [Option.some.injEq] at h
    subst h
    exact ⟨s, convert_enodes_inv hf hc _ _ _ _ h0 hs, program_alloc_fini_fields _ _⟩


/-! ## One operator update per event -/

theorem sample_program_built : SGS_create_Program sampleFlags sample_parse = some sample_program := by
  decide!

theorem operator_updates_append (l1 l2 : List ProgramEvent) :
    operator_updates (l1 ++ l2) = operator_updates l1 ++ operator_updates l2 := by
  simp [operator_updates, List.filterMap_append]

theorem operator_updates_set_same :
    ∀ (l : List ProgramEvent) (i : Nat) (x y : ProgramEvent), l.get? i = some x →
      y.operator = x.operator → operator_updates (l.set i y) = operator_updates l
  | [], _, _, _, h, _ => by simp at h
  | a :: l, 0, x, y, h, hy => by
    simp only [List.get?_cons_zero, Option.some.injEq] at h
    subst h
    simp [operator_updates, List.filterMap_cons, hy]
  | a :: l, i + 1, x, y, h, hy => by
    simp only [List.get?_cons_succ] at h
    have ih := operator_updates_set_same l i x y h hy
    simp only [operator_updates] at ih
    simp only [operator_updates, List.set_cons_succ, List.filterMap_cons, ih]

theorem operator_updates_set_new :
    ∀ (l : List ProgramEvent) (i : Nat) (x y : ProgramEvent), l.get? i = some x →
      x.operator = none → y.operator ≠ none →
      (operator_updates (l.set i y)).length = (operator_updates l).length + 1
  | [], _, _, _, h, _, _ => by simp at h
  | a :: l, 0, x, y, h, hx, hy => by
    simp only [List.get?_cons_zero, Option.some.injEq] at h
    subst h
    cases hyo : y.operator with
    | none => exact absurd hyo hy
    | some o => simp [operator_updates, List.filterMap_cons, hx, hyo]
  | a :: l, i + 1, x, y, h, hx, hy => by
    simp only [List.get?_cons_succ] at h
    have ih := operator_updates_set_new l i x y h hx hy
    simp only [operator_updates] at ih
    simp only [operator_updates, List.set_cons_succ, List.filterMap_cons]
    cases a.operator with
    | none => simpa using ih
    | some o => simpa using ih

/-- Each finished conversion adds exactly one operator update to the event list. -/
theorem program_follow_finish_updates {k : Flags} {s s1 : BuildState} {op : ParseOperatorData}
    {id : Nat} (h : program_follow_finish k s op id = some s1) :
    (operator_updates s1.pa.ev_list).length = (operator_updates s.pa.ev_list).length + 1 := by
  obtain ⟨cur, cur_ev, _, hcev, _, _, _, _, _, _, _, hcase⟩ := program_follow_finish_spec h
  rcases hcase with ⟨hn, _, hl⟩ | ⟨_, _, hl⟩
  · rw [hl]
    exact operator_updates_set_new _ _ _ _ hcev hn (by simp [converted_event])
  · rw [hl, operator_updates_append]
    simp [operator_updates, converted_event]

theorem updates_followInv (k : Flags) :
    FollowInv k (fun t s => (operator_updates s.pa.ev_list).length = t.done.length)
      (fun _ _ _ _ => True) where
  alloc := by
    intro t s d oa ids id hi _
    exact ⟨hi, trivial⟩
  alloc_keep := by
    intros; trivial
  finish := by
    intro t s op id s1 hi _ h
    rw [program_follow_finish_updates h, hi]
    rfl
  finish_keep := by
    intros; trivial

theorem updates_convertInv (k : Flags) :
    ConvertInv k (fun t s => (operator_updates s.pa.ev_list).length = t.done.length) where
  start := by
    intro t s e s1 hi h
    obtain ⟨va, vids, v, _, _, _, _, _, _, hl⟩ := program_convert_start_spec h
    rw [hl, operator_updates_append]
    simpa [operator_updates, new_event] using hi
  voice := by
    intro t s e s1 hi h
    rcases program_convert_voice_spec h with ⟨_, rfl⟩ | ⟨_, out, out_ev, _, hev, rfl⟩
    · exact hi
    · simp only
      rw [operator_updates_set_same _ _ _ _ hev (by simp [converted_voice])]
      exact hi

/-- C1: in the program built by `SGS_create_Program`, no operator update is
overwritten: the events that carry operator data are exactly as many as the
operator nodes the builder converted, each conversion (`program_follow_finish`)
writing to the current event when that has no operator data and to a newly
opened event otherwise. -/
theorem one_operator_update_per_event (k : Flags) (parse : ParseResult) (prg : Program)
    (h : SGS_create_Program k parse = some prg) :
    (operator_updates prg.events).length = (visits k parse).done.length ∧
    ∀ (s s1 : BuildState) (op : ParseOperatorData) (id : Nat),
      program_follow_finish k s op id = some s1 →
      ∃ cur cur_ev, s.pa.event = some cur ∧ s.pa.ev_list.get? cur = some cur_ev ∧
        ((cur_ev.operator = none ∧
            s1.pa.ev_list = s.pa.ev_list.set cur (converted_event k s.operator_id cur_ev op id)) ∨
         (cur_ev.operator ≠ none ∧
            s1.pa.ev_list = s.pa.ev_list ++
              [converted_event k s.operator_id (new_event cur_ev.voice_id) op id])) := by
  constructor
  · obtain ⟨s, hi, he, _⟩ :=
      create_program_inv (updates_followInv k) (updates_convertInv k) parse prg rfl h
    rw [he]
    exact hi
  · intro s s1 op id hf
    obtain ⟨cur, cur_ev, h1, h2, _, _, _, _, _, _, _, hcase⟩ := program_follow_finish_spec hf
    refine ⟨cur, cur_ev, h1, h2, ?_⟩
    rcases hcase with ⟨a, _, c⟩ | ⟨a, _, c⟩
    · exact Or.inl ⟨a, c⟩
    · exact Or.inr ⟨a, c⟩


/-- Witness for C1 on the sample parse result: three conversions, three events
with operator data. -/
theorem one_operator_update_per_event_witness :
    (operator_updates sample_program.events).length
      = (visits sampleFlags sample_parse).done.length :=
  (one_operator_update_per_event sampleFlags sample_parse sample_program
    sample_program_built).1

/-! ## Voice ids -/

theorem voice_followInv (k : Flags) :
    FollowInv k
      (fun t s => t.voice_ok = true →
        (∀ ev ∈ s.pa.ev_list, ev.voice_id < s.pa.va.count) ∧
        (∀ r ∈ t.events, s.voice_id r < s.pa.va.count))
      (fun _ _ _ _ => True) where
  alloc := by
    intro t s d oa ids id hi _
    exact ⟨hi, trivial⟩
  alloc_keep := by
    intros; trivial
  finish := by
    intro t s op id s1 hi _ h hok
    obtain ⟨h1, h2⟩ := hi hok
    obtain ⟨cur, cur_ev, _, hcev, _, _, hvid, hva, _, _, _, hcase⟩ :=
      program_follow_finish_spec h
    have hcur : cur_ev.voice_id < s.pa.va.count := h1 _ (List.get?_mem hcev)
    rw [hva, hvid]
    refine ⟨?_, h2⟩
    intro ev hev
    rcases hcase with ⟨_, _, hl⟩ | ⟨_, _, hl⟩
    · rw [hl] at hev
      rcases List.mem_or_eq_of_mem_set hev with hm | rfl
      · exact h1 _ hm
      · exact hcur
    · rw [hl, List.mem_append, List.mem_singleton] at hev
      rcases hev with hm | rfl
      · exact h1 _ hm
      · exact hcur
  finish_keep := by
    intros; trivial

theorem voice_convertInv (k : Flags) :
    ConvertInv k
      (fun t s => t.voice_ok = true →
        (∀ ev ∈ s.pa.ev_list, ev.voice_id < s.pa.va.count) ∧
        (∀ r ∈ t.events, s.voice_id r < s.pa.va.count)) where
  start := by
    intro t s e s1 hi h hok
    obtain ⟨va, vids, v, hv, hva, hvids, _, _, _, hl⟩ := program_convert_start_spec h
    obtain ⟨hu, _, hprev, hnone, _, _⟩ := voice_alloc_inc_spec hv
    simp only [Visits.start, Bool.and_eq_true] at hok
    obtain ⟨hok0, hokp⟩ := hok
    obtain ⟨h1, h2⟩ := hi hok0
    have hmono : s.pa.va.count ≤ va.count ∧ v < va.count := by
      cases hp : e.voice_prev with
      | some prev =>
        obtain ⟨a, b⟩ := hprev prev hp
        rw [hp] at hokp
        have hmem : prev ∈ t.events := by simpa using hokp
        have := h2 prev hmem
        omega
      | none =>
        rcases hnone hp with ⟨a, b⟩ | ⟨a, b⟩ <;> omega
    rw [hva, hvids, hl]
    constructor
    · intro ev hev
      rw [List.mem_append, List.mem_singleton] at hev
      rcases hev with hm | rfl
      · exact Nat.lt_of_lt_of_le (h1 _ hm) hmono.1
      · exact hmono.2
    · intro r hr
      simp only [Visits.start, List.mem_cons] at hr
      rw [hu]
      by_cases hre : r = e.ref
      · subst hre
        rw [Function.update_same]
        exact hmono.2
      · rw [Function.update_noteq hre]
        rcases hr with hr | hr
        · exact absurd hr hre
        · exact Nat.lt_of_lt_of_le (h2 r hr) hmono.1
  voice := by
    intro t s e s1 hi h hok
    obtain ⟨h1, h2⟩ := hi hok
    rcases program_convert_voice_spec h with ⟨_, rfl⟩ | ⟨_, out, out_ev, _, hev, rfl⟩
    · exact ⟨h1, h2⟩
    · refine ⟨?_, h2⟩
      intro ev hm
      rcases List.mem_or_eq_of_mem_set hm with hm | rfl
      · exact h1 _ hm
      · exact h1 out_ev (List.get?_mem hev)

/-- C4: for every parse result whose `voice_prev` links point to events
processed earlier, every event of the built program has a `voice_id` strictly
below the program's `voice_count`. -/
theorem voice_id_lt_voice_count (k : Flags) (parse : ParseResult) (prg : Program)
    (hlinks : (visits k parse).voice_ok = true)
    (h : SGS_create_Program k parse = some prg) :
    ∀ ev ∈ prg.events, ev.voice_id < prg.voice_count := by
  obtain ⟨s, hi, he, _, _, hv⟩ :=
    create_program_inv (voice_followInv k) (voice_convertInv k) parse prg
      (by intro _; exact ⟨by simp [build_init, program_alloc_init],
            by simp [Visits.init]⟩) h
  rw [he, hv]
  exact (hi hlinks).1

/-- Witness for C4 on the sample parse result. -/
theorem voice_id_lt_voice_count_witness :
    sample_program.events.all (fun ev => decide (ev.voice_id < sample_program.voice_count))
      = true :=
  List.all_eq_true.mpr (fun ev hev => decide_eq_true
    (voice_id_lt_voice_count sampleFlags sample_parse sample_program (by decide!)
      sample_program_built ev hev))

/-! ## Operator ids -/

theorem alloc_prev_ok {t : Visits} {d : OperatorFields} (h : (t.alloc d).prev_ok = true) :
    t.prev_ok = true ∧ ∀ pop, d.on_prev = some pop → pop ∈ t.seen := by
  simp only [Visits.alloc, Bool.and_eq_true] at h
  refine ⟨h.1, ?_⟩
  intro pop hp
  rw [hp] at h
  simpa using h.2

theorem alloc_fresh {t : Visits} {d : OperatorFields} (h : (t.alloc d).fresh = true) :
    t.fresh = true ∧ d.ref ∉ t.seen := by
  simp only [Visits.alloc, Bool.and_eq_true] at h
  exact ⟨h.1, by simpa using h.2⟩

theorem finish_lists_ok {k : Flags} {t : Visits} {op : ParseOperatorData}
    (h : (t.finish k op).lists_ok = true) :
    t.lists_ok = true ∧
      (op.d.operator_params &&& k.P_ADJCS ≠ 0 → ∀ r ∈ listed_refs op, r ∈ t.done) := by
  simp only [Visits.finish, Bool.and_eq_true] at h
  refine ⟨h.1, ?_⟩
  intro hf r hr
  have h2 := h.2
  rw [if_pos hf, List.all_eq_true] at h2
  simpa using h2 r hr

theorem voice_lists_ok {k : Flags} {t : Visits} {e : ParseEventData}
    (h : (t.voice k e).lists_ok = true) :
    t.lists_ok = true ∧
      (e.voice_params &&& k.P_GRAPH ≠ 0 → ∀ o ∈ e.graph, o.d.ref ∈ t.done) := by
  simp only [Visits.voice, Bool.and_eq_true] at h
  refine ⟨h.1, ?_⟩
  intro hf o ho
  have h2 := h.2
  rw [if_pos hf, List.all_eq_true] at h2
  simpa using h2 o.d.ref (List.mem_map_of_mem _ ho)

theorem update_ids_converted_event (k : Flags) (ids : Nat → Nat) (ev : ProgramEvent)
    (op : ParseOperatorData) (id : Nat) :
    update_ids (converted_event k ids ev op id) = [id] := rfl

theorem graph_ids_converted_event (k : Flags) (ids : Nat → Nat) (ev : ProgramEvent)
    (op : ParseOperatorData) (id : Nat) :
    graph_ids (converted_event k ids ev op id) = graph_ids ev := rfl

theorem mem_adjcs_ids_converted_event {k : Flags} {ids : Nat → Nat} {ev : ProgramEvent}
    {op : ParseOperatorData} {id x : Nat}
    (h : x ∈ adjcs_ids (converted_event k ids ev op id)) :
    op.d.operator_params &&& k.P_ADJCS ≠ 0 ∧ ∃ r ∈ listed_refs op, x = ids r := by
  simp only [adjcs_ids, converted_event, converted_operator, adjcs_of] at h
  split at h
  · simp at h
  · rename_i a ha
    split at ha
    · rename_i hc
      simp only [Option.some.injEq] at ha
      subst ha
      simp only [List.mem_map] at h
      obtain ⟨r, hr, rfl⟩ := h
      exact ⟨hc.1, r, hr, rfl⟩
    · cases ha

theorem update_ids_converted_voice (k : Flags) (ids : Nat → Nat) (ev : ProgramEvent)
    (e : ParseEventData) : update_ids (converted_voice k ids ev e) = update_ids ev := rfl

theorem adjcs_ids_converted_voice (k : Flags) (ids : Nat → Nat) (ev : ProgramEvent)
    (e : ParseEventData) : adjcs_ids (converted_voice k ids ev e) = adjcs_ids ev := rfl

theorem mem_graph_ids_converted_voice {k : Flags} {ids : Nat → Nat} {ev : ProgramEvent}
    {e : ParseEventData} {x : Nat} (h : x ∈ graph_ids (converted_voice k ids ev e)) :
    e.voice_params &&& k.P_GRAPH ≠ 0 ∧ ∃ o ∈ e.graph, x = ids o.d.ref := by
  simp only [graph_ids, converted_voice, graph_of] at h
  split at h
  · simp at h
  · rename_i g hg
    split at hg
    · rename_i hc
      simp only [Option.some.injEq] at hg
      subst hg
      simp only [List.mem_map] at h
      obtain ⟨o, ho, rfl⟩ := h
      exact ⟨hc.1, o, ho, rfl⟩
    · cases hg


theorem stored_ids_new_event (v : Nat) (w : Int) :
    stored_ids { new_event v with wait_ms := w } = [] := rfl

theorem operator_alloc_inc_count_le {oa oa1 : OperatorAlloc} {ids ids1 : Nat → Nat}
    {d : OperatorFields} {id : Nat}
    (h : operator_alloc_inc oa ids d = some (oa1, ids1, id)) : oa.count ≤ oa1.count := by
  obtain ⟨_, _, _, h4, h5, _⟩ := operator_alloc_inc_spec h
  cases hp : d.on_prev with
  | some pop => rw [(h4 pop hp).2]
  | none => rw [(h5 hp).2]; exact Nat.le_succ _

theorem ids_followInv (k : Flags) : FollowInv k IdsInv IdsPending where
  alloc := by
    intro t s d oa ids id hi h
    have hle := operator_alloc_inc_count_le h
    obtain ⟨hu, _, _, h4, h5, _⟩ := operator_alloc_inc_spec h
    have hid : (t.alloc d).prev_ok = true ∧ (t.alloc d).lists_ok = true →
        id < oa.count ∧ (∀ r ∈ t.seen, s.operator_id r < s.pa.oa.count) ∧
          (∀ r ∈ t.done, r ∈ t.seen) ∧
          (∀ ev ∈ s.pa.ev_list, ∀ x ∈ stored_ids ev, x < s.pa.oa.count) := by
      rintro ⟨hp, hl⟩
      obtain ⟨hp0, hpop⟩ := alloc_prev_ok hp
      obtain ⟨a, b, c⟩ := hi ⟨hp0, hl⟩
      refine ⟨?_, a, b, c⟩
      cases hpr : d.on_prev with
      | some pop =>
        obtain ⟨e1, e2⟩ := h4 pop hpr
        rw [e1, e2]
        exact a pop (hpop pop hpr)
      | none =>
        obtain ⟨e1, e2⟩ := h5 hpr
        rw [e1, e2]
        exact Nat.lt_succ_self _
    constructor
    · intro hok
      obtain ⟨hlt, a, b, c⟩ := hid hok
      refine ⟨?_, ?_, ?_⟩
      · intro r hr
        show ids r < oa.count
        rw [hu]
        by_cases hre : r = d.ref
        · subst hre
          rw [Function.update_same]
          exact hlt
        · rw [Function.update_noteq hre]
          simp only [Visits.alloc, List.mem_cons] at hr
          rcases hr with hr | hr
          · exact absurd hr hre
          · exact Nat.lt_of_lt_of_le (a r hr) hle
      · intro r hr
        exact List.mem_cons_of_mem _ (b r hr)
      · intro ev hev x hx
        exact Nat.lt_of_lt_of_le (c ev hev x hx) hle
    · intro hok
      exact ⟨(hid hok).1, List.mem_cons_self _ _⟩
  alloc_keep := by
    intro t s d oa ids id d0 j _ hq h hok
    have hle := operator_alloc_inc_count_le h
    obtain ⟨hp0, _⟩ := alloc_prev_ok hok.1
    obtain ⟨a, b⟩ := hq ⟨hp0, hok.2⟩
    exact ⟨Nat.lt_of_lt_of_le a hle, List.mem_cons_of_mem _ b⟩
  finish := by
    intro t s op id s1 hi hq h hok
    obtain ⟨hl0, hlisted⟩ := finish_lists_ok hok.2
    obtain ⟨a, b, c⟩ := hi ⟨hok.1, hl0⟩
    obtain ⟨hlt, href⟩ := hq ⟨hok.1, hl0⟩
    obtain ⟨cur, cur_ev, _, hcev, _, hoid, _, _, hcount, _, _, hcase⟩ :=
      program_follow_finish_spec h
    rw [hoid, hcount]
    have hconv : ∀ ev0 : ProgramEvent, (∀ x ∈ stored_ids ev0, x < s.pa.oa.count) →
        ∀ x ∈ stored_ids (converted_event k s.operator_id ev0 op id),
          x < s.pa.oa.count := by
      intro ev0 h0 x hx
      simp only [stored_ids, List.mem_append, update_ids_converted_event,
        graph_ids_converted_event, List.mem_singleton] at hx
      rcases hx with (hx | hx) | hx
      · rw [hx]; exact hlt
      · obtain ⟨hflag, r, hr, rfl⟩ := mem_adjcs_ids_converted_event hx
        exact a r (b r (hlisted hflag r hr))
      · exact h0 x (by simp [stored_ids, hx])
    refine ⟨a, ?_, ?_⟩
    · intro r hr
      simp only [Visits.finish, List.mem_cons] at hr
      rcases hr with hr | hr
      · rw [hr]; exact href
      · exact b r hr
    · intro ev hev
      rcases hcase with ⟨_, _, hl⟩ | ⟨_, _, hl⟩
      · rw [hl] at hev
        rcases List.mem_or_eq_of_mem_set hev with hm | rfl
        · exact c ev hm
        · exact hconv cur_ev (c cur_ev (List.get?_mem hcev))
      · rw [hl, List.mem_append, List.mem_singleton] at hev
        rcases hev with hm | rfl
        · exact c ev hm
        · exact hconv _ (by intro x hx; simp [stored_ids, update_ids, adjcs_ids, graph_ids,
            new_event] at hx)
  finish_keep := by
    intro t s op id s1 d0 j _ _ hq h hok
    obtain ⟨hl0, _⟩ := finish_lists_ok hok.2
    obtain ⟨a, b⟩ := hq ⟨hok.1, hl0⟩
    obtain ⟨_, _, _, _, _, _, _, _, hcount, _⟩ := program_follow_finish_spec h
    rw [hcount]
    exact ⟨a, b⟩

theorem ids_convertInv (k : Flags) : ConvertInv k IdsInv where
  start := by
    intro t s e s1 hi h hok
    obtain ⟨a, b, c⟩ := hi hok
    obtain ⟨va, vids, v, _, _, _, hoid, hoa, _, hl⟩ := program_convert_start_spec h
    rw [hoid, hoa, hl]
    refine ⟨a, b, ?_⟩
    intro ev hev
    rw [List.mem_append, List.mem_singleton] at hev
    rcases hev with hm | rfl
    · exact c ev hm
    · intro x hx
      rw [stored_ids_new_event] at hx
      cases hx
  voice := by
    intro t s e s1 hi h hok
    obtain ⟨hl0, hgraph⟩ := voice_lists_ok hok.2
    obtain ⟨a, b, c⟩ := hi ⟨hok.1, hl0⟩
    rcases program_convert_voice_spec h with ⟨_, rfl⟩ | ⟨_, out, out_ev, _, hev, rfl⟩
    · exact ⟨a, b, c⟩
    · refine ⟨a, b, ?_⟩
      intro ev hm
      rcases List.mem_or_eq_of_mem_set hm with hm | rfl
      · exact c ev hm
      · intro x hx
        simp only [stored_ids, List.mem_append, update_ids_converted_voice,
          adjcs_ids_converted_voice] at hx
        rcases hx with (hx | hx) | hx
        · exact c out_ev (List.get?_mem hev) x (by simp [stored_ids, hx])
        · exact c out_ev (List.get?_mem hev) x (by simp [stored_ids, hx])
        · obtain ⟨hflag, o, ho, rfl⟩ := mem_graph_ids_converted_voice hx
          exact a _ (b _ (hgraph hflag o ho))


/-- C3, counterexample: in `sample_parse_unvisited` no `on_prev` is set, yet the
carrier graph of the event lists a node the builder never gives an id; the
graph stores that node's initial `operator_id` 0 while the operator count of
the program is 0. -/
theorem stored_id_not_below_count :
    (visits sampleFlags sample_parse_unvisited).prev_ok = true ∧
      (SGS_create_Program sampleFlags sample_parse_unvisited).map
        (fun prg => (prg.events.map stored_ids, prg.operator_count)) = some ([[0]], 0) := by
  decide!

/-- C3, amended: for every parse result whose `on_prev` links point to operator
nodes processed earlier and whose modulator lists and carrier graphs, where they
are built, list only nodes converted by then, every operator id stored in an
operator update, an adjacency list or a carrier graph of the built program is
strictly below the program's `operator_count`. -/
theorem operator_id_lt_operator_count (k : Flags) (parse : ParseResult) (prg : Program)
    (hprev : (visits k parse).prev_ok = true) (hlists : (visits k parse).lists_ok = true)
    (h : SGS_create_Program k parse = some prg) :
    ∀ ev ∈ prg.events, ∀ x ∈ stored_ids ev, x < prg.operator_count := by
  obtain ⟨s, hi, he, _, ho, _⟩ :=
    create_program_inv (ids_followInv k) (ids_convertInv k) parse prg
      (by
        intro _
        refine ⟨?_, ?_, ?_⟩
        · intro r hr; simp [Visits.init] at hr
        · intro r hr; simp [Visits.init] at hr
        · intro ev hev; simp [build_init, program_alloc_init] at hev) h
  rw [he, ho]
  exact (hi ⟨hprev, hlists⟩).2.2

/-- Witness for the amended C3 on the sample parse result. -/
theorem operator_id_lt_operator_count_witness :
    sample_program.events.all (fun ev =>
      (stored_ids ev).all (fun x => decide (x < sample_program.operator_count))) = true :=
  List.all_eq_true.mpr (fun ev hev => List.all_eq_true.mpr (fun x hx => decide_eq_true
    (operator_id_lt_operator_count sampleFlags sample_parse sample_program (by decide!)
      (by decide!) sample_program_built ev hev x hx)))


/-! ## Operators are defined before they are listed -/

theorem defined_ids_append (l1 l2 : List ProgramEvent) :
    defined_ids (l1 ++ l2) = defined_ids l1 ++ defined_ids l2 := by
  simp [defined_ids, operator_updates_append]

theorem defined_ids_singleton (ev : ProgramEvent) : defined_ids [ev] = update_ids ev := by
  unfold defined_ids operator_updates update_ids
  cases h : ev.operator <;> simp [List.filterMap_cons, h]

theorem listedDefined_of_append {l m : List ProgramEvent} (h : ListedDefined (l ++ m)) :
    ListedDefined l := by
  intro pre ev post hl x hx
  exact h pre ev (post ++ m) (by rw [hl]; simp) x hx

theorem listedDefined_concat {l : List ProgramEvent} {new : ProgramEvent}
    (h : ListedDefined l)
    (hn : ∀ x ∈ adjcs_ids new ++ graph_ids new, x ∈ defined_ids (l ++ [new])) :
    ListedDefined (l ++ [new]) := by
  intro pre ev post hl x hx
  rcases List.eq_nil_or_concat post with hp | ⟨post1, b, hp⟩
  · subst hp
    have := List.append_inj' hl rfl
    obtain ⟨h1, h2⟩ := this
    simp only [List.cons.injEq, and_true] at h2
    subst h1 h2
    exact hn x hx
  · subst hp
    have hl2 : l ++ [new] = (pre ++ ev :: post1) ++ [b] := by rw [hl]; simp
    obtain ⟨h1, _⟩ := List.append_inj' hl2 rfl
    exact h pre ev post1 h1 x hx

theorem eq_take_concat_of_last {l : List ProgramEvent} {c : Nat} {x : ProgramEvent}
    (hx : l.get? c = some x) (hc : c + 1 = l.length) : l = l.take c ++ [x] := by
  have hlt : c < l.length := by omega
  have h1 : l.drop c = [x] := by
    rw [List.drop_eq_getElem_cons hlt]
    rw [List.get?_eq_getElem?, List.getElem?_eq_getElem hlt] at hx
    simp only [Option.some.injEq] at hx
    rw [hx, List.drop_of_length_le (by omega)]
  conv_lhs => rw [← List.take_append_drop c l, h1]

theorem set_last {l : List ProgramEvent} {c : Nat} {x : ProgramEvent} (y : ProgramEvent)
    (hx : l.get? c = some x) (hc : c + 1 = l.length) : l.set c y = l.take c ++ [y] := by
  have hlt : c < l.length := by omega
  have hlen : (l.take c).length = c := by simp; omega
  conv_lhs => rw [eq_take_concat_of_last hx hc]
  rw [List.set_append_right _ _ (by omega), hlen]
  simp


theorem mem_defined_ids_concat_mono {pre : List ProgramEvent} {old new : ProgramEvent} {x : Nat}
    (h : x ∈ defined_ids (pre ++ [old])) (hu : ∀ y ∈ update_ids old, y ∈ update_ids new) :
    x ∈ defined_ids (pre ++ [new]) := by
  rw [defined_ids_append, defined_ids_singleton, List.mem_append] at h ⊢
  rcases h with h | h
  · exact Or.inl h
  · exact Or.inr (hu x h)

/-- Replacing the last event keeps `ListedDefined` when the new last event
lists only ids defined by then. -/
theorem listedDefined_replace_last {pre : List ProgramEvent} {old new : ProgramEvent}
    (h : ListedDefined (pre ++ [old]))
    (hn : ∀ x ∈ adjcs_ids new ++ graph_ids new, x ∈ defined_ids (pre ++ [new])) :
    ListedDefined (pre ++ [new]) :=
  listedDefined_concat (listedDefined_of_append h) hn

theorem defined_followInv (k : Flags) : FollowInv k DefinedInv DefinedPending where
  alloc := by
    intro t s d oa ids id hi h
    obtain ⟨hu, _⟩ := operator_alloc_inc_spec h
    constructor
    · intro hok
      obtain ⟨hf0, hnew⟩ := alloc_fresh hok.1
      obtain ⟨a, b, c, e⟩ := hi ⟨hf0, hok.2⟩
      refine ⟨a, ?_, ?_, e⟩
      · intro r hr
        exact List.mem_cons_of_mem _ (b r hr)
      · intro r hr
        show ids r ∈ defined_ids s.pa.ev_list
        have hne : r ≠ d.ref := by
          intro he
          exact hnew (he ▸ b r hr)
        rw [hu, Function.update_noteq hne]
        exact c r hr
    · intro _
      refine ⟨List.mem_cons_self _ _, ?_⟩
      show ids d.ref = id
      rw [hu, Function.update_same]
  alloc_keep := by
    intro t s d oa ids id d0 j _ hq h hok
    obtain ⟨hu, _⟩ := operator_alloc_inc_spec h
    obtain ⟨hf0, hnew⟩ := alloc_fresh hok.1
    obtain ⟨a, b⟩ := hq ⟨hf0, hok.2⟩
    refine ⟨List.mem_cons_of_mem _ a, ?_⟩
    show ids d0.ref = j
    have hne : d0.ref ≠ d.ref := by
      intro he
      exact hnew (he ▸ a)
    rw [hu, Function.update_noteq hne]
    exact b
  finish := by
    intro t s op id s1 hi hq h hok
    obtain ⟨hl0, hlisted⟩ := finish_lists_ok hok.2
    have hfresh : t.fresh = true := hok.1
    obtain ⟨hcurlast, hds, hdef, hLD⟩ := hi ⟨hfresh, hl0⟩
    obtain ⟨href, hidq⟩ := hq ⟨hfresh, hl0⟩
    obtain ⟨cur, cur_ev, hcur, hcev, _, hoid, _, _, _, _, _, hcase⟩ :=
      program_follow_finish_spec h
    have hc1 := hcurlast cur hcur
    have hadj : ∀ (ev0 : ProgramEvent) (x : Nat),
        x ∈ adjcs_ids (converted_event k s.operator_id ev0 op id) →
        x ∈ defined_ids s.pa.ev_list := by
      intro ev0 x hx
      obtain ⟨hflag, r, hr, rfl⟩ := mem_adjcs_ids_converted_event hx
      exact hdef r (hlisted hflag r hr)
    have hds1 : ∀ r ∈ (t.finish k op).done, r ∈ (t.finish k op).seen := by
      intro r hr
      simp only [Visits.finish, List.mem_cons] at hr
      rcases hr with hr | hr
      · rw [hr]; exact href
      · exact hds r hr
    rw [hoid]
    rcases hcase with ⟨hnone, hev1, hl⟩ | ⟨hsome, hev1, hl⟩
    · have hold := eq_take_concat_of_last hcev hc1
      have hset := set_last (converted_event k s.operator_id cur_ev op id) hcev hc1
      have hmono : ∀ x, x ∈ defined_ids s.pa.ev_list →
          x ∈ defined_ids (s.pa.ev_list.take cur ++
            [converted_event k s.operator_id cur_ev op id]) := by
        intro x hx
        rw [hold] at hx
        refine mem_defined_ids_concat_mono hx ?_
        intro y hy
        simp [update_ids, hnone] at hy
      refine ⟨?_, hds1, ?_, ?_⟩
      · intro c hc
        rw [hev1] at hc
        cases hc
        rw [hl, List.length_set]
        exact hc1
      · intro r hr
        rw [hl, hset]
        simp only [Visits.finish, List.mem_cons] at hr
        rcases hr with hr | hr
        · rw [hr, hidq, defined_ids_append, defined_ids_singleton,
            update_ids_converted_event]
          simp
        · exact hmono _ (hdef r hr)
      · rw [hl, hset]
        rw [hold] at hLD
        refine listedDefined_replace_last hLD ?_
        intro x hx
        rw [List.mem_append] at hx
        rcases hx with hx | hx
        · exact hmono _ (hadj _ x hx)
        · rw [graph_ids_converted_event] at hx
          have := hLD (s.pa.ev_list.take cur) cur_ev [] rfl x
            (List.mem_append_right _ hx)
          rw [← hold] at this
          exact hmono _ this
    · have hmono : ∀ x, x ∈ defined_ids s.pa.ev_list →
          x ∈ defined_ids (s.pa.ev_list ++
            [converted_event k s.operator_id (new_event cur_ev.voice_id) op id]) := by
        intro x hx
        rw [defined_ids_append]
        exact List.mem_append_left _ hx
      refine ⟨?_, hds1, ?_, ?_⟩
      · intro c hc
        rw [hev1] at hc
        cases hc
        rw [hl]
        simp
      · intro r hr
        rw [hl]
        simp only [Visits.finish, List.mem_cons] at hr
        rcases hr with hr | hr
        · rw [hr, hidq, defined_ids_append, defined_ids_singleton,
            update_ids_converted_event]
          simp
        · exact hmono _ (hdef r hr)
      · rw [hl]
        refine listedDefined_concat hLD ?_
        intro x hx
        rw [List.mem_append] at hx
        rcases hx with hx | hx
        · exact hmono _ (hadj _ x hx)
        · simp [graph_ids, converted_event, new_event] at hx
  finish_keep := by
    intro t s op id s1 d0 j _ _ hq h hok
    obtain ⟨hl0, _⟩ := finish_lists_ok hok.2
    obtain ⟨a, b⟩ := hq ⟨hok.1, hl0⟩
    obtain ⟨_, _, _, _, _, hoid, _⟩ := program_follow_finish_spec h
    rw [hoid]
    exact ⟨a, b⟩

theorem defined_convertInv (k : Flags) : ConvertInv k DefinedInv where
  start := by
    intro t s e s1 hi h hok
    obtain ⟨a, b, c, d⟩ := hi hok
    obtain ⟨va, vids, v, _, _, _, hoid, _, hevent, hl⟩ := program_convert_start_spec h
    rw [hoid, hl]
    refine ⟨?_, b, ?_, ?_⟩
    · intro c1 hc1
      rw [hevent] at hc1
      cases hc1
      simp
    · intro r hr
      rw [defined_ids_append]
      exact List.mem_append_left _ (c r hr)
    · refine listedDefined_concat d ?_
      intro x hx
      simp [adjcs_ids, graph_ids, new_event] at hx
  voice := by
    intro t s e s1 hi h hok
    obtain ⟨hl0, hgraph⟩ := voice_lists_ok hok.2
    have hfresh : t.fresh = true := hok.1
    obtain ⟨a, b, c, d⟩ := hi ⟨hfresh, hl0⟩
    rcases program_convert_voice_spec h with ⟨_, rfl⟩ | ⟨_, out, out_ev, hout, hev, rfl⟩
    · exact ⟨a, b, c, d⟩
    · have hc1 := a out hout
      have hold := eq_take_concat_of_last hev hc1
      have hset := set_last (converted_voice k s.operator_id out_ev e) hev hc1
      have hmono : ∀ x, x ∈ defined_ids s.pa.ev_list →
          x ∈ defined_ids (s.pa.ev_list.take out ++
            [converted_voice k s.operator_id out_ev e]) := by
        intro x hx
        rw [hold] at hx
        refine mem_defined_ids_concat_mono hx ?_
        intro y hy
        rw [update_ids_converted_voice]
        exact hy
      refine ⟨?_, b, ?_, ?_⟩
      · intro c1 hc1'
        simp only [List.length_set]
        exact a c1 hc1'
      · intro r hr
        simp only
        rw [hset]
        exact hmono _ (c r hr)
      · simp only
        rw [hset]
        rw [hold] at d
        refine listedDefined_replace_last d ?_
        intro x hx
        rw [List.mem_append] at hx
        rcases hx with hx | hx
        · rw [adjcs_ids_converted_voice] at hx
          have := d (s.pa.ev_list.take out) out_ev [] rfl x (List.mem_append_left _ hx)
          rw [← hold] at this
          exact hmono _ this
        · obtain ⟨hflag, o, ho, rfl⟩ := mem_graph_ids_converted_voice hx
          exact hmono _ (c _ (hgraph hflag o ho))


/-- An id defined by the first `i + 1` events has its update at an index `j ≤ i`. -/
theorem defined_ids_take_index {evs : List ProgramEvent} {i x : Nat}
    (h : x ∈ defined_ids (evs.take (i + 1))) :
    ∃ j ev1 o, j ≤ i ∧ evs.get? j = some ev1 ∧ ev1.operator = some o ∧ o.operator_id = x := by
  simp only [defined_ids, operator_updates, List.mem_map, List.mem_filterMap] at h
  obtain ⟨o, ⟨ev1, hmem, ho⟩, hx⟩ := h
  obtain ⟨j, hj⟩ := List.mem_iff_get?.mp hmem
  rw [List.get?_eq_getElem?, List.getElem?_take] at hj
  split at hj
  · rename_i hlt
    exact ⟨j, ev1, o, by omega, by rw [List.get?_eq_getElem?]; exact hj, ho, hx⟩
  · cases hj

/-- C2: in the emitted event list, for every event at index `i` and every
operator id `x` in that event's adjacency list or carrier graph, some event at
an index `j ≤ i` carries the operator update with `operator_id = x`, assuming
every listed node was converted by the builder before it was listed (the
references naming distinct nodes, none visited twice). -/
theorem listed_ids_defined_before (k : Flags) (parse : ParseResult) (prg : Program)
    (hfresh : (visits k parse).fresh = true) (hlists : (visits k parse).lists_ok = true)
    (h : SGS_create_Program k parse = some prg) :
    ∀ i ev, prg.events.get? i = some ev → ∀ x ∈ adjcs_ids ev ++ graph_ids ev,
      ∃ j ev1 o, j ≤ i ∧ prg.events.get? j = some ev1 ∧ ev1.operator = some o ∧
        o.operator_id = x := by
  obtain ⟨s, hi, he, _⟩ :=
    create_program_inv (defined_followInv k) (defined_convertInv k) parse prg
      (by
        intro _
        refine ⟨?_, ?_, ?_, ?_⟩
        · intro cur hc; simp [build_init, program_alloc_init] at hc
        · intro r hr; simp [Visits.init] at hr
        · intro r hr; simp [Visits.init] at hr
        · intro pre ev post hl
          simp [build_init, program_alloc_init] at hl) h
  obtain ⟨_, _, _, hLD⟩ := hi ⟨hfresh, hlists⟩
  rw [he]
  intro i ev hev x hx
  have hlt : i < s.pa.ev_list.length := (List.get?_eq_some.mp hev).1
  have hget : s.pa.ev_list[i] = ev := by
    rw [List.get?_eq_getElem?, List.getElem?_eq_getElem hlt] at hev
    simpa using hev
  have hsplit : s.pa.ev_list = s.pa.ev_list.take i ++ ev :: s.pa.ev_list.drop (i + 1) := by
    conv_lhs => rw [← List.take_append_drop i s.pa.ev_list, List.drop_eq_getElem_cons hlt, hget]
  have hmem := hLD _ _ _ hsplit x hx
  have htake : s.pa.ev_list.take i ++ [ev] = s.pa.ev_list.take (i + 1) := by
    rw [List.take_succ, List.getElem?_eq_getElem hlt, hget]
    rfl
  rw [htake] at hmem
  exact defined_ids_take_index hmem

/-- Witness for C2 on the sample parse result: the event with the carrier's
update (index 1) lists the modulator id 1, whose update is at index 0. -/
theorem listed_ids_defined_before_witness :
    ∃ j ev1 o, j ≤ 1 ∧ sample_program.events.get? j = some ev1 ∧ ev1.operator = some o ∧
      o.operator_id = 1 :=
  listed_ids_defined_before sampleFlags sample_parse sample_program (by decide!) (by decide!)
    sample_program_built 1
    { wait_ms := 0, params := 17, voice_id := 0, voice := some (sample_voice_data [0]),
      operator := some (sample_operator_data 0 200
        (some { fmodc := 1, pmodc := 0, amodc := 0, adjcs := [1] })) }
    rfl 1 (by decide)


/-! ## The build does not fault on parse results with references in order -/

theorem voice_alloc_inc_some (k : Flags) (va : VoiceAlloc) (vids : Nat → Nat)
    (e : ParseEventData) (hwf : va.WF)
    (hlast : ∀ j x, j < va.count → va.data.get? j = some x → x.last ≠ none)
    (hprev : ∀ prev, e.voice_prev = some prev → vids prev < va.count) :
    ∃ r, voice_alloc_inc k va vids e = some r := by
  obtain ⟨w1, w2, w3⟩ := hwf
  have key : ∀ (va2 : VoiceAlloc) (v2 : Nat), v2 < va2.data.length →
      ∀ found : Option (VoiceAlloc × Nat), found = some (va2, v2) →
      ∃ r, (match found with
        | none => none
        | some (va2, voice) =>
          match va2.data.get? voice with
          | none => none
          | some ad =>
            let ad1 : VoiceAllocData := { ad with last := some e.ed_flags }
            let ad2 : VoiceAllocData :=
              if e.voice_params &&& k.P_GRAPH ≠ 0 then { ad1 with duration_ms := voice_duration e }
              else ad1
            some ({ va2 with data := va2.data.set voice ad2 },
              Function.update vids e.ref voice, voice)) = some r := by
    intro va2 v2 hlt found hf
    subst hf
    simp only
    rw [List.get?_eq_getElem?, List.getElem?_eq_getElem hlt]
    exact ⟨_, rfl⟩
  unfold voice_alloc_inc
  simp only
  cases hp : e.voice_prev with
  | some prev =>
    have hv := hprev prev hp
    exact key { va with data := voice_wait_loop e.wait_ms va.count va.data } (vids prev)
      (by simp only [voice_wait_loop_length]; omega) _ rfl
  | none =>
    obtain ⟨m, hs, hm, _, _⟩ :=
      voice_search_spec k e.wait_ms va.data va.count 0 (by omega) hlast
    simp only [hs, Nat.zero_add]
    by_cases hv : m = va.count
    · simp only [hv, if_true]
      have hwf1 : VoiceAlloc.WF
          { va with data := voice_wait_loop e.wait_ms va.count va.data } :=
        ⟨by simp [voice_wait_loop_length, w1], w2, w3⟩
      obtain ⟨g1, g2, g3⟩ := voice_alloc_grow_wf _ hwf1
      rw [voice_alloc_grow_count] at g2
      exact key (voice_alloc_grow
        { va with data := voice_wait_loop e.wait_ms va.count va.data }) va.count
        (by simp only at g2; omega) _ rfl
    · simp only [hv, if_false]
      exact key { va with data := voice_wait_loop e.wait_ms va.count va.data } m
        (by simp only [voice_wait_loop_length]; omega) _ rfl

/-- The entries of the voice table other than the chosen one, after
`voice_alloc_inc`: as the wait loop left them. -/
theorem voice_alloc_inc_others {k : Flags} {va va1 : VoiceAlloc} {vids vids1 : Nat → Nat}
    {e : ParseEventData} {v : Nat}
    (h : voice_alloc_inc k va vids e = some (va1, vids1, v)) (j : Nat) (hj : j ≠ v)
    (hlt : j < va.data.length) :
    va1.data.get? j = (voice_wait_loop e.wait_ms va.count va.data).get? j := by
  unfold voice_alloc_inc at h
  simp only at h
  split at h
  · cases h
  · rename_i va2 v2 hfound
    split at h
    · cases h
    · rename_i ad hget
      simp only [Option.some.injEq, Prod.mk.injEq] at h
      obtain ⟨h1, h2, h3⟩ := h
      subst h1 h2 h3
      simp only
      rw [List.get?_eq_getElem?, List.getElem?_set_ne (Ne.symm hj), ← List.get?_eq_getElem?]
      cases hp : e.voice_prev with
      | some prev =>
        simp only [hp, Option.some.injEq, Prod.mk.injEq] at hfound
        obtain ⟨hf1, _⟩ := hfound
        subst hf1
        rfl
      | none =>
        simp only [hp] at hfound
        split at hfound
        · cases hfound
        · rename_i voice hsearch
          by_cases hv : voice = va.count
          · simp only [hv, if_true, Option.some.injEq, Prod.mk.injEq] at hfound
            obtain ⟨hf1, _⟩ := hfound
            subst hf1
            exact voice_alloc_grow_get _ j (by simp only [voice_wait_loop_length]; exact hlt)
          · simp only [hv, if_false, Option.some.injEq, Prod.mk.injEq] at hfound
            obtain ⟨hf1, _⟩ := hfound
            subst hf1
            rfl

theorem program_follow_finish_some (k : Flags) (s : BuildState) (op : ParseOperatorData)
    (id cur : Nat) (hcur : s.pa.event = some cur) (hlt : cur < s.pa.ev_list.length)
    (hid : id < s.pa.oa.data.length) :
    ∃ s1, program_follow_finish k s op id = some s1 := by
  have hadj : ∀ (ids : Nat → Nat) (root : ProgramEvent) (ood : ProgramOperatorData),
      root.operator = some ood → ∃ ev, build_adjcs k ids root op = some ev := by
    intro ids root ood hr
    unfold build_adjcs
    split
    · exact ⟨_, rfl⟩
    · rw [hr]
      simp only
      split <;> exact ⟨_, rfl⟩
  have hconv : ∀ (s0 : BuildState) (out : Nat) (ad : OperatorAllocData),
      s0.pa.oa.data.get? id = some ad → ad.out = some out → out < s0.pa.ev_list.length →
      ∃ s1, program_convert_onode k s0 op id = some s1 := by
    intro s0 out ad had hout hol
    unfold program_convert_onode
    rw [had]
    simp only [hout]
    rw [List.get?_eq_getElem?, List.getElem?_eq_getElem hol]
    simp only
    split
    · rename_i heq
      exfalso
      by_cases hf : op.d.operator_params &&& k.P_ADJCS ≠ 0
      · rw [if_pos hf] at heq
        obtain ⟨ev, hev⟩ := hadj s0.operator_id _ _ (rfl :
          ({ s0.pa.ev_list[out] with
            operator := some
              { adjcs := none, operator_id := id, attr := op.d.attr, wave := op.d.wave,
                time_ms := op.d.time_ms, silence_ms := op.d.silence_ms, freq := op.d.freq,
                dynfreq := op.d.dynfreq, phase := op.d.phase, amp := op.d.amp,
                dynamp := op.d.dynamp, valitfreq := op.d.valitfreq,
                valitamp := op.d.valitamp },
            params := s0.pa.ev_list[out].params ||| op.d.operator_params } :
              ProgramEvent).operator = some _)
        exact Option.noConfusion (hev.symm.trans heq)
      · rw [if_neg hf] at heq
        cases heq
    · exact ⟨_, rfl⟩
  unfold program_follow_finish
  rw [hcur]
  simp only
  rw [List.get?_eq_getElem?, List.getElem?_eq_getElem hlt]
  simp only
  by_cases hop : s.pa.ev_list[cur].operator.isSome = true
  · simp only [hop, if_true, program_add_event]
    rw [List.get?_eq_getElem?, List.getElem?_eq_getElem hid]
    simp only
    refine hconv _ s.pa.ev_list.length
      { s.pa.oa.data[id] with out := some s.pa.ev_list.length } ?_ rfl ?_
    · simp only
      rw [List.get?_eq_getElem?, List.getElem?_set_self hid]
    · simp
  · simp only [hop, Bool.false_eq_true, if_false]
    rw [List.get?_eq_getElem?, List.getElem?_eq_getElem hid]
    simp only
    refine hconv _ cur { s.pa.oa.data[id] with out := s.pa.event } ?_ hcur ?_
    · simp only
      rw [List.get?_eq_getElem?, List.getElem?_set_self hid]
    · exact hlt

theorem program_convert_voice_some (k : Flags) (s : BuildState) (e : ParseEventData)
    (cur : Nat) (hcur : s.pa.event = some cur) (hlt : cur < s.pa.ev_list.length) :
    ∃ s1, program_convert_voice k s e = some s1 := by
  unfold program_convert_voice
  by_cases hz : e.voice_params = 0
  · rw [if_pos hz]; exact ⟨_, rfl⟩
  · rw [if_neg hz, hcur]
    simp only
    rw [List.get?_eq_getElem?, List.getElem?_eq_getElem hlt]
    simp only
    by_cases hg : e.voice_params &&& k.P_GRAPH ≠ 0
    · simp only [hg, if_true, ne_eq, not_false_eq_true]
      unfold build_graph
      simp only [hz, if_false, Nat.zero_and, ne_eq, not_true_eq_false]
      by_cases hl : e.graph.length = 0
      · simp only [hl, if_true]
        exact ⟨_, rfl⟩
      · simp only [hl, if_false]
        exact ⟨_, rfl⟩
    · simp only [hg, if_false]
      exact ⟨_, rfl⟩


theorem alloc_good {t : Visits} {d : OperatorFields} (h : (t.alloc d).Good) :
    t.Good ∧ ∀ pop, d.on_prev = some pop → pop ∈ t.seen := by
  obtain ⟨h1, h2⟩ := h
  obtain ⟨a, b⟩ := alloc_prev_ok h1
  exact ⟨⟨a, h2⟩, b⟩

theorem start_good {t : Visits} {e : ParseEventData} (h : (t.start e).Good) :
    t.Good ∧ ∀ prev, e.voice_prev = some prev → prev ∈ t.events := by
  obtain ⟨h1, h2⟩ := h
  simp only [Visits.start, Bool.and_eq_true] at h2
  refine ⟨⟨h1, h2.1⟩, ?_⟩
  intro prev hp
  rw [hp] at h2
  simpa using h2.2

mutual
theorem visit_onode_good (k : Flags) :
    ∀ (op : ParseOperatorData) (t : Visits), (visit_onode k t op).Good → t.Good
  | .mk d fmods pmods amods, t, h => by
    rw [visit_onode] at h
    by_cases hm : d.od_flags &&& k.PSOD_MULTIPLE_OPERATORS ≠ 0
    · rw [if_pos hm] at h
      exact h
    · rw [if_neg hm] at h
      have h4 : (visit_onodes k d.amods_copy_count
          (visit_onodes k d.pmods_copy_count
            (visit_onodes k d.fmods_copy_count (t.alloc d) fmods) pmods) amods).Good := h
      have h3 := visit_onodes_good k amods _ _ h4
      have h2 := visit_onodes_good k pmods _ _ h3
      have h1 := visit_onodes_good k fmods _ _ h2
      exact (alloc_good h1).1
theorem visit_onodes_good (k : Flags) :
    ∀ (ops : List ParseOperatorData) (c : Nat) (t : Visits),
      (visit_onodes k c t ops).Good → t.Good
  | [], c, t, h => by
    rw [visit_onodes] at h
    exact h
  | op :: ops, 0, t, h => by
    rw [visit_onodes] at h
    exact visit_onode_good k op t (visit_onodes_good k ops 0 _ h)
  | op :: ops, n + 1, t, h => by
    rw [visit_onodes] at h
    exact visit_onodes_good k ops n t h
end

theorem visit_enode_good (k : Flags) (t : Visits) (e : ParseEventData)
    (h : (visit_enode k t e).Good) :
    (visit_onodes k e.operators_copy_count (t.start e) e.operators).Good := h

theorem visit_enodes_good (k : Flags) :
    ∀ (es : List ParseEventData) (t : Visits), (visit_enodes k t es).Good → t.Good
  | [], t, h => h
  | e :: es, t, h => by
    simp only [visit_enodes] at h
    have h1 := visit_enodes_good k es _ h
    exact (start_good (visit_onodes_good k _ _ _ (visit_enode_good k t e h1))).1

theorem total_followInv (k : Flags) :
    FollowInv k (fun t s => TotalInv t s ∧ HasEvent s) TotalPending where
  alloc := by
    intro t s d oa ids id hi h
    have hle := operator_alloc_inc_count_le h
    obtain ⟨hu, _, _, h4, h5, hwf⟩ := operator_alloc_inc_spec h
    have hid : (t.alloc d).Good → id < oa.count := by
      intro hg
      obtain ⟨hg0, hpop⟩ := alloc_good hg
      obtain ⟨_, a, _⟩ := hi.1 hg0
      cases hpr : d.on_prev with
      | some pop =>
        obtain ⟨e1, e2⟩ := h4 pop hpr
        rw [e1, e2]
        exact a pop (hpop pop hpr)
      | none =>
        obtain ⟨e1, e2⟩ := h5 hpr
        rw [e1, e2]
        exact Nat.lt_succ_self _
    refine ⟨⟨?_, hi.2⟩, hid⟩
    intro hg
    obtain ⟨hg0, _⟩ := alloc_good hg
    obtain ⟨w, a, b, c, e⟩ := hi.1 hg0
    refine ⟨hwf w, ?_, b, c, e⟩
    intro r hr
    show ids r < oa.count
    rw [hu]
    by_cases hre : r = d.ref
    · subst hre
      rw [Function.update_same]
      exact hid hg
    · rw [Function.update_noteq hre]
      simp only [Visits.alloc, List.mem_cons] at hr
      rcases hr with hr | hr
      · exact absurd hr hre
      · exact Nat.lt_of_lt_of_le (a r hr) hle
  alloc_keep := by
    intro t s d oa ids id d0 j _ hq h hg
    have hle := operator_alloc_inc_count_le h
    exact Nat.lt_of_lt_of_le (hq (alloc_good hg).1) hle
  finish := by
    intro t s op id s1 hi _ h
    obtain ⟨cur, cur_ev, hcur, hcev, _, hoid, hvid, hva, hcount, halloc, hlen, hcase⟩ :=
      program_follow_finish_spec h
    constructor
    · intro hg
      obtain ⟨w, a, b, c, e⟩ := hi.1 hg
      rw [hoid, hvid, hva, hcount]
      refine ⟨?_, a, b, c, e⟩
      obtain ⟨w1, w2, w3⟩ := w
      exact ⟨by rw [halloc, hlen]; exact w1, by rw [hcount, halloc]; exact w2,
        by rw [halloc]; exact w3⟩
    · have hlt := (List.get?_eq_some.mp hcev).1
      rcases hcase with ⟨_, hev1, hl⟩ | ⟨_, hev1, hl⟩
      · exact ⟨cur, hev1, by rw [hl, List.length_set]; exact hlt⟩
      · exact ⟨_, hev1, by rw [hl]; simp⟩
  finish_keep := by
    intro t s op id s1 d0 j _ _ hq h hg
    obtain ⟨_, _, _, _, _, _, _, _, hcount, _⟩ := program_follow_finish_spec h
    rw [hcount]
    exact hq hg

mutual
theorem follow_onode_total (k : Flags) :
    ∀ (op : ParseOperatorData) (t : Visits) (s : BuildState), TotalInv t s → HasEvent s →
      (visit_onode k t op).Good → ∃ s1, program_follow_onode k s op = some s1
  | .mk d fmods pmods amods, t, s, hi, he, hg => by
    rw [visit_onode] at hg
    rw [program_follow_onode]
    by_cases hm : d.od_flags &&& k.PSOD_MULTIPLE_OPERATORS ≠ 0
    · rw [if_pos hm]
      exact ⟨s, rfl⟩
    · rw [if_neg hm] at hg ⊢
      have g4 : (visit_onodes k d.amods_copy_count
          (visit_onodes k d.pmods_copy_count
            (visit_onodes k d.fmods_copy_count (t.alloc d) fmods) pmods) amods).Good := hg
      have g3 := visit_onodes_good k amods _ _ g4
      have g2 := visit_onodes_good k pmods _ _ g3
      have g1 := visit_onodes_good k fmods _ _ g2
      obtain ⟨g0, hpop⟩ := alloc_good g1
      obtain ⟨w, a, _⟩ := hi g0
      have hsome : ∃ r, operator_alloc_inc s.pa.oa s.operator_id d = some r := by
        cases hpr : d.on_prev with
        | some pop =>
          obtain ⟨oa1, ids1, h1⟩ := (operator_alloc_inc_on_prev_some s.pa.oa s.operator_id d pop hpr)
            (by have := a pop (hpop pop hpr); obtain ⟨w1, w2, _⟩ := w; omega)
          exact ⟨_, h1⟩
        | none =>
          obtain ⟨oa1, ids1, h1⟩ := operator_alloc_inc_appends_some s.pa.oa s.operator_id d hpr w
          exact ⟨_, h1⟩
      obtain ⟨⟨oa, ids, id⟩, ha⟩ := hsome
      rw [ha]
      simp only
      have a1 := (total_followInv k).alloc t s d oa ids id ⟨hi, he⟩ ha
      obtain ⟨s2, h2⟩ := follow_onodes_total k fmods d.fmods_copy_count _ _ a1.1.1 a1.1.2 g2
      rw [h2]
      simp only
      have b2 := follow_onodes_inv (total_followInv k) fmods d.fmods_copy_count _ _ _ a1.1 h2
      obtain ⟨s3, h3⟩ := follow_onodes_total k pmods d.pmods_copy_count _ _ b2.1.1 b2.1.2 g3
      rw [h3]
      simp only
      have b3 := follow_onodes_inv (total_followInv k) pmods d.pmods_copy_count _ _ _ b2.1 h3
      obtain ⟨s4, h4⟩ := follow_onodes_total k amods d.amods_copy_count _ _ b3.1.1 b3.1.2 g4
      rw [h4]
      simp only
      have b4 := follow_onodes_inv (total_followInv k) amods d.amods_copy_count _ _ _ b3.1 h4
      have q4 : id < s4.pa.oa.count := (b4.2 _ _ (b3.2 _ _ (b2.2 _ _ a1.2))) g4
      obtain ⟨w4, _⟩ := b4.1.1 g4
      obtain ⟨cur, hcur, hlt⟩ := b4.1.2
      obtain ⟨w1, w2, _⟩ := w4
      exact program_follow_finish_some k s4 _ id cur hcur hlt (by omega)
theorem follow_onodes_total (k : Flags) :
    ∀ (ops : List ParseOperatorData) (c : Nat) (t : Visits) (s : BuildState), TotalInv t s →
      HasEvent s → (visit_onodes k c t ops).Good →
      ∃ s1, program_follow_onodes k c s ops = some s1
  | [], c, t, s, _, _, _ => by
    rw [program_follow_onodes]
    exact ⟨s, rfl⟩
  | op :: ops, 0, t, s, hi, he, hg => by
    rw [visit_onodes] at hg
    rw [program_follow_onodes]
    have g1 := visit_onodes_good k ops 0 _ hg
    obtain ⟨s2, h2⟩ := follow_onode_total k op t s hi he g1
    rw [h2]
    simp only
    have b := follow_onode_inv (total_followInv k) op t s s2 ⟨hi, he⟩ h2
    exact follow_onodes_total k ops 0 _ s2 b.1.1 b.1.2 hg
  | op :: ops, n + 1, t, s, hi, he, hg => by
    rw [visit_onodes] at hg
    rw [program_follow_onodes]
    exact follow_onodes_total k ops n t s hi he hg
end


theorem total_start {k : Flags} {t : Visits} {s s1 : BuildState} {e : ParseEventData}
    (hi : TotalInv t s) (h : program_convert_start k s e = some s1) :
    TotalInv (t.start e) s1 ∧ HasEvent s1 := by
  obtain ⟨va, vids, v, hv, hva, hvids, hoid, hoa, hevent, hl⟩ := program_convert_start_spec h
  refine ⟨?_, ⟨_, hevent, by rw [hl]; simp⟩⟩
  intro hg
  obtain ⟨hg0, hprevmem⟩ := start_good hg
  obtain ⟨w, a, wv, c, e1⟩ := hi hg0
  obtain ⟨hu, hvlt, hprev, hnone, hwf, ad, hadget, hadlast, _⟩ := voice_alloc_inc_spec hv
  have hcount : s.pa.va.count ≤ va.count ∧ v < va.count ∧
      (∀ j, j < va.count → j ≠ v → j < s.pa.va.count) := by
    cases hp : e.voice_prev with
    | some prev =>
      obtain ⟨p1, p2⟩ := hprev prev hp
      have := e1 prev (hprevmem prev hp)
      refine ⟨by omega, by omega, ?_⟩
      intro j hj _; omega
    | none =>
      rcases hnone hp with ⟨p1, p2⟩ | ⟨p1, p2⟩
      · refine ⟨by omega, by omega, ?_⟩
        intro j hj _; omega
      · refine ⟨by omega, by omega, ?_⟩
        intro j hj hne; omega
  rw [hoid, hoa, hva, hvids]
  refine ⟨w, a, hwf wv, ?_, ?_⟩
  · intro j x1 hj hx1
    by_cases hjv : j = v
    · subst hjv
      rw [hadget] at hx1
      cases hx1
      rw [hadlast]
      exact Option.some_ne_none _
    · have hjc := hcount.2.2 j hj hjv
      have hjl : j < s.pa.va.data.length := by
        obtain ⟨w1, w2, _⟩ := wv
        omega
      rw [voice_alloc_inc_others hv j hjv hjl, voice_wait_loop_get] at hx1
      rw [List.get?_eq_getElem?, List.getElem?_eq_getElem hjl] at hx1
      simp only [Option.map_some', Option.some.injEq] at hx1
      have hold := c j s.pa.va.data[j] hjc
        (by rw [List.get?_eq_getElem?, List.getElem?_eq_getElem hjl])
      rw [← hx1]
      split <;> exact hold
  · intro r hr
    simp only [Visits.start, List.mem_cons] at hr
    rw [hu]
    by_cases hre : r = e.ref
    · subst hre
      rw [Function.update_same]
      exact hcount.2.1
    · rw [Function.update_noteq hre]
      rcases hr with hr | hr
      · exact absurd hr hre
      · exact Nat.lt_of_lt_of_le (e1 r hr) hcount.1

theorem total_voice {k : Flags} {t : Visits} {s s1 : BuildState} {e : ParseEventData}
    (hi : TotalInv t s) (h : program_convert_voice k s e = some s1) :
    TotalInv (t.voice k e) s1 := by
  intro hg
  have hg0 : t.Good := hg
  rcases program_convert_voice_spec h with ⟨_, rfl⟩ | ⟨_, out, out_ev, _, _, rfl⟩
  · exact hi hg0
  · exact hi hg0

theorem convert_enode_total (k : Flags) (t : Visits) (s : BuildState) (e : ParseEventData)
    (hi : TotalInv t s) (hg : (visit_enode k t e).Good) :
    ∃ s1, program_convert_enode k s e = some s1 ∧ TotalInv (visit_enode k t e) s1 := by
  have g2 := visit_enode_good k t e hg
  have g1 := visit_onodes_good k _ _ _ g2
  obtain ⟨g0, hprevmem⟩ := start_good g1
  obtain ⟨w, a, wv, c, e1⟩ := hi g0
  obtain ⟨r, hr⟩ := voice_alloc_inc_some k s.pa.va s.voice_id e wv c
    (fun prev hp => e1 prev (hprevmem prev hp))
  obtain ⟨va, vids, v⟩ := r
  obtain ⟨s1, h1⟩ := program_convert_start_some hr
  obtain ⟨i1, he1⟩ := total_start hi h1
  obtain ⟨s2, h2⟩ := follow_onodes_total k e.operators e.operators_copy_count _ s1 i1 he1 g2
  have b2 := follow_onodes_inv (total_followInv k) e.operators e.operators_copy_count _ _ _
    ⟨i1, he1⟩ h2
  obtain ⟨cur, hcur, hlt⟩ := b2.1.2
  obtain ⟨s3, h3⟩ := program_convert_voice_some k s2 e cur hcur hlt
  refine ⟨s3, ?_, total_voice b2.1.1 h3⟩
  unfold program_convert_enode
  rw [h1]
  simp only
  rw [h2]
  exact h3

theorem convert_enodes_total (k : Flags) :
    ∀ (es : List ParseEventData) (t : Visits) (s : BuildState), TotalInv t s →
      (visit_enodes k t es).Good → ∃ s1, program_convert_enodes k s es = some s1
  | [], t, s, _, _ => ⟨s, rfl⟩
  | e :: es, t, s, hi, hg => by
    simp only [visit_enodes] at hg
    have g1 := visit_enodes_good k es _ hg
    obtain ⟨s1, h1, i1⟩ := convert_enode_total k t s e hi g1
    obtain ⟨s2, h2⟩ := convert_enodes_total k es _ s1 i1 hg
    refine ⟨s2, ?_⟩
    simp only [program_convert_enodes, h1]
    exact h2

/-- The build returns a program whenever every `on_prev` and every `voice_prev`
of the parse result points to a node processed earlier. -/
theorem create_program_total (k : Flags) (parse : ParseResult)
    (hg : (visits k parse).Good) : ∃ prg, SGS_create_Program k parse = some prg := by
  have h0 : TotalInv Visits.init (build_init parse) := by
    intro _
    refine ⟨⟨rfl, Nat.zero_le _, Nat.one_pos⟩, ?_, ⟨rfl, Nat.zero_le _, Nat.one_pos⟩, ?_, ?_⟩
    · intro r hr; simp [Visits.init] at hr
    · intro j x hj; simp [build_init, program_alloc_init, voice_alloc_init] at hj
    · intro r hr; simp [Visits.init] at hr
  obtain ⟨s, hs⟩ := convert_enodes_total k parse.events _ _ h0 hg
  unfold SGS_create_Program
  rw [hs]
  exact ⟨_, rfl⟩


/-! ## The voice count is not limited -/

theorem frame_followInv (k : Flags) (va : VoiceAlloc) (vids : Nat → Nat) :
    FollowInv k (fun _ s => s.pa.va = va ∧ s.voice_id = vids) (fun _ _ _ _ => True) where
  alloc := by
    intro t s d oa ids id hi _
    exact ⟨hi, trivial⟩
  alloc_keep := by
    intros; trivial
  finish := by
    intro t s op id s1 hi _ h
    obtain ⟨_, _, _, _, _, _, hvid, hva, _⟩ := program_follow_finish_spec h
    rw [hva, hvid]
    exact hi
  finish_keep := by
    intros; trivial

/-- The voice table after `program_convert_enode` is the one `voice_alloc_inc`
returned for the event. -/
theorem program_convert_enode_voice {k : Flags} {s s1 : BuildState} {e : ParseEventData}
    (h : program_convert_enode k s e = some s1) :
    ∃ vids v, voice_alloc_inc k s.pa.va s.voice_id e = some (s1.pa.va, vids, v) := by
  unfold program_convert_enode at h
  split at h
  · cases h
  · rename_i s2 h2
    split at h
    · cases h
    · rename_i s3 h3
      obtain ⟨va, vids, v, hv, hva, hvids, _⟩ := program_convert_start_spec h2
      have hf := (follow_onodes_inv (frame_followInv k va vids) e.operators
        e.operators_copy_count Visits.init s2 s3 ⟨hva, hvids⟩ h3).1
      refine ⟨vids, v, ?_⟩
      rcases program_convert_voice_spec h with ⟨_, rfl⟩ | ⟨_, out, out_ev, _, _, rfl⟩
      · rw [hf.1]; exact hv
      · simp only
        rw [hf.1]; exact hv

/-- When no voice below `count` is free, `voice_alloc_inc` takes a new one. -/
theorem voice_alloc_inc_new {k : Flags} {va va1 : VoiceAlloc} {vids vids1 : Nat → Nat}
    {e : ParseEventData} {v : Nat} (hwf : va.WF)
    (hlast : ∀ j x, j < va.count → va.data.get? j = some x → x.last ≠ none)
    (hp : e.voice_prev = none)
    (hbusy : ∀ j x, j < va.count → va.data.get? j = some x → ¬ voice_is_free k e.wait_ms x)
    (h : voice_alloc_inc k va vids e = some (va1, vids1, v)) :
    v = va.count ∧ va1.count = va.count + 1 := by
  obtain ⟨_, _, _, hnone, _, _⟩ := voice_alloc_inc_spec h
  rcases hnone hp with ⟨hlt, _⟩ | hr
  · exfalso
    obtain ⟨w1, w2, w3⟩ := hwf
    obtain ⟨m, hs, hm, _, hfree⟩ :=
      voice_search_spec k e.wait_ms va.data va.count 0 (by omega) hlast
    have hmc : m = va.count := by
      by_contra hne
      obtain ⟨x, hx, hf⟩ := hfree (by omega)
      exact hbusy m x (by omega) hx hf
    unfold voice_alloc_inc at h
    simp only [hp, hs, Nat.zero_add, hmc, if_true] at h
    split at h
    · cases h
    · simp only [Option.some.injEq, Prod.mk.injEq] at h
      omega
  · exact hr

theorem allSounding_step {va va1 : VoiceAlloc} {vids vids1 : Nat → Nat} {i n v : Nat}
    (hs : AllSounding n va)
    (h : voice_alloc_inc sampleFlags va vids (sounding_event i) = some (va1, vids1, v)) :
    AllSounding (n + 1) va1 := by
  obtain ⟨hwf, hc, hall⟩ := hs
  have hlast : ∀ j x, j < va.count → va.data.get? j = some x → x.last ≠ none := by
    intro j x hj hx
    rw [(hall j x (by omega) hx).1]
    exact Option.some_ne_none _
  have hbusy : ∀ j x, j < va.count → va.data.get? j = some x →
      ¬ voice_is_free sampleFlags (sounding_event i).wait_ms x := by
    intro j x hj hx hf
    have hd := (hall j x (by omega) hx).2
    have h2 := hf.2
    rw [hd] at h2
    have h3 : residual_after_wait 1000 0 = 0 := h2
    revert h3
    decide
  obtain ⟨hv, hcount⟩ := voice_alloc_inc_new hwf hlast rfl hbusy h
  obtain ⟨_, _, _, _, hwf1, ad, hadget, hadlast, haddur⟩ := voice_alloc_inc_spec h
  refine ⟨hwf1 hwf, by omega, ?_⟩
  intro j x hj hx
  by_cases hjv : j = v
  · subst hjv
    rw [hadget] at hx
    cases hx
    have hflag : (1 : Nat) &&& 1 ≠ 0 := by decide
    exact ⟨hadlast, haddur hflag⟩
  · have hjc : j < va.count := by omega
    have hjl : j < va.data.length := by
      obtain ⟨w1, w2, _⟩ := hwf
      omega
    rw [voice_alloc_inc_others h j hjv hjl, voice_wait_loop_get] at hx
    rw [List.get?_eq_getElem?, List.getElem?_eq_getElem hjl] at hx
    simp only [Option.map_some', Option.some.injEq] at hx
    obtain ⟨o1, o2⟩ := hall j va.data[j] (by omega)
      (by rw [List.get?_eq_getElem?, List.getElem?_eq_getElem hjl])
    rw [← hx, if_pos hjc]
    refine ⟨o1, ?_⟩
    simp only [o2]
    show residual_after_wait 1000 0 = 1000
    decide

theorem sounding_event_good (t : Visits) (i : Nat) (h : t.Good) :
    (visit_enode sampleFlags t (sounding_event i)).Good := by
  obtain ⟨h1, h2⟩ := h
  simp [Visits.Good, visit_enode, sounding_event, sample_event, sample_op, sample_fields,
    visit_onodes, visit_onode, Visits.start, Visits.alloc, Visits.finish, Visits.voice,
    sampleFlags, h1, h2]

theorem sounding_events_good : ∀ (n : Nat) (t : Visits), t.Good →
    (visit_enodes sampleFlags t (sounding_events n)).Good
  | 0, _, h => h
  | n + 1, t, h => by
    simp only [sounding_events, visit_enodes]
    exact sounding_events_good n _ (sounding_event_good t n h)

theorem sounding_events_count : ∀ (n : Nat) (t : Visits) (s : BuildState) (i : Nat),
    TotalInv t s → t.Good → AllSounding i s.pa.va →
    ∃ s1, program_convert_enodes sampleFlags s (sounding_events n) = some s1 ∧
      s1.pa.va.count = i + n
  | 0, _, s, i, _, _, hs => ⟨s, rfl, by simpa using hs.2.1⟩
  | n + 1, t, s, i, hi, hg, hs => by
    have g1 := sounding_event_good t n hg
    obtain ⟨s1, h1, i1⟩ := convert_enode_total sampleFlags t s (sounding_event n) hi g1
    obtain ⟨vids, v, hv⟩ := program_convert_enode_voice h1
    have hs1 := allSounding_step hs hv
    obtain ⟨s2, h2, hc2⟩ := sounding_events_count n _ s1 (i + 1) i1 g1 hs1
    refine ⟨s2, ?_, by omega⟩
    simp only [sounding_events, program_convert_enodes, h1]
    exact h2

/-- Every number of voices sounding together is the voice count of a program. -/
theorem many_voices_count (n : Nat) :
    ∃ prg, SGS_create_Program sampleFlags (many_voices n) = some prg ∧ prg.voice_count = n := by
  have h0 : TotalInv Visits.init (build_init (many_voices n)) := by
    intro _
    refine ⟨⟨rfl, Nat.zero_le _, Nat.one_pos⟩, ?_, ⟨rfl, Nat.zero_le _, Nat.one_pos⟩, ?_, ?_⟩
    · intro r hr; simp [Visits.init] at hr
    · intro j x hj; simp [build_init, program_alloc_init, voice_alloc_init] at hj
    · intro r hr; simp [Visits.init] at hr
  have hs0 : AllSounding 0 (build_init (many_voices n)).pa.va :=
    ⟨⟨rfl, Nat.zero_le _, Nat.one_pos⟩, rfl, by intro j x hj; omega⟩
  obtain ⟨s, hs, hc⟩ := sounding_events_count n Visits.init _ 0 h0 ⟨rfl, rfl⟩ hs0
  unfold SGS_create_Program
  have he : (many_voices n).events = sounding_events n := rfl
  rw [he, hs]
  refine ⟨_, rfl, ?_⟩
  rw [(program_alloc_fini_fields _ _).2.2.2, hc]
  omega

/-- C10, the code at the failing input: the program built from 32768 voices
sounding together has `voice_count = 32768`, above `INT16_MAX`. -/
theorem voice_count_exceeds_int16_max :
    ∃ prg, SGS_create_Program sampleFlags (many_voices 32768) = some prg ∧
      prg.voice_count = 32768 ∧ INT16_MAX < prg.voice_count := by
  obtain ⟨prg, h1, h2⟩ := many_voices_count 32768
  refine ⟨prg, h1, h2, ?_⟩
  rw [h2]
  decide


/-! ## The adjacency list -/

/-- Three lists laid out one after the other are found again at the offsets
given by the lengths of the first two. -/
theorem adjcs_parts (a b c : List Nat) :
    (a ++ b ++ c).take a.length = a ∧
    ((a ++ b ++ c).drop a.length).take b.length = b ∧
    (a ++ b ++ c).drop (a.length + b.length) = c := by
  refine ⟨?_, ?_, ?_⟩
  · simp [List.append_assoc]
  · simp [List.append_assoc]
  · rw [← List.length_append]
    simp

/-- C11: `build_adjcs`, for an operator whose params carry the adjacency flag
(and an event that has operator data), with at least one modulator produces
the id list of its fmods, then its pmods, then its amods, each in sublist
order, with `fmodc`, `pmodc`, `amodc` the three sublist lengths, so that the
three parts are found again at the offsets 0, `fmodc` and `fmodc + pmodc`; when
all three sublists are empty the adjacency is set to null. -/
theorem build_adjcs_layout (k : Flags) (ids : Nat → Nat) (root : ProgramEvent)
    (op : ParseOperatorData) (ood : ProgramOperatorData)
    (hflag : op.d.operator_params &&& k.P_ADJCS ≠ 0) (hroot : root.operator = some ood) :
    (op.fmods.length + op.pmods.length + op.amods.length ≠ 0 →
      ∃ a, build_adjcs k ids root op
          = some { root with operator := some { ood with adjcs := some a } } ∧
        a.fmodc = op.fmods.length ∧ a.pmodc = op.pmods.length ∧
        a.amodc = op.amods.length ∧
        a.adjcs = op.fmods.map (fun o => ids o.d.ref) ++ op.pmods.map (fun o => ids o.d.ref)
          ++ op.amods.map (fun o => ids o.d.ref) ∧
        a.adjcs.take a.fmodc = op.fmods.map (fun o => ids o.d.ref) ∧
        (a.adjcs.drop a.fmodc).take a.pmodc = op.pmods.map (fun o => ids o.d.ref) ∧
        a.adjcs.drop (a.fmodc + a.pmodc) = op.amods.map (fun o => ids o.d.ref)) ∧
    (op.fmods = [] → op.pmods = [] → op.amods = [] →
      build_adjcs k ids root op
        = some { root with operator := some { ood with adjcs := none } }) := by
  have hf0 : ¬ (op.d.operator_params &&& k.P_ADJCS = 0) := hflag
  constructor
  · intro hsize
    refine ⟨{ fmodc := op.fmods.length, pmodc := op.pmods.length, amodc := op.amods.length,
              adjcs := op.fmods.map (fun o => ids o.d.ref)
                ++ op.pmods.map (fun o => ids o.d.ref)
                ++ op.amods.map (fun o => ids o.d.ref) }, ?_, rfl, rfl, rfl, rfl, ?_, ?_, ?_⟩
    · unfold build_adjcs
      simp only [hf0, if_false, hroot, hsize]
    · have h := adjcs_parts (op.fmods.map (fun o => ids o.d.ref))
        (op.pmods.map (fun o => ids o.d.ref)) (op.amods.map (fun o => ids o.d.ref))
      simp only [List.length_map] at h
      exact h.1
    · have h := adjcs_parts (op.fmods.map (fun o => ids o.d.ref))
        (op.pmods.map (fun o => ids o.d.ref)) (op.amods.map (fun o => ids o.d.ref))
      simp only [List.length_map] at h
      exact h.2.1
    · have h := adjcs_parts (op.fmods.map (fun o => ids o.d.ref))
        (op.pmods.map (fun o => ids o.d.ref)) (op.amods.map (fun o => ids o.d.ref))
      simp only [List.length_map] at h
      exact h.2.2
  · intro h1 h2 h3
    unfold build_adjcs
    simp only [hf0, if_false, hroot, h1, h2, h3, List.length_nil, Nat.add_zero, if_true]

/-- Witness for C11: the sample carrier with stored ids `ref + 10`. -/
theorem build_adjcs_layout_witness :
    ∃ a, build_adjcs sampleFlags (fun r => r + 10) sample_root sample_carrier
        = some { sample_root with
            operator := some { sample_operator_data 0 200 none with adjcs := some a } } ∧
      a.fmodc = sample_carrier.fmods.length ∧ a.pmodc = sample_carrier.pmods.length ∧
      a.amodc = sample_carrier.amods.length ∧
      a.adjcs = sample_carrier.fmods.map (fun o => (fun r => r + 10) o.d.ref)
        ++ sample_carrier.pmods.map (fun o => (fun r => r + 10) o.d.ref)
        ++ sample_carrier.amods.map (fun o => (fun r => r + 10) o.d.ref) ∧
      a.adjcs.take a.fmodc = sample_carrier.fmods.map (fun o => (fun r => r + 10) o.d.ref) ∧
      (a.adjcs.drop a.fmodc).take a.pmodc
        = sample_carrier.pmods.map (fun o => (fun r => r + 10) o.d.ref) ∧
      a.adjcs.drop (a.fmodc + a.pmodc)
        = sample_carrier.amods.map (fun o => (fun r => r + 10) o.d.ref) :=
  (build_adjcs_layout sampleFlags (fun r => r + 10) sample_root sample_carrier
    (sample_operator_data 0 200 none) (by decide) rfl).1 (by decide)

/-- The sample run of C11: the ids come out as `[12 | 13 | 14, 15]`. -/
theorem build_adjcs_sample_run :
    (build_adjcs sampleFlags (fun r => r + 10) sample_root sample_carrier).map
      (fun ev => ev.operator.map (fun o => o.adjcs))
      = some (some (some { fmodc := 1, pmodc := 1, amodc := 2, adjcs := [12, 13, 14, 15] })) := by
  decide!


/-! ## Voice id and wait of the emitted events -/

/-- Replacing the last of the events emitted for a parse event by one with the
same wait and voice id keeps the shape of the emitted events. -/
theorem emitted_set_last {first : ProgramEvent} {rest : List ProgramEvent} {w : Int} {v : Nat}
    (h1 : first.wait_ms = w) (h2 : first.voice_id = v)
    (h3 : ∀ ev ∈ rest, ev.wait_ms = 0 ∧ ev.voice_id = v) (base : List ProgramEvent)
    {x : ProgramEvent}
    (hx : (base ++ first :: rest).get? (base.length + rest.length) = some x)
    (y : ProgramEvent) (hw : y.wait_ms = x.wait_ms) (hv : y.voice_id = x.voice_id) :
    x.voice_id = v ∧
    ∃ first1 rest1,
      (base ++ first :: rest).set (base.length + rest.length) y = base ++ first1 :: rest1 ∧
      first1.wait_ms = w ∧ first1.voice_id = v ∧
      (∀ ev ∈ rest1, ev.wait_ms = 0 ∧ ev.voice_id = v) ∧ rest1.length = rest.length := by
  rcases List.eq_nil_or_concat rest with rfl | ⟨r, z, hr⟩
  · rw [List.get?_eq_getElem?, List.getElem?_append_right (by simp)] at hx
    simp only [List.length_nil, Nat.add_zero, Nat.sub_self, List.getElem?_cons_zero,
      Option.some.injEq] at hx
    subst hx
    refine ⟨h2, y, [], ?_, by rw [hw, h1], by rw [hv, h2], by simp, rfl⟩
    rw [List.set_append_right _ _ (by simp)]
    simp
  · rw [List.concat_eq_append] at hr
    subst hr
    rw [List.get?_eq_getElem?, List.getElem?_append_right (by simp)] at hx
    simp only [List.length_append, List.length_singleton, Nat.add_sub_cancel_left,
      List.getElem?_cons_succ] at hx
    rw [List.getElem?_append_right (Nat.le_refl _)] at hx
    simp only [Nat.sub_self, List.getElem?_cons_zero, Option.some.injEq] at hx
    subst hx
    have hz := h3 z (by simp)
    refine ⟨hz.2, first, r ++ [y], ?_, h1, h2, ?_, by simp⟩
    · rw [List.set_append_right _ _ (by simp)]
      simp only [List.length_append, List.length_singleton, Nat.add_sub_cancel_left,
        List.set_cons_succ]
      rw [List.set_append_right _ _ (Nat.le_refl _)]
      simp
    · intro ev hev
      rcases List.mem_append.mp hev with hr | hy
      · exact h3 ev (List.mem_append.mpr (Or.inl hr))
      · simp only [List.mem_singleton] at hy
        subst hy
        exact ⟨by rw [hw, hz.1], by rw [hv, hz.2]⟩

/-- The shape of the events emitted for one parse event is kept while its
operator nodes are followed. -/
theorem emitted_followInv (k : Flags) (base : List ProgramEvent) (w : Int) (v : Nat) :
    FollowInv k (fun _ s => EmittedFor base w v s) (fun _ _ _ _ => True) where
  alloc := by
    intro t s d oa ids id hi _
    exact ⟨hi, trivial⟩
  alloc_keep := by
    intros; trivial
  finish := by
    intro t s op id s1 hi _ h
    obtain ⟨first, rest, hl, h1, h2, h3, hev⟩ := hi
    obtain ⟨cur, cur_ev, hcur, hcev, _, _, _, _, _, _, _, hcase⟩ := program_follow_finish_spec h
    rw [hev] at hcur
    cases hcur
    rw [hl] at hcev
    rcases hcase with ⟨_, he1, hl1⟩ | ⟨_, he1, hl1⟩
    · obtain ⟨_, first1, rest1, hset, g1, g2, g3, glen⟩ :=
        emitted_set_last h1 h2 h3 base hcev (converted_event k s.operator_id cur_ev op id)
          rfl rfl
      refine ⟨first1, rest1, ?_, g1, g2, g3, ?_⟩
      · rw [hl1, hl, hset]
      · rw [he1, glen]
    · obtain ⟨hv, _⟩ := emitted_set_last h1 h2 h3 base hcev cur_ev rfl rfl
      refine ⟨first, rest ++ [converted_event k s.operator_id (new_event cur_ev.voice_id) op id],
        ?_, h1, h2, ?_, ?_⟩
      · rw [hl1, hl]
        simp
      · intro ev hev1
        rcases List.mem_append.mp hev1 with hr | hy
        · exact h3 ev hr
        · simp only [List.mem_singleton] at hy
          subst hy
          exact ⟨rfl, hv⟩
      · rw [he1, hl]
        simp only [List.length_append, List.length_cons, List.length_singleton, List.length_nil]
  finish_keep := by
    intros; trivial

/-- The events `program_convert_enode` emits for the parse event `e`: they
follow the events that were there, the first has the wait of `e`, the others
wait 0, and all carry the voice id `voice_alloc_inc` returned for `e`. -/
theorem program_convert_enode_emitted {k : Flags} {s s1 : BuildState} {e : ParseEventData}
    (h : program_convert_enode k s e = some s1) :
    ∃ va vids v, voice_alloc_inc k s.pa.va s.voice_id e = some (va, vids, v) ∧
      EmittedFor s.pa.ev_list e.wait_ms v s1 := by
  unfold program_convert_enode at h
  split at h
  · cases h
  · rename_i s2 h2
    split at h
    · cases h
    · rename_i s3 h3
      obtain ⟨va, vids, v, hv, _, _, _, _, hev, hl⟩ := program_convert_start_spec h2
      have h0 : EmittedFor s.pa.ev_list e.wait_ms v s2 :=
        ⟨{ new_event v with wait_ms := e.wait_ms }, [], hl, rfl, rfl, by simp, by simpa using hev⟩
      have hf := (follow_onodes_inv (emitted_followInv k s.pa.ev_list e.wait_ms v) e.operators
        e.operators_copy_count Visits.init s2 s3 h0 h3).1
      refine ⟨va, vids, v, hv, ?_⟩
      rcases program_convert_voice_spec h with ⟨_, rfl⟩ | ⟨_, out, out_ev, hout, hoev, rfl⟩
      · exact hf
      · obtain ⟨first, rest, gl, g1, g2, g3, gev⟩ := hf
        rw [gev] at hout
        cases hout
        rw [gl] at hoev
        obtain ⟨_, first1, rest1, hset, q1, q2, q3, qlen⟩ :=
          emitted_set_last g1 g2 g3 s.pa.ev_list hoev
            (converted_voice k s3.operator_id out_ev e) rfl rfl
        refine ⟨first1, rest1, ?_, q1, q2, q3, ?_⟩
        · simp only
          rw [gl, hset]
        · simp only
          rw [gev, qlen]

/-- The events emitted for one parse event add its wait to the sum of waits. -/
theorem wait_sum_emitted {base : List ProgramEvent} {w : Int} {v : Nat} {s : BuildState}
    (h : EmittedFor base w v s) : wait_sum s.pa.ev_list = wait_sum base + w := by
  obtain ⟨first, rest, hl, h1, _, h3, _⟩ := h
  have hrest : ∀ (l : List ProgramEvent), (∀ ev ∈ l, ev.wait_ms = 0 ∧ ev.voice_id = v) →
      (l.map (fun ev => ev.wait_ms)).sum = 0 := by
    intro l
    induction l with
    | nil => intro _; rfl
    | cons a l ih =>
      intro hl
      simp only [List.map_cons, List.sum_cons]
      rw [(hl a (by simp)).1, ih (fun ev hev => hl ev (List.mem_cons_of_mem _ hev))]
      rfl
  unfold wait_sum
  rw [hl]
  simp only [List.map_append, List.map_cons, List.sum_append, List.sum_cons]
  rw [hrest rest h3, h1]
  omega

/-- The loop over the parse events adds the sum of their waits. -/
theorem program_convert_enodes_wait_sum (k : Flags) :
    ∀ (es : List ParseEventData) (s s1 : BuildState),
      program_convert_enodes k s es = some s1 →
      wait_sum s1.pa.ev_list = wait_sum s.pa.ev_list + parse_wait_sum es
  | [], s, s1, h => by
    rw [program_convert_enodes] at h
    cases h
    simp [parse_wait_sum]
  | e :: es, s, s1, h => by
    rw [program_convert_enodes] at h
    cases h1 : program_convert_enode k s e with
    | none => rw [h1] at h; cases h
    | some s2 =>
      rw [h1] at h
      simp only at h
      obtain ⟨_, _, v, _, hem⟩ := program_convert_enode_emitted h1
      rw [program_convert_enodes_wait_sum k es s2 s1 h, wait_sum_emitted hem]
      simp only [parse_wait_sum, List.map_cons, List.sum_cons]
      omega

/-- C12: for each parse event `e`, the program events emitted by
`program_convert_enode` (those after the events that were there before) all
carry the voice id allocated for `e` by `voice_alloc_inc`; the first has
`wait_ms = e.wait_ms` and every additional one has `wait_ms = 0`; so in the
program built from a parse result the sum of `wait_ms` over the program events
equals the sum of `wait_ms` over the parse events. -/
theorem emitted_events_voice_and_wait (k : Flags) (parse : ParseResult) (prg : Program)
    (h : SGS_create_Program k parse = some prg) :
    (∀ (s s1 : BuildState) (e : ParseEventData), program_convert_enode k s e = some s1 →
      ∃ va vids v first rest, voice_alloc_inc k s.pa.va s.voice_id e = some (va, vids, v) ∧
        s1.pa.ev_list = s.pa.ev_list ++ first :: rest ∧
        first.wait_ms = e.wait_ms ∧ first.voice_id = v ∧
        ∀ ev ∈ rest, ev.wait_ms = 0 ∧ ev.voice_id = v) ∧
    wait_sum prg.events = parse_wait_sum parse.events := by
  constructor
  · intro s s1 e he
    obtain ⟨va, vids, v, hv, first, rest, hl, h1, h2, h3, _⟩ := program_convert_enode_emitted he
    exact ⟨va, vids, v, first, rest, hv, hl, h1, h2, h3⟩
  · unfold SGS_create_Program at h
    split at h
    · cases h
    · rename_i s hs
      simp only [Option.some.injEq] at h
      subst h
      rw [(program_alloc_fini_fields _ _).1, program_convert_enodes_wait_sum k _ _ _ hs]
      simp [build_init, program_alloc_init, wait_sum]

/-- Witness for C12: the sample program, whose waits 0, 0, 200 sum to the waits
0, 200 of the two sample parse events. -/
theorem emitted_events_voice_and_wait_witness :
    SGS_create_Program sampleFlags sample_parse = some sample_program ∧
    wait_sum sample_program.events = parse_wait_sum sample_parse.events :=
  ⟨sample_program_built,
    (emitted_events_voice_and_wait sampleFlags sample_parse sample_program
      sample_program_built).2⟩

/-- The sample run of C12: the first parse event emits two events of voice 0
with waits 0 and 0, the second one event of voice 0 with wait 200. -/
theorem emitted_events_sample_run :
    sample_program.events.map (fun ev => (ev.wait_ms, ev.voice_id))
      = [(0, 0), (0, 0), (200, 0)] ∧
    wait_sum sample_program.events = 200 ∧ parse_wait_sum sample_parse.events = 200 := by
  decide

/-! ## Flattening of composite events -/

/-- C13: `flatten_events` on a main event followed by ordinary events 10 ms and
6 ms apart, with composites at 15 ms and 3 ms after that: the second composite
is given the wait `3 - 6` in `uint32_t`, 4294967293 ms, and its absolute time
in the flattened list is 4294967314 ms, while it was 18 ms before (the first
composite keeps its 15 ms). -/
theorem flatten_events_wraps :
    flatten_events sample_ordinary sample_composite
      = [⟨1, 10⟩, ⟨11, 5⟩, ⟨2, 6⟩, ⟨12, 4294967293⟩] ∧
    absolute_time 11 sample_composite = some 15 ∧
    absolute_time 11 (flatten_events sample_ordinary sample_composite) = some 15 ∧
    absolute_time 12 sample_composite = some 18 ∧
    absolute_time 12 (flatten_events sample_ordinary sample_composite) = some 4294967314 := by
  decide!

/-- With no ordinary events left, `flatten_events` appends the composites as
they are, and their absolute times are kept. -/
theorem flatten_events_no_ordinary (composite : List ParseEvent) :
    flatten_events [] composite = composite := by
  cases composite <;> rfl

/-! ## The text source -/

/-- `SAU_File_geti` where no integer starts. -/
theorem geti_no_integer (o : File) (allow_sign : Bool) (h : no_integer_here o allow_sign = true)
    (var : Int) :
    SAU_File_geti o var allow_sign = some { o := o, var := var, str_len := 0, ret := true } := by
  unfold no_integer_here at h
  unfold SAU_File_geti
  simp only [SAU_File_GETC, SAU_File_UNGETN, List.getD_eq_getElem?_getD] at h ⊢
  by_cases hs : (allow_sign && (decide (o.text[o.pos]?.getD o.status = 43)
      || decide (o.text[o.pos]?.getD o.status = 45))) = true
  · simp only [hs, if_true, Bool.not_eq_true', Bool.not_eq_eq_eq_not, Bool.not_true] at h ⊢
    simp [h]
  · simp only [hs, Bool.false_eq_true, if_false, Bool.not_eq_true', Bool.not_eq_eq_eq_not,
      Bool.not_true] at h ⊢
    simp [h]

/-- `SAU_File_getd` where no number starts. -/
theorem getd_no_number (R : Rounding) (o : File) (allow_sign : Bool)
    (h : no_number_here o allow_sign = true) (var : Num) :
    SAU_File_getd R o var allow_sign = some { o := o, var := var, str_len := 0, ret := true } := by
  unfold no_number_here at h
  unfold SAU_File_getd
  simp only [SAU_File_GETC, SAU_File_UNGETN, List.getD_eq_getElem?_getD] at h ⊢
  by_cases hs : (allow_sign && (decide (o.text[o.pos]?.getD o.status = 43)
      || decide (o.text[o.pos]?.getD o.status = 45))) = true
  · simp only [hs, if_true] at h ⊢
    by_cases hp : o.text[o.pos + 1]?.getD o.status = 46
    · simp only [hp, if_true, Bool.not_eq_true', Bool.not_eq_eq_eq_not, Bool.not_true] at h
      simp [hp, h]
    · simp only [hp, if_false, Bool.not_eq_true', Bool.not_eq_eq_eq_not, Bool.not_true] at h
      simp [hp, h]
  · simp only [hs, Bool.false_eq_true, if_false] at h ⊢
    by_cases hp : o.text[o.pos]?.getD o.status = 46
    · simp only [hp, if_true, Bool.not_eq_true', Bool.not_eq_eq_eq_not, Bool.not_true] at h
      simp [hp, h]
    · simp only [hp, if_false, Bool.not_eq_true', Bool.not_eq_eq_eq_not, Bool.not_true] at h
      simp [hp, h]

/-- C14: when the text at the read position does not start with a number
(after an optional sign where `allow_sign`; for `SAU_File_getd` a point not
followed by a digit does not start one either), `SAU_File_geti` and
`SAU_File_getd` return `true` with the reader as it was before the call, `*var`
as it was and `*str_len = 0`. -/
theorem no_number_restores_state (o : File) (allow_sign : Bool) :
    (no_integer_here o allow_sign = true → ∀ var : Int,
      SAU_File_geti o var allow_sign = some { o := o, var := var, str_len := 0, ret := true }) ∧
    (no_number_here o allow_sign = true → ∀ (R : Rounding) (var : Num),
      SAU_File_getd R o var allow_sign
        = some { o := o, var := var, str_len := 0, ret := true }) := by
  exact ⟨geti_no_integer o allow_sign, fun h R var => getd_no_number R o allow_sign h var⟩

/-- Witness for C14: `+x` read as a signed integer and `-.x` read as a signed
decimal number. -/
theorem no_number_restores_state_witness :
    SAU_File_geti (open_text "+x") 7 true
      = some { o := open_text "+x", var := 7, str_len := 0, ret := true } ∧
    SAU_File_getd ieee_rounding (open_text "-.x") (.val 7) true
      = some { o := open_text "-.x", var := .val 7, str_len := 0, ret := true } :=
  ⟨(no_number_restores_state (open_text "+x") true).1 (by decide) 7,
   (no_number_restores_state (open_text "-.x") true).2 (by decide) ieee_rounding (.val 7)⟩


/-- C15: on the digit string `5000000000`, whose value exceeds `INT32_MAX`,
`SAU_File_geti` (int32 arithmetic wrapping modulo 2^32) returns `true` and
stores 705032704: the product `500000000 * 10` wraps to a value that is not
below `500000000`, so the test `new_num < num` does not see the overflow. On
`3000000000` the overflow is seen and `INT32_MAX` is stored. -/
theorem geti_misses_overflow :
    SAU_File_geti (open_text "5000000000") 0 true
      = some { o := { open_text "5000000000" with pos := 10 }, var := 705032704,
               str_len := 10, ret := true } ∧
    SAU_File_geti (open_text "3000000000") 0 true
      = some { o := { open_text "3000000000" with pos := 10 }, var := INT32_MAX,
               str_len := 10, ret := false } := by
  decide!

theorem wrap32_of_range {i : Int} (h1 : -2147483648 ≤ i) (h2 : i ≤ 2147483647) :
    wrap32 i = i := by
  unfold wrap32
  omega

theorem foldl_digits_ge (ds : List Nat) :
    ∀ a : Nat, a ≤ ds.foldl (fun v c => v * 10 + (c - 48)) a := by
  induction ds with
  | nil => intro a; exact Nat.le_refl _
  | cons d ds ih =>
    intro a
    simp only [List.foldl_cons]
    exact Nat.le_trans (by omega) (ih _)

theorem is_digit_bounds {c : Nat} (h : IS_DIGIT c = true) : 48 ≤ c ∧ c ≤ 57 := by
  unfold IS_DIGIT at h
  simpa using h

theorem geti_step_plus (c a : Nat) (hc : 48 ≤ c ∧ c ≤ 57)
    (hv : a * 10 + (c - 48) ≤ 2147483647) :
    geti_step false c (a : Int) false = (((a * 10 + (c - 48) : Nat) : Int), false) := by
  unfold geti_step
  have e1 : wrap32 ((a : Int) * 10) = (a : Int) * 10 := wrap32_of_range (by omega) (by omega)
  have e2 : wrap32 ((a : Int) * 10 + ((c : Int) - 48)) = (a : Int) * 10 + ((c : Int) - 48) :=
    wrap32_of_range (by omega) (by omega)
  simp only [Bool.false_eq_true, if_false, e1, e2]
  rw [if_neg (by omega), Prod.mk.injEq]
  exact ⟨by omega, rfl⟩

theorem geti_step_minus (c a : Nat) (hc : 48 ≤ c ∧ c ≤ 57)
    (hv : a * 10 + (c - 48) ≤ 2147483648) :
    geti_step true c (-(a : Int)) false = (-((a * 10 + (c - 48) : Nat) : Int), false) := by
  unfold geti_step
  have e1 : wrap32 (-(a : Int) * 10) = -(a : Int) * 10 := wrap32_of_range (by omega) (by omega)
  have e2 : wrap32 (-(a : Int) * 10 - ((c : Int) - 48)) = -(a : Int) * 10 - ((c : Int) - 48) :=
    wrap32_of_range (by omega) (by omega)
  simp only [if_true, e1, e2]
  rw [if_neg (by omega), Prod.mk.injEq]
  exact ⟨by omega, rfl⟩

/-- The loop of `SAU_File_geti` over a run of digits: `sgn` is `false` for an
unsigned or positive number, which must not exceed `INT32_MAX`, and `true`
after a minus sign, for a number not below `INT32_MIN`. -/
theorem geti_loop_digits (minus : Bool) (status : Nat) (rest : List Nat)
    (hnext : IS_DIGIT (rest.headD status) = false) :
    ∀ (ds : List Nat) (c a n : Nat), IS_DIGIT c = true → (∀ d ∈ ds, IS_DIGIT d = true) →
      ((c :: ds).foldl (fun v c => v * 10 + (c - 48)) a : Nat)
        ≤ (if minus then 2147483648 else 2147483647) →
      geti_loop minus status (ds ++ rest) c (if minus then -(a : Int) else (a : Int)) false n
        = some ((if minus then
              -(((c :: ds).foldl (fun v c => v * 10 + (c - 48)) a : Nat) : Int)
            else (((c :: ds).foldl (fun v c => v * 10 + (c - 48)) a : Nat) : Int)), false,
            n + ds.length + 1) := by
  intro ds
  induction ds with
  | nil =>
    intro c a n hc _ hv
    simp only [List.foldl_cons, List.foldl_nil] at hv ⊢
    have hcb := is_digit_bounds hc
    have hstep : geti_step minus c (if minus then -(a : Int) else (a : Int)) false
        = ((if minus then -((a * 10 + (c - 48) : Nat) : Int)
            else ((a * 10 + (c - 48) : Nat) : Int)), false) := by
      cases minus
      · exact geti_step_plus c a hcb (by simpa using hv)
      · exact geti_step_minus c a hcb (by simpa using hv)
    cases rest with
    | nil =>
      simp only [List.headD_nil] at hnext
      rw [List.append_nil, geti_loop]
      simp only [hstep, hnext, Bool.false_eq_true, if_false, List.length_nil, Nat.add_zero]
    | cons r rs =>
      simp only [List.headD_cons] at hnext
      rw [List.nil_append, geti_loop]
      simp only [hstep, hnext, Bool.false_eq_true, if_false, List.length_nil, Nat.add_zero]
  | cons d ds ih =>
    intro c a n hc hds hv
    have hcb := is_digit_bounds hc
    have hd : IS_DIGIT d = true := hds d (by simp)
    simp only [List.foldl_cons] at hv ⊢
    have hle := foldl_digits_ge ds ((a * 10 + (c - 48)) * 10 + (d - 48))
    have hstep : geti_step minus c (if minus then -(a : Int) else (a : Int)) false
        = ((if minus then -((a * 10 + (c - 48) : Nat) : Int)
            else ((a * 10 + (c - 48) : Nat) : Int)), false) := by
      cases minus
      · exact geti_step_plus c a hcb (by simp only [Bool.false_eq_true, if_false] at hv; omega)
      · exact geti_step_minus c a hcb (by simp only [if_true] at hv; omega)
    rw [List.cons_append, geti_loop]
    simp only [hstep, hd, if_true]
    have h2 := ih d (a * 10 + (c - 48)) (n + 1) hd (fun x hx => hds x (by simp [hx]))
      (by simpa only [List.foldl_cons] using hv)
    simp only [List.foldl_cons] at h2
    rw [h2, List.length_cons, Nat.add_right_comm n 1, ← Nat.add_assoc n]


theorem drop_eq_cons_getD {l : List Nat} {n x : Nat} {t : List Nat} (d : Nat)
    (h : l.drop n = x :: t) : l.getD n d = x ∧ l.drop (n + 1) = t := by
  have hlt : n < l.length := by
    by_contra hn
    rw [List.drop_of_length_le (by omega)] at h
    cases h
  rw [List.drop_eq_getElem_cons hlt] at h
  simp only [List.cons.injEq] at h
  refine ⟨?_, h.2⟩
  rw [List.getD_eq_getElem?_getD, List.getElem?_eq_getElem hlt]
  exact h.1

/-- C16: for every input that begins with an optional sign (when `allow_sign`)
followed by at least one decimal digit, the digits ending before a character
that is not a digit, whose signed value fits in `int32_t`, `SAU_File_geti`
returns `true`, stores the value in `*var`, sets `*str_len` to the number of
sign and digit characters and leaves the read position at the first character
after the digits. -/
theorem geti_reads_value (o : File) (var : Int) (allow_sign : Bool) (sign ds rest : List Nat)
    (htext : o.text.drop o.pos = sign ++ ds ++ rest)
    (hsign : sign = [] ∨ (allow_sign = true ∧ (sign = [43] ∨ sign = [45])))
    (hds : ds ≠ []) (hdig : ∀ c ∈ ds, IS_DIGIT c = true)
    (hnext : IS_DIGIT (rest.headD o.status) = false)
    (hmin : INT32_MIN ≤ signed_value sign ds) (hmax : signed_value sign ds ≤ INT32_MAX) :
    SAU_File_geti o var allow_sign
      = some { o := { o with pos := o.pos + sign.length + ds.length },
               var := signed_value sign ds, str_len := sign.length + ds.length,
               ret := true } := by
  cases ds with
  | nil => exact absurd rfl hds
  | cons c ds =>
    have hc : IS_DIGIT c = true := hdig c (by simp)
    have hcb := is_digit_bounds hc
    have hds1 : ∀ d ∈ ds, IS_DIGIT d = true := fun d hd => hdig d (by simp [hd])
    unfold signed_value digits_value INT32_MIN INT32_MAX at *
    rcases hsign with rfl | ⟨ha, rfl | rfl⟩
    · simp only [List.nil_append, List.cons_append] at htext
      obtain ⟨h0, h1⟩ := drop_eq_cons_getD o.status htext
      have hns : (allow_sign && (decide (c = 43) || decide (c = 45))) = false := by
        have e1 : decide (c = 43) = false := decide_eq_false (by omega)
        have e2 : decide (c = 45) = false := decide_eq_false (by omega)
        simp [e1, e2]
      simp only [show ([] : List Nat) = [45] ↔ False from by simp, if_false] at hmin hmax ⊢
      have hl := geti_loop_digits false o.status rest hnext ds c 0 0 hc hds1
        (by simp only [Bool.false_eq_true, if_false]; omega)
      simp only [Bool.false_eq_true, if_false, Nat.cast_zero, Nat.zero_add] at hl
      unfold SAU_File_geti
      simp only [SAU_File_GETC, h0, hns, Bool.false_eq_true, if_false, hc, h1,
        Bool.false_and, hl, SAU_FBufMode_DECP, List.length_nil, List.length_cons, if_true,
        Bool.not_false, Nat.add_zero]
      simp only [Bool.true_eq_false, if_false, Option.some.injEq, GetiResult.mk.injEq,
        File.mk.injEq, true_and, and_true, List.length_nil]
      constructor <;> omega
    · simp only [List.cons_append, List.nil_append] at htext
      obtain ⟨h0, h1⟩ := drop_eq_cons_getD o.status htext
      obtain ⟨h2, h3⟩ := drop_eq_cons_getD o.status h1
      simp only [show ([43] : List Nat) = [45] ↔ False from by simp, if_false] at hmin hmax ⊢
      have hl := geti_loop_digits false o.status rest hnext ds c 0 0 hc hds1
        (by simp only [Bool.false_eq_true, if_false]; omega)
      simp only [Bool.false_eq_true, if_false, Nat.cast_zero, Nat.zero_add] at hl
      unfold SAU_File_geti
      simp only [SAU_File_GETC, h0, ha, Bool.true_and, decide_True, Bool.true_or, if_true, h2, hc,
        Bool.false_eq_true, if_false, h3, show decide ((43 : Nat) = 45) = false from rfl,
        hl, SAU_FBufMode_DECP, List.length_singleton, List.length_cons, Bool.not_false]
      simp only [Bool.true_eq_false, if_false, Option.some.injEq, GetiResult.mk.injEq,
        File.mk.injEq, true_and, and_true, List.length_nil]
      constructor <;> omega
    · simp only [List.cons_append, List.nil_append] at htext
      obtain ⟨h0, h1⟩ := drop_eq_cons_getD o.status htext
      obtain ⟨h2, h3⟩ := drop_eq_cons_getD o.status h1
      simp only [if_true] at hmin hmax ⊢
      have hl := geti_loop_digits true o.status rest hnext ds c 0 0 hc hds1
        (by simp only [if_true]; omega)
      simp only [if_true, Nat.cast_zero, neg_zero, Nat.zero_add] at hl
      unfold SAU_File_geti
      simp only [SAU_File_GETC, h0, ha, Bool.true_and, decide_True, Bool.or_true, if_true, h2, hc,
        Bool.false_eq_true, if_false, h3, hl, SAU_FBufMode_DECP, List.length_singleton,
        List.length_cons, Bool.not_false]
      simp only [Bool.true_eq_false, if_false, Option.some.injEq, GetiResult.mk.injEq,
        File.mk.injEq, true_and, and_true, List.length_nil]
      constructor <;> omega

/-- Witness for C16: `-2147483648;` read with a sign allowed. -/
theorem geti_reads_value_witness :
    SAU_File_geti (open_text "-2147483648;") 0 true
      = some { o := { open_text "-2147483648;" with pos := 0 + 1 + 10 },
               var := -2147483648, str_len := 1 + 10, ret := true } :=
  geti_reads_value (open_text "-2147483648;") 0 true [45]
    [50, 49, 52, 55, 52, 56, 51, 54, 52, 56] [59] (by decide) (by decide) (by decide)
    (by decide) (by decide) (by decide) (by decide)


theorem take_succ_set (buf : List Nat) (i c : Nat) (h : i < buf.length) :
    (buf.set i c).take (i + 1) = buf.take i ++ [c] := by
  rw [List.take_succ, List.getElem?_set_self h, List.set_take,
    List.set_eq_of_length_le (by simp)]
  rfl

theorem accepted_at_succ (c_filter : Option (Nat → Nat)) (o : File) (j : Nat) :
    accepted_at c_filter { o with pos := o.pos + 1 } j = accepted_at c_filter o (j + 1) := by
  unfold accepted_at
  simp only [Nat.add_assoc, Nat.add_comm 1 j]

theorem stored_at_succ (c_filter : Option (Nat → Nat)) (o : File) (j : Nat) :
    stored_at c_filter { o with pos := o.pos + 1 } j = stored_at c_filter o (j + 1) := by
  unfold stored_at
  simp only [Nat.add_assoc, Nat.add_comm 1 j]

/-- The characters stored are the filter's values on the longest run of
accepted characters, cut to `n`. -/
theorem gets_run_eq (c_filter : Option (Nat → Nat)) :
    ∀ (n : Nat) (o : File), gets_run c_filter o n
      = ((List.range n).takeWhile (accepted_at c_filter o)).map (stored_at c_filter o) := by
  intro n
  induction n with
  | zero => intro o; rfl
  | succ n ih =>
    intro o
    rw [gets_run, List.range_succ_eq_map, List.takeWhile_cons]
    by_cases h : accepted_at c_filter o 0 = true
    · simp only [h, if_true, List.map_cons, List.takeWhile_map, List.map_map]
      rw [ih]
      congr 1
      have e1 : accepted_at c_filter { o with pos := o.pos + 1 }
          = accepted_at c_filter o ∘ Nat.succ := funext (accepted_at_succ c_filter o)
      have e2 : stored_at c_filter { o with pos := o.pos + 1 }
          = stored_at c_filter o ∘ Nat.succ := funext (stored_at_succ c_filter o)
      rw [e1, e2]
    · simp only [h, Bool.false_eq_true, if_false, List.map_nil]

theorem gets_run_length_le (c_filter : Option (Nat → Nat)) :
    ∀ (n : Nat) (o : File), (gets_run c_filter o n).length ≤ n := by
  intro n
  induction n with
  | zero => intro o; exact Nat.le_refl _
  | succ n ih =>
    intro o
    rw [gets_run]
    by_cases h : accepted_at c_filter o 0 = true
    · simp only [h, if_true, List.length_cons]
      exact Nat.succ_le_succ (ih _)
    · simp only [h, Bool.false_eq_true, if_false, List.length_nil]
      exact Nat.zero_le _

/-- The loops of `SAU_File_gets`, with room for `n` more characters and the
terminating zero. -/
theorem gets_loop_spec (c_filter : Option (Nat → Nat)) :
    ∀ (n : Nat) (o : File) (buf : List Nat) (i : Nat), i + n < buf.length →
      gets_loop c_filter n o buf i
        = some ({ o with pos := o.pos + (gets_run c_filter o n).length },
            buf.take i ++ gets_run c_filter o n
              ++ buf.drop (i + (gets_run c_filter o n).length),
            i + (gets_run c_filter o n).length,
            decide ((gets_run c_filter o n).length = n)) := by
  intro n
  induction n with
  | zero =>
    intro o buf i _
    simp [gets_loop, gets_run]
  | succ n ih =>
    intro o buf i hi
    have hlt : i < buf.length := by omega
    have hstore : ∀ c, store buf i c = some (buf.set i c) := by
      intro c; unfold store; rw [if_pos hlt]
    have hrej : accepted_at c_filter o 0 = false →
        (some (SAU_FBufMode_DECP (SAU_File_GETC o).2, buf, i, false) :
          Option (File × List Nat × Nat × Bool))
        = some ({ o with pos := o.pos + (gets_run c_filter o (n + 1)).length },
            buf.take i ++ gets_run c_filter o (n + 1)
              ++ buf.drop (i + (gets_run c_filter o (n + 1)).length),
            i + (gets_run c_filter o (n + 1)).length,
            decide ((gets_run c_filter o (n + 1)).length = n + 1)) := by
      intro h
      simp [gets_run, h, SAU_FBufMode_DECP, SAU_File_GETC]
    have hacc : accepted_at c_filter o 0 = true →
        gets_loop c_filter n (SAU_File_GETC o).2 (buf.set i (stored_at c_filter o 0)) (i + 1)
        = some ({ o with pos := o.pos + (gets_run c_filter o (n + 1)).length },
            buf.take i ++ gets_run c_filter o (n + 1)
              ++ buf.drop (i + (gets_run c_filter o (n + 1)).length),
            i + (gets_run c_filter o (n + 1)).length,
            decide ((gets_run c_filter o (n + 1)).length = n + 1)) := by
      intro h
      rw [ih _ _ _ (by simp only [List.length_set]; omega)]
      simp only [gets_run, h, if_true, SAU_File_GETC, List.length_cons, take_succ_set buf i _ hlt]
      rw [List.drop_set_of_lt _ _ (by omega)]
      simp only [Nat.add_assoc, Nat.add_comm 1, List.append_assoc, List.singleton_append,
        Nat.add_right_cancel_iff]
    unfold gets_loop
    cases c_filter with
    | some f =>
      simp only
      by_cases hc : f (SAU_File_GETC o).1 % 256 = 0
      · rw [if_pos hc]
        exact hrej (by simp [accepted_at]; simpa [SAU_File_GETC] using hc)
      · rw [if_neg hc, hstore]
        simp only
        have hst : f (SAU_File_GETC o).1 % 256 = stored_at (some f) o 0 := by
          simp [stored_at, SAU_File_GETC]
        rw [hst]
        exact hacc (by simp [accepted_at]; simpa [SAU_File_GETC] using hc)
    | none =>
      simp only
      by_cases hc : (SAU_File_GETC o).1 ≤ SAU_FILE_MARKER ∧ SAU_File_AFTER_EOF (SAU_File_GETC o).2 = true
      · rw [if_pos hc]
        refine hrej ?_
        simp only [SAU_File_GETC, SAU_File_AFTER_EOF, decide_eq_true_eq] at hc
        simp only [accepted_at, Nat.add_zero, Bool.not_eq_false', Bool.and_eq_true,
          decide_eq_true_eq]
        exact ⟨hc.1, by omega⟩
      · rw [if_neg hc, hstore]
        simp only
        have hst : (SAU_File_GETC o).1 = stored_at none o 0 := by
          simp [stored_at, SAU_File_GETC]
        rw [hst]
        refine hacc ?_
        simp only [SAU_File_GETC, SAU_File_AFTER_EOF, decide_eq_true_eq] at hc
        simp only [accepted_at, Nat.add_zero, Bool.not_eq_true', Bool.and_eq_false_iff,
          decide_eq_false_iff_not]
        by_cases h1 : o.text.getD o.pos o.status ≤ SAU_FILE_MARKER
        · exact Or.inr (fun h2 => hc ⟨h1, by omega⟩)
        · exact Or.inl h1


/-- `SAU_File_gets` with a buffer of at least one byte, in terms of the run of
accepted characters. -/
theorem gets_spec (o : File) (buf : List Nat) (buf_len : Nat) (c_filter : Option (Nat → Nat))
    (h1 : 1 ≤ buf_len) (h2 : buf_len ≤ buf.length) :
    SAU_File_gets o buf buf_len c_filter
      = some { o := { o with pos := o.pos + (gets_run c_filter o (buf_len - 1)).length },
               buf := gets_run c_filter o (buf_len - 1)
                 ++ 0 :: buf.drop ((gets_run c_filter o (buf_len - 1)).length + 1),
               str_len := (gets_run c_filter o (buf_len - 1)).length,
               ret := decide ((gets_run c_filter o (buf_len - 1)).length < buf_len - 1) } := by
  have hmax : size_pred buf_len = buf_len - 1 := by
    unfold size_pred
    rw [if_neg (by omega)]
  have hle := gets_run_length_le c_filter (buf_len - 1) o
  unfold SAU_File_gets
  simp only [hmax]
  rw [gets_loop_spec c_filter (buf_len - 1) o buf 0 (by omega)]
  simp only [Nat.zero_add, List.take_zero, List.nil_append]
  have hst : store (gets_run c_filter o (buf_len - 1)
      ++ buf.drop (gets_run c_filter o (buf_len - 1)).length)
      (gets_run c_filter o (buf_len - 1)).length 0
      = some (gets_run c_filter o (buf_len - 1)
          ++ 0 :: buf.drop ((gets_run c_filter o (buf_len - 1)).length + 1)) := by
    unfold store
    have hlt : (gets_run c_filter o (buf_len - 1)).length < buf.length := by omega
    rw [if_pos (by simp only [List.length_append, List.length_drop]; omega)]
    rw [List.set_append_right _ _ (Nat.le_refl _), Nat.sub_self,
      List.drop_eq_getElem_cons hlt, List.set_cons_zero]
  rw [hst]
  simp only [Option.some.injEq, GetsResult.mk.injEq, true_and]
  by_cases hm : (gets_run c_filter o (buf_len - 1)).length = buf_len - 1
  · simp [hm]
  · have : (gets_run c_filter o (buf_len - 1)).length < buf_len - 1 := by omega
    simp [hm, this]

/-- C17 as stated fails for a filter that stores another character than the
one it was given, as the filter's return value is what is stored: with a filter
that turns lower case into upper case, the run `aa` of accepted input
characters is stored as `AA`. -/
theorem gets_stores_filter_output :
    SAU_File_gets (open_text "aa ") [1, 1, 1, 1] 4 (some filter_upcase)
      = some { o := { open_text "aa " with pos := 2 }, buf := [65, 65, 0, 1], str_len := 2,
               ret := true } ∧
    ((List.range 3).takeWhile (accepted_at (some filter_upcase) (open_text "aa "))).map
      (fun j => (open_text "aa ").text.getD ((open_text "aa ").pos + j) 1) = [97, 97] := by
  decide!

/-- C17, amended: `SAU_File_gets` with `1 ≤ buf_len` (at most the size of the
buffer) returns; it writes `*str_len ≤ buf_len - 1` characters followed by a
terminating zero and leaves the rest of the buffer as it was; the stored
characters are the values the filter returned for the longest run of accepted
input characters cut to `buf_len - 1` (the input characters themselves for a
filter that returns accepted characters unchanged, and when there is no
filter); the read position is left just after the last character stored. -/
theorem gets_stores_accepted_run (o : File) (buf : List Nat) (buf_len : Nat)
    (c_filter : Option (Nat → Nat))
    (h1 : 1 ≤ buf_len) (h2 : buf_len ≤ buf.length) :
    ∃ r, SAU_File_gets o buf buf_len c_filter = some r ∧
      r.str_len = accepted_run c_filter o (buf_len - 1) ∧ r.str_len ≤ buf_len - 1 ∧
      r.buf = ((List.range (buf_len - 1)).takeWhile (accepted_at c_filter o)).map
          (stored_at c_filter o) ++ 0 :: buf.drop (r.str_len + 1) ∧
      r.buf.length = buf.length ∧
      r.o = { o with pos := o.pos + r.str_len } ∧
      ((∀ f, c_filter = some f → ∀ c, f c % 256 ≠ 0 → f c % 256 = c) →
        r.buf.take r.str_len
          = ((List.range (buf_len - 1)).takeWhile (accepted_at c_filter o)).map
              (fun j => o.text.getD (o.pos + j) o.status)) := by
  have hle := gets_run_length_le c_filter (buf_len - 1) o
  have hrun := gets_run_eq c_filter (buf_len - 1) o
  have hlen : (gets_run c_filter o (buf_len - 1)).length = accepted_run c_filter o (buf_len - 1) := by
    rw [hrun, List.length_map]; rfl
  refine ⟨_, gets_spec o buf buf_len c_filter h1 h2, hlen, hle, ?_, ?_, rfl, ?_⟩
  · simp only
    rw [hrun]
  · simp only [List.length_append, List.length_cons, List.length_drop]
    omega
  · intro hpass
    simp only
    rw [List.take_left' rfl, hrun]
    apply List.map_congr_left
    intro j hj
    have hacc := (List.mem_takeWhile_imp hj)
    cases c_filter with
    | none => rfl
    | some f =>
      simp only [accepted_at, decide_eq_true_eq] at hacc
      simp only [stored_at]
      exact hpass f rfl _ hacc

/-- Witness for C17: three letters and a space read into a buffer of eight
bytes through `filter_symchar`. -/
theorem gets_stores_accepted_run_witness :
    ∃ r, SAU_File_gets (letters_then_space 3) (List.replicate 8 1) 8 (some filter_symchar)
        = some r ∧
      r.str_len = accepted_run (some filter_symchar) (letters_then_space 3) (8 - 1) ∧
      r.str_len ≤ 8 - 1 ∧
      r.buf = ((List.range (8 - 1)).takeWhile
            (accepted_at (some filter_symchar) (letters_then_space 3))).map
          (stored_at (some filter_symchar) (letters_then_space 3))
          ++ 0 :: (List.replicate 8 1).drop (r.str_len + 1) ∧
      r.buf.length = (List.replicate 8 1).length ∧
      r.o = { letters_then_space 3 with pos := (letters_then_space 3).pos + r.str_len } ∧
      ((∀ f, some filter_symchar = some f → ∀ c, f c % 256 ≠ 0 → f c % 256 = c) →
        r.buf.take r.str_len
          = ((List.range (8 - 1)).takeWhile
              (accepted_at (some filter_symchar) (letters_then_space 3))).map
              (fun j => (letters_then_space 3).text.getD ((letters_then_space 3).pos + j)
                (letters_then_space 3).status)) :=
  gets_stores_accepted_run (letters_then_space 3) (List.replicate 8 1) 8 (some filter_symchar)
    (by decide) (by decide)

/-- The sample run of C17: `aaa` and the terminating zero are stored, the rest
of the buffer is kept, and the reader stands at the space. -/
theorem gets_sample_run :
    SAU_File_gets (letters_then_space 3) (List.replicate 8 1) 8 (some filter_symchar)
      = some { o := { letters_then_space 3 with pos := 3 },
               buf := [97, 97, 97, 0, 1, 1, 1, 1], str_len := 3, ret := true } := by
  decide!

/-- C18: a run of accepted characters that fills the buffer exactly (run length
`buf_len - 1`) is stored in full, yet `SAU_File_gets` returns `false`, as the
loop tests `i == max_len` before it looks at the next character; so `scan_sym`
interns an identifier of exactly 79 bytes in full and reports it as truncated
(78 bytes are not reported, 80 bytes are cut to 79 and the rest is skipped). -/
theorem gets_reports_exact_fit_truncated :
    SAU_File_gets (letters_then_space 3) (List.replicate 4 1) 4 (some filter_symchar)
      = some { o := { letters_then_space 3 with pos := 3 }, buf := [97, 97, 97, 0],
               str_len := 3, ret := false } ∧
    scan_sym (letters_then_space 79) (List.replicate 80 0) none
      = some { f := { letters_then_space 79 with pos := 79 },
               symbuf := List.replicate 79 97 ++ [0], sym := some (List.replicate 79 97),
               truncated := true, ret := true } ∧
    scan_sym (letters_then_space 78) (List.replicate 80 0) none
      = some { f := { letters_then_space 78 with pos := 78 },
               symbuf := List.replicate 78 97 ++ [0, 0], sym := some (List.replicate 78 97),
               truncated := false, ret := true } ∧
    scan_sym (letters_then_space 80) (List.replicate 80 0) none
      = some { f := { letters_then_space 80 with pos := 80 },
               symbuf := List.replicate 79 97 ++ [0], sym := some (List.replicate 79 97),
               truncated := true, ret := true } := by
  decide!

/-! ## The sample generator -/

/-- C19 as stated fails when `s - p` does not fit in `int32_t`: with the pan
factor -1 the sample 2^30 has `p = -2^30`, the amount for the left slot wraps
to -2^31, and the two amounts add up to -3 * 2^30. -/
theorem pan_split_overflows :
    pan_split 1073741824 (1073741824 * (-1)) = (-2147483648, -1073741824) ∧
    (pan_split 1073741824 (1073741824 * (-1))).1 + (pan_split 1073741824 (1073741824 * (-1))).2
      ≠ 1073741824 := by
  decide

/-- C19, amended: for every mono sample `s` and every part `p` computed from it
for the right slot, the amount added to the left slot plus the amount added to
the right slot equals `s` exactly whenever `s - p` fits in `int32_t`, and
equals `s` modulo 2^32 in any case. -/
theorem pan_split_sum (s p : Int) :
    (-2147483648 ≤ s - p → s - p ≤ 2147483647 → (pan_split s p).1 + (pan_split s p).2 = s) ∧
    ((pan_split s p).1 + (pan_split s p).2 - s) % 4294967296 = 0 := by
  unfold pan_split wrap32
  constructor
  · intro h1 h2
    simp only
    omega
  · simp only
    omega

/-- Witness for C19: the sample 1000 with the part 250 for the right slot. -/
theorem pan_split_sum_witness :
    (pan_split 1000 250).1 + (pan_split 1000 250).2 = 1000 :=
  (pan_split_sum 1000 250).1 (by decide) (by decide)

/-- C20: `run_block` on an operator with 100 samples of time and 250 samples
of silence left, called for 256 samples (`acc_ind = 0`): the silence step
leaves the time at -150; the length is then set to that time, which is
4294967146 as `uint32_t`, so that many wave samples are generated for a call
of 256 samples; the time ends at 0 and 100 is returned. Called for no more
samples than it has time left (100), the same operator generates no wave
sample and ends with the time 0 and the silence 150. -/
theorem run_block_silence_exceeds_time :
    (run_block_silence sampleGen (sample_node 100 250) 256)
      = ({ time := -150, silence := 0, adjcs := none }, 250, 6) ∧
    run_block sampleGen 1 [sample_node 100 250] 256 0 false
      = some ([sample_node 0 0],
          { zero_len := 250, len := 4294967146, skip_len := 156, tail := true, ret := 100 }) ∧
    run_block sampleGen 1 [sample_node 100 250] 100 0 false
      = some ([sample_node 0 150],
          { zero_len := 100, len := 0, skip_len := 0, tail := false, ret := 100 }) := by
  decide!

/-- A call of `run_block` for no more samples than the operator has time
left, its silence being longer than its time: the whole call is silence, no
wave sample is generated, and time and silence go down by the length. -/
theorem run_block_all_silence (K : GenParams) (fuel : Nat) (ops : List OperatorNode)
    (buf_len id : Nat) (wave_env : Bool) (n : OperatorNode) (hn : ops.get? id = some n)
    (hinf : n.time ≠ K.TIME_INF) (hlen : 0 < buf_len) (htime : (buf_len : Int) ≤ n.time)
    (hmax : n.time ≤ 2147483647) (hsil : n.time < (n.silence : Int)) :
    run_block K (fuel + 1) ops buf_len id wave_env
      = some (ops.set id { n with time := n.time - (buf_len : Int),
                                  silence := n.silence - buf_len },
          { zero_len := buf_len, len := 0, skip_len := 0, tail := false, ret := buf_len }) := by
  have hs : n.silence ≠ 0 := by omega
  have hgt : n.silence > buf_len := by omega
  have hw : wrap32 (n.time - (buf_len : Int)) = n.time - (buf_len : Int) := by
    unfold wrap32; omega
  rw [run_block]
  simp only [hn, run_block_silence, hs, ne_eq, not_false_eq_true, if_true, hgt, hinf, hw,
    Nat.sub_self, and_self]

/-- The call of C20 arises in `run_voice`: in a voice with a second carrier of
1000 samples the first block is 256 samples long, and `run_block` is called
with that length for the carrier that has 100 samples left. -/
theorem run_voice_calls_short_carrier :
    longest_time sampleGen [sample_node 100 250, sample_node 1000 0] [0, 1] 0 = some 1000 ∧
    (carriers_loop sampleGen 1 256 [0, 1] [sample_node 100 250, sample_node 1000 0]
        (fun _ => 0) 0 0).map (fun r => (r.1, r.2.2.2))
      = some ([sample_node 0 0, sample_node 744 0], 256) := by
  decide!


/-- The sample runs of C21: the carrier of 3 samples is finished after a call
for 4 samples and the bit is cleared; after a call for 2 samples it has 1
sample left and the bit stays; a voice without operators is finished at once. -/
theorem run_voice_sample_runs :
    run_voice sampleGen 10 [sample_node 3 0] (fun _ => 0) (sample_voice [0])
        [0, 0, 0, 0, 0, 0, 0, 0] 4
      = some { ops := [sample_node 0 0], vn := { sample_voice [0] with flag := 0, pos := 3 },
               out := [0, 1000, 0, 1000, 0, 1000, 0, 0], ret := 3 } ∧
    run_voice sampleGen 10 [sample_node 3 0] (fun _ => 0) (sample_voice [0])
        [0, 0, 0, 0, 0, 0, 0, 0] 2
      = some { ops := [sample_node 1 0], vn := { sample_voice [0] with flag := 1, pos := 2 },
               out := [0, 1000, 0, 1000, 0, 0, 0, 0], ret := 2 } ∧
    run_voice sampleGen 10 [sample_node 3 0] (fun _ => 0) (sample_voice [])
        [0, 0, 0, 0] 2
      = some { ops := [sample_node 3 0], vn := { sample_voice [] with flag := 0, pos := 0 },
               out := [0, 0, 0, 0], ret := 0 } := by
  decide!

/-! ## Numerical expressions -/

theorem seek_decp_getc (f : File) (q : Nat) :
    SAU_FBufMode_DECP (SAU_File_GETC (f.seek q)).2 = f.seek q := by
  simp [SAU_FBufMode_DECP, SAU_File_GETC, File.seek]

theorem seek_getc (f : File) (q : Nat) :
    SAU_File_GETC (f.seek q) = (f.char_at q, f.seek (q + 1)) := by
  simp [SAU_File_GETC, File.seek, File.char_at]

theorem seek_decp (f : File) (q : Nat) : SAU_FBufMode_DECP (f.seek (q + 1)) = f.seek q := by
  simp [SAU_FBufMode_DECP, File.seek]

/-- `skip_ws` stops at once at a character that is not blank. -/
theorem skip_ws_stop (f : File) (q line : Nat) (h : not_blank (f.char_at q) = true) :
    skip_ws (f.seek q) line = some (f.seek q, line) := by
  unfold not_blank at h
  simp only [Bool.and_eq_true, Bool.not_eq_true', decide_eq_false_iff_not] at h
  obtain ⟨⟨⟨h1, h2⟩, h3⟩, h4⟩ := h
  unfold skip_ws
  rw [skip_ws_loop, seek_getc]
  simp only [h1, h2, h3, h4, Bool.false_eq_true, if_false]
  rw [seek_decp]

theorem numscan_skip_ws_stop (f : File) (q line : Nat) (b : Bool) (level : Nat)
    (h : not_blank (f.char_at q) = true) :
    NumScan.skip_ws { f := f.seek q, line := line, has_infnum := b } level
      = some { f := f.seek q, line := line, has_infnum := b } := by
  unfold NumScan.skip_ws
  by_cases hl : level > 0
  · simp only [hl, if_true, skip_ws_stop f q line h]
  · simp only [hl, if_false]

theorem literal_not_blank {R : Rounding} {f : File} {p len : Nat} {v : ℚ}
    (h : LiteralAt R f p len v) :
    not_blank (f.char_at p) = true ∧ f.char_at p ≠ 43 ∧ f.char_at p ≠ 45 ∧ f.char_at p ≠ 40 := by
  rcases h.1 with h1 | h1
  · have hb := is_digit_bounds h1
    refine ⟨?_, by omega, by omega, by omega⟩
    unfold not_blank IS_SPACE
    have e1 : decide (f.char_at p = 32) = false := decide_eq_false (by omega)
    have e2 : decide (f.char_at p = 9) = false := decide_eq_false (by omega)
    have e3 : decide (f.char_at p = 10) = false := decide_eq_false (by omega)
    have e4 : decide (f.char_at p = 13) = false := decide_eq_false (by omega)
    have e5 : decide (f.char_at p = 35) = false := decide_eq_false (by omega)
    rw [e1, e2, e3, e4, e5]
    rfl
  · rw [h1]
    exact ⟨by decide, by decide, by decide, by decide⟩

/-- `scan_num_r` at a numeric literal: the literal is read, and with it the
function returns (at level 0 or priority `NUMEXP_NUM`) or enters its loop. -/
theorem scan_num_r_literal (K : PFlags) (fuel : Nat) (f : File) (line : Nat) (b : Bool)
    (p len : Nat) (v : ℚ) (pri level : Nat) (h : LiteralAt K.toRounding f p len v) :
    scan_num_r K none (fuel + 1) { f := f.seek p, line := line, has_infnum := b } pri level
      = if level = 0 ∨ pri = NUMEXP_NUM then
          some ({ f := f.seek (p + len), line := line, has_infnum := b }, .val v)
        else scan_num_loop K none fuel { f := f.seek (p + len), line := line, has_infnum := b }
          (.val v) pri level := by
  obtain ⟨hb, h43, h45, h40⟩ := literal_not_blank h
  obtain ⟨_, hlen, hget⟩ := h
  rw [scan_num_r, numscan_skip_ws_stop f p line b level hb]
  simp only [seek_getc, h43, h45, decide_False, Bool.or_self, Bool.and_false, Bool.false_eq_true,
    if_false, h40]
  simp only [scan_atom, seek_decp, hget, Nat.ne_of_gt hlen, if_false]


theorem binop_not_blank {c : Nat} (h : IsBinOp c) : not_blank c = true := by
  rcases h with rfl | rfl | rfl | rfl <;> decide

/-- The loop of `scan_num_r` at a closing parenthesis: at priority `NUMEXP_SUB`
it is read and the number returned, at another priority it is left unread. -/
theorem scan_num_loop_close (K : PFlags) (fuel : Nat) (f : File) (line : Nat) (b : Bool)
    (q : Nat) (x : ℚ) (pri level : Nat) (hc : f.char_at q = 41) :
    scan_num_loop K none (fuel + 1) { f := f.seek q, line := line, has_infnum := b }
        (.val x) pri level
      = if pri = NUMEXP_SUB then
          some ({ f := f.seek (q + 1), line := line, has_infnum := b }, .val x)
        else some ({ f := f.seek q, line := line, has_infnum := b }, .val x) := by
  rw [scan_num_loop]
  simp only [Num.isinf, Bool.false_eq_true, if_false]
  rw [numscan_skip_ws_stop f q line b level (by rw [hc]; decide)]
  simp only [seek_getc, hc, seek_decp]
  by_cases hp : pri = NUMEXP_SUB
  · simp [hp]
  · simp [hp]

/-- The loop of `scan_num_r` at an operator that does not bind more tightly
than the priority: the operator is left unread. -/
theorem scan_num_loop_defer (K : PFlags) (fuel : Nat) (f : File) (line : Nat) (b : Bool)
    (q : Nat) (x : ℚ) (pri level : Nat) (hop : IsBinOp (f.char_at q))
    (hp : op_pri (f.char_at q) ≤ pri) :
    scan_num_loop K none (fuel + 1) { f := f.seek q, line := line, has_infnum := b }
        (.val x) pri level
      = some ({ f := f.seek q, line := line, has_infnum := b }, .val x) := by
  rw [scan_num_loop]
  simp only [Num.isinf, Bool.false_eq_true, if_false]
  rw [numscan_skip_ws_stop f q line b level (binop_not_blank hop)]
  simp only [seek_getc, seek_decp]
  unfold op_pri at hp
  rcases hop with h | h | h | h <;>
    simp [h, NUMEXP_ADT, NUMEXP_MLT, NUMEXP_POW, NUMEXP_SUB] at hp ⊢ <;>
    intro hc <;> omega

/-- The loop of `scan_num_r` at an operator that binds more tightly than the
priority: the right operand is read with the priority of the operator, and the
loop goes on with the result. -/
theorem scan_num_loop_op (K : PFlags) (fuel : Nat) (f : File) (line : Nat) (b : Bool)
    (q : Nat) (x : ℚ) (pri level : Nat) (hop : IsBinOp (f.char_at q))
    (hp : pri < op_pri (f.char_at q)) :
    scan_num_loop K none (fuel + 1) { f := f.seek q, line := line, has_infnum := b }
        (.val x) pri level
      = match scan_num_r K none fuel { f := f.seek (q + 1), line := line, has_infnum := b }
          (op_pri (f.char_at q)) level with
        | none => none
        | some r =>
          if (op_fun (f.char_at q) (.val x) r.2).isnan = true then
            some ({ r.1 with f := SAU_FBufMode_DECP r.1.f }, op_fun (f.char_at q) (.val x) r.2)
          else scan_num_loop K none fuel r.1 (op_fun (f.char_at q) (.val x) r.2) pri level := by
  rw [scan_num_loop]
  simp only [Num.isinf, Bool.false_eq_true, if_false]
  rw [numscan_skip_ws_stop f q line b level (binop_not_blank hop)]
  simp only [seek_getc, seek_decp]
  unfold op_pri at hp ⊢
  unfold op_fun
  rcases hop with h | h | h | h <;>
    simp [h, NUMEXP_ADT, NUMEXP_MLT, NUMEXP_POW, NUMEXP_SUB] at hp ⊢ <;>
    intro hc <;> omega

theorem op_fun_val {c : Nat} (hop : IsBinOp c) (x y : ℚ) (hdiv : c = 47 → y ≠ 0) :
    op_fun c (.val x) (.val y) = .val (bin_op c x y) := by
  unfold op_fun bin_op
  rcases hop with rfl | rfl | rfl | rfl
  · simp [Num.add]
  · simp [Num.sub, Num.add, Num.neg, sub_eq_add_neg]
  · simp [Num.mul]
  · simp [Num.div, hdiv rfl]


/-- `scan_num_r` at an opening parenthesis: the expression inside is read at
the next level with priority `NUMEXP_SUB`. -/
theorem scan_num_r_paren (K : PFlags) (numsym_f : Option (File → File × Option Num × Nat))
    (fuel : Nat) (f : File) (line : Nat) (b : Bool) (p : Nat) (pri level : Nat)
    (h : f.char_at p = 40) :
    scan_num_r K numsym_f (fuel + 1) { f := f.seek p, line := line, has_infnum := b } pri level
      = match scan_num_r K numsym_f fuel { f := f.seek (p + 1), line := line, has_infnum := b }
          NUMEXP_SUB (level + 1) with
        | none => none
        | some x =>
          if level = 0 ∨ pri = NUMEXP_NUM then some (x.1, x.2)
          else scan_num_loop K numsym_f fuel x.1 x.2 pri level := by
  rw [scan_num_r, numscan_skip_ws_stop f p line b level (by rw [h]; decide)]
  simp only [seek_getc, h]
  cases hr : scan_num_r K numsym_f fuel { f := f.seek (p + 1), line := line, has_infnum := b }
      NUMEXP_SUB (level + 1) with
  | none => simp [hr]
  | some x => simp [hr]

theorem literal_number {R : Rounding} {f : File} {p len : Nat} {v : ℚ}
    (h : LiteralAt R f p len v) : NumberAt R f p len (.val v) := by
  obtain ⟨h1, h2, h3⟩ := h
  exact ⟨h1, h2, by rw [h3]; rfl⟩

theorem number_not_blank {R : Rounding} {f : File} {p len : Nat} {x : Num}
    (h : NumberAt R f p len x) :
    not_blank (f.char_at p) = true ∧ f.char_at p ≠ 43 ∧ f.char_at p ≠ 45 ∧ f.char_at p ≠ 40 := by
  rcases h.1 with h1 | h1
  · have hb := is_digit_bounds h1
    refine ⟨?_, by omega, by omega, by omega⟩
    unfold not_blank IS_SPACE
    have e1 : decide (f.char_at p = 32) = false := decide_eq_false (by omega)
    have e2 : decide (f.char_at p = 9) = false := decide_eq_false (by omega)
    have e3 : decide (f.char_at p = 10) = false := decide_eq_false (by omega)
    have e4 : decide (f.char_at p = 13) = false := decide_eq_false (by omega)
    have e5 : decide (f.char_at p = 35) = false := decide_eq_false (by omega)
    rw [e1, e2, e3, e4, e5]
    rfl
  · rw [h1]
    exact ⟨by decide, by decide, by decide, by decide⟩

/-- The loop of `scan_num_r` at a closing parenthesis, for any number: an
infinite number is noted in `has_infnum`; at priority `NUMEXP_SUB` the
parenthesis is read and the number returned. -/
theorem scan_num_loop_close_num (K : PFlags) (fuel : Nat) (f : File) (line : Nat) (b : Bool)
    (q : Nat) (x : Num) (pri level : Nat) (hc : f.char_at q = 41) :
    scan_num_loop K none (fuel + 1) { f := f.seek q, line := line, has_infnum := b }
        x pri level
      = if pri = NUMEXP_SUB then
          some ({ f := f.seek (q + 1), line := line,
                  has_infnum := if x.isinf = true then true else b }, x)
        else some ({ f := f.seek q, line := line,
                     has_infnum := if x.isinf = true then true else b }, x) := by
  rw [scan_num_loop]
  have hs0 : (if x.isinf = true then
      ({ ({ f := f.seek q, line := line, has_infnum := b } : NumScan) with has_infnum := true })
      else { f := f.seek q, line := line, has_infnum := b })
      = { f := f.seek q, line := line, has_infnum := if x.isinf = true then true else b } := by
    split <;> rfl
  simp only [hs0]
  rw [numscan_skip_ws_stop f q line _ level (by rw [hc]; decide)]
  simp only [seek_getc, hc, seek_decp]
  by_cases hp : pri = NUMEXP_SUB
  · simp [hp]
  · simp [hp]

/-- `scan_num_r` at a sign before a numeric literal, inside parentheses
(`level > 0`): the sign is applied to the number read. -/
theorem scan_num_r_signed (K : PFlags) (fuel : Nat) (f : File) (line : Nat) (b : Bool)
    (p len : Nat) (x : Num) (pri level : Nat) (hlevel : 0 < level)
    (hs : f.char_at p = 43 ∨ f.char_at p = 45) (h : NumberAt K.toRounding f (p + 1) len x) :
    scan_num_r K none (fuel + 1) { f := f.seek p, line := line, has_infnum := b } pri level
      = if pri = NUMEXP_NUM then
          some ({ f := f.seek (p + 1 + len), line := line, has_infnum := b },
            if f.char_at p = 45 then x.neg else x)
        else scan_num_loop K none fuel { f := f.seek (p + 1 + len), line := line, has_infnum := b }
          (if f.char_at p = 45 then x.neg else x) pri level := by
  obtain ⟨hb, h43, h45, h40⟩ := number_not_blank h
  obtain ⟨_, hlen, hget⟩ := h
  have hsb : not_blank (f.char_at p) = true := by
    rcases hs with hs | hs <;> rw [hs] <;> decide
  have hl0 : level ≠ 0 := by omega
  rw [scan_num_r, numscan_skip_ws_stop f p line b level hsb]
  have hsigned : (decide (level > 0) && (decide (f.char_at p = 43) || decide (f.char_at p = 45)))
      = true := by
    rcases hs with hs | hs <;> simp [hs, hlevel]
  simp only [seek_getc, hsigned, if_true, Bool.true_and]
  rw [numscan_skip_ws_stop f (p + 1) line b level hb]
  simp only [seek_getc, h40, if_false, scan_atom, seek_decp, hget, Nat.ne_of_gt hlen, hl0,
    false_or]
  rcases hs with hs | hs
  · simp [hs]
  · simp [hs]

/-- `scan_num_r` at the top level (`level = 0`) at a sign: nothing is read and
the result is NaN. -/
theorem scan_num_r_top_sign (K : PFlags) (numsym_f : Option (File → File × Option Num × Nat))
    (fuel : Nat) (f : File) (line : Nat) (b : Bool) (p : Nat) (pri : Nat)
    (hs : f.char_at p = 43 ∨ f.char_at p = 45) :
    scan_num_r K numsym_f (fuel + 1) { f := f.seek p, line := line, has_infnum := b } pri 0
      = some ({ f := f.seek p, line := line, has_infnum := b }, .nan) := by
  have hsb : not_blank (f.char_at p) = true := by
    rcases hs with hs | hs <;> rw [hs] <;> decide
  have h40 : f.char_at p ≠ 40 := by
    rcases hs with hs | hs <;> rw [hs] <;> decide
  have halpha : IS_ALPHA (f.char_at p) = false := by
    rcases hs with hs | hs <;> rw [hs] <;> decide
  have hno : no_number_here (f.seek p) false = true := by
    unfold no_number_here
    have e : (f.seek p).text.getD (f.seek p).pos (f.seek p).status = f.char_at p := rfl
    simp only [Bool.false_and, Bool.false_eq_true, if_false, e]
    rcases hs with hs | hs <;> rw [hs] <;> rw [if_neg (by decide)] <;> decide
  rw [scan_num_r, numscan_skip_ws_stop f p line b 0 hsb]
  simp only [seek_getc, Nat.lt_irrefl, gt_iff_lt, decide_False, Bool.false_and,
    Bool.false_eq_true, if_false, h40]
  cases numsym_f with
  | none => simp only [scan_atom, seek_decp, getd_no_number _ _ _ hno, if_true]
  | some nf => simp only [scan_atom, halpha, Bool.false_eq_true, if_false, seek_decp,
      getd_no_number _ _ _ hno, if_true]

/-- C22 as stated fails at the top level of an expression and for literals
too large for a `float`: `scan_num` on `-5` (and on `+5`) returns false and
reads nothing, the sign being looked for only when `level > 0`; inside
parentheses `(-5)` yields -5, but a literal of 40 digits, which is finite as a
`double` and infinite as a `float`, makes `scan_num` return false. -/
theorem scan_num_sign_rejected :
    scan_num sampleFloatFlags none 10 (open_text "-5 ") 1 = some (open_text "-5 ", 1, none) ∧
    scan_num sampleFloatFlags none 10 (open_text "+5 ") 1 = some (open_text "+5 ", 1, none) ∧
    scan_num sampleFloatFlags none 10 (open_text "(-5) ") 1
      = some ({ open_text "(-5) " with pos := 4 }, 1, some (.val (-5))) ∧
    (SAU_File_getd ieee_rounding (open_text "1000000000000000000000000000000000000000 ")
        (.val 0) false).map (fun r => (r.var, r.ret))
      = some (.val 999999999999999939709166371603178586112, true) ∧
    scan_num sampleFloatFlags none 10
        (open_text "(-1000000000000000000000000000000000000000) ") 1
      = some ({ open_text "(-1000000000000000000000000000000000000000) " with pos := 43 }, 1,
          none) := by
  decide!

/-- C22, amended: `scan_num` accepts a unary sign on an atom inside
parentheses: for every numeric literal `x` the input `(-x)` (respectively
`(+x)`) is scanned up to and including the closing parenthesis, and the scan
succeeds and yields `-x` (respectively `x`), stored as a `float`, unless that
`float` is infinite (the literal being too large) or NaN, in which case
`scan_num` returns false. At the top level of an expression a sign is not
accepted: on `-x` and `+x` the function returns false and reads nothing. -/
theorem scan_num_sign (K : PFlags) (f : File) (line p len : Nat) (x : Num) (n : Nat) :
    ((f.char_at p = 43 ∨ f.char_at p = 45) →
      ∀ numsym_f, scan_num K numsym_f (n + 1) (f.seek p) line = some (f.seek p, line, none)) ∧
    (f.char_at p = 40 → (f.char_at (p + 1) = 43 ∨ f.char_at (p + 1) = 45) →
      NumberAt K.toRounding f (p + 2) len x → f.char_at (p + 2 + len) = 41 →
      scan_num K none (n + 3) (f.seek p) line
        = some (f.seek (p + 3 + len), line,
            if (K.store (if f.char_at (p + 1) = 45 then x.neg else x)).isnan = true ∨
                (K.store (if f.char_at (p + 1) = 45 then x.neg else x)).isinf = true then none
            else some (K.store (if f.char_at (p + 1) = 45 then x.neg else x)))) := by
  constructor
  · intro hs numsym_f
    unfold scan_num
    rw [scan_num_r_top_sign K numsym_f n f line false p NUMEXP_NUM hs]
    simp [PFlags.store, Num.isnan]
  · intro h0 hs hl h1
    unfold scan_num
    rw [scan_num_r_paren K none (n + 2) f line false p NUMEXP_NUM 0 h0,
      scan_num_r_signed K (n + 1) f line false (p + 1) len x NUMEXP_SUB 1 (by decide) hs hl]
    have hne : NUMEXP_SUB ≠ NUMEXP_NUM := by decide
    rw [if_neg hne, scan_num_loop_close_num K n f line false (p + 1 + 1 + len) _ NUMEXP_SUB 1
      (by rw [show p + 1 + 1 + len = p + 2 + len from by omega]; exact h1)]
    simp only [if_true, true_or]
    have hpos : p + 1 + 1 + len + 1 = p + 3 + len := by omega
    rw [hpos]
    generalize (if f.char_at (p + 1) = 45 then x.neg else x) = sx
    cases sx with
    | val q =>
      cases hst : K.store (Num.val q) with
      | val y => simp [Num.isnan, Num.isinf]
      | inf s => simp [Num.isnan, Num.isinf]
      | nan => simp [Num.isnan, Num.isinf]
    | inf s => simp [PFlags.store, Num.isnan, Num.isinf]
    | nan => simp [PFlags.store, Num.isnan, Num.isinf]

/-- Witness for C22: `-5` at the top level, `(-5)`, and a literal of 40
digits in parentheses. -/
theorem scan_num_sign_witness :
    scan_num sampleFloatFlags none (0 + 1) ((open_text "-5 ").seek 0) 1
      = some ((open_text "-5 ").seek 0, 1, none) ∧
    scan_num sampleFloatFlags none (0 + 3) ((open_text "(-5) ").seek 0) 1
      = some ((open_text "(-5) ").seek (0 + 3 + 1), 1,
          if (sampleFloatFlags.store (if (open_text "(-5) ").char_at (0 + 1) = 45
                then (Num.val 5).neg else .val 5)).isnan = true ∨
              (sampleFloatFlags.store (if (open_text "(-5) ").char_at (0 + 1) = 45
                then (Num.val 5).neg else .val 5)).isinf = true then none
          else some (sampleFloatFlags.store (if (open_text "(-5) ").char_at (0 + 1) = 45
            then (Num.val 5).neg else .val 5))) ∧
    scan_num sampleFloatFlags none (0 + 3)
        ((open_text "(-1000000000000000000000000000000000000000) ").seek 0) 1
      = some ((open_text "(-1000000000000000000000000000000000000000) ").seek (0 + 3 + 40), 1,
          if (sampleFloatFlags.store
                (if (open_text "(-1000000000000000000000000000000000000000) ").char_at (0 + 1)
                    = 45
                  then (Num.val 999999999999999939709166371603178586112).neg
                  else .val 999999999999999939709166371603178586112)).isnan = true ∨
              (sampleFloatFlags.store
                (if (open_text "(-1000000000000000000000000000000000000000) ").char_at (0 + 1)
                    = 45
                  then (Num.val 999999999999999939709166371603178586112).neg
                  else .val 999999999999999939709166371603178586112)).isinf = true then none
          else some (sampleFloatFlags.store
            (if (open_text "(-1000000000000000000000000000000000000000) ").char_at (0 + 1) = 45
              then (Num.val 999999999999999939709166371603178586112).neg
              else .val 999999999999999939709166371603178586112))) :=
  ⟨(scan_num_sign sampleFloatFlags (open_text "-5 ") 1 0 1 (.val 5) 0).1 (by decide) none,
   (scan_num_sign sampleFloatFlags (open_text "(-5) ") 1 0 1 (.val 5) 0).2 (by decide)
    (by decide) ⟨by decide, by decide, by decide!⟩ (by decide),
   (scan_num_sign sampleFloatFlags (open_text "(-1000000000000000000000000000000000000000) ")
      1 0 40 (.val 999999999999999939709166371603178586112) 0).2 (by decide) (by decide)
    ⟨by decide, by decide, by decide!⟩ (by decide)⟩


theorem op_pri_cases (c : Nat) :
    op_pri c = NUMEXP_ADT ∨ op_pri c = NUMEXP_MLT := by
  unfold op_pri
  by_cases hc : c = 43 ∨ c = 45
  · exact Or.inl (if_pos hc)
  · exact Or.inr (if_neg hc)

/-- `scan_num_r` at the right operand `y` of an operator of priority `pri`
that is followed by a closing parenthesis or by an operator that does not
bind more tightly: the operand is the literal. -/
theorem scan_num_r_operand (K : PFlags) (fuel : Nat) (f : File) (line : Nat) (b : Bool)
    (p len : Nat) (y : ℚ) (pri : Nat) (hl : LiteralAt K.toRounding f p len y)
    (hpri : pri = NUMEXP_ADT ∨ pri = NUMEXP_MLT)
    (hnext : f.char_at (p + len) = 41 ∨
      (IsBinOp (f.char_at (p + len)) ∧ op_pri (f.char_at (p + len)) ≤ pri)) :
    scan_num_r K none (fuel + 2) { f := f.seek p, line := line, has_infnum := b } pri 1
      = some ({ f := f.seek (p + len), line := line, has_infnum := b }, .val y) := by
  have h1 : ¬ ((1 : Nat) = 0 ∨ pri = NUMEXP_NUM) := by
    rcases hpri with h | h <;> rw [h] <;> decide
  have h2 : pri ≠ NUMEXP_SUB := by
    rcases hpri with h | h <;> rw [h] <;> decide
  rw [scan_num_r_literal K (fuel + 1) f line b p len y pri 1 hl, if_neg h1]
  rcases hnext with hc | ⟨hop, hle⟩
  · rw [scan_num_loop_close K fuel f line b (p + len) y pri 1 hc, if_neg h2]
  · rw [scan_num_loop_defer K fuel f line b (p + len) y pri 1 hop hle]

/-- C23: `scan_num_r` on a parenthesised expression `(a op1 b op2 c)` of three
numeric literals and two of the operators `+`, `-`, `*`, `/` (exact
arithmetic, no division by zero): when `op2` binds more tightly than `op1` the
result is `a op1 (b op2 c)`, otherwise `(a op1 b) op2 c`; so `(a+b*c)` yields
`a + (b*c)`, `(a*b+c)` yields `(a*b) + c`, `(a-b-c)` yields `(a-b)-c` and
`(a/b/c)` yields `(a/b)/c`. The scan stops just after the closing `)`. -/
theorem scan_num_r_precedence (K : PFlags) (f : File) (line : Nat) (h : Bool)
    (p la lb lc : Nat) (a b c : ℚ) (n : Nat)
    (h0 : f.char_at p = 40) (ha : LiteralAt K.toRounding f (p + 1) la a)
    (hop1 : IsBinOp (f.char_at (p + 1 + la))) (hb : LiteralAt K.toRounding f (p + 2 + la) lb b)
    (hop2 : IsBinOp (f.char_at (p + 2 + la + lb))) (hc : LiteralAt K.toRounding f (p + 3 + la + lb) lc c)
    (h3 : f.char_at (p + 3 + la + lb + lc) = 41)
    (hdiv1 : f.char_at (p + 1 + la) = 47 → b ≠ 0)
    (hdiv2 : f.char_at (p + 2 + la + lb) = 47 → c ≠ 0) :
    scan_num_r K none (n + 7) { f := f.seek p, line := line, has_infnum := h } NUMEXP_NUM 0
      = some ({ f := f.seek (p + 4 + la + lb + lc), line := line, has_infnum := h },
          .val (if op_pri (f.char_at (p + 1 + la)) < op_pri (f.char_at (p + 2 + la + lb)) then
              bin_op (f.char_at (p + 1 + la)) a (bin_op (f.char_at (p + 2 + la + lb)) b c)
            else bin_op (f.char_at (p + 2 + la + lb))
              (bin_op (f.char_at (p + 1 + la)) a b) c)) := by
  have e1 : p + 1 + la + 1 = p + 2 + la := by omega
  have e2 : p + 2 + la + lb + 1 = p + 3 + la + lb := by omega
  have e3 : p + 3 + la + lb + lc + 1 = p + 4 + la + lb + lc := by omega
  have hsub : ¬ ((1 : Nat) = 0 ∨ NUMEXP_SUB = NUMEXP_NUM) := by decide
  have hp1 := op_pri_cases (f.char_at (p + 1 + la))
  have hp2 := op_pri_cases (f.char_at (p + 2 + la + lb))
  have hsub1 : NUMEXP_SUB < op_pri (f.char_at (p + 1 + la)) := by
    rcases hp1 with h | h <;> rw [h] <;> decide
  have hsub2 : NUMEXP_SUB < op_pri (f.char_at (p + 2 + la + lb)) := by
    rcases hp2 with h | h <;> rw [h] <;> decide
  rw [scan_num_r_paren K none (n + 6) f line h p NUMEXP_NUM 0 h0,
    scan_num_r_literal K (n + 5) f line h (p + 1) la a NUMEXP_SUB 1 ha, if_neg hsub,
    scan_num_loop_op K (n + 4) f line h (p + 1 + la) a NUMEXP_SUB 1 hop1 hsub1, e1]
  by_cases hnest : op_pri (f.char_at (p + 1 + la)) < op_pri (f.char_at (p + 2 + la + lb))
  · -- `op2` binds more tightly: `b op2 c` is the right operand of `op1`
    have hne1 : ¬ ((1 : Nat) = 0 ∨ op_pri (f.char_at (p + 1 + la)) = NUMEXP_NUM) := by
      rcases hp1 with h | h <;> rw [h] <;> decide
    have hne2 : op_pri (f.char_at (p + 1 + la)) ≠ NUMEXP_SUB := by
      rcases hp1 with h | h <;> rw [h] <;> decide
    have hnot47 : f.char_at (p + 1 + la) ≠ 47 := by
      intro h47
      rw [h47] at hnest
      rcases hp2 with h | h <;> rw [h] at hnest <;> revert hnest <;> decide
    rw [scan_num_r_literal K (n + 3) f line h (p + 2 + la) lb b _ 1 hb, if_neg hne1,
      scan_num_loop_op K (n + 2) f line h (p + 2 + la + lb) b _ 1 hop2 hnest, e2,
      scan_num_r_operand K n f line h (p + 3 + la + lb) lc c _ hc hp2 (Or.inl h3)]
    simp only [op_fun_val hop2 b c hdiv2, Num.isnan, Bool.false_eq_true, if_false]
    rw [scan_num_loop_close K (n + 1) f line h (p + 3 + la + lb + lc) _ _ 1 h3, if_neg hne2]
    simp only [op_fun_val hop1 a _ (fun h47 => absurd h47 hnot47), Num.isnan,
      Bool.false_eq_true, if_false]
    rw [scan_num_loop_close K (n + 3) f line h (p + 3 + la + lb + lc) _ _ 1 h3]
    simp only [if_true, true_or, hnest, e3]
  · -- otherwise `a op1 b` is the left operand of `op2`
    rw [scan_num_r_operand K (n + 2) f line h (p + 2 + la) lb b _ hb hp1
      (Or.inr ⟨hop2, Nat.le_of_not_lt hnest⟩)]
    simp only [op_fun_val hop1 a b hdiv1, Num.isnan, Bool.false_eq_true, if_false]
    rw [scan_num_loop_op K (n + 3) f line h (p + 2 + la + lb) _ NUMEXP_SUB 1 hop2 hsub2, e2,
      scan_num_r_operand K (n + 1) f line h (p + 3 + la + lb) lc c _ hc hp2 (Or.inl h3)]
    simp only [op_fun_val hop2 _ c hdiv2, Num.isnan, Bool.false_eq_true, if_false]
    rw [scan_num_loop_close K (n + 2) f line h (p + 3 + la + lb + lc) _ _ 1 h3]
    simp only [if_true, true_or, hnest, if_false, e3]

/-- Witness for C23: the expression `(1+2*3)`. -/
theorem scan_num_r_precedence_witness :
    scan_num_r samplePFlags none (0 + 7)
        { f := (open_text "(1+2*3)").seek 0, line := 1, has_infnum := false } NUMEXP_NUM 0
      = some ({ f := (open_text "(1+2*3)").seek (0 + 4 + 1 + 1 + 1), line := 1,
                has_infnum := false },
          .val (if op_pri ((open_text "(1+2*3)").char_at (0 + 1 + 1))
                < op_pri ((open_text "(1+2*3)").char_at (0 + 2 + 1 + 1)) then
              bin_op ((open_text "(1+2*3)").char_at (0 + 1 + 1)) 1
                (bin_op ((open_text "(1+2*3)").char_at (0 + 2 + 1 + 1)) 2 3)
            else bin_op ((open_text "(1+2*3)").char_at (0 + 2 + 1 + 1))
              (bin_op ((open_text "(1+2*3)").char_at (0 + 1 + 1)) 1 2) 3)) :=
  scan_num_r_precedence samplePFlags (open_text "(1+2*3)") 1 false 0 1 1 1 1 2 3 0
    (by decide) ⟨by decide, by decide, by decide!⟩ (by unfold IsBinOp; decide)
    ⟨by decide, by decide, by decide!⟩ (by unfold IsBinOp; decide)
    ⟨by decide, by decide, by decide!⟩ (by decide) (by decide) (by decide)

/-- The sample runs of C23: the four expressions of the claim. -/
theorem scan_num_sample_runs :
    scan_num samplePFlags none 10 (open_text "(1+2*3)") 1
      = some ({ open_text "(1+2*3)" with pos := 7 }, 1, some (.val (1 + 2 * 3))) ∧
    scan_num samplePFlags none 10 (open_text "(2*3+4)") 1
      = some ({ open_text "(2*3+4)" with pos := 7 }, 1, some (.val (2 * 3 + 4))) ∧
    scan_num samplePFlags none 10 (open_text "(7-2-1)") 1
      = some ({ open_text "(7-2-1)" with pos := 7 }, 1, some (.val (7 - 2 - 1))) ∧
    scan_num samplePFlags none 10 (open_text "(8/2/2)") 1
      = some ({ open_text "(8/2/2)" with pos := 7 }, 1, some (.val (8 / 2 / 2))) := by
  decide!


/-! ## Phase -/

theorem tmod_bounds (a b : Int) (hb : 0 < b) : -b < a.tmod b ∧ a.tmod b < b := by
  have h1 := Int.tmod_lt_of_pos a hb
  have h2 := Int.tmod_lt_of_pos (-a) hb
  have e1 := Int.tmod_add_tdiv a b
  have e2 := Int.tmod_add_tdiv (-a) b
  rw [Int.neg_tdiv, Int.mul_neg] at e2
  exact ⟨by omega, h1⟩

/-- The remainder `fmod(f, 1)` lies strictly between -1 and 1 and differs from
`f` by an integer. -/
theorem fmod_one_bounds (f : ℚ) :
    -1 < f - ((f.num.tdiv f.den : Int) : ℚ) ∧ f - ((f.num.tdiv f.den : Int) : ℚ) < 1 := by
  have hden : (0 : ℚ) < (f.den : ℚ) := by exact_mod_cast f.den_pos
  have hb := tmod_bounds f.num f.den (by exact_mod_cast f.den_pos)
  have hsum := Int.tmod_add_tdiv f.num f.den
  have hf : f = ((f.num.tmod f.den : Int) : ℚ) / (f.den : ℚ) + ((f.num.tdiv f.den : Int) : ℚ) := by
    have h1 : ((f.num : Int) : ℚ) = ((f.num.tmod f.den : Int) : ℚ)
        + (f.den : ℚ) * ((f.num.tdiv f.den : Int) : ℚ) := by
      exact_mod_cast hsum.symm
    conv_lhs => rw [← Rat.num_div_den f, h1]
    field_simp
    ring
  have hx : f - ((f.num.tdiv f.den : Int) : ℚ) = ((f.num.tmod f.den : Int) : ℚ) / (f.den : ℚ) := by
    linarith
  rw [hx]
  have h1 : ((f.num.tmod f.den : Int) : ℚ) < (f.den : ℚ) := by exact_mod_cast hb.2
  have h2 : -(f.den : ℚ) < ((f.num.tmod f.den : Int) : ℚ) := by exact_mod_cast hb.1
  constructor
  · rw [lt_div_iff₀ hden]; linarith
  · rw [div_lt_iff₀ hden]; linarith

/-- In exact arithmetic the phase `parse_phase` stores for a finite value `f`
lies in [0, 1) and differs from `f` by an integer. -/
theorem wrap_phase_exact (K : PFlags) (hK : ∀ q, K.to_float q = .val q) (f : ℚ) :
    ∃ p : ℚ, wrap_phase K (.val f) = .val p ∧ 0 ≤ p ∧ p < 1 ∧ ∃ k : Int, f = p + (k : ℚ) := by
  have hb := fmod_one_bounds f
  have hfm : (Num.val f).fmod (.val 1) = .val (f - ((f.num.tdiv f.den : Int) : ℚ)) := by
    simp [Num.fmod]
  unfold wrap_phase
  simp only [hfm, PFlags.store, hK, Num.lt, Num.add]
  by_cases hneg : f - ((f.num.tdiv f.den : Int) : ℚ) < 0
  · simp only [hneg, decide_True, if_true]
    refine ⟨_, rfl, by linarith, by linarith, f.num.tdiv f.den - 1, ?_⟩
    push_cast
    ring
  · simp only [hneg, decide_False, Bool.false_eq_true, if_false]
    refine ⟨_, rfl, by linarith, hb.2, f.num.tdiv f.den, ?_⟩
    ring

/-- C24: with binary32 stores `parse_phase` stores the phase 1 for the scanned
value -2^-60: `fmod` leaves the value as it is, and the sum with `1.f` rounds
to 1, which is not below 1 (in exact arithmetic the phase would be 1 - 2^-60).
The script `W sin p(-0.000000000000000001)` leaves the operator with the phase
1 and the phase bit set. -/
theorem parse_phase_stores_one :
    wrap_phase sampleFloatFlags (.val (-(1 / 2 ^ 60))) = .val 1 ∧
    wrap_phase samplePFlags (.val (-(1 / 2 ^ 60))) = .val (1 - 1 / 2 ^ 60) ∧
    (parsed_op (parse sampleFloatFlags 60 (open_text "W sin p(-0.000000000000000001)")
        sample_wave_names) 1).map (fun d => (d.phase, d.params &&& sampleFloatFlags.PHASE))
      = some (.val 1, sampleFloatFlags.PHASE) := by
  decide!


/-! ## Nodes and references -/

theorem same_frame_refl (a : MGS_Program) : same_frame a a :=
  ⟨rfl, rfl, rfl, rfl, rfl⟩

theorem same_frame_trans {a b c : MGS_Program} (h1 : same_frame a b) (h2 : same_frame b c) :
    same_frame a c :=
  ⟨h2.1.trans h1.1, h2.2.1.trans h1.2.1, h2.2.2.1.trans h1.2.2.1, h2.2.2.2.1.trans h1.2.2.2.1,
    h2.2.2.2.2.trans h1.2.2.2.2⟩

theorem map_links_set (nodes : List ProgramNode) (i : Nat) (n m : ProgramNode)
    (hn : nodes.get? i = some n) (hm : m.links = n.links) :
    (nodes.set i m).map ProgramNode.links = nodes.map ProgramNode.links := by
  rw [List.map_set]
  apply List.ext_get?
  intro j
  by_cases hj : i = j
  · subst hj
    have hlt : i < nodes.length := by
      rcases List.get?_eq_some.mp hn with ⟨h, _⟩
      exact h
    rw [List.get?_eq_getElem?, List.get?_eq_getElem?, List.getElem?_set_self (by simpa using hlt)]
    rw [List.get?_eq_getElem?] at hn
    simp [List.getElem?_map, hn, hm]
  · rw [List.get?_eq_getElem?, List.get?_eq_getElem?, List.getElem?_set_ne hj]

theorem set_opdata_frame {prg prg1 : MGS_Program} {id : Nat} {d : OpData}
    (h : set_opdata prg id d = some prg1) : same_frame prg prg1 := by
  unfold set_opdata at h
  split at h
  · cases h
  · rename_i node hnode
    cases h
    exact ⟨rfl, rfl, rfl, rfl, map_links_set _ _ _ _ hnode rfl⟩

theorem set_sym_data_frame (prg : MGS_Program) (name : List Nat) (n : Option Nat) :
    same_frame prg (set_sym_data prg name n) := by
  unfold set_sym_data
  split <;> exact ⟨rfl, rfl, rfl, rfl, rfl⟩

theorem end_opdata_frame {K : PFlags} {o o1 : Parser} {n : ProgramNode}
    (h : end_opdata K o n = some o1) :
    same_frame o.prg o1.prg ∧ o1.nds = o.nds ∧ o1.next_setsym = o.next_setsym ∧
      o1.cur_dur = o.cur_dur ∧ o1.cur_root = o.cur_root ∧ o1.n_time = o.n_time ∧
      o1.cur_node = o.cur_node := by
  unfold end_opdata at h
  cases hd : n.data with
  | op op =>
    simp only [hd] at h
    generalize hs : set_opdata o.prg n.id _ = r at h
    cases r with
    | none => cases h
    | some prg1 =>
      simp only [Option.some.injEq] at h
      subst h
      exact ⟨set_opdata_frame hs, rfl, rfl, rfl, rfl, rfl, rfl⟩
  | null => simp [hd] at h
  | dur sc => simp [hd] at h
  | arr a => simp [hd] at h

theorem end_node_frame {K : PFlags} {o o1 : Parser} (h : end_node K o = some o1) :
    same_frame o.prg o1.prg ∧ o1.nds.tail = o.nds.tail ∧ o1.nds.length = o.nds.length ∧
      o1.next_setsym = o.next_setsym ∧
      o1.cur_dur = o.cur_dur ∧ o1.cur_root = o.cur_root ∧ o1.n_time = o.n_time ∧
      o1.cur_node = o.cur_node ∧
      (∀ nd, o.nds.head? = some nd → ∃ nd1, o1.nds.head? = some nd1 ∧
        nd1.target = nd.target ∧ nd1.n_delay_next = nd.n_delay_next ∧
        nd1.flags &&& ND_OWN_NODE = 0) := by
  unfold end_node at h
  split at h
  · cases h
  · rename_i nd rest hnds
    split at h
    · rename_i hfl
      cases h
      refine ⟨same_frame_refl _, rfl, rfl, rfl, rfl, rfl, rfl, rfl, ?_⟩
      intro nd0 h0
      rw [hnds] at h0
      simp at h0
      subst h0
      exact ⟨nd, by rw [hnds]; rfl, rfl, rfl, hfl⟩
    · split at h
      · cases h
      · split at h
        · cases h
        · rename_i id hid n hn
          split at h
          · cases h
          · rename_i o2 ho2
            cases h
            have hfr : same_frame o.prg o2.prg ∧ o2.nds = o.nds ∧
                o2.next_setsym = o.next_setsym ∧
                o2.cur_dur = o.cur_dur ∧ o2.cur_root = o.cur_root ∧ o2.n_time = o.n_time ∧
                o2.cur_node = o.cur_node := by
              split at ho2
              · exact end_opdata_frame ho2
              · cases ho2
                exact ⟨same_frame_refl _, rfl, rfl, rfl, rfl, rfl, rfl⟩
            obtain ⟨f1, f2, f3, f4, f5, f6, f7⟩ := hfr
            have hcl : clear_flag nd.flags ND_OWN_NODE &&& ND_OWN_NODE = 0 := by
              unfold clear_flag ND_OWN_NODE
              apply Nat.eq_of_testBit_eq
              intro i
              simp only [Nat.testBit_and, Nat.testBit_xor, Nat.zero_testBit]
              cases nd.flags.testBit i <;> cases Nat.testBit 1 i <;> rfl
            cases hsym : nd.cur_setsym with
            | none =>
              simp only [Parser.set_nd, f2, hnds, List.tail_cons, List.length_cons, f3, f4, f5,
                f6, f7, List.head?_cons, Option.some.injEq]
              refine ⟨f1, trivial, trivial, trivial, trivial, trivial, trivial, trivial, ?_⟩
              intro nd0 h0
              subst h0
              exact ⟨_, rfl, rfl, rfl, hcl⟩
            | some name =>
              simp only [Parser.set_nd, f2, hnds, List.tail_cons, List.length_cons, f3, f4, f5,
                f6, f7, List.head?_cons, Option.some.injEq]
              refine ⟨same_frame_trans f1 (set_sym_data_frame _ _ _), trivial, trivial, trivial,
                trivial, trivial, trivial, trivial, ?_⟩
              intro nd0 h0
              subst h0
              exact ⟨_, rfl, rfl, rfl, hcl⟩

theorem get?_of_map_links {a b : List ProgramNode} (h : a.map ProgramNode.links = b.map ProgramNode.links)
    {i : Nat} {n : ProgramNode} (hn : a.get? i = some n) :
    ∃ m, b.get? i = some m ∧ m.links = n.links := by
  have h1 : (a.map ProgramNode.links).get? i = some n.links := by
    rw [List.get?_eq_getElem?, List.getElem?_map, ← List.get?_eq_getElem?, hn]; rfl
  rw [h, List.get?_eq_getElem?, List.getElem?_map, ← List.get?_eq_getElem?] at h1
  cases hb : b.get? i with
  | none => rw [hb] at h1; cases h1
  | some m =>
    rw [hb] at h1
    simp only [Option.map_some', Option.some.injEq] at h1
    exact ⟨m, rfl, h1⟩

theorem new_node_scope_links {o : Parser} {id : Nat} {ty : NodeType} {nodes1 : List ProgramNode}
    (h : new_node_scope o id ty = some nodes1) :
    nodes1.map ProgramNode.links = o.prg.nodes.map ProgramNode.links := by
  unfold new_node_scope at h
  cases hd : o.cur_dur with
  | none => simp only [hd, Option.some.injEq] at h; subst h; rfl
  | some d =>
    simp only [hd] at h
    by_cases hty : ty = .dur
    · simp only [hty, ne_eq, not_true_eq_false, if_false, Option.some.injEq] at h
      subst h; rfl
    · simp only [ne_eq, hty, not_false_eq_true, if_true] at h
      cases hg : o.prg.nodes.get? d with
      | none => simp only [hg, reduceCtorEq] at h
      | some dn =>
        simp only [hg] at h
        cases hdd : dn.data with
        | dur sc =>
          simp only [hdd, Option.some.injEq] at h
          subst h
          exact map_links_set _ _ _ _ hg rfl
        | null => simp only [hdd, reduceCtorEq] at h
        | op x => simp only [hdd, reduceCtorEq] at h
        | arr x => simp only [hdd, reduceCtorEq] at h

theorem new_node_link_ref {o : Parser} {nd1 : LevelData} {nodes1 : List ProgramNode}
    {id r : Nat} {x : Nat × Nat × Option Nat × Nat × List ProgramNode × List ArrData}
    (h : new_node_link o nd1 nodes1 id (some r) = some x) :
    ∃ rn, nodes1.get? r = some rn ∧
      x = (rn.first_id, rn.root_id, o.cur_root, o.prg.root_count, nodes1, o.prg.arrs) := by
  unfold new_node_link at h
  cases hg : nodes1.get? r with
  | none => simp only [hg, reduceCtorEq] at h
  | some rn =>
    simp only [hg, Option.some.injEq] at h
    exact ⟨rn, rfl, h.symm⟩

theorem new_node_ref_spec {K : PFlags} {o0 o1 : Parser} {r : Nat} {ty : NodeType}
    (h : new_node K o0 (some r) ty = some o1) :
    ∃ front n rn, o1.prg.nodes = front ++ [n] ∧ o0.prg.nodes.get? r = some rn ∧
      front.length = o0.prg.nodes.length ∧
      (ty ≠ .dur → front.map ProgramNode.links = o0.prg.nodes.map ProgramNode.links) ∧
      n.links = (some r, ty, o0.prg.node_count, rn.first_id, rn.root_id,
        (if ty = .op then rn.base_id else 0), none) ∧
      o1.prg.node_count = o0.prg.node_count + 1 ∧ o1.prg.root_count = o0.prg.root_count ∧
      o1.prg.base_count_sound = o0.prg.base_count_sound ∧
      (ty ≠ .arr → o1.prg.arrs = o0.prg.arrs) ∧
      (ty = .op → ∃ fn d, front.get? r = some fn ∧ fn.data = .op d ∧
        n.data = .op { d with params := 0, time := { v := o0.n_time, flags := 0 } }) := by
  unfold new_node at h
  cases he : end_node K o0 with
  | none => simp only [he, reduceCtorEq] at h
  | some o =>
    simp only [he] at h
    obtain ⟨⟨e1, e2, e3, e4, e5⟩, -, -, -, -, -, et, -, -⟩ := end_node_frame he
    cases hnds : o.nds with
    | nil => simp only [hnds, reduceCtorEq] at h
    | cons nd0 rest =>
      simp only [hnds] at h
      cases hsc : new_node_scope o o.prg.node_count ty with
      | none => simp only [hsc, reduceCtorEq] at h
      | some nodes1 =>
        simp only [hsc] at h
        have hl1 := new_node_scope_links hsc
        generalize hlk : new_node_link o _ nodes1 o.prg.node_count (some r) = lk at h
        cases lk with
        | none => simp only [reduceCtorEq] at h
        | some x =>
          obtain ⟨rn1, hrn1, hx⟩ := new_node_link_ref hlk
          subst hx
          simp only at h
          obtain ⟨rn, hrn, hlinks⟩ := get?_of_map_links (hl1.trans e5) hrn1
          have hlen1 : nodes1.length = o0.prg.nodes.length := by
            have := congrArg List.length (hl1.trans e5)
            simpa using this
          simp only [ProgramNode.links, Prod.mk.injEq] at hlinks
          obtain ⟨-, -, -, hf, hr, hb, -⟩ := hlinks
          unfold new_node_data at h
          cases ty with
          | op =>
            simp only [new_opdata, Parser.set_nd, hrn1] at h
            cases hd : rn1.data with
            | op d =>
              simp only [hd, Option.some.injEq] at h
              subst h
              refine ⟨nodes1, _, rn, rfl, hrn, hlen1, fun _ => hl1.trans e5, ?_, ?_, e2, e3,
                fun _ => e4, fun _ => ⟨rn1, d, hrn1, hd, ?_⟩⟩
              · simp [ProgramNode.links, e1, hf, hr, hb]
              · simp [e1]
              · simp [et]
            | null => simp only [hd, reduceCtorEq] at h
            | dur sc => simp only [hd, reduceCtorEq] at h
            | arr a => simp only [hd, reduceCtorEq] at h
          | dur =>
            simp only [Parser.set_nd] at h
            cases hcd : o.cur_dur with
            | none =>
              simp only [hcd, Option.some.injEq] at h
              subst h
              refine ⟨nodes1, _, rn, rfl, hrn, hlen1, fun _ => hl1.trans e5, ?_, ?_, e2, e3,
                fun _ => e4, fun hc => by cases hc⟩
              · simp [ProgramNode.links, e1, hf, hr]
              · simp [e1]
            | some d =>
              simp only [hcd] at h
              cases hg : nodes1.get? d with
              | none => simp only [hg, reduceCtorEq] at h
              | some dn =>
                simp only [hg, Option.some.injEq] at h
                subst h
                refine ⟨_, _, rn, rfl, hrn, by simpa using hlen1, fun hc => absurd rfl hc, ?_, ?_,
                  e2, e3, fun _ => e4, fun hc => by cases hc⟩
                · simp [ProgramNode.links, e1, hf, hr]
                · simp [e1]
          | arr =>
            simp only [Parser.set_nd, Option.some.injEq] at h
            subst h
            refine ⟨nodes1, _, rn, rfl, hrn, hlen1, fun _ => hl1.trans e5, ?_, ?_, e2, e3,
              fun hc => absurd rfl hc, fun hc => by cases hc⟩
            · simp [ProgramNode.links, e1, hf, hr]
            · simp [e1]
          | env =>
            simp only [Parser.set_nd, Option.some.injEq] at h
            subst h
            refine ⟨nodes1, _, rn, rfl, hrn, hlen1, fun _ => hl1.trans e5, ?_, ?_, e2, e3,
              fun _ => e4, fun hc => by cases hc⟩
            · simp [ProgramNode.links, e1, hf, hr]
            · simp [e1]


/-- C34: a node made by `new_node` with a reference `r` is put at the end of
the node list with the next id (the old `node_count`), has the `first_id` and
`root_id` of the node `r` and, as an operator, its `base_id` (other nodes
have the `base_id` 0); `node_count` grows by one, `root_count` and the count
of sound bases stay, the modulator lists stay (for a node that is no list) and
the links of the nodes before stay (for a node that is no duration node). -/
theorem new_node_reference_ids (K : PFlags) (o0 o1 : Parser) (r : Nat) (ty : NodeType)
    (h : new_node K o0 (some r) ty = some o1) :
    ∃ front n rn, o1.prg.nodes = front ++ [n] ∧ front.length = o0.prg.nodes.length ∧
      o0.prg.nodes.get? r = some rn ∧ n.ref_prev = some r ∧ n.type = ty ∧
      n.id = o0.prg.node_count ∧ n.first_id = rn.first_id ∧ n.root_id = rn.root_id ∧
      n.base_id = (if ty = .op then rn.base_id else 0) ∧ n.use_next = none ∧
      o1.prg.node_count = o0.prg.node_count + 1 ∧ o1.prg.root_count = o0.prg.root_count ∧
      o1.prg.base_count_sound = o0.prg.base_count_sound ∧
      (ty ≠ .arr → o1.prg.arrs = o0.prg.arrs) ∧
      (ty ≠ .dur → front.map ProgramNode.links = o0.prg.nodes.map ProgramNode.links) := by
  obtain ⟨front, n, rn, h1, h2, h3, h4, h5, h6, h7, h8, h9, -⟩ := new_node_ref_spec h
  simp only [ProgramNode.links, Prod.mk.injEq] at h5
  obtain ⟨a1, a2, a3, a4, a5, a6, a7⟩ := h5
  exact ⟨front, n, rn, h1, h3, h2, a1, a2, a3, a4, a5, a6, a7, h6, h7, h8, h9, h4⟩

theorem new_node_reference_ids_witness :
    ∃ front n rn, sample_reference.prg.nodes = front ++ [n] ∧
      front.length = sample_state.prg.nodes.length ∧
      sample_state.prg.nodes.get? 1 = some rn ∧ n.ref_prev = some 1 ∧ n.type = NodeType.op ∧
      n.id = sample_state.prg.node_count ∧ n.first_id = rn.first_id ∧ n.root_id = rn.root_id ∧
      n.base_id = (if NodeType.op = NodeType.op then rn.base_id else 0) ∧ n.use_next = none ∧
      sample_reference.prg.node_count = sample_state.prg.node_count + 1 ∧
      sample_reference.prg.root_count = sample_state.prg.root_count ∧
      sample_reference.prg.base_count_sound = sample_state.prg.base_count_sound ∧
      (NodeType.op ≠ NodeType.arr → sample_reference.prg.arrs = sample_state.prg.arrs) ∧
      (NodeType.op ≠ NodeType.dur →
        front.map ProgramNode.links = sample_state.prg.nodes.map ProgramNode.links) :=
  new_node_reference_ids samplePFlags sample_state sample_reference 1 .op (by decide!)

/-- C25: in the script `'a W sin t 5 :a` the labelled node 1 has the time 5,
set by `t`, but its reference, the node 2, in which no time is given, has the
default time 1 with no flag: the time is not taken over. -/
theorem reference_time_not_copied :
    (parsed_op (parse samplePFlags 40 (open_text "'a W sin t 5 :a") sample_wave_names) 1).map
        (fun d => d.time) = some { v := .val 5, flags := 1 } ∧
    (parsed_op (parse samplePFlags 40 (open_text "'a W sin t 5 :a") sample_wave_names) 2).map
        (fun d => d.time) = some { v := .val 1, flags := 0 } ∧
    ((parse samplePFlags 40 (open_text "'a W sin t 5 :a") sample_wave_names).map
        (fun p => p.prg.nodes.map (fun n => n.ref_prev))) = some [none, none, some 1] := by
  decide!

/-- C25 (amended): when `new_node` makes a reference to the operator node `r`
(as `parse_ref` does for `:name`), the data of the new node has the wave,
freq, dynfreq, phase, amp, dynamp, pan and attr of the node `r`; its change
mask is empty and its time is the default time `n_time` with no flag. -/
theorem reference_copies_params (K : PFlags) (o0 o1 : Parser) (r : Nat)
    (h : new_node K o0 (some r) .op = some o1) :
    ∃ n rn d e, o1.prg.nodes.getLast? = some n ∧ n.ref_prev = some r ∧
      o1.prg.nodes.get? r = some rn ∧ rn.data = .op d ∧ n.data = .op e ∧
      e.copied = d.copied ∧ e.params = 0 ∧ e.time = { v := o0.n_time, flags := 0 } := by
  obtain ⟨front, n, rn, h1, h2, h3, h4, h5, -, -, -, -, h6⟩ := new_node_ref_spec h
  obtain ⟨fn, d, hf, hd, hn⟩ := h6 rfl
  simp only [ProgramNode.links, Prod.mk.injEq] at h5
  refine ⟨n, fn, d, _, ?_, h5.1, ?_, hd, hn, rfl, rfl, rfl⟩
  · rw [h1]; simp
  · rw [h1]
    have hlt : r < front.length := by
      rcases List.get?_eq_some.mp hf with ⟨hlt, _⟩
      exact hlt
    rw [List.get?_eq_getElem?, List.getElem?_append_left hlt, ← List.get?_eq_getElem?]
    exact hf

theorem reference_copies_params_witness :
    ∃ n rn d e, sample_reference.prg.nodes.getLast? = some n ∧ n.ref_prev = some 1 ∧
      sample_reference.prg.nodes.get? 1 = some rn ∧ rn.data = .op d ∧ n.data = .op e ∧
      e.copied = d.copied ∧ e.params = 0 ∧
      e.time = { v := sample_state.n_time, flags := 0 } :=
  reference_copies_params samplePFlags sample_state sample_reference 1 (by decide!)


theorem set_opdata_get {prg prg1 : MGS_Program} {id : Nat} {d : OpData}
    (h : set_opdata prg id d = some prg1) :
    ∃ node, prg.nodes.get? id = some node ∧
      prg1.nodes.get? id = some { node with data := .op d } := by
  unfold set_opdata at h
  cases hg : prg.nodes.get? id with
  | none => simp only [hg, reduceCtorEq] at h
  | some node =>
    simp only [hg, Option.some.injEq] at h
    subst h
    refine ⟨node, rfl, ?_⟩
    have hlt : id < prg.nodes.length := by
      rcases List.get?_eq_some.mp hg with ⟨hlt, _⟩
      exact hlt
    simp only [List.get?_eq_getElem?]
    rw [List.getElem?_set_self hlt]

theorem end_opdata_reference {K : PFlags} {o o1 : Parser} {n : ProgramNode} {d : OpData}
    (href : n.ref_prev.isSome = true) (hd : n.data = .op d)
    (h : end_opdata K o n = some o1) :
    ∃ m e, o1.prg.nodes.get? n.id = some m ∧ m.data = .op e ∧
      e.params = (if d.time.flags &&& K.TIME_SET ≠ 0 then d.params ||| K.TIME else d.params) := by
  unfold end_opdata at h
  have hnone : n.ref_prev.isNone = false := by
    cases hr : n.ref_prev with
    | none => rw [hr] at href; cases href
    | some r => rfl
  simp only [hd, hnone, Bool.false_eq_true, if_false] at h
  generalize hs : set_opdata o.prg n.id _ = res at h
  cases res with
  | none => cases h
  | some prg1 =>
    simp only [Option.some.injEq] at h
    subst h
    obtain ⟨node, -, hget⟩ := set_opdata_get hs
    exact ⟨_, _, hget, rfl, rfl⟩


/-! ## Ratio, settings and `Q` -/

theorem or_and_self_right (a b : Nat) : (a ||| b) &&& b = b := by
  apply Nat.eq_of_testBit_eq
  intro i
  simp only [Nat.testBit_and, Nat.testBit_or]
  cases a.testBit i <;> cases b.testBit i <;> rfl

theorem scan_num_prg {K : PFlags} {numsym_f : Option (File → File × Option Num × Nat)}
    {fuel : Nat} {o o1 : Parser} {r : Option Num}
    (h : o.scan_num K numsym_f fuel = some (o1, r)) :
    o1.prg = o.prg ∧ o1.nds = o.nds ∧ o1.setdef = o.setdef ∧ o1.setnode = o.setnode := by
  unfold Parser.scan_num at h
  cases hs : Sgensys.scan_num K numsym_f fuel o.f o.line with
  | none => simp only [hs, reduceCtorEq] at h
  | some x =>
    simp only [hs, Option.some.injEq, Prod.mk.injEq] at h
    obtain ⟨h1, -⟩ := h
    subst h1
    exact ⟨rfl, rfl, rfl, rfl⟩

theorem scan_timeval_prg {K : PFlags} {fuel : Nat} {o o1 : Parser} {r : Option Num}
    (h : o.scan_timeval K fuel = some (o1, r)) :
    o1.prg = o.prg ∧ o1.nds = o.nds ∧ o1.setdef = o.setdef ∧ o1.setnode = o.setnode := by
  unfold Parser.scan_timeval at h
  cases hs : Sgensys.scan_timeval K fuel o.f o.line with
  | none => simp only [hs, reduceCtorEq] at h
  | some x =>
    simp only [hs, Option.some.injEq, Prod.mk.injEq] at h
    obtain ⟨h1, -⟩ := h
    subst h1
    exact ⟨rfl, rfl, rfl, rfl⟩

/-- C27: in the script `W sin f 200 t 500 f!\x7b W sin f 50 r 2 a 0.8 \x7d` the
modulator, the node 2 (a member of the list, with the root 1), has the
attribute `MGS_ATTR_FREQRATIO` set and the frequency 1/2, the ratio given by
`r 2`. -/
theorem modulator_keeps_ratio :
    node_ids (parse samplePFlags 80
        (open_text "W sin f 200 t 500 f!\x7b W sin f 50 r 2 a 0.8 \x7d") sample_wave_names)
      = [[0, 0, 0, 0], [1, 1, 1, 0], [2, 2, 1, 1]] ∧
    (parsed_op (parse samplePFlags 80
        (open_text "W sin f 200 t 500 f!\x7b W sin f 50 r 2 a 0.8 \x7d") sample_wave_names) 2).map
        (fun d => (d.attr &&& MGS_ATTR_FREQRATIO, d.freq)) = some ( MGS_ATTR_FREQRATIO, .val (1 / 2)) ∧
    (parsed_op (parse samplePFlags 80
        (open_text "W sin f 200 t 500 f!\x7b W sin f 50 r 2 a 0.8 \x7d") sample_wave_names) 1).map
        (fun d => (d.attr &&& MGS_ATTR_FREQRATIO, d.freq, d.fmod)) = some (0, .val 200, some 0) := by
  decide!

/-- C27 (amended): `parse_freq` with `ratio` rejects a top-level operator
(`first_id` equal to `root_id`) and changes nothing; for an operator inside a
list (`first_id` other than `root_id`) and a scanned value `f` it stores the
frequency `1 / f` and sets the attribute `MGS_ATTR_FREQRATIO`. -/
theorem parse_freq_ratio (K : PFlags) (pl : Parser → Option Nat → Option Parser) (fuel : Nat)
    (o : Parser) (id : Nat) (d : OpData) (node : ProgramNode)
    (hd : get_opdata o.prg (some id) = some (some d)) (hn : o.prg.nodes.get? id = some node) :
    (node.first_id = node.root_id → parse_freq K pl fuel o (some id) true = some (o, false)) ∧
    (node.first_id ≠ node.root_id → ∀ (o1 : Parser) (f : Num), (o.tryc 33).1 = false →
      (o.tryc 33).2.scan_num K none fuel = some (o1, some f) →
      ∃ o2 e, parse_freq K pl fuel o (some id) true = some (o2, true) ∧
        get_opdata o2.prg (some id) = some (some e) ∧ e.freq = K.store ((Num.val 1).div f) ∧
        e.attr &&& MGS_ATTR_FREQRATIO = MGS_ATTR_FREQRATIO) := by
  constructor
  · intro heq
    unfold parse_freq
    simp only [hd, hn, heq, and_self, if_true]
  · intro hne o1 f ht hs
    have hprg := (scan_num_prg hs).1
    have hn1 : o1.prg.nodes.get? id = some node := by rw [hprg]; exact hn
    have hty : node.type = .op := by
      unfold get_opdata at hd
      simp only [hn] at hd
      cases hty : node.type <;> cases hdd : node.data <;> simp [hty, hdd] at hd ⊢
    unfold parse_freq
    simp only [hd, hn, hne, and_false, if_false, ht, Bool.false_eq_true, hs, if_true]
    simp only [set_opdata, hn1]
    refine ⟨_, { d with freq := K.store ((Num.val 1).div f),
                        attr := d.attr ||| MGS_ATTR_FREQRATIO,
                        params := d.params ||| (K.FREQ ||| K.ATTR) }, rfl, ?_, rfl,
      or_and_self_right _ _⟩
    simp only [get_opdata]
    have hlt : id < o1.prg.nodes.length := by
      rcases List.get?_eq_some.mp hn1 with ⟨hlt, _⟩
      exact hlt
    simp only [List.get?_eq_getElem?]
    rw [List.getElem?_set_self hlt]
    simp only [hty]

theorem parse_freq_ratio_witness :
    parse_freq samplePFlags (fun _ _ => none) 20 sample_state (some 1) true
        = some (sample_state, false) ∧
    ∃ o2 e, parse_freq samplePFlags (fun _ _ => none) 20 sample_nested (some 2) true
          = some (o2, true) ∧
        get_opdata o2.prg (some 2) = some (some e) ∧
        e.freq = samplePFlags.store ((Num.val 1).div (.val 2)) ∧
        e.attr &&& MGS_ATTR_FREQRATIO = MGS_ATTR_FREQRATIO :=
  ⟨(parse_freq_ratio samplePFlags (fun _ _ => none) 20 sample_state 1 sample_opdata
      { ref_prev := none, type := .op, id := 1, first_id := 1, root_id := 1,
        base_id := 0, delay := .val 0, use_next := none, data := .op sample_opdata }
      (by decide!) (by decide!)).1 rfl,
   (parse_freq_ratio samplePFlags (fun _ _ => none) 20 sample_nested 2 sample_opdata
      { ref_prev := none, type := .op, id := 2, first_id := 2, root_id := 1,
        base_id := 1, delay := .val 0, use_next := none, data := .op sample_opdata }
      (by decide!) (by decide!)).2 (by decide) { sample_nested with f := sample_nested.f.seek 1 }
      (.val 2) (by decide!) (by decide!)⟩


theorem invalid_frame (o : Parser) : (invalid o).1 = o := by
  unfold invalid
  split <;> rfl

theorem parse_default_frame {r : Option (Parser × Option Num)} {set : Parser → Num → Parser}
    {o o1 : Parser} {e : LoopExit}
    (hr : ∀ p x, r = some (p, x) →
      p.prg = o.prg ∧ p.nds = o.nds ∧ p.setdef = o.setdef ∧ p.setnode = o.setnode)
    (hset : ∀ p f, (set p f).prg = p.prg ∧ (set p f).nds = p.nds ∧
      (set p f).setdef = p.setdef ∧ (set p f).setnode = p.setnode)
    (h : parse_default r set = some (o1, e)) :
    o1.prg = o.prg ∧ o1.nds = o.nds ∧ o1.setdef = o.setdef ∧ o1.setnode = o.setnode := by
  unfold parse_default at h
  cases r with
  | none => cases h
  | some x =>
    obtain ⟨p, v⟩ := x
    have hp := hr p v rfl
    cases v with
    | none =>
      simp only [Option.some.injEq] at h
      have h1 : o1 = p := by
        have := congrArg Prod.fst h
        rw [invalid_frame] at this
        exact this.symm
      rw [h1]; exact hp
    | some f =>
      simp only [Option.some.injEq, Prod.mk.injEq] at h
      obtain ⟨h1, -⟩ := h
      subst h1
      obtain ⟨s1, s2, s3, s4⟩ := hset p f
      exact ⟨s1.trans hp.1, s2.trans hp.2.1, s3.trans hp.2.2.1, s4.trans hp.2.2.2⟩

/-- C28: in the script `W sin S a 0.5` the `S` comes while the node of `W sin`
is open on the line; the `a 0.5` after it goes to that node, whose amplitude
becomes 1/2, and the default `n_ampmult` stays 1. In `S a 0.5 W sin` the
default is changed. -/
theorem settings_with_open_node :
    (parse samplePFlags 80 (open_text "W sin S a 0.5") sample_wave_names).map
        (fun p => p.n_ampmult) = some (.val 1) ∧
    (parsed_op (parse samplePFlags 80 (open_text "W sin S a 0.5") sample_wave_names) 1).map
        (fun d => d.amp) = some (.val (1 / 2)) ∧
    (parse samplePFlags 80 (open_text "S a 0.5 W sin") sample_wave_names).map
        (fun p => p.n_ampmult) = some (.val (1 / 2)) := by
  decide!

/-- C28 (amended): `S` read when no node is open at the level or above it
(`setnode` at most `level`) puts the parser into settings mode (`setdef` above
`setnode`); in settings mode each of `a`, `c`, `f`, `r`, `t` leaves the program
with its nodes as it is and keeps the mode, and with a scanned value it sets
the default `n_ampmult`, `n_pan`, `n_freq`, `n_ratio` (to the inverse) or
`n_time`. -/
theorem settings_update_defaults (K : PFlags) (pl : Parser → Option Nat → Option Parser)
    (fuel : Nat) (o : Parser) (lvl : Nat) (hnds : o.nds ≠ []) :
    (o.setnode ≤ o.level → ∃ o1, parse_char K pl fuel o 83 lvl = some (o1, .go) ∧
      o1.setnode < o1.setdef ∧ o1.prg = o.prg ∧ o1.nds = o.nds) ∧
    (o.setnode < o.setdef → ∀ c, c ∈ [97, 99, 102, 114, 116] → ∀ o1 e,
      parse_char K pl fuel o c lvl = some (o1, e) →
      o1.prg = o.prg ∧ o1.nds = o.nds ∧ o1.setnode < o1.setdef) ∧
    (o.setnode < o.setdef →
      (∀ p f, o.scan_num K none fuel = some (p, some f) →
        parse_char K pl fuel o 97 lvl = some ({ p with n_ampmult := f }, .go) ∧
        parse_char K pl fuel o 102 lvl = some ({ p with n_freq := f }, .go) ∧
        parse_char K pl fuel o 114 lvl
          = some ({ p with n_ratio := K.store ((Num.val 1).div f) }, .go)) ∧
      (∀ p f, o.scan_num K (some numsym_channel) fuel = some (p, some f) →
        parse_char K pl fuel o 99 lvl = some ({ p with n_pan := f }, .go)) ∧
      (∀ p f, o.scan_timeval K fuel = some (p, some f) →
        parse_char K pl fuel o 116 lvl = some ({ p with n_time := f }, .go))) := by
  cases hn : o.nds with
  | nil => exact absurd hn hnds
  | cons nd rest =>
    refine ⟨?_, ?_, ?_⟩
    · intro hle
      refine ⟨{ o with setdef := o.level + 1 }, ?_, ?_, rfl, hn⟩
      · unfold parse_char
        simp [hn]
      · show o.setnode < o.level + 1
        omega
    · intro hsd c hc o1 e h
      have hgt : o.setdef > o.setnode := hsd
      have key : ∀ (r : Option (Parser × Option Num)) (set : Parser → Num → Parser),
          parse_default r set = some (o1, e) →
          (∀ p x, r = some (p, x) →
            p.prg = o.prg ∧ p.nds = o.nds ∧ p.setdef = o.setdef ∧ p.setnode = o.setnode) →
          (∀ p f, (set p f).prg = p.prg ∧ (set p f).nds = p.nds ∧
            (set p f).setdef = p.setdef ∧ (set p f).setnode = p.setnode) →
          o1.prg = o.prg ∧ o1.nds = o.nds ∧ o1.setnode < o1.setdef := by
        intro r set hpd hr hset
        obtain ⟨f1, f2, f3, f4⟩ := parse_default_frame hr hset hpd
        exact ⟨f1, f2, by rw [f3, f4]; exact hsd⟩
      simp only [List.mem_cons, List.mem_singleton, List.not_mem_nil, or_false] at hc
      unfold parse_char at h
      rcases hc with hc | hc | hc | hc | hc <;> subst hc <;>
        simp [hn, hgt] at h
      · rw [← hn]; exact key _ _ h (fun p x hp => scan_num_prg hp) (fun p f => ⟨rfl, rfl, rfl, rfl⟩)
      · rw [← hn]; exact key _ _ h (fun p x hp => scan_num_prg hp) (fun p f => ⟨rfl, rfl, rfl, rfl⟩)
      · rw [← hn]; exact key _ _ h (fun p x hp => scan_num_prg hp) (fun p f => ⟨rfl, rfl, rfl, rfl⟩)
      · rw [← hn]; exact key _ _ h (fun p x hp => scan_num_prg hp) (fun p f => ⟨rfl, rfl, rfl, rfl⟩)
      · rw [← hn]; exact key _ _ h (fun p x hp => scan_timeval_prg hp) (fun p f => ⟨rfl, rfl, rfl, rfl⟩)
    · intro hsd
      have hgt : o.setdef > o.setnode := hsd
      refine ⟨?_, ?_, ?_⟩
      · intro p f hs
        refine ⟨?_, ?_, ?_⟩ <;> unfold parse_char <;> simp [hn, hgt, hs, parse_default]
      · intro p f hs
        unfold parse_char
        simp [hn, hgt, hs, parse_default]
      · intro p f hs
        unfold parse_char
        simp [hn, hgt, hs, parse_default]

theorem settings_update_defaults_witness :
    (∃ o1, parse_char samplePFlags (fun _ _ => none) 20 sample_plain 83 0
        = some (o1, .go) ∧
      o1.setnode < o1.setdef ∧ o1.prg = sample_settings.prg ∧ o1.nds = sample_settings.nds) ∧
    (parse_char samplePFlags (fun _ _ => none) 20 sample_settings 97 0
        = some ({ sample_settings_read with n_ampmult := .val (1 / 2) },
            .go) ∧
      parse_char samplePFlags (fun _ _ => none) 20 sample_settings 102 0
        = some ({ sample_settings_read with n_freq := .val (1 / 2) },
            .go) ∧
      parse_char samplePFlags (fun _ _ => none) 20 sample_settings 114 0
        = some ({ sample_settings_read with
                    n_ratio := samplePFlags.store ((Num.val 1).div (.val (1 / 2))) }, .go)) :=
  ⟨(settings_update_defaults samplePFlags (fun _ _ => none) 20 sample_plain 0 (by decide)).1 (by decide),
   ((settings_update_defaults samplePFlags (fun _ _ => none) 20 sample_settings 0
      (by decide)).2.2 (by decide)).1 sample_settings_read
      (.val (1 / 2)) (by decide!)⟩

/-- C29: in the script `W sin a!\x7b W sin Q W sqr` the `Q` is read by the
`parse_level` of the list; that level ends, but the level above reads on and
makes the node 3 for `W sqr` (the wave 1), a top-level node. At the top level,
in `W sin Q W sqr`, no node is made after the `Q`. -/
theorem quit_in_list_reads_on :
    node_ids (parse samplePFlags 80 (open_text "W sin a!\x7b W sin Q W sqr") sample_wave_names)
      = [[0, 0, 0, 0], [1, 1, 1, 0], [2, 2, 1, 1], [3, 3, 3, 2]] ∧
    (parsed_op (parse samplePFlags 80 (open_text "W sin a!\x7b W sin Q W sqr")
        sample_wave_names) 3).map (fun d => d.wave) = some 1 ∧
    (parse samplePFlags 80 (open_text "W sin a!\x7b W sin Q W sqr") sample_wave_names).map
        (fun p => p.f.pos) = some 24 ∧
    node_ids (parse samplePFlags 80 (open_text "W sin Q W sqr") sample_wave_names)
      = [[0, 0, 0, 0], [1, 1, 1, 0]] ∧
    (parse samplePFlags 80 (open_text "W sin Q W sqr") sample_wave_names).map
        (fun p => p.f.pos) = some 8 := by
  decide!


/-! ## The timing pass -/

theorem node_sound_some {n : ProgramNode} {d : OpData} (h : node_sound n = some d) :
    n.type = .op ∧ n.data = .op d := by
  unfold node_sound at h
  cases ht : n.type <;> cases hd : n.data <;> simp [ht, hd] at h
  exact ⟨rfl, by rw [h]⟩

theorem node_sound_of {n : ProgramNode} {d : OpData} (ht : n.type = .op) (hd : n.data = .op d) :
    node_sound n = some d := by
  unfold node_sound
  simp [ht, hd]

theorem get?_lt {α : Type} {l : List α} {i : Nat} {x : α} (h : l.get? i = some x) :
    i < l.length := by
  rcases List.get?_eq_some.mp h with ⟨hlt, _⟩
  exact hlt

theorem get?_set_self {α : Type} {l : List α} {i : Nat} {x : α} (y : α)
    (h : l.get? i = some x) : (l.set i y).get? i = some y := by
  rw [List.get?_eq_getElem?, List.getElem?_set_self (get?_lt h)]

theorem get?_set_ne {α : Type} (l : List α) {i j : Nat} (y : α) (h : i ≠ j) :
    (l.set i y).get? j = l.get? j := by
  rw [List.get?_eq_getElem?, List.get?_eq_getElem?, List.getElem?_set_ne h]

theorem timeExt_refl (K : PFlags) (a : List ProgramNode) : TimeExt K a a :=
  ⟨rfl, fun _ n hn => ⟨n, hn, rfl, rfl, rfl, Or.inl rfl⟩⟩

theorem timeExt_trans {K : PFlags} {a b c : List ProgramNode}
    (h1 : TimeExt K a b) (h2 : TimeExt K b c) : TimeExt K a c := by
  refine ⟨h1.1.trans h2.1, ?_⟩
  intro i n hn
  obtain ⟨m, hm, t1, f1, r1, o1⟩ := h1.2 i n hn
  obtain ⟨k, hk, t2, f2, r2, o2⟩ := h2.2 i m hm
  refine ⟨k, hk, t2.trans t1, f2.trans f1, r2.trans r1, ?_⟩
  rcases o1 with o1 | ⟨d, e, hd, he, hf⟩
  · rcases o2 with o2 | ⟨d, e, hd, he, hf⟩
    · exact Or.inl (o2.trans o1)
    · exact Or.inr ⟨d, e, by rw [← o1]; exact hd, he, hf⟩
  · rcases o2 with o2 | ⟨d2, e2, hd2, he2, hf2⟩
    · exact Or.inr ⟨d, e, hd, by rw [o2]; exact he, hf⟩
    · rw [he] at hd2
      cases hd2
      exact Or.inr ⟨d, e2, hd, he2, fun x => hf2 (hf x)⟩

theorem timeExt_get {K : PFlags} {a b : List ProgramNode} (h : TimeExt K a b) {i : Nat}
    {n : ProgramNode} (hn : a.get? i = some n) :
    ∃ m, b.get? i = some m ∧ m.type = n.type ∧ m.first_id = n.first_id ∧
      m.root_id = n.root_id ∧ (∀ sc, n.data = .dur sc → m.data = .dur sc) ∧
      (∀ d, n.data = .op d → ∃ e, m.data = .op e ∧
        (d.time.flags &&& K.TIME_SET ≠ 0 → e.time.flags &&& K.TIME_SET ≠ 0)) ∧
      (∀ e, m.data = .op e → ∃ d, n.data = .op d) ∧
      (∀ sc, m.data = .dur sc → n.data = .dur sc) := by
  obtain ⟨m, hm, t1, f1, r1, o1⟩ := h.2 i n hn
  refine ⟨m, hm, t1, f1, r1, ?_, ?_, ?_, ?_⟩
  · intro sc hsc
    rcases o1 with o1 | ⟨d, e, hd, he, hf⟩
    · rw [o1]; exact hsc
    · rw [hd] at hsc; cases hsc
  · intro d hd
    rcases o1 with o1 | ⟨d0, e, hd0, he, hf⟩
    · exact ⟨d, by rw [o1]; exact hd, fun x => x⟩
    · rw [hd0] at hd
      cases hd
      exact ⟨e, he, hf⟩
  · intro e he
    rcases o1 with o1 | ⟨d0, e0, hd0, he0, hf⟩
    · exact ⟨e, by rw [← o1]; exact he⟩
    · exact ⟨d0, hd0⟩
  · intro sc hsc
    rcases o1 with o1 | ⟨d0, e0, hd0, he0, hf⟩
    · rw [← o1]; exact hsc
    · rw [he0] at hsc; cases hsc

theorem timeExt_back {K : PFlags} {a b : List ProgramNode} (h : TimeExt K a b) {i : Nat}
    {m : ProgramNode} (hm : b.get? i = some m) :
    ∃ n, a.get? i = some n ∧ m.type = n.type ∧ m.first_id = n.first_id ∧
      m.root_id = n.root_id ∧ (∀ e, m.data = .op e → ∃ d, n.data = .op d) ∧
      (∀ sc, m.data = .dur sc → n.data = .dur sc) := by
  have hlt : i < a.length := by rw [h.1]; exact get?_lt hm
  have hn : a.get? i = some (a.get ⟨i, hlt⟩) := List.get?_eq_get hlt
  obtain ⟨m1, hm1, t, f, r, -, -, bo, bd⟩ := timeExt_get h hn
  rw [hm] at hm1
  cases hm1
  exact ⟨_, hn, t, f, r, bo, bd⟩

theorem timeExt_set_op (K : PFlags) {nodes : List ProgramNode} {s : Nat} {n : ProgramNode}
    {d d1 : OpData} (hn : nodes.get? s = some n) (hd : n.data = .op d)
    (hf : d.time.flags &&& K.TIME_SET ≠ 0 → d1.time.flags &&& K.TIME_SET ≠ 0) :
    TimeExt K nodes (nodes.set s { n with data := .op d1 }) := by
  refine ⟨by simp, ?_⟩
  intro i m hm
  by_cases hi : s = i
  · subst hi
    rw [hn] at hm
    cases hm
    exact ⟨_, get?_set_self _ hn, rfl, rfl, rfl, Or.inr ⟨d, d1, hd, rfl, hf⟩⟩
  · rw [← get?_set_ne nodes { n with data := .op d1 } hi] at hm
    exact ⟨m, hm, rfl, rfl, rfl, Or.inl rfl⟩

theorem timeExt_set_delay (K : PFlags) {nodes : List ProgramNode} {s : Nat} {n : ProgramNode}
    (v : Num) (hn : nodes.get? s = some n) :
    TimeExt K nodes (nodes.set s { n with delay := v }) := by
  refine ⟨by simp, ?_⟩
  intro i m hm
  by_cases hi : s = i
  · subst hi
    rw [hn] at hm
    cases hm
    exact ⟨_, get?_set_self _ hn, rfl, rfl, rfl, Or.inl rfl⟩
  · rw [← get?_set_ne nodes { n with delay := v } hi] at hm
    exact ⟨m, hm, rfl, rfl, rfl, Or.inl rfl⟩

theorem flagged_ext {K : PFlags} {a b : List ProgramNode} (h : TimeExt K a b) {j : Nat}
    (hj : flagged_at K a j) : flagged_at K b j := by
  obtain ⟨m, e, hm, he, hf⟩ := hj
  obtain ⟨k, hk, -, -, -, -, ko, -, -⟩ := timeExt_get h hm
  obtain ⟨g, hg, hgf⟩ := ko e he
  exact ⟨k, g, hk, hg, hgf hf⟩

theorem scopesOk_ext {K : PFlags} {a b : List ProgramNode} (h : TimeExt K a b)
    (ha : ScopesOk a) : ScopesOk b := by
  intro i m sc hm hsc
  obtain ⟨n, hn, -, -, -, -, bd⟩ := timeExt_back h hm
  exact ha i n sc hn (bd sc hsc)

theorem map_set_same {α β : Type} (f : α → β) {l : List α} {i : Nat} {x : α} (y : α)
    (hx : l.get? i = some x) (hy : f y = f x) : (l.set i y).map f = l.map f := by
  rw [List.map_set]
  apply List.ext_get?
  intro j
  by_cases hj : i = j
  · subst hj
    rw [List.get?_eq_getElem?, List.get?_eq_getElem?,
      List.getElem?_set_self (by simpa using get?_lt hx)]
    rw [List.get?_eq_getElem?] at hx
    simp [List.getElem?_map, hx, hy]
  · rw [List.get?_eq_getElem?, List.get?_eq_getElem?, List.getElem?_set_ne hj]

theorem next_node_pos {nodes : List ProgramNode} {s : Nat} (h : s < nodes.length) :
    pos_of nodes.length (next_node nodes s) = s + 1 := by
  unfold next_node
  by_cases h1 : s + 1 < nodes.length
  · simp [h1, pos_of]
  · simp only [h1, if_false, pos_of]
    omega

theorem next_node_length {a b : List ProgramNode} (h : a.length = b.length) (s : Nat) :
    next_node a s = next_node b s := by
  unfold next_node
  rw [h]

theorem pos_lt_of_ne {len s : Nat} {n_after : Option Nat} (hs : s < len)
    (hne : some s ≠ n_after) (hle : s ≤ pos_of len n_after) : s < pos_of len n_after := by
  cases n_after with
  | none => exact hs
  | some a =>
    simp only [pos_of] at hle ⊢
    have : s ≠ a := fun h => hne (by rw [h])
    omega

theorem drop_take_cons {α : Type} {l : List α} {s stop : Nat} {x : α}
    (hx : l.get? s = some x) (hlt : s < stop) :
    (l.drop s).take (stop - s) = x :: (l.drop (s + 1)).take (stop - (s + 1)) := by
  have hs := get?_lt hx
  rw [List.get?_eq_getElem?, List.getElem?_eq_getElem hs] at hx
  simp only [Option.some.injEq] at hx
  rw [List.drop_eq_getElem_cons hs, hx]
  have : stop - s = (stop - (s + 1)) + 1 := by omega
  rw [this, List.take_succ_cons]


theorem durscope_max_spec (K : PFlags) (n_after : Option Nat) :
    ∀ (fuel : Nat) (step : Option Nat) (delay dc : Num) (nodes : List ProgramNode)
      (res : Num × Num × List ProgramNode),
      durscope_max K n_after fuel step delay dc nodes = some res →
      pos_of nodes.length step ≤ pos_of nodes.length n_after →
      TimeExt K nodes res.2.2 ∧ res.2.2.map top_time = nodes.map top_time ∧
        res.2.2.map (fun n => n.delay) = nodes.map (fun n => n.delay) ∧
        res.1 = max_time delay (((nodes.map top_time).drop (pos_of nodes.length step)).take
          (pos_of nodes.length n_after - pos_of nodes.length step)) := by
  intro fuel
  induction fuel with
  | zero => intro step delay dc nodes res h; simp [durscope_max] at h
  | succ fuel ih =>
    intro step delay dc nodes res h hle
    unfold durscope_max at h
    by_cases hstop : step = n_after
    · simp only [hstop, if_true, Option.some.injEq] at h
      subst h
      subst hstop
      simp [timeExt_refl, max_time]
    · simp only [hstop, if_false] at h
      cases step with
      | none => simp at h
      | some s =>
        simp only at h
        cases hn : nodes.get? s with
        | none =>
          simp only [hn, reduceCtorEq] at h
        | some n =>
          simp only [hn] at h
          have hs : s < nodes.length := get?_lt hn
          have hlt : s < pos_of nodes.length n_after := pos_lt_of_ne hs hstop hle
          have hnext := next_node_pos hs
          have hmap : (nodes.map top_time).get? s = some (top_time n) := by
            rw [List.get?_eq_getElem?, List.getElem?_map, ← List.get?_eq_getElem?, hn]; rfl
          have hcons := drop_take_cons hmap hlt
          have hps : pos_of nodes.length (some s) = s := rfl
          rw [hps]
          by_cases hnest : n.first_id ≠ n.root_id
          · rw [if_pos hnest] at h
            have := ih _ _ _ _ _ h (by rw [hnext]; omega)
            rw [hnext] at this
            refine ⟨this.1, this.2.1, this.2.2.1, ?_⟩
            rw [this.2.2.2, hcons]
            have ht : top_time n = none := by
              unfold top_time
              simp [hnest]
            simp [max_time, ht]
          · have heq : n.first_id = n.root_id := by
              by_contra hc
              exact hnest hc
            rw [if_neg hnest] at h
            cases hsnd : node_sound n with
            | none =>
              simp only [hsnd] at h
              have := ih _ _ _ _ _ h hle
              rw [hps] at this
              exact this
            | some d =>
              simp only [hsnd] at h
              obtain ⟨hty, hdat⟩ := node_sound_some hsnd
              generalize hd1 : (if next_node nodes s = n_after then
                ({ d with time := d.time.set_flag K } : OpData) else d) = d1 at h
              have hv : d1.time.v = d.time.v := by
                rw [← hd1]; split <;> rfl
              have hfl : d.time.flags &&& K.TIME_SET ≠ 0 → d1.time.flags &&& K.TIME_SET ≠ 0 := by
                intro hf
                rw [← hd1]
                split
                · simp only [TimeVal.set_flag, or_and_self_right]
                  intro h0
                  rw [h0] at hf
                  simp at hf
                · exact hf
              have hlen : (nodes.set s { n with data := .op d1 }).length = nodes.length := by
                simp
              have hex := timeExt_set_op K hn hdat hfl
              have htop : (nodes.set s { n with data := .op d1 }).map top_time
                  = nodes.map top_time := by
                apply map_set_same top_time { n with data := .op d1 } hn
                unfold top_time node_sound
                simp [hty, hdat, hv]
              have hdel : (nodes.set s { n with data := .op d1 }).map (fun n => n.delay)
                  = nodes.map (fun n => n.delay) :=
                map_set_same (fun n => n.delay) { n with data := .op d1 } hn rfl
              have := ih _ _ _ _ _ h (by rw [hlen, hnext]; omega)
              rw [hlen, hnext, htop, hdel] at this
              refine ⟨timeExt_trans hex this.1, this.2.1, this.2.2.1, ?_⟩
              rw [this.2.2.2, hcons]
              have ht : top_time n = some d.time.v := by
                unfold top_time
                simp [heq, hsnd]
              simp [max_time, ht, hv]

theorem durscope_fill_spec (K : PFlags) (n_after : Option Nat)
    (delay : Num) :
    ∀ (fuel : Nat) (step : Option Nat) (dc : Num) (nodes res : List ProgramNode),
      durscope_fill K n_after delay fuel step dc nodes = some res →
      pos_of nodes.length step ≤ pos_of nodes.length n_after →
      TimeExt K nodes res ∧
        res.map (fun n => n.delay) = nodes.map (fun n => n.delay) ∧
        ∀ j n d, K.TIME_SET ≠ 0 → pos_of nodes.length step ≤ j →
          j < pos_of nodes.length n_after →
          nodes.get? j = some n → n.first_id = n.root_id → node_sound n = some d →
          ∃ m e, res.get? j = some m ∧ m.data = .op e ∧ e.time.flags &&& K.TIME_SET ≠ 0 := by
  intro fuel
  induction fuel with
  | zero => intro step dc nodes res h; simp [durscope_fill] at h
  | succ fuel ih =>
    intro step dc nodes res h hle
    unfold durscope_fill at h
    by_cases hstop : step = n_after
    · simp only [hstop, if_true, Option.some.injEq] at h
      subst h
      subst hstop
      refine ⟨timeExt_refl K _, rfl, ?_⟩
      intro j n d _ h1 h2
      omega
    · simp only [hstop, if_false] at h
      cases step with
      | none => simp at h
      | some s =>
        simp only at h
        cases hn : nodes.get? s with
        | none =>
          simp only [hn, reduceCtorEq] at h
        | some n =>
          simp only [hn] at h
          have hs : s < nodes.length := get?_lt hn
          have hlt : s < pos_of nodes.length n_after := pos_lt_of_ne hs hstop hle
          have hnext := next_node_pos hs
          have hps : pos_of nodes.length (some s) = s := rfl
          rw [hps]
          by_cases hnest : n.first_id ≠ n.root_id
          · rw [if_pos hnest] at h
            have := ih _ _ _ _ h (by rw [hnext]; omega)
            rw [hnext] at this
            refine ⟨this.1, this.2.1, ?_⟩
            intro j m d hT h1 h2 hm hmeq hmd
            by_cases hj : j = s
            · subst hj
              rw [hn] at hm
              cases hm
              exact absurd hmeq hnest
            · exact this.2.2 j m d hT (by omega) h2 hm hmeq hmd
          · rw [if_neg hnest] at h
            cases hsnd : node_sound n with
            | none =>
              simp only [hsnd] at h
              have := ih _ _ _ _ h hle
              rw [hps] at this
              exact this
            | some d =>
              simp only [hsnd] at h
              obtain ⟨hty, hdat⟩ := node_sound_some hsnd
              generalize hd1 : (if d.time.flags &&& K.TIME_SET = 0 then
                ({ d with time := { v := K.store (delay.add dc),
                                    flags := d.time.flags ||| K.TIME_SET } } : OpData)
                else d) = d1 at h
              have hfl : K.TIME_SET ≠ 0 → d1.time.flags &&& K.TIME_SET ≠ 0 := by
                intro hT
                rw [← hd1]
                split
                · simp only [or_and_self_right]
                  exact hT
                · assumption
              have hmono : d.time.flags &&& K.TIME_SET ≠ 0 →
                  d1.time.flags &&& K.TIME_SET ≠ 0 := by
                intro hf
                rw [← hd1, if_neg hf]
                exact hf
              have hlen : (nodes.set s { n with data := .op d1 }).length = nodes.length := by
                simp
              have hex := timeExt_set_op K hn hdat hmono
              have hdel : (nodes.set s { n with data := .op d1 }).map (fun n => n.delay)
                  = nodes.map (fun n => n.delay) :=
                map_set_same (fun n => n.delay) { n with data := .op d1 } hn rfl
              have := ih _ _ _ _ h (by rw [hlen, hnext]; omega)
              rw [hlen, hnext, hdel] at this
              refine ⟨timeExt_trans hex this.1, this.2.1, ?_⟩
              intro j m e hT h1 h2 hm hmeq hmd
              by_cases hj : j = s
              · subst hj
                obtain ⟨k, hk, -, -, -, -, ho, -, -⟩ :=
                  timeExt_get this.1 (get?_set_self { n with data := .op d1 } hn)
                obtain ⟨g, hg, hgf⟩ := ho d1 rfl
                exact ⟨k, g, hk, hg, hgf (hfl hT)⟩
              · have hne : s ≠ j := fun hc => hj hc.symm
                rw [← get?_set_ne nodes { n with data := .op d1 } hne] at hm
                exact this.2.2 j m e hT (by omega) h2 hm hmeq hmd

theorem get?_of_map_eq {α β : Type} {f : α → β} {a b : List α} (h : a.map f = b.map f)
    {i : Nat} {x : α} (hx : b.get? i = some x) : ∃ y, a.get? i = some y ∧ f y = f x := by
  have h1 : (b.map f).get? i = some (f x) := by
    rw [List.get?_eq_getElem?, List.getElem?_map, ← List.get?_eq_getElem?, hx]; rfl
  rw [← h, List.get?_eq_getElem?, List.getElem?_map, ← List.get?_eq_getElem?] at h1
  cases ha : a.get? i with
  | none => rw [ha] at h1; cases h1
  | some y =>
    rw [ha] at h1
    simp only [Option.map_some', Option.some.injEq] at h1
    exact ⟨y, rfl, h1⟩

theorem time_durscope_spec {K : PFlags} {fuel : Nat} {nodes res : List ProgramNode}
    {sc : NodeScope} {f l : Nat} (h : time_durscope K fuel nodes sc = some res)
    (hf : sc.first_node = some f) (hl : sc.last_node = some l) (hfl : f ≤ l) :
    l < nodes.length ∧ TimeExt K nodes res ∧
    (K.TIME_SET ≠ 0 → ∀ j n d, f ≤ j → j ≤ l → nodes.get? j = some n →
      n.first_id = n.root_id → node_sound n = some d →
      ∃ m e, res.get? j = some m ∧ m.data = .op e ∧ e.time.flags &&& K.TIME_SET ≠ 0) ∧
    (∀ a na, next_node nodes l = some a → nodes.get? a = some na →
      ∃ nb, res.get? a = some nb ∧
        nb.delay = K.store (na.delay.add (group_max_time nodes f a))) := by
  unfold time_durscope at h
  simp only [hl] at h
  by_cases hlt : l < nodes.length
  · simp only [hlt, if_true, hf] at h
    have hnext := next_node_pos hlt
    cases h1 : durscope_max K (next_node nodes l) fuel (some f) (.val 0) (.val 0) nodes with
    | none => simp only [h1, reduceCtorEq] at h
    | some r1 =>
      obtain ⟨delay, dc, nodes1⟩ := r1
      simp only [h1] at h
      obtain ⟨e1, t1, d1, m1⟩ := durscope_max_spec K _ _ _ _ _ _ _ h1
        (by rw [hnext]; show f ≤ l + 1; omega)
      simp only at e1 t1 d1 m1
      have hlen1 : nodes1.length = nodes.length := e1.1.symm
      cases h2 : durscope_fill K (next_node nodes l) delay fuel (some f) dc nodes1 with
      | none => simp only [h2, reduceCtorEq] at h
      | some nodes2 =>
        simp only [h2] at h
        obtain ⟨e2, d2, fl2⟩ := durscope_fill_spec K _ _ _ _ _ _ _ h2
          (by rw [hlen1, hnext]; show f ≤ l + 1; omega)
        rw [hlen1, hnext] at fl2
        have hflag : K.TIME_SET ≠ 0 → ∀ j n d, f ≤ j → j ≤ l → nodes.get? j = some n →
            n.first_id = n.root_id → node_sound n = some d →
            ∃ m e, nodes2.get? j = some m ∧ m.data = .op e ∧
              e.time.flags &&& K.TIME_SET ≠ 0 := by
          intro hT j n d hj1 hj2 hn hneq hsnd
          obtain ⟨hty, hdat⟩ := node_sound_some hsnd
          obtain ⟨m, hm, mt, mf, mr, -, mo, -, -⟩ := timeExt_get e1 hn
          obtain ⟨e, he, -⟩ := mo d hdat
          exact fl2 j m e hT hj1 (by omega) hm (by rw [mf, mr]; exact hneq)
            (node_sound_of (mt.trans hty) he)
        cases hna : next_node nodes l with
        | none =>
          simp only [hna, Option.some.injEq] at h
          subst h
          refine ⟨hlt, timeExt_trans e1 e2, hflag, ?_⟩
          intro a na hc
          cases hc
        | some a =>
          simp only [hna] at h
          cases hg : nodes2.get? a with
          | none => simp only [hg, reduceCtorEq] at h
          | some nb0 =>
            simp only [hg, Option.some.injEq] at h
            subst h
            have e3 := timeExt_set_delay K (K.store (nb0.delay.add delay)) hg
            refine ⟨hlt, timeExt_trans (timeExt_trans e1 e2) e3, ?_, ?_⟩
            · intro hT j n d hj1 hj2 hn hneq hsnd
              obtain ⟨m, e, hm, hme, hfl⟩ := hflag hT j n d hj1 hj2 hn hneq hsnd
              obtain ⟨k, hk, -, -, -, -, ko, -, -⟩ := timeExt_get e3 hm
              obtain ⟨g, hg2, hgf⟩ := ko e hme
              exact ⟨k, g, hk, hg2, hgf hfl⟩
            · intro a1 na ha hnode
              cases ha
              refine ⟨_, get?_set_self _ hg, ?_⟩
              have hdel : nodes2.map (fun n => n.delay) = nodes.map (fun n => n.delay) :=
                d2.trans d1
              obtain ⟨y, hy, hyd⟩ := get?_of_map_eq hdel hnode
              rw [hg] at hy
              cases hy
              have hyd2 : nb0.delay = na.delay := hyd
              have hpa : pos_of nodes.length (next_node nodes l) = a := by
                rw [hna]; rfl
              have hmax : delay = group_max_time nodes f a := by
                rw [m1]
                unfold group_max_time
                rw [hpa]
                rfl
              show K.store (nb0.delay.add delay) = _
              rw [hyd2, hmax]
  · simp only [hlt, if_false, reduceCtorEq] at h


/-- C30: for the script `W sin t 1 / 2 W sin t 3 | W sin` the first group has
the times 1 and 3 and the explicit delay 2 (of the node 2); the node after the
group, the duration node 3 made by `|`, has the delay 0 before the timing pass
and the delay 3 after it: the maximum time alone, not 3 + 2. -/
theorem durscope_delay_without_delays :
    sample_groups.map (fun n => (n.id, n.type, top_time n))
      = [(0, .dur, none), (1, .op, some (.val 1)), (2, .op, some (.val 3)), (3, .dur, none),
         (4, .op, some (.val 1))] ∧
    sample_groups.map (fun n => n.delay) = [.val 0, .val 0, .val 2, .val 0, .val 0] ∧
    (sample_groups.get? 0).map (fun n => n.data)
      = some (.dur { first_node := some 1, last_node := some 2 }) ∧
    (adjust_nodes samplePFlags 40 sample_groups).map (fun l => l.map (fun n => n.delay))
      = some [.val 0, .val 0, .val 2, .val 3, .val 0] := by
  decide!

/-- C30 (amended): `time_durscope` for a group from the node `f` to the node
`l` that is followed by a node `a` adds to the delay of `a` the maximum time
among the top-level sound nodes of the group, and nothing else. -/
theorem time_durscope_delay (K : PFlags) (fuel : Nat) (nodes res : List ProgramNode)
    (sc : NodeScope) (f l a : Nat) (na : ProgramNode)
    (h : time_durscope K fuel nodes sc = some res)
    (hf : sc.first_node = some f) (hl : sc.last_node = some l) (hfl : f ≤ l)
    (ha : next_node nodes l = some a) (hna : nodes.get? a = some na) :
    ∃ nb, res.get? a = some nb ∧
      nb.delay = K.store (na.delay.add (group_max_time nodes f a)) :=
  (time_durscope_spec h hf hl hfl).2.2.2 a na ha hna

theorem time_durscope_delay_witness :
    ∃ nb, ((time_durscope samplePFlags 10 sample_groups
        { first_node := some 1, last_node := some 2 }).getD []).get? 3 = some nb ∧
      nb.delay = samplePFlags.store ((Num.val 0).add (group_max_time sample_groups 1 3)) :=
  time_durscope_delay samplePFlags 10 sample_groups
    ((time_durscope samplePFlags 10 sample_groups
      { first_node := some 1, last_node := some 2 }).getD [])
    { first_node := some 1, last_node := some 2 } 1 2 3
    { ref_prev := none, type := .dur, id := 3, first_id := 3, root_id := 3, base_id := 0,
      delay := .val 0, use_next := none,
      data := .dur { first_node := some 4, last_node := some 4 } }
    (by decide!) rfl rfl (by decide) (by decide!) (by decide!)

theorem durscope_max_stuck (K : PFlags) (n_after : Option Nat) (s : Nat)
    (nodes : List ProgramNode) (n : ProgramNode) (hn : nodes.get? s = some n)
    (heq : n.first_id = n.root_id) (hsnd : node_sound n = none) (hne : some s ≠ n_after) :
    ∀ (fuel : Nat) (delay dc : Num),
      durscope_max K n_after fuel (some s) delay dc nodes = none := by
  intro fuel
  induction fuel with
  | zero => intro delay dc; rfl
  | succ fuel ih =>
    intro delay dc
    unfold durscope_max
    rw [if_neg hne]
    simp only [hn]
    rw [if_neg (by intro hc; exact hc heq)]
    simp only [hsnd]
    exact ih delay dc

/-- C37: for the script `E` the parser makes the duration node 0 and the
node 1 of `E`, a top-level node without sound data in the scope of the node 0.
The first loop of `time_durscope` never moves past the node 1 (`continue`
without a step), so `adjust_nodes` has no result, however many rounds are
allowed. -/
theorem time_durscope_never_ends :
    parsed_nodes samplePFlags 20 "E" = sample_env_nodes ∧
    (∀ fuel, time_durscope samplePFlags fuel (parsed_nodes samplePFlags 20 "E")
      { first_node := some 1, last_node := some 1 } = none) ∧
    ∀ fuel, adjust_nodes samplePFlags fuel (parsed_nodes samplePFlags 20 "E") = none := by
  have hnodes : parsed_nodes samplePFlags 20 "E" = sample_env_nodes := by
    decide!
  have hstuck : ∀ fuel, time_durscope samplePFlags fuel sample_env_nodes
      { first_node := some 1, last_node := some 1 } = none := by
    intro fuel
    have hs := durscope_max_stuck samplePFlags (next_node sample_env_nodes 1) 1
      sample_env_nodes sample_env_node rfl rfl rfl (by decide) fuel (.val 0) (.val 0)
    unfold time_durscope
    simp only [hs]
    rw [if_pos (by decide)]
  rw [hnodes]
  refine ⟨rfl, hstuck, ?_⟩
  intro fuel
  unfold adjust_nodes
  rw [if_neg (by decide)]
  cases fuel with
  | zero => rfl
  | succ fuel =>
    unfold adjust_loop
    have h0 : sample_env_nodes.get? 0 = some
        { ref_prev := none, type := .dur, id := 0, first_id := 0, root_id := 0, base_id := 0,
          delay := .val 0, use_next := none,
          data := .dur { first_node := some 1, last_node := some 1 } } := rfl
    simp only [h0, if_true]
    have hn0 : next_node sample_env_nodes 0 = some 1 := rfl
    rw [hn0]
    cases fuel with
    | zero => rfl
    | succ fuel =>
      unfold adjust_loop
      have h1 : sample_env_nodes.get? 1 = some sample_env_node := rfl
      simp only [h1]
      rw [if_neg (by decide)]
      have hg : adjust_group samplePFlags fuel
          (adjust_sound samplePFlags sample_env_nodes 1 sample_env_node) (some 0) 1 = none := by
        unfold adjust_group
        have hsn : adjust_sound samplePFlags sample_env_nodes 1 sample_env_node
            = sample_env_nodes := rfl
        simp only [hsn, h0, if_true, hstuck fuel]
      simp only [hg]


theorem adjust_sound_spec (K : PFlags) {nodes : List ProgramNode} {i : Nat} {n : ProgramNode}
    (hn : nodes.get? i = some n) :
    TimeExt K nodes (adjust_sound K nodes i n) ∧
      (K.TIME_SET ≠ 0 → n.type = .op → (∃ d, n.data = .op d) → n.first_id ≠ n.root_id →
        flagged_at K (adjust_sound K nodes i n) i) := by
  unfold adjust_sound
  cases hsnd : node_sound n with
  | none =>
    refine ⟨timeExt_refl K _, ?_⟩
    intro _ hty hd _
    obtain ⟨d, hd⟩ := hd
    rw [node_sound_of hty hd] at hsnd
    cases hsnd
  | some d =>
    obtain ⟨hty, hdat⟩ := node_sound_some hsnd
    simp only
    constructor
    · apply timeExt_set_op K hn hdat
      intro hf
      unfold time_sound
      rw [if_neg hf]
      exact hf
    · intro hT _ _ hnest
      refine ⟨_, _, get?_set_self _ hn, rfl, ?_⟩
      unfold time_sound
      by_cases hf : d.time.flags &&& K.TIME_SET = 0
      · rw [if_pos hf, if_pos hnest]
        simp only [TimeVal.set_flag, or_and_self_right]
        exact hT
      · rw [if_neg hf]
        exact hf

theorem adjust_group_spec {K : PFlags} {fuel : Nat} {nodes nodes2 : List ProgramNode}
    {dur : Option Nat} {i : Nat} (hok : ScopesOk nodes)
    (h : adjust_group K fuel nodes dur i = some nodes2) :
    TimeExt K nodes nodes2 ∧
      (K.TIME_SET ≠ 0 → ∀ di dn sc f, dur = some di → nodes.get? di = some dn →
        dn.data = .dur sc → sc.first_node = some f → sc.last_node = some i →
        ∀ j n d, f ≤ j → j ≤ i → nodes.get? j = some n → n.first_id = n.root_id →
          node_sound n = some d → flagged_at K nodes2 j) := by
  unfold adjust_group at h
  cases dur with
  | none => cases h
  | some di =>
    simp only at h
    cases hdn : nodes.get? di with
    | none => simp only [hdn, reduceCtorEq] at h
    | some dn =>
      simp only [hdn] at h
      cases hdd : dn.data with
      | null => simp only [hdd, reduceCtorEq] at h
      | op x => simp only [hdd, reduceCtorEq] at h
      | arr x => simp only [hdd, reduceCtorEq] at h
      | dur sc =>
        simp only [hdd] at h
        by_cases hlast : sc.last_node = some i
        · rw [if_pos hlast] at h
          have hsok := hok di dn sc hdn hdd
          unfold scope_ok at hsok
          simp only [hlast] at hsok
          cases hfirst : sc.first_node with
          | none => simp [hfirst] at hsok
          | some f =>
            simp only [hfirst, decide_eq_true_eq] at hsok
            obtain ⟨-, e, fl, -⟩ := time_durscope_spec h hfirst hlast hsok
            refine ⟨e, ?_⟩
            intro hT di1 dn1 sc1 f1 h1 h2 h3 h4 h5 j n d hj1 hj2 hn hneq hsnd
            cases h1
            rw [hdn] at h2
            cases h2
            rw [hdd] at h3
            cases h3
            rw [hfirst] at h4
            cases h4
            exact fl hT j n d hj1 hj2 hn hneq hsnd
        · rw [if_neg hlast] at h
          cases h
          refine ⟨timeExt_refl K _, ?_⟩
          intro _ di1 dn1 sc1 f1 h1 h2 h3 _ h5
          cases h1
          rw [hdn] at h2
          cases h2
          rw [hdd] at h3
          cases h3
          exact absurd h5 hlast

theorem adjust_step {K : PFlags} {fuel i : Nat} {dur : Option Nat}
    {nodes res : List ProgramNode} (hok : ScopesOk nodes)
    (h : adjust_loop K (fuel + 1) (some i) dur nodes = some res) :
    ∃ ni nodes2, nodes.get? i = some ni ∧ TimeExt K nodes nodes2 ∧
      adjust_loop K fuel (next_node nodes i) (if ni.type = .dur then some i else dur) nodes2
        = some res ∧
      (K.TIME_SET ≠ 0 → ni.type = .op → (∃ d, ni.data = .op d) → ni.first_id ≠ ni.root_id →
        flagged_at K nodes2 i) ∧
      (K.TIME_SET ≠ 0 → ni.type ≠ .dur → ∀ di dn sc f, dur = some di →
        nodes.get? di = some dn → dn.data = .dur sc → sc.first_node = some f →
        sc.last_node = some i →
        ∀ j n d, f ≤ j → j ≤ i → nodes.get? j = some n → n.first_id = n.root_id →
          node_sound n = some d → flagged_at K nodes2 j) := by
  unfold adjust_loop at h
  cases hn : nodes.get? i with
  | none => simp only [hn, reduceCtorEq] at h
  | some ni =>
    simp only [hn] at h
    by_cases hty : ni.type = .dur
    · rw [if_pos hty] at h
      refine ⟨ni, nodes, rfl, timeExt_refl K _, by rw [if_pos hty]; exact h, ?_, ?_⟩
      · intro _ hop
        rw [hty] at hop
        cases hop
      · intro _ hnd
        exact absurd hty hnd
    · rw [if_neg hty] at h
      obtain ⟨e1, fl1⟩ := adjust_sound_spec K hn
      cases hg : adjust_group K fuel (adjust_sound K nodes i ni) dur i with
      | none => simp only [hg, reduceCtorEq] at h
      | some nodes2 =>
        simp only [hg] at h
        obtain ⟨e2, fl2⟩ := adjust_group_spec (scopesOk_ext e1 hok) hg
        refine ⟨ni, nodes2, rfl, timeExt_trans e1 e2, by rw [if_neg hty]; exact h, ?_, ?_⟩
        · intro hT hop hd hnest
          exact flagged_ext e2 (fl1 hT hop hd hnest)
        · intro hT _ di dn sc f h1 h2 h3 h4 h5 j n d hj1 hj2 hnj hneq hsnd
          obtain ⟨dm, hdm, -, -, -, hdur, -, -, -⟩ := timeExt_get e1 h2
          obtain ⟨m, hm, mt, mf, mr, -, mo, -, -⟩ := timeExt_get e1 hnj
          obtain ⟨hty2, hdat2⟩ := node_sound_some hsnd
          obtain ⟨e, he, -⟩ := mo d hdat2
          exact fl2 hT di dm sc f h1 hdm (hdur sc h3) h4 h5 j m e hj1 hj2 hm
            (by rw [mf, mr]; exact hneq) (node_sound_of (mt.trans hty2) he)

theorem adjust_loop_ext (K : PFlags) :
    ∀ (fuel : Nat) (n dur : Option Nat) (nodes res : List ProgramNode),
      ScopesOk nodes → adjust_loop K fuel n dur nodes = some res → TimeExt K nodes res := by
  intro fuel
  induction fuel with
  | zero => intro n dur nodes res _ h; simp [adjust_loop] at h
  | succ fuel ih =>
    intro n dur nodes res hok h
    cases n with
    | none =>
      unfold adjust_loop at h
      cases h
      exact timeExt_refl K _
    | some i =>
      obtain ⟨ni, nodes2, -, e, hrest, -, -⟩ := adjust_step hok h
      exact timeExt_trans e (ih _ _ _ _ (scopesOk_ext e hok) hrest)

theorem cur_dur_at_ext {K : PFlags} {a b : List ProgramNode} (h : TimeExt K a b) :
    ∀ k, cur_dur_at b k = cur_dur_at a k := by
  intro k
  induction k with
  | zero => rfl
  | succ k ih =>
    unfold cur_dur_at
    cases ha : a.get? k with
    | none =>
      have hb : b.get? k = none := by
        cases hb : b.get? k with
        | none => rfl
        | some m =>
          obtain ⟨n, hn, -⟩ := timeExt_back h hb
          rw [ha] at hn
          cases hn
      simp only [hb, ih]
    | some n =>
      obtain ⟨m, hm, mt, -⟩ := timeExt_get h ha
      simp only [hm, mt, ih]

theorem next_node_lt {nodes : List ProgramNode} {i j : Nat} (hij : i < j)
    (hj : j < nodes.length) : next_node nodes i = some (i + 1) := by
  unfold next_node
  rw [if_pos (by omega)]

theorem adjust_loop_nested (K : PFlags) (hT : K.TIME_SET ≠ 0) :
    ∀ (fuel i : Nat) (dur : Option Nat) (nodes res : List ProgramNode) (j : Nat)
      (n : ProgramNode) (d : OpData),
      ScopesOk nodes → adjust_loop K fuel (some i) dur nodes = some res → i ≤ j →
      nodes.get? j = some n → n.type = .op → n.data = .op d → n.first_id ≠ n.root_id →
      flagged_at K res j := by
  intro fuel
  induction fuel with
  | zero => intro i dur nodes res j n d _ h; simp [adjust_loop] at h
  | succ fuel ih =>
    intro i dur nodes res j n d hok h hij hn hty hd hnest
    obtain ⟨ni, nodes2, hni, e, hrest, fl, -⟩ := adjust_step hok h
    have hok2 := scopesOk_ext e hok
    by_cases hc : i = j
    · subst hc
      rw [hn] at hni
      cases hni
      exact flagged_ext (adjust_loop_ext K _ _ _ _ _ hok2 hrest) (fl hT hty ⟨d, hd⟩ hnest)
    · have hlt : i < j := by omega
      rw [next_node_lt hlt (get?_lt hn)] at hrest
      obtain ⟨m, hm, mt, mf, mr, -, mo, -, -⟩ := timeExt_get e hn
      obtain ⟨g, hg, -⟩ := mo d hd
      exact ih _ _ _ _ j m g hok2 hrest (by omega) hm (mt.trans hty) hg
        (by rw [mf, mr]; exact hnest)

theorem adjust_loop_group (K : PFlags) (hT : K.TIME_SET ≠ 0) :
    ∀ (fuel i : Nat) (dur : Option Nat) (nodes res : List ProgramNode) (j : Nat)
      (n : ProgramNode) (d : OpData) (di : Nat) (dn : ProgramNode) (sc : NodeScope)
      (f l : Nat) (nl : ProgramNode),
      ScopesOk nodes → adjust_loop K fuel (some i) dur nodes = some res →
      dur = cur_dur_at nodes i →
      nodes.get? j = some n → n.first_id = n.root_id → node_sound n = some d →
      cur_dur_at nodes l = some di → nodes.get? l = some nl → nl.type ≠ .dur →
      nodes.get? di = some dn → dn.data = .dur sc → sc.first_node = some f →
      sc.last_node = some l → f ≤ j → j ≤ l → i ≤ l →
      flagged_at K res j := by
  intro fuel
  induction fuel with
  | zero => intro i dur nodes res j n d di dn sc f l nl _ h; simp [adjust_loop] at h
  | succ fuel ih =>
    intro i dur nodes res j n d di dn sc f l nl hok h hdur hn hneq hsnd hcd hnl hnlt hdn hdd
      hfirst hlast hfj hjl hil
    obtain ⟨ni, nodes2, hni, e, hrest, -, fl⟩ := adjust_step hok h
    have hok2 := scopesOk_ext e hok
    by_cases hc : i = l
    · subst hc
      rw [hnl] at hni
      cases hni
      exact flagged_ext (adjust_loop_ext K _ _ _ _ _ hok2 hrest)
        (fl hT hnlt di dn sc f (hdur.trans hcd) hdn hdd hfirst hlast j n d hfj hjl hn hneq hsnd)
    · have hlt : i < l := by omega
      rw [next_node_lt hlt (get?_lt hnl)] at hrest
      obtain ⟨hty, hdat⟩ := node_sound_some hsnd
      obtain ⟨m, hm, mt, mf, mr, -, mo, -, -⟩ := timeExt_get e hn
      obtain ⟨g, hg, -⟩ := mo d hdat
      obtain ⟨ml, hml, mlt, -⟩ := timeExt_get e hnl
      obtain ⟨md, hmd, -, -, -, mdur, -⟩ := timeExt_get e hdn
      have hdur2 : (if ni.type = .dur then some i else dur) = cur_dur_at nodes2 (i + 1) := by
        rw [cur_dur_at_ext e (i + 1)]
        show _ = (match nodes.get? i with
          | some n => if n.type = .dur then some i else cur_dur_at nodes i
          | none => cur_dur_at nodes i)
        rw [hni, hdur]
      exact ih _ _ _ _ j m g di md sc f l ml hok2 hrest hdur2 hm (by rw [mf, mr]; exact hneq)
        (node_sound_of (mt.trans hty) hg) (by rw [cur_dur_at_ext e l]; exact hcd) hml
        (by rw [mlt]; exact hnlt) hmd (mdur sc hdd) hfirst hlast hfj hjl (by omega)

theorem grouped_spec {nodes : List ProgramNode} (hg : grouped nodes = true) :
    ScopesOk nodes ∧
      ∀ i n, nodes.get? i = some n → top_time n = none ∨ in_group nodes i = true := by
  unfold grouped at hg
  rw [List.all_eq_true] at hg
  constructor
  · intro i n sc hn hsc
    have := hg i (List.mem_range.mpr (get?_lt hn))
    simp only [hn, hsc, Bool.and_eq_true] at this
    exact this.2
  · intro i n hn
    have := hg i (List.mem_range.mpr (get?_lt hn))
    simp only [hn, Bool.and_eq_true, Bool.or_eq_true, decide_eq_true_eq] at this
    exact this.1

theorem in_group_spec {nodes : List ProgramNode} {i : Nat} (h : in_group nodes i = true) :
    ∃ di dn sc f l nl, cur_dur_at nodes l = some di ∧ nodes.get? l = some nl ∧
      nl.type ≠ .dur ∧ nodes.get? di = some dn ∧ dn.data = .dur sc ∧
      sc.first_node = some f ∧ sc.last_node = some l ∧ f ≤ i ∧ i ≤ l := by
  unfold in_group at h
  cases hc : cur_dur_at nodes i with
  | none => simp only [hc, reduceCtorEq] at h
  | some di =>
    simp only [hc] at h
    cases hdn : nodes.get? di with
    | none => simp only [hdn, reduceCtorEq] at h
    | some dn =>
      simp only [hdn] at h
      cases hdd : dn.data with
      | null => simp only [hdd, reduceCtorEq] at h
      | op x => simp only [hdd, reduceCtorEq] at h
      | arr x => simp only [hdd, reduceCtorEq] at h
      | dur sc =>
        simp only [hdd] at h
        cases hf : sc.first_node with
        | none => simp only [hf, reduceCtorEq] at h
        | some f =>
          cases hl : sc.last_node with
          | none => simp only [hf, hl, reduceCtorEq] at h
          | some l =>
            simp only [hf, hl, Bool.and_eq_true, decide_eq_true_eq] at h
            obtain ⟨⟨⟨⟨h1, h2⟩, h3⟩, h4⟩, h5⟩ := h
            have hnl : nodes.get? l = some (nodes.get ⟨l, h4⟩) := List.get?_eq_get h4
            have h6 : cur_dur_at nodes (l + 1)
                = (if (nodes.get ⟨l, h4⟩).type = NodeType.dur then some l
                    else cur_dur_at nodes l) := by
              show (match nodes.get? l with
                | some n => if n.type = NodeType.dur then some l else cur_dur_at nodes l
                | none => cur_dur_at nodes l) = _
              rw [hnl]
            rw [h6] at h5
            by_cases hty : (nodes.get ⟨l, h4⟩).type = NodeType.dur
            · rw [if_pos hty] at h5
              simp only [Option.some.injEq] at h5
              omega
            · rw [if_neg hty] at h5
              exact ⟨di, dn, sc, f, l, _, h5, hnl, hty, hdn, hdd, hf, hl, h2, h3⟩


/-! ### The timing pass returns -/

theorem timeable_spec {nodes : List ProgramNode} (h : timeable nodes = true) :
    Timeable nodes := by
  unfold timeable at h
  rw [List.all_eq_true] at h
  constructor
  · intro i n hn hty
    have := h i (List.mem_range.mpr (get?_lt hn))
    simp only [hn, hty, if_false] at this
    cases hc : cur_dur_at nodes i with
    | none => rw [hc] at this; cases this
    | some di => exact ⟨di, rfl⟩
  · intro i n hn hty
    have := h i (List.mem_range.mpr (get?_lt hn))
    simp only [hn, hty, if_true] at this
    cases hd : n.data with
    | null => simp only [hd, reduceCtorEq] at this
    | op x => simp only [hd, reduceCtorEq] at this
    | arr x => simp only [hd, reduceCtorEq] at this
    | dur sc =>
      refine ⟨sc, rfl, ?_⟩
      intro l hl
      simp only [hd, hl] at this
      cases hf : sc.first_node with
      | none => simp only [hf, reduceCtorEq] at this
      | some f =>
        simp only [hf, Bool.and_eq_true, decide_eq_true_eq, List.all_eq_true,
          List.mem_range] at this
        obtain ⟨⟨h1, h2⟩, h3⟩ := this
        refine ⟨f, rfl, h1, h2, ?_⟩
        intro j hj1 hj2
        have := h3 (j - f) (by omega)
        rw [show f + (j - f) = j by omega] at this
        exact this

theorem step_ok_ext {K : PFlags} {a b : List ProgramNode} (h : TimeExt K a b) {j : Nat}
    (hj : step_ok a j = true) : step_ok b j = true := by
  unfold step_ok at hj ⊢
  cases ha : a.get? j with
  | none => simp only [ha, reduceCtorEq] at hj
  | some n =>
    simp only [ha, Bool.or_eq_true, decide_eq_true_eq] at hj
    obtain ⟨m, hm, mt, mf, mr, -, mo, -, -⟩ := timeExt_get h ha
    simp only [hm, Bool.or_eq_true, decide_eq_true_eq]
    rcases hj with hj | hj
    · exact Or.inl (by rw [mf, mr]; exact hj)
    · right
      cases hs : node_sound n with
      | none => rw [hs] at hj; cases hj
      | some d =>
        obtain ⟨hty, hdat⟩ := node_sound_some hs
        obtain ⟨e, he, -⟩ := mo d hdat
        rw [node_sound_of (mt.trans hty) he]
        rfl

theorem timeable_ext {K : PFlags} {a b : List ProgramNode} (h : TimeExt K a b)
    (ha : Timeable a) : Timeable b := by
  constructor
  · intro i m hm hty
    obtain ⟨n, hn, nt, -⟩ := timeExt_back h hm
    obtain ⟨di, hdi⟩ := ha.1 i n hn (by rw [← nt]; exact hty)
    exact ⟨di, by rw [cur_dur_at_ext h i]; exact hdi⟩
  · intro i m hm hty
    obtain ⟨n, hn, nt, -⟩ := timeExt_back h hm
    obtain ⟨sc, hsc, hl⟩ := ha.2 i n hn (by rw [← nt]; exact hty)
    obtain ⟨m1, hm1, -, -, -, md, -⟩ := timeExt_get h hn
    rw [hm] at hm1
    cases hm1
    refine ⟨sc, md sc hsc, ?_⟩
    intro l hlast
    obtain ⟨f, h1, h2, h3, h4⟩ := hl l hlast
    exact ⟨f, h1, h2, by rw [← h.1]; exact h3, fun j hj1 hj2 => step_ok_ext h (h4 j hj1 hj2)⟩

theorem cur_dur_at_dur {nodes : List ProgramNode} :
    ∀ (i di : Nat), cur_dur_at nodes i = some di →
      ∃ dn, nodes.get? di = some dn ∧ dn.type = .dur := by
  intro i
  induction i with
  | zero => intro di h; cases h
  | succ k ih =>
    intro di h
    unfold cur_dur_at at h
    cases hn : nodes.get? k with
    | none =>
      simp only [hn] at h
      exact ih di h
    | some n =>
      simp only [hn] at h
      by_cases hty : n.type = .dur
      · rw [if_pos hty] at h
        cases h
        exact ⟨n, hn, hty⟩
      · rw [if_neg hty] at h
        exact ih di h

theorem step_ok_cases {nodes : List ProgramNode} {s : Nat} {n : ProgramNode}
    (hn : nodes.get? s = some n) (h : step_ok nodes s = true) :
    n.first_id ≠ n.root_id ∨ ∃ d, node_sound n = some d := by
  unfold step_ok at h
  simp only [hn, Bool.or_eq_true, decide_eq_true_eq] at h
  rcases h with h | h
  · exact Or.inl h
  · right
    cases hs : node_sound n with
    | none => rw [hs] at h; cases h
    | some d => exact ⟨d, rfl⟩

theorem step_ok_set {nodes : List ProgramNode} {s j : Nat} (y : ProgramNode) (hne : s ≠ j)
    (h : step_ok nodes j = true) : step_ok (nodes.set s y) j = true := by
  unfold step_ok at h ⊢
  rw [get?_set_ne nodes y hne]
  exact h

theorem next_node_canon {nodes : List ProgramNode} {s t : Nat}
    (h : next_node nodes s = some t) : t < nodes.length := by
  unfold next_node at h
  split at h
  · cases h
    assumption
  · cases h

theorem durscope_max_some (K : PFlags) (n_after : Option Nat) :
    ∀ (fuel : Nat) (step : Option Nat) (delay dc : Num) (nodes : List ProgramNode),
      (∀ a, n_after = some a → a < nodes.length) →
      (∀ s, step = some s → s < nodes.length) →
      pos_of nodes.length step ≤ pos_of nodes.length n_after →
      (∀ j, pos_of nodes.length step ≤ j → j < pos_of nodes.length n_after →
        step_ok nodes j = true) →
      pos_of nodes.length n_after - pos_of nodes.length step < fuel →
      ∃ res, durscope_max K n_after fuel step delay dc nodes = some res := by
  intro fuel
  induction fuel with
  | zero => intro step delay dc nodes _ _ _ _ h; omega
  | succ fuel ih =>
    intro step delay dc nodes hna hst hle hrange hfuel
    unfold durscope_max
    by_cases hstop : step = n_after
    · rw [if_pos hstop]
      exact ⟨_, rfl⟩
    · rw [if_neg hstop]
      cases step with
      | none =>
        exfalso
        cases n_after with
        | none => exact hstop rfl
        | some a =>
          have := hna a rfl
          simp only [pos_of] at hle
          omega
      | some s =>
        have hs : s < nodes.length := hst s rfl
        have hn : nodes.get? s = some (nodes.get ⟨s, hs⟩) := List.get?_eq_get hs
        generalize nodes.get ⟨s, hs⟩ = n at hn
        have hps : pos_of nodes.length (some s) = s := rfl
        rw [hps] at hle hrange hfuel
        have hlt : s < pos_of nodes.length n_after := pos_lt_of_ne hs hstop hle
        have hnext := next_node_pos hs
        simp only [hn]
        by_cases hnest : n.first_id ≠ n.root_id
        · rw [if_pos hnest]
          apply ih _ _ _ _ hna (fun t ht => next_node_canon ht)
          · rw [hnext]; omega
          · intro j hj1 hj2
            rw [hnext] at hj1
            exact hrange j (by omega) hj2
          · rw [hnext]; omega
        · rw [if_neg hnest]
          rcases step_ok_cases hn (hrange s (Nat.le_refl _) hlt) with hc | ⟨d, hd⟩
          · exact absurd hc hnest
          · simp only [hd]
            apply ih
            · intro a ha
              rw [List.length_set]
              exact hna a ha
            · intro t ht
              rw [List.length_set]
              exact next_node_canon ht
            · rw [List.length_set, hnext]; omega
            · intro j hj1 hj2
              rw [List.length_set] at hj1 hj2
              rw [hnext] at hj1
              exact step_ok_set _ (by omega) (hrange j (by omega) hj2)
            · rw [List.length_set, hnext]; omega

theorem durscope_fill_some (K : PFlags) (n_after : Option Nat) (delay : Num) :
    ∀ (fuel : Nat) (step : Option Nat) (dc : Num) (nodes : List ProgramNode),
      (∀ a, n_after = some a → a < nodes.length) →
      (∀ s, step = some s → s < nodes.length) →
      pos_of nodes.length step ≤ pos_of nodes.length n_after →
      (∀ j, pos_of nodes.length step ≤ j → j < pos_of nodes.length n_after →
        step_ok nodes j = true) →
      pos_of nodes.length n_after - pos_of nodes.length step < fuel →
      ∃ res, durscope_fill K n_after delay fuel step dc nodes = some res := by
  intro fuel
  induction fuel with
  | zero => intro step dc nodes _ _ _ _ h; omega
  | succ fuel ih =>
    intro step dc nodes hna hst hle hrange hfuel
    unfold durscope_fill
    by_cases hstop : step = n_after
    · rw [if_pos hstop]
      exact ⟨_, rfl⟩
    · rw [if_neg hstop]
      cases step with
      | none =>
        exfalso
        cases n_after with
        | none => exact hstop rfl
        | some a =>
          have := hna a rfl
          simp only [pos_of] at hle
          omega
      | some s =>
        have hs : s < nodes.length := hst s rfl
        have hn : nodes.get? s = some (nodes.get ⟨s, hs⟩) := List.get?_eq_get hs
        generalize nodes.get ⟨s, hs⟩ = n at hn
        have hps : pos_of nodes.length (some s) = s := rfl
        rw [hps] at hle hrange hfuel
        have hlt : s < pos_of nodes.length n_after := pos_lt_of_ne hs hstop hle
        have hnext := next_node_pos hs
        simp only [hn]
        by_cases hnest : n.first_id ≠ n.root_id
        · rw [if_pos hnest]
          apply ih _ _ _ hna (fun t ht => next_node_canon ht)
          · rw [hnext]; omega
          · intro j hj1 hj2
            rw [hnext] at hj1
            exact hrange j (by omega) hj2
          · rw [hnext]; omega
        · rw [if_neg hnest]
          rcases step_ok_cases hn (hrange s (Nat.le_refl _) hlt) with hc | ⟨d, hd⟩
          · exact absurd hc hnest
          · simp only [hd]
            apply ih
            · intro a ha
              rw [List.length_set]
              exact hna a ha
            · intro t ht
              rw [List.length_set]
              exact next_node_canon ht
            · rw [List.length_set, hnext]; omega
            · intro j hj1 hj2
              rw [List.length_set] at hj1 hj2
              rw [hnext] at hj1
              exact step_ok_set _ (by omega) (hrange j (by omega) hj2)
            · rw [List.length_set, hnext]; omega

theorem time_durscope_some (K : PFlags) {fuel : Nat} {nodes : List ProgramNode}
    {sc : NodeScope} {f l : Nat} (hf : sc.first_node = some f) (hl : sc.last_node = some l)
    (hfl : f ≤ l) (hlt : l < nodes.length)
    (hrange : ∀ j, f ≤ j → j ≤ l → step_ok nodes j = true) (hfuel : l + 1 - f < fuel) :
    ∃ res, time_durscope K fuel nodes sc = some res := by
  unfold time_durscope
  simp only [hl, hlt, if_true, hf]
  have hnext := next_node_pos hlt
  have hps : pos_of nodes.length (some f) = f := rfl
  obtain ⟨r1, h1⟩ := durscope_max_some K (next_node nodes l) fuel (some f) (.val 0) (.val 0)
    nodes (fun a ha => next_node_canon ha) (fun s hs => by cases hs; omega)
    (by rw [hnext, hps]; omega)
    (by
      intro j hj1 hj2
      rw [hnext] at hj2
      rw [hps] at hj1
      exact hrange j hj1 (by omega))
    (by rw [hnext, hps]; exact hfuel)
  obtain ⟨delay, dc, nodes1⟩ := r1
  rw [h1]
  simp only
  obtain ⟨e1, -, -, -⟩ := durscope_max_spec K _ _ _ _ _ _ _ h1 (by rw [hnext, hps]; omega)
  simp only at e1
  have hlen1 : nodes1.length = nodes.length := e1.1.symm
  obtain ⟨nodes2, h2⟩ := durscope_fill_some K (next_node nodes l) delay fuel (some f) dc nodes1
    (fun a ha => by rw [hlen1]; exact next_node_canon ha)
    (fun s hs => by cases hs; rw [hlen1]; omega)
    (by rw [hlen1, hnext, hps]; omega)
    (by
      intro j hj1 hj2
      rw [hlen1, hnext] at hj2
      rw [hlen1, hps] at hj1
      exact step_ok_ext e1 (hrange j hj1 (by omega)))
    (by rw [hlen1, hnext, hps]; exact hfuel)
  rw [h2]
  simp only
  obtain ⟨e2, -, -⟩ := durscope_fill_spec K _ _ _ _ _ _ _ h2
    (by rw [hlen1, hnext, hps]; omega)
  cases hna : next_node nodes l with
  | none => exact ⟨_, rfl⟩
  | some a =>
    simp only
    have ha : a < nodes2.length := by
      rw [← e2.1, hlen1]
      exact next_node_canon hna
    rw [List.get?_eq_get ha]
    exact ⟨_, rfl⟩

theorem adjust_group_some (K : PFlags) {fuel : Nat} {nodes : List ProgramNode} {di i : Nat}
    {dn : ProgramNode} (ht : Timeable nodes) (hdn : nodes.get? di = some dn)
    (hty : dn.type = .dur) (hfuel : nodes.length + 1 < fuel) :
    ∃ res, adjust_group K fuel nodes (some di) i = some res := by
  unfold adjust_group
  simp only [hdn]
  obtain ⟨sc, hsc, hl⟩ := ht.2 di dn hdn hty
  simp only [hsc]
  by_cases hlast : sc.last_node = some i
  · rw [if_pos hlast]
    obtain ⟨f, h1, h2, h3, h4⟩ := hl i hlast
    exact time_durscope_some K h1 hlast h2 h3 h4 (by omega)
  · rw [if_neg hlast]
    exact ⟨_, rfl⟩

/-- The loop of `adjust_nodes` returns on a list the pass gets through, with
fuel for the nodes left and for the longest group. -/
theorem adjust_loop_some (K : PFlags) :
    ∀ (fuel : Nat) (n : Option Nat) (nodes : List ProgramNode),
      Timeable nodes → ScopesOk nodes → (∀ i, n = some i → i < nodes.length) →
      nodes.length - pos_of nodes.length n + nodes.length + 2 ≤ fuel →
      ∃ res, adjust_loop K fuel n (cur_dur_at nodes (pos_of nodes.length n)) nodes = some res := by
  intro fuel
  induction fuel with
  | zero => intro n nodes _ _ _ h; omega
  | succ fuel ih =>
    intro n nodes ht hok hcan hfuel
    cases n with
    | none =>
      unfold adjust_loop
      exact ⟨_, rfl⟩
    | some i =>
      have hi : i < nodes.length := hcan i rfl
      have hps : pos_of nodes.length (some i) = i := rfl
      rw [hps] at hfuel ⊢
      have hn : nodes.get? i = some (nodes.get ⟨i, hi⟩) := List.get?_eq_get hi
      generalize nodes.get ⟨i, hi⟩ = ni at hn
      have hnext := next_node_pos hi
      have hcd : cur_dur_at nodes (i + 1)
          = (if ni.type = NodeType.dur then some i else cur_dur_at nodes i) := by
        show (match nodes.get? i with
          | some n => if n.type = NodeType.dur then some i else cur_dur_at nodes i
          | none => cur_dur_at nodes i) = _
        rw [hn]
      unfold adjust_loop
      simp only [hn]
      by_cases hty : ni.type = .dur
      · rw [if_pos hty]
        have := ih (next_node nodes i) nodes ht hok (fun t htt => next_node_canon htt)
          (by rw [hnext]; omega)
        rw [hnext, hcd, if_pos hty] at this
        exact this
      · rw [if_neg hty]
        obtain ⟨di, hdi⟩ := ht.1 i ni hn hty
        obtain ⟨dn, hdn, hdty⟩ := cur_dur_at_dur i di hdi
        obtain ⟨e1, -⟩ := adjust_sound_spec K hn
        obtain ⟨dm, hdm, dmt, -⟩ := timeExt_get e1 hdn
        rw [hdi]
        obtain ⟨nodes2, h2⟩ := @adjust_group_some K fuel _ _ i _ (timeable_ext e1 ht) hdm
          (dmt.trans hdty) (by rw [← e1.1]; omega)
        rw [h2]
        simp only
        obtain ⟨e2, -⟩ := adjust_group_spec (scopesOk_ext e1 hok) h2
        have e := timeExt_trans e1 e2
        have := ih (next_node nodes i) nodes2 (timeable_ext e ht) (scopesOk_ext e hok)
          (fun t htt => by rw [← e.1]; exact next_node_canon htt)
          (by rw [← e.1, hnext]; omega)
        rw [← e.1, hnext, cur_dur_at_ext e (i + 1), hcd, if_neg hty, hdi] at this
        exact this

theorem adjust_nodes_flags {K : PFlags} {fuel : Nat} {nodes res : List ProgramNode}
    (hT : K.TIME_SET ≠ 0) (hg : grouped nodes = true)
    (h : adjust_nodes K fuel nodes = some res) : TimeExt K nodes res ∧ all_time_set K res := by
  obtain ⟨hok, hgr⟩ := grouped_spec hg
  have hext : TimeExt K nodes res := by
    unfold adjust_nodes at h
    exact adjust_loop_ext K _ _ _ _ _ hok h
  refine ⟨hext, ?_⟩
  intro i m e hm hsnd
  unfold adjust_nodes at h
  obtain ⟨mty, mdat⟩ := node_sound_some hsnd
  by_cases hlen : nodes.length = 0
  · have := get?_lt hm
    rw [← hext.1] at this
    omega
  · rw [if_neg hlen] at h
    obtain ⟨n, hn, nt, nf, nr, no, -⟩ := timeExt_back hext hm
    obtain ⟨d, hd⟩ := no e mdat
    have hty : n.type = .op := nt.symm.trans mty
    have hfl : flagged_at K res i := by
      by_cases hneq : n.first_id = n.root_id
      · have hin : in_group nodes i = true := by
          rcases hgr i n hn with h0 | h0
          · unfold top_time at h0
            simp [hneq, node_sound_of hty hd] at h0
          · exact h0
        obtain ⟨di, dn, sc, f, l, nl, c1, c2, c3, c4, c5, c6, c7, c8, c9⟩ := in_group_spec hin
        exact adjust_loop_group K hT _ _ _ _ _ i n d di dn sc f l nl hok h rfl hn hneq
          (node_sound_of hty hd) c1 c2 c3 c4 c5 c6 c7 c8 c9 (Nat.zero_le _)
      · exact adjust_loop_nested K hT _ _ _ _ _ i n d hok h (Nat.zero_le _) hn hty hd hneq
    obtain ⟨m1, e1, hm1, he1, hf1⟩ := hfl
    rw [hm] at hm1
    cases hm1
    rw [mdat] at he1
    cases he1
    exact hf1

/-- C32: `adjust_nodes` on a node list as the parser makes it without `E`
nodes: every top-level sound node lies in the scope of the duration node before
it (`grouped`), and the scopes run over nested nodes and sound nodes only
(`timeable`). With fuel for twice the nodes the pass returns; the list it
returns has the nodes of the list it was given, with the same types and ids
and with data that differ in operator data only, and in it the time of every
sound node has the flag `MGS_TIME_SET`: nested nodes get it from `time_sound`,
top-level nodes from `time_durscope`. -/
theorem adjust_nodes_sets_time (K : PFlags) (fuel : Nat) (nodes : List ProgramNode)
    (hT : K.TIME_SET ≠ 0) (hg : grouped nodes = true) (ht : timeable nodes = true)
    (hfuel : 2 * nodes.length + 2 ≤ fuel) :
    ∃ res, adjust_nodes K fuel nodes = some res ∧ TimeExt K nodes res ∧
      all_time_set K res := by
  have hret : ∃ res, adjust_nodes K fuel nodes = some res := by
    unfold adjust_nodes
    by_cases hlen : nodes.length = 0
    · rw [if_pos hlen]
      have := adjust_loop_some K fuel none nodes (timeable_spec ht) (grouped_spec hg).1
        (fun i hi => by cases hi) (by simp only [pos_of]; omega)
      simp only [pos_of] at this
      have hc : cur_dur_at nodes nodes.length = none := by
        rw [hlen]
        rfl
      rw [hc] at this
      exact this
    · rw [if_neg hlen]
      have := adjust_loop_some K fuel (some 0) nodes (timeable_spec ht) (grouped_spec hg).1
        (fun i hi => by cases hi; omega) (by simp only [pos_of]; omega)
      exact this
  obtain ⟨res, hres⟩ := hret
  exact ⟨res, hres, adjust_nodes_flags hT hg hres⟩

theorem adjust_nodes_sets_time_witness :
    (samplePFlags.TIME_SET ≠ 0 ∧ grouped sample_groups = true ∧
      timeable sample_groups = true ∧ 2 * sample_groups.length + 2 ≤ 40) ∧
    ∃ res, adjust_nodes samplePFlags 40 sample_groups = some res ∧
      TimeExt samplePFlags sample_groups res ∧ all_time_set samplePFlags res :=
  ⟨⟨by decide, by decide!, by decide!, by decide!⟩,
    adjust_nodes_sets_time samplePFlags 40 sample_groups (by decide) (by decide!) (by decide!)
      (by decide!)⟩

/-- The timing pass on the sample: before it the first node of the first group
has its time set by `t 1` and the other sound nodes by `t 3` or not at all;
after it every sound node has the flag, and the list has the same nodes. On
the list of the script `E` the two conditions do not both hold. -/
theorem adjust_nodes_sample_run :
    time_flags sample_groups = [none, some 1, some 1, none, some 0] ∧
    (adjust_nodes samplePFlags 40 sample_groups).map time_flags
      = some [none, some 1, some 1, none, some 1] ∧
    (adjust_nodes samplePFlags 40 sample_groups).map
        (fun l => l.map (fun n => [n.id, n.first_id, n.root_id]))
      = some (sample_groups.map (fun n => [n.id, n.first_id, n.root_id])) ∧
    timeable sample_env_nodes = false := by
  decide!


/-- C36: in the sample state the node 1 is open (`nd.node` is the node 1).
The round of `parse_level` for the label `'x` ends the node, so `nd.node` is
`NULL`, while `setnode` stays 1 and settings mode is off; after the round for
the space the next round reads `\1` and passes the checks, the time 1 is
scanned, and `nd.node->delay` is used with `nd.node` being `NULL`: a fault.
With `nd.node` put back to the node 1 the same round adds the delay 1. The
scripts `W sin 'x \1` and `W sin a!\x7b \1 \x7d` (the `\` first in a list)
have no result, `W sin \1` and `W sin 'x` have. -/
theorem delay_after_label_faults :
    sample_label.node_state = ([some 1], 0, 1) ∧
    (parse_round samplePFlags (fun _ _ => none) 20 sample_label 0).map
        (fun r => (r.1.node_state, r.1.f.pos, r.2)) = some (([none], 0, 1), 2, .go) ∧
    ((parse_round samplePFlags (fun _ _ => none) 20 sample_label 0).bind
        (fun r => parse_round samplePFlags (fun _ _ => none) 20 r.1 0)).map
        (fun r => (r.1.node_state, r.1.f.pos, r.2)) = some (([none], 0, 1), 3, .go) ∧
    ((parse_round samplePFlags (fun _ _ => none) 20 sample_label 0).bind
        (fun r => parse_round samplePFlags (fun _ _ => none) 20 r.1 0)).bind
        (fun r => parse_round samplePFlags (fun _ _ => none) 20 r.1 0) = none ∧
    (((parse_round samplePFlags (fun _ _ => none) 20 sample_label 0).bind
        (fun r => parse_round samplePFlags (fun _ _ => none) 20 r.1 0)).bind
        (fun r => parse_round samplePFlags (fun _ _ => none) 20 (r.1.with_node 1) 0)).map
        (fun r => (r.1.f.pos, r.1.prg.nodes.map (fun n => n.delay), r.2))
      = some (5, [.val 0, .val 1], .go) ∧
    parse samplePFlags 40 (open_text "W sin 'x \\1") sample_wave_names = none ∧
    parse samplePFlags 40 (open_text "W sin a!\x7b \\1 \x7d") sample_wave_names = none ∧
    (parse samplePFlags 40 (open_text "W sin \\1") sample_wave_names).map
        (fun p => p.prg.nodes.map (fun n => n.delay)) = some [.val 0, .val 1] ∧
    (parse samplePFlags 40 (open_text "W sin 'x") sample_wave_names).map
        (fun p => p.prg.nodes.map (fun n => n.delay)) = some [.val 0, .val 0] := by
  decide!

/-! ## The change mask of a reference -/

theorem node_op_some {n : ProgramNode} {d : OpData} : n.op = some d ↔ n.data = .op d := by
  unfold ProgramNode.op
  cases hd : n.data <;> simp

theorem get_opdata_node (prg : MGS_Program) (i : Nat) :
    get_opdata prg (some i)
      = (prg.nodes.get? i).map (fun n => if n.type = .op then n.op else none) := by
  simp only [get_opdata]
  cases hg : prg.nodes.get? i with
  | none => rfl
  | some n =>
    simp only [Option.map_some']
    cases ht : n.type <;> cases hd : n.data <;> simp [ProgramNode.op, hd]

theorem get_opdata_some {prg : MGS_Program} {i : Nat} {d : OpData} :
    get_opdata prg (some i) = some (some d) ↔
      ∃ n, prg.nodes.get? i = some n ∧ n.type = .op ∧ n.data = .op d := by
  rw [get_opdata_node]
  cases hg : prg.nodes.get? i with
  | none => simp
  | some n =>
    simp only [Option.map_some', Option.some.injEq, exists_eq_left']
    by_cases ht : n.type = .op
    · simp [ht, node_op_some]
    · simp [ht]

theorem nodesKept_refl (j : Option Nat) (a : List ProgramNode) : NodesKept j a a :=
  fun _ n h => ⟨n, h, rfl, rfl, rfl, fun _ => rfl⟩

theorem nodesKept_trans {j k : Option Nat} {a b c : List ProgramNode}
    (h1 : NodesKept j a b) (h2 : NodesKept k b c)
    (hk : ∀ i, i < a.length → j ≠ some i → k ≠ some i) : NodesKept j a c := by
  intro i n hn
  obtain ⟨m, hm, m1, m2, m3, m4⟩ := h1 i n hn
  obtain ⟨m', hm', p1, p2, p3, p4⟩ := h2 i m hm
  exact ⟨m', hm', p1.trans m1, p2.trans m2, p3.trans m3,
    fun hj => (p4 (hk i (get?_lt hn) hj)).trans (m4 hj)⟩

theorem nodesKept_step {j : Option Nat} {a b c : List ProgramNode}
    (h1 : NodesKept j a b) (h2 : NodesKept none b c) : NodesKept j a c :=
  nodesKept_trans h1 h2 (fun _ _ _ hc => by cases hc)

theorem nodesKept_first {j : Option Nat} {a b c : List ProgramNode}
    (h1 : NodesKept none a b) (h2 : NodesKept j b c) : NodesKept j a c := by
  intro i n hn
  obtain ⟨m, hm, m1, m2, m3, m4⟩ := h1 i n hn
  obtain ⟨m', hm', p1, p2, p3, p4⟩ := h2 i m hm
  exact ⟨m', hm', p1.trans m1, p2.trans m2, p3.trans m3,
    fun hj => (p4 hj).trans (m4 (fun hc => by cases hc))⟩

theorem nodesKept_mono {a b : List ProgramNode} (h : NodesKept none a b) (j : Option Nat) :
    NodesKept j a b :=
  nodesKept_first h (nodesKept_refl j b)

theorem nodesKept_set {j : Option Nat} {a : List ProgramNode} {i : Nat} {n m : ProgramNode}
    (hn : a.get? i = some n) (h1 : m.ref_prev = n.ref_prev) (h2 : m.type = n.type)
    (h3 : m.id = n.id) (h4 : j ≠ some i → m.op = n.op) : NodesKept j a (a.set i m) := by
  intro k x hx
  by_cases hk : i = k
  · subst hk
    rw [hn] at hx
    cases hx
    exact ⟨m, get?_set_self m hn, h1, h2, h3, h4⟩
  · exact ⟨x, by rw [get?_set_ne a m hk]; exact hx, rfl, rfl, rfl, fun _ => rfl⟩

theorem nodesKept_append (j : Option Nat) (a l : List ProgramNode) :
    NodesKept j a (a ++ l) := by
  intro i n hn
  refine ⟨n, ?_, rfl, rfl, rfl, fun _ => rfl⟩
  rw [List.get?_eq_getElem?] at hn ⊢
  rw [List.getElem?_append_left (by simpa using get?_lt (by rw [List.get?_eq_getElem?]; exact hn))]
  exact hn

theorem nodesKept_length {j : Option Nat} {a b : List ProgramNode} (h : NodesKept j a b) :
    a.length ≤ b.length := by
  by_contra hc
  have hlt : b.length < a.length := by omega
  cases hg : a.get? b.length with
  | none =>
    rw [List.get?_eq_none] at hg
    omega
  | some n =>
    obtain ⟨m, hm, -⟩ := h _ n hg
    have := get?_lt hm
    omega

theorem wfNodes_set {a : List ProgramNode} {count i : Nat} {n m : ProgramNode}
    (hw : WfNodes a count) (hn : a.get? i = some n) (h3 : m.id = n.id) :
    WfNodes (a.set i m) count := by
  refine ⟨by rw [List.length_set]; exact hw.1, ?_⟩
  intro k x hx
  by_cases hk : i = k
  · subst hk
    rw [get?_set_self m hn] at hx
    cases hx
    rw [h3]
    exact hw.2 _ _ hn
  · rw [get?_set_ne a m hk] at hx
    exact hw.2 _ _ hx

theorem wfNodes_append {a : List ProgramNode} {count : Nat} {m : ProgramNode}
    (hw : WfNodes a count) (h : m.id = count) : WfNodes (a ++ [m]) (count + 1) := by
  refine ⟨by rw [List.length_append, hw.1]; rfl, ?_⟩
  intro k x hx
  rw [List.get?_eq_getElem?] at hx
  by_cases hk : k < a.length
  · rw [List.getElem?_append_left hk, ← List.get?_eq_getElem?] at hx
    exact hw.2 _ _ hx
  · have hlt : k < (a ++ [m]).length := by
      by_contra hc
      rw [List.getElem?_eq_none (by omega)] at hx
      cases hx
    rw [List.length_append, List.length_singleton] at hlt
    have hka : k = a.length := by omega
    subst hka
    rw [List.getElem?_append_right (le_refl _)] at hx
    simp only [Nat.sub_self, List.getElem?_cons_zero, Option.some.injEq] at hx
    subst hx
    rw [h, hw.1]

theorem wf_nodes_iff (nodes : List ProgramNode) (count : Nat) :
    wf_nodes nodes count = true ↔ WfNodes nodes count := by
  unfold wf_nodes WfNodes
  simp only [Bool.and_eq_true, decide_eq_true_eq, List.all_eq_true, List.mem_range]
  constructor
  · rintro ⟨h1, h2⟩
    refine ⟨h1, fun i n hn => ?_⟩
    have := h2 i (get?_lt hn)
    rw [hn] at this
    simpa using this
  · rintro ⟨h1, h2⟩
    refine ⟨h1, fun i _ => ?_⟩
    cases hg : nodes.get? i with
    | none => rfl
    | some n => simpa using h2 i n hg

theorem level_ok_iff (o : Parser) : level_ok o = true ↔ LevelOk o := by
  unfold level_ok LevelOk
  rw [Bool.and_eq_true, wf_nodes_iff]
  apply and_congr_right
  intro _
  cases hnds : o.nds with
  | nil => simp
  | cons nd rest =>
    cases hnode : nd.node with
    | none => simp [hnode]
    | some j =>
      simp only [hnode, Bool.and_eq_true, decide_eq_true_eq, List.cons.injEq, ne_eq]
      constructor
      · intro h
        exact ⟨nd, rest, ⟨rfl, rfl⟩, fun k hk => by
          rw [hnode] at hk
          cases hk
          exact h⟩
      · rintro ⟨nd', rest', ⟨h1, -⟩, h⟩
        subst h1
        exact h j hnode

theorem kept_opdata {j : Option Nat} {a b : MGS_Program}
    (h : NodesKept j a.nodes b.nodes) {i : Nat} (hi : i < a.nodes.length) (hne : j ≠ some i) :
    get_opdata b (some i) = get_opdata a (some i) := by
  rw [get_opdata_node, get_opdata_node]
  cases hg : a.nodes.get? i with
  | none =>
    rw [List.get?_eq_none] at hg
    omega
  | some n =>
    obtain ⟨m, hm, -, m2, -, m4⟩ := h i n hg
    rw [hm, Option.map_some', Option.map_some', m2, m4 hne]

theorem set_opdata_nodes {prg prg1 : MGS_Program} {id : Nat} {d : OpData}
    (h : set_opdata prg id d = some prg1) :
    ∃ n, prg.nodes.get? id = some n ∧ prg1 = { prg with nodes := prg.nodes.set id { n with data := .op d } } := by
  unfold set_opdata at h
  cases hg : prg.nodes.get? id with
  | none => simp only [hg, reduceCtorEq] at h
  | some node =>
    simp only [hg, Option.some.injEq] at h
    exact ⟨node, rfl, h.symm⟩

theorem set_opdata_step {prg prg1 : MGS_Program} {id : Nat} {d : OpData}
    (h : set_opdata prg id d = some prg1) (hw : WfNodes prg.nodes prg.node_count) :
    WfNodes prg1.nodes prg1.node_count ∧ prg1.node_count = prg.node_count ∧
      NodesKept (some id) prg.nodes prg1.nodes ∧
      ∃ n, prg.nodes.get? id = some n ∧ prg1.nodes.get? id = some { n with data := .op d } := by
  obtain ⟨n, hn, rfl⟩ := set_opdata_nodes h
  exact ⟨wfNodes_set hw hn rfl, rfl, nodesKept_set hn rfl rfl rfl (fun hc => absurd rfl hc),
    n, hn, get?_set_self _ hn⟩

theorem set_opdata_op {prg prg1 : MGS_Program} {id : Nat} {d e : OpData}
    (h : set_opdata prg id e = some prg1) (hd : get_opdata prg (some id) = some (some d)) :
    get_opdata prg1 (some id) = some (some e) := by
  obtain ⟨n, hn, hn1⟩ := set_opdata_get h
  obtain ⟨n', hn', ht, -⟩ := get_opdata_some.mp hd
  rw [hn] at hn'
  cases hn'
  exact get_opdata_some.mpr ⟨_, hn1, ht, rfl⟩

theorem set_sym_data_nodes (prg : MGS_Program) (name : List Nat) (n : Option Nat) :
    (set_sym_data prg name n).nodes = prg.nodes ∧
      (set_sym_data prg name n).node_count = prg.node_count := by
  unfold set_sym_data
  split <;> exact ⟨rfl, rfl⟩

theorem get_symstr_nodes (prg : MGS_Program) (name : List Nat) :
    (get_symstr prg name).nodes = prg.nodes ∧
      (get_symstr prg name).node_count = prg.node_count := by
  unfold get_symstr
  split <;> exact ⟨rfl, rfl⟩

theorem end_opdata_step {K : PFlags} {o o1 : Parser} {n : ProgramNode} {id : Nat}
    (h : end_opdata K o n = some o1) (hw : WfNodes o.prg.nodes o.prg.node_count)
    (hn : o.prg.nodes.get? id = some n) :
    WfNodes o1.prg.nodes o1.prg.node_count ∧ o1.prg.node_count = o.prg.node_count ∧
      NodesKept (some id) o.prg.nodes o1.prg.nodes ∧ o1.nds = o.nds ∧
      ∃ d m e, n.data = .op d ∧ o1.prg.nodes.get? id = some m ∧ m.data = .op e ∧
        e.params = (if n.ref_prev.isNone then d.params ||| clear_flag K.PARAM_MASK K.MODS_MASK
          else if d.time.flags &&& K.TIME_SET ≠ 0 then d.params ||| K.TIME else d.params) := by
  have hid : n.id = id := hw.2 _ _ hn
  unfold end_opdata at h
  cases hd : n.data with
  | op d =>
    simp only [hd, hid] at h
    generalize hs : set_opdata o.prg id _ = r at h
    cases r with
    | none => cases h
    | some prg1 =>
      simp only [Option.some.injEq] at h
      subst h
      obtain ⟨s1, s2, s3, x, hx, hx1⟩ := set_opdata_step hs hw
      exact ⟨s1, s2, s3, rfl, d, _, _, rfl, hx1, rfl, rfl⟩
  | null => simp [hd] at h
  | dur sc => simp [hd] at h
  | arr a => simp [hd] at h

theorem end_node_step {K : PFlags} {o o1 : Parser} {nd : LevelData} {rest : List LevelData}
    (h : end_node K o = some o1) (hw : WfNodes o.prg.nodes o.prg.node_count)
    (hnds : o.nds = nd :: rest) (hown : ∀ j, nd.node = some j → nd.flags &&& ND_OWN_NODE ≠ 0) :
    WfNodes o1.prg.nodes o1.prg.node_count ∧ o1.prg.node_count = o.prg.node_count ∧
      NodesKept nd.node o.prg.nodes o1.prg.nodes ∧
      (∃ nd1, o1.nds = nd1 :: rest ∧ nd1.node = none ∧ nd1.target = nd.target) ∧
      (∀ j n d, nd.node = some j → o.prg.nodes.get? j = some n → n.type = .op →
        n.data = .op d →
        ∃ m e, o1.prg.nodes.get? j = some m ∧ m.data = .op e ∧
          e.params = (if n.ref_prev.isNone then
              d.params ||| clear_flag K.PARAM_MASK K.MODS_MASK
            else if d.time.flags &&& K.TIME_SET ≠ 0 then d.params ||| K.TIME
            else d.params)) := by
  unfold end_node at h
  simp only [hnds] at h
  by_cases hfl : nd.flags &&& ND_OWN_NODE = 0
  · simp only [hfl, if_true, Option.some.injEq] at h
    subst h
    have hnone : nd.node = none := by
      cases hnode : nd.node with
      | none => rfl
      | some j => exact absurd hfl (hown j hnode)
    refine ⟨hw, rfl, nodesKept_refl _ _, ⟨nd, hnds, hnone, rfl⟩, ?_⟩
    intro j n d hj
    rw [hnone] at hj
    cases hj
  · simp only [hfl, if_false] at h
    cases hnode : nd.node with
    | none => simp only [hnode, reduceCtorEq] at h
    | some id =>
      simp only [hnode] at h
      cases hg : o.prg.nodes.get? id with
      | none => simp only [hg, reduceCtorEq] at h
      | some n =>
        simp only [hg] at h
        generalize he : (if n.type = NodeType.op then end_opdata K o n else some o) = r at h
        cases r with
        | none => simp only [reduceCtorEq] at h
        | some o2 =>
          simp only [Option.some.injEq] at h
          have h2 : WfNodes o2.prg.nodes o2.prg.node_count ∧
              o2.prg.node_count = o.prg.node_count ∧
              NodesKept (some id) o.prg.nodes o2.prg.nodes ∧
              (n.type = .op → ∃ d m e, n.data = .op d ∧ o2.prg.nodes.get? id = some m ∧
                m.data = .op e ∧
                e.params = (if n.ref_prev.isNone then
                    d.params ||| clear_flag K.PARAM_MASK K.MODS_MASK
                  else if d.time.flags &&& K.TIME_SET ≠ 0 then d.params ||| K.TIME
                  else d.params)) := by
            by_cases ht : n.type = .op
            · simp only [ht, if_true] at he
              obtain ⟨e1, e2, e3, -, e5⟩ := end_opdata_step he hw hg
              exact ⟨e1, e2, e3, fun _ => e5⟩
            · simp only [ht, if_false, Option.some.injEq] at he
              subst he
              exact ⟨hw, rfl, nodesKept_refl _ _, fun hc => absurd hc ht⟩
          obtain ⟨w1, w2, w3, w4⟩ := h2
          have hprg : o1.prg.nodes = o2.prg.nodes ∧ o1.prg.node_count = o2.prg.node_count ∧
              ∃ nd1, o1.nds = nd1 :: rest ∧ nd1.node = none ∧ nd1.target = nd.target := by
            subst h
            cases hsym : nd.cur_setsym with
            | none =>
              have hn2 : o2.nds = o.nds := by
                by_cases ht : n.type = .op
                · simp only [ht, if_true] at he
                  exact (end_opdata_step he hw hg).2.2.2.1
                · simp only [ht, if_false, Option.some.injEq] at he
                  subst he; rfl
              simp only [Parser.set_nd, hn2, hnds, List.tail_cons]
              exact ⟨trivial, trivial, _, rfl, rfl, rfl⟩
            | some name =>
              have hn2 : o2.nds = o.nds := by
                by_cases ht : n.type = .op
                · simp only [ht, if_true] at he
                  exact (end_opdata_step he hw hg).2.2.2.1
                · simp only [ht, if_false, Option.some.injEq] at he
                  subst he; rfl
              simp only [Parser.set_nd, hn2, hnds, List.tail_cons]
              exact ⟨(set_sym_data_nodes _ _ _).1, (set_sym_data_nodes _ _ _).2, _, rfl,
                rfl, rfl⟩
          obtain ⟨p1, p2, p3⟩ := hprg
          rw [p1, p2]
          refine ⟨w1, w2, w3, p3, ?_⟩
          intro j n' d hj hn' ht hd
          cases hj
          rw [hg] at hn'
          cases hn'
          obtain ⟨d', m, e, hd', hm, hme, hp⟩ := w4 ht
          rw [hd] at hd'
          cases hd'
          exact ⟨m, e, hm, hme, hp⟩

theorem new_node_scope_step {o : Parser} {id : Nat} {ty : NodeType} {nodes1 : List ProgramNode}
    (h : new_node_scope o id ty = some nodes1) (hw : WfNodes o.prg.nodes o.prg.node_count) :
    WfNodes nodes1 o.prg.node_count ∧ NodesKept none o.prg.nodes nodes1 := by
  unfold new_node_scope at h
  cases hd : o.cur_dur with
  | none =>
    simp only [hd, Option.some.injEq] at h
    subst h
    exact ⟨hw, nodesKept_refl _ _⟩
  | some d =>
    simp only [hd] at h
    by_cases hty : ty = .dur
    · simp only [hty, ne_eq, not_true_eq_false, if_false, Option.some.injEq] at h
      subst h
      exact ⟨hw, nodesKept_refl _ _⟩
    · simp only [ne_eq, hty, not_false_eq_true, if_true] at h
      cases hg : o.prg.nodes.get? d with
      | none => simp only [hg, reduceCtorEq] at h
      | some dn =>
        simp only [hg] at h
        cases hdd : dn.data with
        | dur sc =>
          simp only [hdd, Option.some.injEq] at h
          subst h
          refine ⟨wfNodes_set hw hg rfl, nodesKept_set hg rfl rfl rfl (fun _ => ?_)⟩
          simp [ProgramNode.op, hdd]
        | null => simp only [hdd, reduceCtorEq] at h
        | op x => simp only [hdd, reduceCtorEq] at h
        | arr x => simp only [hdd, reduceCtorEq] at h

theorem new_node_link_step {o : Parser} {nd1 : LevelData} {nodes1 : List ProgramNode}
    {id count : Nat} {rp : Option Nat}
    {x : Nat × Nat × Option Nat × Nat × List ProgramNode × List ArrData}
    (h : new_node_link o nd1 nodes1 id rp = some x) (hw : WfNodes nodes1 count) :
    WfNodes x.2.2.2.2.1 count ∧ NodesKept none nodes1 x.2.2.2.2.1 := by
  unfold new_node_link at h
  cases rp with
  | some r =>
    simp only at h
    cases hg : nodes1.get? r with
    | none => simp only [hg, reduceCtorEq] at h
    | some rn =>
      simp only [hg, Option.some.injEq] at h
      subst h
      exact ⟨hw, nodesKept_refl _ _⟩
  | none =>
    simp only at h
    cases ht : nd1.target with
    | none =>
      simp only [ht, Option.some.injEq] at h
      subst h
      exact ⟨hw, nodesKept_refl _ _⟩
    | some t =>
      simp only [ht] at h
      cases hcr : o.cur_root with
      | none => simp only [hcr, reduceCtorEq] at h
      | some cr =>
        cases harr : o.prg.arrs.get? t with
        | none => simp only [hcr, harr, reduceCtorEq] at h
        | some arr =>
          simp only [hcr, harr] at h
          cases hcrn : nodes1.get? cr with
          | none => simp only [hcrn, reduceCtorEq] at h
          | some crn =>
            simp only [hcrn] at h
            cases hf : arr.scope.first_node with
            | none =>
              simp only [hf, Option.some.injEq] at h
              subst h
              exact ⟨hw, nodesKept_refl _ _⟩
            | some fst =>
              cases hl : arr.scope.last_node with
              | none => simp only [hf, hl, reduceCtorEq] at h
              | some l =>
                simp only [hf, hl] at h
                cases hln : nodes1.get? l with
                | none => simp only [hln, reduceCtorEq] at h
                | some ln =>
                  simp only [hln, Option.some.injEq] at h
                  subst h
                  exact ⟨wfNodes_set hw hln rfl,
                    nodesKept_set hln rfl rfl rfl (fun _ => rfl)⟩

theorem new_node_data_step {o2 o3 : Parser} {n : ProgramNode} {ty : NodeType} {count : Nat}
    (h : new_node_data o2 n ty = some o3) (hw : WfNodes o2.prg.nodes count)
    (hc : o2.prg.node_count = count + 1) (hid : n.id = count) :
    WfNodes o3.prg.nodes o3.prg.node_count ∧ o3.prg.node_count = count + 1 ∧
      NodesKept none o2.prg.nodes o3.prg.nodes ∧ o3.nds = o2.nds := by
  unfold new_node_data at h
  cases ty with
  | op =>
    simp only at h
    cases hno : new_opdata o2 n with
    | none => simp only [hno, reduceCtorEq] at h
    | some x =>
      obtain ⟨n1, prg1⟩ := x
      simp only [hno, Option.some.injEq] at h
      subst h
      have hx : n1.id = n.id ∧ prg1.nodes = o2.prg.nodes ∧
          prg1.node_count = o2.prg.node_count := by
        unfold new_opdata at hno
        cases hr : n.ref_prev with
        | none =>
          simp only [hr, Option.some.injEq, Prod.mk.injEq] at hno
          obtain ⟨h1, h2⟩ := hno
          subst h1 h2
          exact ⟨rfl, rfl, rfl⟩
        | some r =>
          simp only [hr] at hno
          cases hg : o2.prg.nodes.get? r with
          | none => simp only [hg, reduceCtorEq] at hno
          | some ref =>
            simp only [hg] at hno
            cases hd : ref.data with
            | op d =>
              simp only [hd, Option.some.injEq, Prod.mk.injEq] at hno
              obtain ⟨h1, h2⟩ := hno
              subst h1 h2
              exact ⟨rfl, rfl, rfl⟩
            | null => simp only [hd, reduceCtorEq] at hno
            | dur sc => simp only [hd, reduceCtorEq] at hno
            | arr a => simp only [hd, reduceCtorEq] at hno
      obtain ⟨x1, x2, x3⟩ := hx
      simp only [x2, x3, hc]
      exact ⟨wfNodes_append hw (x1.trans hid), trivial, nodesKept_append _ _ _, trivial⟩
  | dur =>
    simp only at h
    cases hcd : o2.cur_dur with
    | none =>
      simp only [hcd, Option.some.injEq] at h
      subst h
      simp only [hc]
      exact ⟨wfNodes_append hw hid, trivial, nodesKept_append _ _ _, trivial⟩
    | some d =>
      simp only [hcd] at h
      cases hg : o2.prg.nodes.get? d with
      | none => simp only [hg, reduceCtorEq] at h
      | some dn =>
        simp only [hg, Option.some.injEq] at h
        subst h
        simp only [hc]
        exact ⟨wfNodes_append (wfNodes_set hw hg rfl) hid, trivial,
          nodesKept_step
            (@nodesKept_set none _ d dn { dn with use_next := some n.id } hg rfl rfl rfl
              (fun _ => rfl))
            (nodesKept_append _ _ _), trivial⟩
  | arr =>
    simp only [Option.some.injEq] at h
    subst h
    simp only [hc]
    exact ⟨wfNodes_append hw hid, trivial, nodesKept_append _ _ _, trivial⟩
  | env =>
    simp only [Option.some.injEq] at h
    subst h
    simp only [hc]
    exact ⟨wfNodes_append hw hid, trivial, nodesKept_append _ _ _, trivial⟩

theorem kept_op {j : Option Nat} {a b : List ProgramNode} (h : NodesKept j a b) {i : Nat}
    {n : ProgramNode} {e : OpData} (hn : a.get? i = some n) (he : n.data = .op e)
    (hne : j ≠ some i) : ∃ m, b.get? i = some m ∧ m.data = .op e := by
  obtain ⟨m, hm, -, -, -, m4⟩ := h i n hn
  exact ⟨m, hm, node_op_some.mp ((m4 hne).trans (node_op_some.mpr he))⟩

theorem new_node_step {K : PFlags} {o0 o1 : Parser} {rp : Option Nat} {ty : NodeType}
    {nd : LevelData} {rest : List LevelData}
    (h : new_node K o0 rp ty = some o1) (hw : WfNodes o0.prg.nodes o0.prg.node_count)
    (hnds : o0.nds = nd :: rest)
    (hown : ∀ j, nd.node = some j → nd.flags &&& ND_OWN_NODE ≠ 0) :
    WfNodes o1.prg.nodes o1.prg.node_count ∧ o1.prg.node_count = o0.prg.node_count + 1 ∧
      NodesKept nd.node o0.prg.nodes o1.prg.nodes ∧
      (∃ nd1, o1.nds = nd1 :: rest ∧ nd1.node = some o0.prg.node_count ∧
        nd1.flags &&& ND_OWN_NODE ≠ 0) ∧
      (∀ j n d, nd.node = some j → o0.prg.nodes.get? j = some n → n.type = .op →
        n.data = .op d →
        ∃ m e, o1.prg.nodes.get? j = some m ∧ m.data = .op e ∧
          e.params = (if n.ref_prev.isNone then
              d.params ||| clear_flag K.PARAM_MASK K.MODS_MASK
            else if d.time.flags &&& K.TIME_SET ≠ 0 then d.params ||| K.TIME
            else d.params)) := by
  unfold new_node at h
  cases he : end_node K o0 with
  | none => simp only [he, reduceCtorEq] at h
  | some o =>
    simp only [he] at h
    obtain ⟨e1, e2, e3, ⟨ndx, e4, e5, -⟩, e6⟩ := end_node_step he hw hnds hown
    simp only [e4] at h
    cases hsc : new_node_scope o o.prg.node_count ty with
    | none => simp only [hsc, reduceCtorEq] at h
    | some nodes1 =>
      simp only [hsc] at h
      obtain ⟨s1, s2⟩ := new_node_scope_step hsc e1
      generalize hlk : new_node_link o _ nodes1 o.prg.node_count rp = lk at h
      cases lk with
      | none => simp only [reduceCtorEq] at h
      | some x =>
        obtain ⟨l1, l2⟩ := new_node_link_step hlk s1
        obtain ⟨x1, x2, x3, x4, nodes2, arrs2⟩ := x
        simp only at h l1 l2
        obtain ⟨d1, d2, d3, d4⟩ := new_node_data_step h
          (show WfNodes nodes2 o.prg.node_count from l1) rfl rfl
        have hk : NodesKept none o.prg.nodes o1.prg.nodes :=
          nodesKept_step (nodesKept_step s2 l2) d3
        refine ⟨d1, by rw [d2, e2], nodesKept_step e3 hk, ?_, ?_⟩
        · rw [d4]
          simp only [Parser.set_nd, e4, List.tail_cons]
          refine ⟨_, rfl, by simp only [e2], ?_⟩
          simp only
          rw [or_and_self_right]
          decide
        · intro j n d hj hn ht hd
          obtain ⟨m, e, hm, hme, hp⟩ := e6 j n d hj hn ht hd
          obtain ⟨m', hm', hme'⟩ := kept_op hk hm hme (fun hc => by cases hc)
          exact ⟨m', e, hm', hme', hp⟩

theorem nodeStep_quiet {id : Nat} {o o1 : Parser} (hw : WfNodes o.prg.nodes o.prg.node_count)
    (hp : o1.prg = o.prg) (hn : o1.nds = o.nds) : NodeStep id o o1 := by
  unfold NodeStep
  rw [hp, hn]
  exact ⟨hw, le_refl _, rfl, nodesKept_refl _ _⟩

theorem nodeStep_trans {id : Nat} {a b c : Parser} (h1 : NodeStep id a b)
    (h2 : NodeStep id b c) : NodeStep id a c :=
  ⟨h2.1, le_trans h1.2.1 h2.2.1, h2.2.2.1.trans h1.2.2.1,
    nodesKept_trans h1.2.2.2 h2.2.2.2 (fun _ _ hne => hne)⟩

theorem nodeStep_set {id : Nat} {o o1 : Parser} {prg1 : MGS_Program} {e : OpData}
    (hw : WfNodes o.prg.nodes o.prg.node_count) (hp : o1.prg = o.prg) (hn : o1.nds = o.nds)
    (hs : set_opdata o1.prg id e = some prg1) :
    NodeStep id o { o1 with prg := prg1 } ∧
      ∀ d, get_opdata o.prg (some id) = some (some d) →
        get_opdata prg1 (some id) = some (some e) := by
  rw [hp] at hs
  obtain ⟨s1, s2, s3, -⟩ := set_opdata_step hs hw
  exact ⟨⟨s1, le_of_eq s2.symm, hn, s3⟩, fun d hd => set_opdata_op hs hd⟩

theorem scan_wavetype_prg {o o1 : Parser} {w : Option Nat} (h : scan_wavetype o = some (o1, w)) :
    o1.prg = o.prg ∧ o1.nds = o.nds := by
  unfold scan_wavetype at h
  cases hs : Sgensys.scan_sym o.f o.symbuf none with
  | none => simp only [hs, reduceCtorEq] at h
  | some r =>
    simp only [hs] at h
    split at h
    · split at h <;>
        (simp only [Option.some.injEq, Prod.mk.injEq] at h; obtain ⟨h1, -⟩ := h; subst h1;
         exact ⟨rfl, rfl⟩)
    · simp only [Option.some.injEq, Prod.mk.injEq] at h
      obtain ⟨h1, -⟩ := h
      subst h1
      exact ⟨rfl, rfl⟩

theorem parser_scan_sym_prg {o o1 : Parser} {sym r : Option (List Nat)} {b : Bool}
    (h : o.scan_sym sym = some (o1, r, b)) :
    o1.prg.nodes = o.prg.nodes ∧ o1.prg.node_count = o.prg.node_count ∧ o1.nds = o.nds := by
  unfold Parser.scan_sym at h
  cases hs : Sgensys.scan_sym o.f o.symbuf sym with
  | none => simp only [hs, reduceCtorEq] at h
  | some x =>
    simp only [hs] at h
    split at h
    · simp only [Option.some.injEq, Prod.mk.injEq] at h
      obtain ⟨h1, -⟩ := h
      subst h1
      exact ⟨(get_symstr_nodes _ _).1, (get_symstr_nodes _ _).2, rfl⟩
    · simp only [Option.some.injEq, Prod.mk.injEq] at h
      obtain ⟨h1, -⟩ := h
      subst h1
      exact ⟨rfl, rfl, rfl⟩

theorem tryc_testc (o : Parser) (c : Nat) : (o.tryc c).1 = MGS_File_TESTC o.f c := by
  unfold Parser.tryc MGS_File_TRYC MGS_File_TESTC
  by_cases h : MGS_File_RETC o.f = c <;> simp [h]

theorem parse_mods_step {pl : Parser → Option Nat → Option Parser} {o o1 : Parser}
    {id mod_type bit : Nat} {link : OpData → Nat → OpData}
    (hpl : NestedOk pl) (hw : WfNodes o.prg.nodes o.prg.node_count)
    (h : parse_mods pl o id mod_type bit link = some o1)
    (hlink : ∀ d a, (link d a).params = d.params ∧ (link d a).time = d.time) :
    NodeStep id o o1 ∧
      ∃ d e, get_opdata o.prg (some id) = some (some d) ∧
        get_opdata o1.prg (some id) = some (some e) ∧ e.params = d.params ||| bit ∧
        e.time = d.time := by
  unfold parse_mods at h
  cases hg : get_opdata o.prg (some id) with
  | none => simp only [hg, reduceCtorEq] at h
  | some od =>
    cases od with
    | none => simp only [hg, reduceCtorEq] at h
    | some d =>
      simp only [hg] at h
      generalize hs : set_opdata _ id (link d o.prg.arrs.length) = r at h
      cases r with
      | none => simp only [reduceCtorEq] at h
      | some prg1 =>
        simp only at h
        obtain ⟨s1, s2, s3, -⟩ := set_opdata_step hs hw
        have hd1 : get_opdata prg1 (some id) = some (some (link d o.prg.arrs.length)) :=
          set_opdata_op hs hg
        generalize hp : pl _ (some o.prg.arrs.length) = r2 at h
        cases r2 with
        | none => simp only [reduceCtorEq] at h
        | some o2 =>
          simp only at h
          obtain ⟨p1, p2, p3, p4⟩ := hpl _ _ _ hp s1
          have hlt : id < prg1.nodes.length := by
            obtain ⟨n, hn, -⟩ := get_opdata_some.mp hd1
            exact get?_lt hn
          have hd2 : get_opdata o2.prg (some id)
              = some (some (link d o.prg.arrs.length)) := by
            rw [← hd1]
            exact kept_opdata p4 hlt (fun hc => by cases hc)
          simp only [hd2] at h
          generalize hs2 : set_opdata o2.prg id _ = r3 at h
          cases r3 with
          | none => simp only [reduceCtorEq] at h
          | some prg2 =>
            simp only [Option.some.injEq] at h
            subst h
            obtain ⟨t1, t2, t3, -⟩ := set_opdata_step hs2 p1
            refine ⟨⟨t1, ?_, p3, ?_⟩, d, _, rfl, set_opdata_op hs2 hd2, ?_, ?_⟩
            · show o.prg.node_count ≤ prg2.node_count
              rw [t2]
              exact le_trans (le_of_eq s2.symm) p2
            · exact nodesKept_trans (nodesKept_step s3 p4) t3 (fun _ _ hne => hne)
            · simp only [(hlink d _).1]
            · exact (hlink d _).2

theorem parse_wave_step {K : PFlags} {o o1 : Parser} {id : Nat} {b : Bool}
    (hw : WfNodes o.prg.nodes o.prg.node_count)
    (h : parse_wave K o (some id) = some (o1, b)) :
    NodeStep id o o1 ∧
      ∀ d, get_opdata o.prg (some id) = some (some d) →
        ∃ e, get_opdata o1.prg (some id) = some (some e) ∧ e.time.flags = d.time.flags ∧
          ((b = false ∧ e.params = d.params) ∨ (b = true ∧ e.params = d.params ||| K.WAVE)) := by
  unfold parse_wave at h
  cases hg : get_opdata o.prg (some id) with
  | none => simp only [hg, reduceCtorEq] at h
  | some od =>
    cases od with
    | none =>
      simp only [hg, Option.some.injEq, Prod.mk.injEq] at h
      obtain ⟨rfl, rfl⟩ := h
      exact ⟨nodeStep_quiet hw rfl rfl, fun d hd => by cases hd⟩
    | some d =>
      simp only [hg] at h
      cases hs : scan_wavetype o with
      | none => simp only [hs, reduceCtorEq] at h
      | some x =>
        obtain ⟨o2, w⟩ := x
        obtain ⟨hp, hn⟩ := scan_wavetype_prg hs
        cases w with
        | none =>
          simp only [hs, Option.some.injEq, Prod.mk.injEq] at h
          obtain ⟨rfl, rfl⟩ := h
          refine ⟨nodeStep_quiet hw hp hn, fun d' hd' => ⟨d', ?_, rfl, Or.inl ⟨rfl, rfl⟩⟩⟩
          rw [hp, hg, hd']
        | some wave =>
          simp only [hs] at h
          generalize hset : set_opdata o2.prg id _ = r at h
          cases r with
          | none => simp only [reduceCtorEq] at h
          | some prg1 =>
            simp only [Option.some.injEq, Prod.mk.injEq] at h
            obtain ⟨rfl, rfl⟩ := h
            obtain ⟨n1, n2⟩ := nodeStep_set hw hp hn hset
            refine ⟨n1, fun d' hd' => ⟨_, n2 d hg, ?_, Or.inr ⟨rfl, ?_⟩⟩⟩
            · cases hd'; rfl
            · cases hd'; rfl

theorem parse_channel_step {K : PFlags} {fuel : Nat} {o o1 : Parser} {id : Nat} {b : Bool}
    (hw : WfNodes o.prg.nodes o.prg.node_count)
    (h : parse_channel K fuel o (some id) = some (o1, b)) :
    NodeStep id o o1 ∧
      ∀ d, get_opdata o.prg (some id) = some (some d) →
        ∃ e, get_opdata o1.prg (some id) = some (some e) ∧ e.time.flags = d.time.flags ∧
          ((b = false ∧ e.params = d.params) ∨ (b = true ∧ e.params = d.params ||| K.PAN)) := by
  unfold parse_channel at h
  cases hg : get_opdata o.prg (some id) with
  | none => simp only [hg, reduceCtorEq] at h
  | some od =>
    cases od with
    | none =>
      simp only [hg, Option.some.injEq, Prod.mk.injEq] at h
      obtain ⟨rfl, rfl⟩ := h
      exact ⟨nodeStep_quiet hw rfl rfl, fun d hd => by cases hd⟩
    | some d =>
      cases htt : o.target_type with
      | none => simp only [hg, htt, reduceCtorEq] at h
      | some tt =>
        simp only [hg, htt] at h
        split at h
        · simp only [Option.some.injEq, Prod.mk.injEq] at h
          obtain ⟨rfl, rfl⟩ := h
          exact ⟨nodeStep_quiet hw rfl rfl,
            fun d' hd' => ⟨d', hg.trans hd', rfl, Or.inl ⟨rfl, rfl⟩⟩⟩
        · cases hs : o.scan_num K (some numsym_channel) fuel with
          | none => simp only [hs, reduceCtorEq] at h
          | some x =>
            obtain ⟨o2, w⟩ := x
            obtain ⟨hp, hn, -, -⟩ := scan_num_prg hs
            cases w with
            | none =>
              simp only [hs, Option.some.injEq, Prod.mk.injEq] at h
              obtain ⟨rfl, rfl⟩ := h
              refine ⟨nodeStep_quiet hw hp hn,
                fun d' hd' => ⟨d', ?_, rfl, Or.inl ⟨rfl, rfl⟩⟩⟩
              rw [hp, hg, hd']
            | some f =>
              simp only [hs] at h
              generalize hset : set_opdata o2.prg id _ = r at h
              cases r with
              | none => simp only [reduceCtorEq] at h
              | some prg1 =>
                simp only [Option.some.injEq, Prod.mk.injEq] at h
                obtain ⟨rfl, rfl⟩ := h
                obtain ⟨n1, n2⟩ := nodeStep_set hw hp hn hset
                refine ⟨n1, fun d' hd' => ⟨_, n2 d hg, ?_, Or.inr ⟨rfl, ?_⟩⟩⟩
                · cases hd'; rfl
                · cases hd'; rfl

theorem parse_time_step {K : PFlags} {fuel : Nat} {o o1 : Parser} {id : Nat} {b : Bool}
    (hw : WfNodes o.prg.nodes o.prg.node_count)
    (h : parse_time K fuel o (some id) = some (o1, b)) :
    NodeStep id o o1 ∧
      ∀ d, get_opdata o.prg (some id) = some (some d) →
        ∃ e, get_opdata o1.prg (some id) = some (some e) ∧ e.params = d.params ∧
          ((b = false ∧ e.time.flags = d.time.flags) ∨
            (b = true ∧ e.time.flags = d.time.flags ||| K.TIME_SET)) := by
  unfold parse_time at h
  cases hg : get_opdata o.prg (some id) with
  | none => simp only [hg, reduceCtorEq] at h
  | some od =>
    cases od with
    | none =>
      simp only [hg, Option.some.injEq, Prod.mk.injEq] at h
      obtain ⟨rfl, rfl⟩ := h
      exact ⟨nodeStep_quiet hw rfl rfl, fun d hd => by cases hd⟩
    | some d =>
      simp only [hg] at h
      cases hs : o.scan_timeval K fuel with
      | none => simp only [hs, reduceCtorEq] at h
      | some x =>
        obtain ⟨o2, w⟩ := x
        obtain ⟨hp, hn, -, -⟩ := scan_timeval_prg hs
        cases w with
        | none =>
          simp only [hs, Option.some.injEq, Prod.mk.injEq] at h
          obtain ⟨rfl, rfl⟩ := h
          refine ⟨nodeStep_quiet hw hp hn, fun d' hd' => ⟨d', ?_, rfl, Or.inl ⟨rfl, rfl⟩⟩⟩
          rw [hp, hg, hd']
        | some f =>
          simp only [hs] at h
          generalize hset : set_opdata o2.prg id _ = r at h
          cases r with
          | none => simp only [reduceCtorEq] at h
          | some prg1 =>
            simp only [Option.some.injEq, Prod.mk.injEq] at h
            obtain ⟨rfl, rfl⟩ := h
            obtain ⟨n1, n2⟩ := nodeStep_set hw hp hn hset
            refine ⟨n1, fun d' hd' => ⟨_, n2 d hg, ?_, Or.inr ⟨rfl, ?_⟩⟩⟩
            · cases hd'; rfl
            · cases hd'; rfl

theorem parse_phase_step {K : PFlags} {pl : Parser → Option Nat → Option Parser}
    {fuel : Nat} {o o1 : Parser} {id : Nat} {b : Bool}
    (hpl : NestedOk pl) (hw : WfNodes o.prg.nodes o.prg.node_count)
    (h : parse_phase K pl fuel o (some id) = some (o1, b)) :
    NodeStep id o o1 ∧
      ∀ d, get_opdata o.prg (some id) = some (some d) →
        ∃ e, get_opdata o1.prg (some id) = some (some e) ∧ e.time.flags = d.time.flags ∧
          ((b = false ∧ e.params = d.params) ∨
            (b = true ∧ (o.tryc 33).1 = true ∧
              (e.params = d.params ∨ e.params = d.params ||| K.PMODS)) ∨
            (b = true ∧ (o.tryc 33).1 = false ∧ e.params = d.params ||| K.PHASE)) := by
  unfold parse_phase at h
  cases hg : get_opdata o.prg (some id) with
  | none => simp only [hg, reduceCtorEq] at h
  | some od =>
    cases od with
    | none =>
      simp only [hg, Option.some.injEq, Prod.mk.injEq] at h
      obtain ⟨rfl, rfl⟩ := h
      exact ⟨nodeStep_quiet hw rfl rfl, fun d hd => by cases hd⟩
    | some d =>
      simp only [hg] at h
      by_cases hb : (o.tryc 33).1 = true
      · simp only [hb, if_true] at h
        by_cases hb1 : ((o.tryc 33).2.tryc 123).1 = true
        · simp only [hb1, if_true] at h
          generalize hm : parse_mods pl _ id K.PMODS K.PMODS _ = r at h
          cases r with
          | none => simp only [reduceCtorEq] at h
          | some o2 =>
            simp only [Option.some.injEq, Prod.mk.injEq] at h
            obtain ⟨rfl, rfl⟩ := h
            obtain ⟨m1, d0, e, m2, m3, m4, m5⟩ :=
              parse_mods_step hpl (show WfNodes ((o.tryc 33).2.tryc 123).2.prg.nodes
                ((o.tryc 33).2.tryc 123).2.prg.node_count from hw) hm (fun _ _ => ⟨rfl, rfl⟩)
            have hd0 : d0 = d := by
              have : get_opdata o.prg (some id) = some (some d0) := m2
              rw [hg] at this
              cases this
              rfl
            subst hd0
            refine ⟨m1, fun d' hd' => ⟨e, m3, ?_, Or.inr (Or.inl ⟨rfl, hb, Or.inr ?_⟩)⟩⟩
            · cases hd'; rw [m5]
            · cases hd'; exact m4
        · simp only [hb1, Bool.false_eq_true, if_false, Option.some.injEq, Prod.mk.injEq] at h
          obtain ⟨rfl, rfl⟩ := h
          exact ⟨nodeStep_quiet hw rfl rfl,
            fun d' hd' => ⟨d', hg.trans hd', rfl,
              Or.inr (Or.inl ⟨rfl, hb, Or.inl rfl⟩)⟩⟩
      · simp only [hb, Bool.false_eq_true, if_false] at h
        have hbf : (o.tryc 33).1 = false := by
          cases hx : (o.tryc 33).1
          · rfl
          · exact absurd hx hb
        cases hs : (o.tryc 33).2.scan_num K none fuel with
        | none => simp only [hs, reduceCtorEq] at h
        | some x =>
          obtain ⟨o2, w⟩ := x
          obtain ⟨hp, hn, -, -⟩ := scan_num_prg hs
          cases w with
          | none =>
            simp only [hs, Option.some.injEq, Prod.mk.injEq] at h
            obtain ⟨rfl, rfl⟩ := h
            refine ⟨nodeStep_quiet hw hp hn,
              fun d' hd' => ⟨d', ?_, rfl, Or.inl ⟨rfl, rfl⟩⟩⟩
            rw [hp]
            exact hg.trans hd'
          | some f =>
            simp only [hs] at h
            generalize hset : set_opdata o2.prg id _ = r at h
            cases r with
            | none => simp only [reduceCtorEq] at h
            | some prg1 =>
              simp only [Option.some.injEq, Prod.mk.injEq] at h
              obtain ⟨rfl, rfl⟩ := h
              obtain ⟨n1, n2⟩ := nodeStep_set hw hp hn hset
              refine ⟨n1, fun d' hd' => ⟨_, n2 d hg, ?_, Or.inr (Or.inr ⟨rfl, hbf, ?_⟩)⟩⟩
              · cases hd'; rfl
              · cases hd'; rfl

theorem own_bits_amp (K : PFlags) (bang : Bool) :
    own_bits K 97 bang
      = if bang = true then [K.DYNAMP, K.AMODS, K.DYNAMP ||| K.AMODS] else [K.AMP] := by
  simp [own_bits]

theorem own_bits_freq (K : PFlags) (c : Nat) (hc : c = 102 ∨ c = 114) (bang : Bool) :
    own_bits K c bang
      = if bang = true then [K.DYNFREQ ||| K.ATTR, K.FMODS, (K.DYNFREQ ||| K.ATTR) ||| K.FMODS]
        else [K.FREQ ||| K.ATTR] := by
  rcases hc with hc | hc <;> subst hc <;> simp [own_bits]

theorem parse_amp_step {K : PFlags} {pl : Parser → Option Nat → Option Parser}
    {fuel : Nat} {o o1 : Parser} {id : Nat} {b : Bool}
    (hpl : NestedOk pl) (hw : WfNodes o.prg.nodes o.prg.node_count)
    (h : parse_amp K pl fuel o (some id) = some (o1, b)) :
    NodeStep id o o1 ∧
      ∀ d, get_opdata o.prg (some id) = some (some d) →
        ∃ e, get_opdata o1.prg (some id) = some (some e) ∧ e.time.flags = d.time.flags ∧
          ((b = false ∧ e.params = d.params) ∨
            (b = true ∧ ∃ B ∈ own_bits K 97 (o.tryc 33).1, e.params = d.params ||| B)) := by
  unfold parse_amp at h
  cases hg : get_opdata o.prg (some id) with
  | none => simp only [hg, reduceCtorEq] at h
  | some od =>
    cases od with
    | none =>
      simp only [hg, Option.some.injEq, Prod.mk.injEq] at h
      obtain ⟨rfl, rfl⟩ := h
      exact ⟨nodeStep_quiet hw rfl rfl, fun d hd => by cases hd⟩
    | some d =>
      cases htt : o.target_type with
      | none => simp only [hg, htt, reduceCtorEq] at h
      | some tt =>
        simp only [hg, htt] at h
        split at h
        · simp only [Option.some.injEq, Prod.mk.injEq] at h
          obtain ⟨rfl, rfl⟩ := h
          exact ⟨nodeStep_quiet hw rfl rfl,
            fun d' hd' => ⟨d', hg.trans hd', rfl, Or.inl ⟨rfl, rfl⟩⟩⟩
        · by_cases hb : (o.tryc 33).1 = true
          · simp only [hb, if_true] at h
            rw [own_bits_amp, if_pos hb]
            generalize hr1 : (if MGS_File_TESTC (o.tryc 33).2.f 123 = false then _ else _) = r1
              at h
            have key : ∀ p b1, r1 = some (p, b1) →
                NodeStep id o p ∧ ∃ e1, get_opdata p.prg (some id) = some (some e1) ∧
                  e1.time = d.time ∧
                  ((b1 = false ∧ e1.params = d.params) ∨
                    (b1 = true ∧ e1.params = d.params ||| K.DYNAMP) ∨
                    (b1 = true ∧ e1.params = d.params ∧ (p.tryc 123).1 = true)) := by
              intro p b1 hr
              rw [hr] at hr1
              by_cases hT : MGS_File_TESTC (o.tryc 33).2.f 123 = false
              · simp only [hT, if_true] at hr1
                cases hs : (o.tryc 33).2.scan_num K none fuel with
                | none => simp only [hs, reduceCtorEq] at hr1
                | some x =>
                  obtain ⟨o2, w⟩ := x
                  obtain ⟨hp, hn, -, -⟩ := scan_num_prg hs
                  cases w with
                  | none =>
                    simp only [hs, Option.some.injEq, Prod.mk.injEq] at hr1
                    obtain ⟨rfl, rfl⟩ := hr1
                    refine ⟨nodeStep_quiet hw hp hn, d, ?_, rfl, Or.inl ⟨rfl, rfl⟩⟩
                    rw [hp]
                    exact hg
                  | some f =>
                    simp only [hs] at hr1
                    generalize hset : set_opdata o2.prg id _ = r at hr1
                    cases r with
                    | none => simp only [reduceCtorEq] at hr1
                    | some prg1 =>
                      simp only [Option.some.injEq, Prod.mk.injEq] at hr1
                      obtain ⟨rfl, rfl⟩ := hr1
                      obtain ⟨n1, n2⟩ := nodeStep_set hw hp hn hset
                      exact ⟨n1, _, n2 d hg, rfl, Or.inr (Or.inl ⟨rfl, rfl⟩)⟩
              · have hT1 : MGS_File_TESTC (o.tryc 33).2.f 123 = true := by
                  cases hx : MGS_File_TESTC (o.tryc 33).2.f 123
                  · exact absurd hx hT
                  · rfl
                simp only [hT1, Bool.true_eq_false, if_false, Option.some.injEq,
                  Prod.mk.injEq] at hr1
                obtain ⟨rfl, rfl⟩ := hr1
                exact ⟨nodeStep_quiet hw rfl rfl, d, hg, rfl,
                  Or.inr (Or.inr ⟨rfl, rfl, by rw [tryc_testc]; exact hT1⟩)⟩
            cases r1 with
            | none => simp only [reduceCtorEq] at h
            | some x =>
              obtain ⟨p, b1⟩ := x
              obtain ⟨k1, e1, k2, k3, k4⟩ := key p b1 rfl
              cases b1 with
              | false =>
                simp only [Option.some.injEq, Prod.mk.injEq] at h
                obtain ⟨rfl, rfl⟩ := h
                refine ⟨k1, fun d' hd' => ⟨e1, k2, ?_, Or.inl ⟨rfl, ?_⟩⟩⟩
                · cases hd'; rw [k3]
                · cases hd'
                  rcases k4 with ⟨-, k⟩ | ⟨hc, -⟩ | ⟨hc, -⟩
                  · exact k
                  · cases hc
                  · cases hc
              | true =>
                simp only at h
                have k5 : e1.params = d.params ||| K.DYNAMP ∨
                    (e1.params = d.params ∧ (p.tryc 123).1 = true) := by
                  rcases k4 with ⟨hc, -⟩ | ⟨-, k⟩ | ⟨-, k⟩
                  · cases hc
                  · exact Or.inl k
                  · exact Or.inr k
                by_cases ht1 : (p.tryc 123).1 = true
                · simp only [ht1, if_true] at h
                  generalize hm : parse_mods pl _ id K.AMODS K.AMODS _ = r at h
                  cases r with
                  | none => simp only [reduceCtorEq] at h
                  | some o2 =>
                    simp only [Option.some.injEq, Prod.mk.injEq] at h
                    obtain ⟨rfl, rfl⟩ := h
                    obtain ⟨m1, d0, e, m2, m3, m4, m5⟩ :=
                      parse_mods_step hpl (show WfNodes (p.tryc 123).2.prg.nodes
                        (p.tryc 123).2.prg.node_count from k1.1) hm (fun _ _ => ⟨rfl, rfl⟩)
                    have hd0 : d0 = e1 := by
                      have : get_opdata p.prg (some id) = some (some d0) := m2
                      rw [k2] at this
                      cases this
                      rfl
                    subst hd0
                    have m1' : NodeStep id p o2 := m1
                    refine ⟨nodeStep_trans k1 m1', fun d' hd' => ⟨e, m3, ?_, Or.inr ⟨rfl, ?_⟩⟩⟩
                    · cases hd'; rw [m5, k3]
                    · cases hd'
                      rcases k5 with k | ⟨k, -⟩
                      · exact ⟨K.DYNAMP ||| K.AMODS, by simp,
                          by rw [m4, k, Nat.lor_assoc]⟩
                      · exact ⟨K.AMODS, by simp, by rw [m4, k]⟩
                · simp only [ht1, Bool.false_eq_true, if_false, Option.some.injEq,
                    Prod.mk.injEq] at h
                  obtain ⟨rfl, rfl⟩ := h
                  refine ⟨k1, fun d' hd' => ⟨e1, k2, ?_, Or.inr ⟨rfl, ?_⟩⟩⟩
                  · cases hd'; rw [k3]
                  · cases hd'
                    rcases k5 with k | ⟨-, k⟩
                    · exact ⟨K.DYNAMP, by simp, k⟩
                    · exact absurd k ht1
          · simp only [hb, Bool.false_eq_true, if_false] at h
            rw [own_bits_amp, if_neg hb]
            cases hs : (o.tryc 33).2.scan_num K none fuel with
            | none => simp only [hs, reduceCtorEq] at h
            | some x =>
              obtain ⟨o2, w⟩ := x
              obtain ⟨hp, hn, -, -⟩ := scan_num_prg hs
              cases w with
              | none =>
                simp only [hs, Option.some.injEq, Prod.mk.injEq] at h
                obtain ⟨rfl, rfl⟩ := h
                refine ⟨nodeStep_quiet hw hp hn,
                  fun d' hd' => ⟨d', ?_, rfl, Or.inl ⟨rfl, rfl⟩⟩⟩
                rw [hp]
                exact hg.trans hd'
              | some f =>
                simp only [hs] at h
                generalize hset : set_opdata o2.prg id _ = r at h
                cases r with
                | none => simp only [reduceCtorEq] at h
                | some prg1 =>
                  simp only [Option.some.injEq, Prod.mk.injEq] at h
                  obtain ⟨rfl, rfl⟩ := h
                  obtain ⟨n1, n2⟩ := nodeStep_set hw hp hn hset
                  refine ⟨n1, fun d' hd' => ⟨_, n2 d hg, ?_, Or.inr ⟨rfl, K.AMP, by simp, ?_⟩⟩⟩
                  · cases hd'; rfl
                  · cases hd'; rfl

theorem parse_freq_step {K : PFlags} {pl : Parser → Option Nat → Option Parser}
    {fuel : Nat} {o o1 : Parser} {id : Nat} {b : Bool}
    (hpl : NestedOk pl) (hw : WfNodes o.prg.nodes o.prg.node_count)
    {ratio : Bool} (h : parse_freq K pl fuel o (some id) ratio = some (o1, b)) :
    NodeStep id o o1 ∧
      ∀ d, get_opdata o.prg (some id) = some (some d) →
        ∃ e, get_opdata o1.prg (some id) = some (some e) ∧ e.time.flags = d.time.flags ∧
          ((b = false ∧ e.params = d.params) ∨
            (b = true ∧ ∃ B ∈ own_bits K 102 (o.tryc 33).1, e.params = d.params ||| B)) := by
  unfold parse_freq at h
  cases hg : get_opdata o.prg (some id) with
  | none => simp only [hg, reduceCtorEq] at h
  | some od =>
    cases od with
    | none =>
      simp only [hg, Option.some.injEq, Prod.mk.injEq] at h
      obtain ⟨rfl, rfl⟩ := h
      exact ⟨nodeStep_quiet hw rfl rfl, fun d hd => by cases hd⟩
    | some d =>
      cases hnode : o.prg.nodes.get? id with
      | none => simp only [hg, hnode, reduceCtorEq] at h
      | some node =>
        simp only [hg, hnode] at h
        split at h
        · simp only [Option.some.injEq, Prod.mk.injEq] at h
          obtain ⟨rfl, rfl⟩ := h
          exact ⟨nodeStep_quiet hw rfl rfl,
            fun d' hd' => ⟨d', hg.trans hd', rfl, Or.inl ⟨rfl, rfl⟩⟩⟩
        · by_cases hb : (o.tryc 33).1 = true
          · simp only [hb, if_true] at h
            rw [own_bits_freq K 102 (Or.inl rfl), if_pos hb]
            generalize hr1 : (if MGS_File_TESTC (o.tryc 33).2.f 123 = false then _ else _) = r1
              at h
            have key : ∀ p b1, r1 = some (p, b1) →
                NodeStep id o p ∧ ∃ e1, get_opdata p.prg (some id) = some (some e1) ∧
                  e1.time = d.time ∧
                  ((b1 = false ∧ e1.params = d.params) ∨
                    (b1 = true ∧ e1.params = d.params ||| (K.DYNFREQ ||| K.ATTR)) ∨
                    (b1 = true ∧ e1.params = d.params ∧ (p.tryc 123).1 = true)) := by
              intro p b1 hr
              rw [hr] at hr1
              by_cases hT : MGS_File_TESTC (o.tryc 33).2.f 123 = false
              · simp only [hT, if_true] at hr1
                cases hs : (o.tryc 33).2.scan_num K none fuel with
                | none => simp only [hs, reduceCtorEq] at hr1
                | some x =>
                  obtain ⟨o2, w⟩ := x
                  obtain ⟨hp, hn, -, -⟩ := scan_num_prg hs
                  cases w with
                  | none =>
                    simp only [hs, Option.some.injEq, Prod.mk.injEq] at hr1
                    obtain ⟨rfl, rfl⟩ := hr1
                    refine ⟨nodeStep_quiet hw hp hn, d, ?_, rfl, Or.inl ⟨rfl, rfl⟩⟩
                    rw [hp]
                    exact hg
                  | some f =>
                    simp only [hs] at hr1
                    generalize hset : set_opdata o2.prg id _ = r at hr1
                    cases r with
                    | none => simp only [reduceCtorEq] at hr1
                    | some prg1 =>
                      simp only [Option.some.injEq, Prod.mk.injEq] at hr1
                      obtain ⟨rfl, rfl⟩ := hr1
                      obtain ⟨n1, n2⟩ := nodeStep_set hw hp hn hset
                      exact ⟨n1, _, n2 d hg, by cases ratio <;> rfl,
                        Or.inr (Or.inl ⟨rfl, by cases ratio <;> rfl⟩)⟩
              · have hT1 : MGS_File_TESTC (o.tryc 33).2.f 123 = true := by
                  cases hx : MGS_File_TESTC (o.tryc 33).2.f 123
                  · exact absurd hx hT
                  · rfl
                simp only [hT1, Bool.true_eq_false, if_false, Option.some.injEq,
                  Prod.mk.injEq] at hr1
                obtain ⟨rfl, rfl⟩ := hr1
                exact ⟨nodeStep_quiet hw rfl rfl, d, hg, rfl,
                  Or.inr (Or.inr ⟨rfl, rfl, by rw [tryc_testc]; exact hT1⟩)⟩
            cases r1 with
            | none => simp only [reduceCtorEq] at h
            | some x =>
              obtain ⟨p, b1⟩ := x
              obtain ⟨k1, e1, k2, k3, k4⟩ := key p b1 rfl
              cases b1 with
              | false =>
                simp only [Option.some.injEq, Prod.mk.injEq] at h
                obtain ⟨rfl, rfl⟩ := h
                refine ⟨k1, fun d' hd' => ⟨e1, k2, ?_, Or.inl ⟨rfl, ?_⟩⟩⟩
                · cases hd'; rw [k3]
                · cases hd'
                  rcases k4 with ⟨-, k⟩ | ⟨hc, -⟩ | ⟨hc, -⟩
                  · exact k
                  · cases hc
                  · cases hc
              | true =>
                simp only at h
                have k5 : e1.params = d.params ||| (K.DYNFREQ ||| K.ATTR) ∨
                    (e1.params = d.params ∧ (p.tryc 123).1 = true) := by
                  rcases k4 with ⟨hc, -⟩ | ⟨-, k⟩ | ⟨-, k⟩
                  · cases hc
                  · exact Or.inl k
                  · exact Or.inr k
                by_cases ht1 : (p.tryc 123).1 = true
                · simp only [ht1, if_true] at h
                  generalize hm : parse_mods pl _ id K.FMODS K.FMODS _ = r at h
                  cases r with
                  | none => simp only [reduceCtorEq] at h
                  | some o2 =>
                    simp only [Option.some.injEq, Prod.mk.injEq] at h
                    obtain ⟨rfl, rfl⟩ := h
                    obtain ⟨m1, d0, e, m2, m3, m4, m5⟩ :=
                      parse_mods_step hpl (show WfNodes (p.tryc 123).2.prg.nodes
                        (p.tryc 123).2.prg.node_count from k1.1) hm (fun _ _ => ⟨rfl, rfl⟩)
                    have hd0 : d0 = e1 := by
                      have : get_opdata p.prg (some id) = some (some d0) := m2
                      rw [k2] at this
                      cases this
                      rfl
                    subst hd0
                    have m1' : NodeStep id p o2 := m1
                    refine ⟨nodeStep_trans k1 m1', fun d' hd' => ⟨e, m3, ?_, Or.inr ⟨rfl, ?_⟩⟩⟩
                    · cases hd'; rw [m5, k3]
                    · cases hd'
                      rcases k5 with k | ⟨k, -⟩
                      · exact ⟨(K.DYNFREQ ||| K.ATTR) ||| K.FMODS, by simp,
                          by rw [m4, k, Nat.lor_assoc]⟩
                      · exact ⟨K.FMODS, by simp, by rw [m4, k]⟩
                · simp only [ht1, Bool.false_eq_true, if_false, Option.some.injEq,
                    Prod.mk.injEq] at h
                  obtain ⟨rfl, rfl⟩ := h
                  refine ⟨k1, fun d' hd' => ⟨e1, k2, ?_, Or.inr ⟨rfl, ?_⟩⟩⟩
                  · cases hd'; rw [k3]
                  · cases hd'
                    rcases k5 with k | ⟨-, k⟩
                    · exact ⟨(K.DYNFREQ ||| K.ATTR), by simp, k⟩
                    · exact absurd k ht1
          · simp only [hb, Bool.false_eq_true, if_false] at h
            rw [own_bits_freq K 102 (Or.inl rfl), if_neg hb]
            cases hs : (o.tryc 33).2.scan_num K none fuel with
            | none => simp only [hs, reduceCtorEq] at h
            | some x =>
              obtain ⟨o2, w⟩ := x
              obtain ⟨hp, hn, -, -⟩ := scan_num_prg hs
              cases w with
              | none =>
                simp only [hs, Option.some.injEq, Prod.mk.injEq] at h
                obtain ⟨rfl, rfl⟩ := h
                refine ⟨nodeStep_quiet hw hp hn,
                  fun d' hd' => ⟨d', ?_, rfl, Or.inl ⟨rfl, rfl⟩⟩⟩
                rw [hp]
                exact hg.trans hd'
              | some f =>
                simp only [hs] at h
                generalize hset : set_opdata o2.prg id _ = r at h
                cases r with
                | none => simp only [reduceCtorEq] at h
                | some prg1 =>
                  simp only [Option.some.injEq, Prod.mk.injEq] at h
                  obtain ⟨rfl, rfl⟩ := h
                  obtain ⟨n1, n2⟩ := nodeStep_set hw hp hn hset
                  refine ⟨n1, fun d' hd' =>
                    ⟨_, n2 d hg, ?_, Or.inr ⟨rfl, (K.FREQ ||| K.ATTR), by simp, ?_⟩⟩⟩
                  · cases hd'; cases ratio <;> rfl
                  · cases hd'; cases ratio <;> rfl

theorem levelOk_quiet {o p : Parser} (hq : Quiet o p) (h : LevelOk o) : LevelOk p := by
  obtain ⟨q1, q2, q3⟩ := hq
  unfold LevelOk at *
  rw [q1, q2, q3]
  exact h

theorem quiet_node {o p : Parser} (hq : Quiet o p) : p.node = o.node := by
  unfold Parser.node
  rw [hq.2.2]

theorem quiet_refl (o : Parser) : Quiet o o := ⟨rfl, rfl, rfl⟩

theorem quiet_trans {a b c : Parser} (h1 : Quiet a b) (h2 : Quiet b c) : Quiet a c :=
  ⟨h2.1.trans h1.1, h2.2.1.trans h1.2.1, h2.2.2.trans h1.2.2⟩

theorem quiet_of_prg {o p : Parser} (hp : p.prg = o.prg) (hn : p.nds = o.nds) : Quiet o p :=
  ⟨by rw [hp], by rw [hp], hn⟩

theorem frameStep_pre {o p o1 : Parser} (hq : Quiet o p) (h : FrameStep p o1) :
    FrameStep o o1 := by
  have hnode := quiet_node hq
  obtain ⟨q1, q2, q3⟩ := hq
  unfold FrameStep at *
  rw [hnode, q1, q2, q3] at h
  exact h

theorem frameStep_post {o p o1 : Parser} (h : FrameStep o p) (hq : Quiet p o1) :
    FrameStep o o1 := by
  obtain ⟨h1, h2, h3, h4⟩ := h
  refine ⟨levelOk_quiet hq h1, ?_, ?_, ?_⟩
  · rw [hq.2.1]; exact h2
  · rw [hq.2.2]; exact h3
  · rw [hq.1]; exact h4

theorem levelOk_node {o : Parser} (h : LevelOk o) {j : Nat} (hj : o.node = some j) :
    j < o.prg.nodes.length := by
  obtain ⟨hw, nd, rest, hnds, hown⟩ := h
  unfold Parser.node at hj
  rw [hnds] at hj
  rw [← hw.1]
  exact (hown j hj).2

theorem frameStep_refl {o : Parser} (h : LevelOk o) : FrameStep o o :=
  ⟨h, le_refl _, rfl, nodesKept_refl _ _⟩

theorem maskStep_refl (K : PFlags) (c : Nat) (bang : Bool) (d : OpData) :
    MaskStep K c bang d d :=
  ⟨⟨0, by simp, by simp⟩, Or.inl rfl⟩

theorem sameStep_refl {K : PFlags} {c : Nat} {bang : Bool} {o : Parser} (h : LevelOk o) :
    SameStep K c bang o o :=
  ⟨frameStep_refl h, rfl, fun _ n d _ hn _ hd => ⟨n, d, hn, hd, maskStep_refl K c bang d⟩⟩

theorem sameStep_pre {K : PFlags} {c : Nat} {bang : Bool} {o p o1 : Parser} (hq : Quiet o p)
    (h : SameStep K c bang p o1) : SameStep K c bang o o1 := by
  have hnode := quiet_node hq
  refine ⟨frameStep_pre hq h.1, h.2.1.trans hnode, ?_⟩
  intro j n d hj hn ht hd
  exact h.2.2 j n d (hnode.trans hj) (by rw [hq.1]; exact hn) ht hd

theorem sameStep_post {K : PFlags} {c : Nat} {bang : Bool} {o p o1 : Parser}
    (h : SameStep K c bang o p) (hq : Quiet p o1) : SameStep K c bang o o1 := by
  refine ⟨frameStep_post h.1 hq, (quiet_node hq).trans h.2.1, ?_⟩
  intro j n d hj hn ht hd
  rw [hq.1]
  exact h.2.2 j n d hj hn ht hd

theorem sameStep_quiet {K : PFlags} {c : Nat} {bang : Bool} {o o1 : Parser} (h : LevelOk o)
    (hq : Quiet o o1) : SameStep K c bang o o1 :=
  sameStep_post (sameStep_refl h) hq

theorem closedStep_pre {K : PFlags} {o p o1 : Parser} (hq : Quiet o p)
    (h : ClosedStep K p o1) : ClosedStep K o o1 := by
  have hnode := quiet_node hq
  refine ⟨frameStep_pre hq h.1, ?_, ?_⟩
  · intro i hi
    rw [← hq.2.1]
    exact h.2.1 i hi
  · intro j n d hj hn ht hd
    exact h.2.2 j n d (hnode.trans hj) (by rw [hq.1]; exact hn) ht hd

theorem closedStep_post {K : PFlags} {o p o1 : Parser} (h : ClosedStep K o p)
    (hq : Quiet p o1) : ClosedStep K o o1 := by
  refine ⟨frameStep_post h.1 hq, ?_, ?_⟩
  · intro i hi
    exact h.2.1 i (by rw [← quiet_node hq]; exact hi)
  · intro j n d hj hn ht hd
    rw [hq.1]
    exact h.2.2 j n d hj hn ht hd

theorem sameStep_of_nodeStep {K : PFlags} {c : Nat} {bang : Bool} {o o1 : Parser} {id : Nat}
    (hok : LevelOk o) (hid : o.node = some id) (hs : NodeStep id o o1)
    (hdata : ∀ d, get_opdata o.prg (some id) = some (some d) →
      ∃ e, get_opdata o1.prg (some id) = some (some e) ∧ MaskStep K c bang d e) :
    SameStep K c bang o o1 := by
  obtain ⟨s1, s2, s3, s4⟩ := hs
  have hnode : o1.node = o.node := by
    unfold Parser.node
    rw [s3]
  refine ⟨⟨?_, s2, by rw [s3], by rw [hid]; exact s4⟩, hnode, ?_⟩
  · obtain ⟨hw, nd, rest, hnds, hown⟩ := hok
    refine ⟨s1, nd, rest, s3.trans hnds, fun j hj => ⟨(hown j hj).1, ?_⟩⟩
    exact lt_of_lt_of_le (hown j hj).2 s2
  · intro j n d hj hn ht hd
    rw [hid] at hj
    cases hj
    obtain ⟨e, he, hm⟩ := hdata d (get_opdata_some.mpr ⟨n, hn, ht, hd⟩)
    obtain ⟨m, hm1, -, hm3⟩ := get_opdata_some.mp he
    exact ⟨m, e, hm1, hm3, hm⟩

theorem sameStep_set_nd {K : PFlags} {c : Nat} {bang : Bool} {o : Parser}
    {nd nd1 : LevelData} {rest : List LevelData} (hok : LevelOk o) (hnds : o.nds = nd :: rest)
    (h1 : nd1.node = nd.node) (h2 : nd1.flags = nd.flags) :
    SameStep K c bang o (o.set_nd nd1) := by
  have hnode : (o.set_nd nd1).node = o.node := by
    unfold Parser.node Parser.set_nd
    rw [hnds]
    exact h1
  refine ⟨⟨?_, le_refl _, ?_, nodesKept_refl _ _⟩, hnode,
    fun _ n d _ hn _ hd => ⟨n, d, hn, hd, maskStep_refl K c bang d⟩⟩
  · obtain ⟨hw, nd', rest', hnds', hown⟩ := hok
    rw [hnds] at hnds'
    cases hnds'
    refine ⟨hw, nd1, rest, ?_, ?_⟩
    · simp only [Parser.set_nd, hnds, List.tail_cons]
    · intro j hj
      rw [h1] at hj
      rw [h2]
      exact hown j hj
  · simp only [Parser.set_nd, hnds, List.tail_cons]

theorem sameStep_delay {K : PFlags} {c : Nat} {bang : Bool} {o : Parser} {id : Nat}
    {n : ProgramNode} (x : Num) (hok : LevelOk o) (hn : o.prg.nodes.get? id = some n) :
    SameStep K c bang o { o with prg := { o.prg with
      nodes := o.prg.nodes.set id { n with delay := x } } } := by
  have hk : NodesKept none o.prg.nodes (o.prg.nodes.set id { n with delay := x }) :=
    nodesKept_set hn rfl rfl rfl (fun _ => rfl)
  obtain ⟨hw, nd, rest, hnds, hown⟩ := hok
  refine ⟨⟨⟨wfNodes_set hw hn rfl, nd, rest, hnds, hown⟩, le_refl _, rfl,
    nodesKept_mono hk _⟩, rfl, ?_⟩
  intro j m d _ hm _ hd
  obtain ⟨m', hm', hd'⟩ := kept_op hk hm hd (fun hc => by cases hc)
  exact ⟨m', d, hm', hd', maskStep_refl K c bang d⟩

theorem closedStep_end {K : PFlags} {o o1 : Parser} (hok : LevelOk o)
    (h : end_node K o = some o1) : ClosedStep K o o1 ∧ o1.node = none := by
  obtain ⟨hw, nd, rest, hnds, hown⟩ := hok
  obtain ⟨e1, e2, e3, ⟨nd1, e4, e5, -⟩, e6⟩ :=
    end_node_step h hw hnds (fun j hj => (hown j hj).1)
  have hnode : o.node = nd.node := by
    unfold Parser.node
    rw [hnds]
  have hnode1 : o1.node = none := by
    unfold Parser.node
    rw [e4]
    exact e5
  refine ⟨⟨⟨⟨e1, nd1, rest, e4, ?_⟩, le_of_eq e2.symm, ?_, ?_⟩, ?_, ?_⟩, hnode1⟩
  · intro j hj
    rw [e5] at hj
    cases hj
  · rw [e4, hnds]; rfl
  · rw [hnode]; exact e3
  · intro i hi
    rw [hnode1] at hi
    cases hi
  · intro j n d hj
    rw [hnode] at hj
    exact e6 j n d hj

theorem closedStep_new {K : PFlags} {o o1 : Parser} {rp : Option Nat} {ty : NodeType}
    (hok : LevelOk o) (h : new_node K o rp ty = some o1) :
    ClosedStep K o o1 ∧ o1.node = some o.prg.node_count := by
  obtain ⟨hw, nd, rest, hnds, hown⟩ := hok
  obtain ⟨e1, e2, e3, ⟨nd1, e4, e5, e7⟩, e6⟩ :=
    new_node_step h hw hnds (fun j hj => (hown j hj).1)
  have hnode : o.node = nd.node := by
    unfold Parser.node
    rw [hnds]
  have hnode1 : o1.node = some o.prg.node_count := by
    unfold Parser.node
    rw [e4]
    exact e5
  refine ⟨⟨⟨⟨e1, nd1, rest, e4, ?_⟩, by omega, ?_, ?_⟩, ?_, ?_⟩, hnode1⟩
  · intro j hj
    rw [e5] at hj
    cases hj
    exact ⟨e7, by omega⟩
  · rw [e4, hnds]; rfl
  · rw [hnode]; exact e3
  · intro i hi
    rw [hnode1] at hi
    cases hi
    exact le_refl _
  · intro j n d hj
    rw [hnode] at hj
    exact e6 j n d hj

theorem closedStep_then {K : PFlags} {o p o1 : Parser}
    (h1 : ClosedStep K o p) (hp : p.node = none) (h2 : ClosedStep K p o1) :
    ClosedStep K o o1 := by
  obtain ⟨⟨a1, a2, a3, a4⟩, a5, a6⟩ := h1
  obtain ⟨⟨b1, b2, b3, b4⟩, b5, -⟩ := h2
  rw [hp] at b4
  refine ⟨⟨b1, le_trans a2 b2, b3.trans a3, nodesKept_step a4 b4⟩, ?_, ?_⟩
  · intro i hi
    exact le_trans a2 (b5 i hi)
  · intro j n d hj hn ht hd
    obtain ⟨m, e, hm, hme, hp'⟩ := a6 j n d hj hn ht hd
    obtain ⟨m', hm', hme'⟩ := kept_op b4 hm hme (fun hc => by cases hc)
    exact ⟨m', e, hm', hme', hp'⟩

theorem closedStep_set {K : PFlags} {o p : Parser} {prg1 : MGS_Program} {id : Nat}
    {e : OpData} (hok : LevelOk o) (h1 : ClosedStep K o p) (hp : p.node = some id)
    (hs : set_opdata p.prg id e = some prg1) : ClosedStep K o { p with prg := prg1 } := by
  obtain ⟨⟨a1, a2, a3, a4⟩, a5, a6⟩ := h1
  obtain ⟨hw, nd, rest, hnds, hown⟩ := a1
  obtain ⟨s1, s2, s3, -⟩ := set_opdata_step hs hw
  have hid : o.prg.node_count ≤ id := a5 id hp
  have hlen : o.prg.node_count = o.prg.nodes.length := hok.1.1
  refine ⟨⟨⟨s1, nd, rest, hnds, ?_⟩, ?_, a3, ?_⟩, a5, ?_⟩
  · intro j hj
    have := hown j hj
    exact ⟨this.1, by rw [s2]; exact this.2⟩
  · show o.prg.node_count ≤ prg1.node_count
    rw [s2]
    exact a2
  · refine nodesKept_trans a4 s3 ?_
    intro i hi _ hc
    cases hc
    omega
  · intro j n d hj hn ht hd
    obtain ⟨m, e', hm, hme, hp'⟩ := a6 j n d hj hn ht hd
    have hjlt := get?_lt hn
    obtain ⟨m', hm', hme'⟩ := kept_op s3 hm hme (fun hc => by cases hc; omega)
    exact ⟨m', e', hm', hme', hp'⟩

theorem round_pre {K : PFlags} {c : Nat} {bang : Bool} {o p o1 : Parser} (hq : Quiet o p)
    (h : SameStep K c bang p o1 ∨ ClosedStep K p o1) :
    SameStep K c bang o o1 ∨ ClosedStep K o o1 :=
  h.elim (fun h => Or.inl (sameStep_pre hq h)) (fun h => Or.inr (closedStep_pre hq h))

theorem round_post {K : PFlags} {c : Nat} {bang : Bool} {o p o1 : Parser}
    (h : SameStep K c bang o p ∨ ClosedStep K o p) (hq : Quiet p o1) :
    SameStep K c bang o o1 ∨ ClosedStep K o o1 :=
  h.elim (fun h => Or.inl (sameStep_post h hq)) (fun h => Or.inr (closedStep_post h hq))

theorem round_of_quiet {K : PFlags} {c : Nat} {bang : Bool} {o o1 : Parser} {x : LoopExit}
    {r : Parser × LoopExit} (hok : LevelOk o) (h : some r = some (o1, x))
    (hq : Quiet o r.1) : SameStep K c bang o o1 ∨ ClosedStep K o o1 := by
  simp only [Option.some.injEq] at h
  subst h
  exact Or.inl (sameStep_quiet hok hq)

theorem round_of_invalid {K : PFlags} {c : Nat} {bang : Bool} {o p o1 : Parser}
    {x : LoopExit} (hok : LevelOk o) (h : some (invalid p) = some (o1, x))
    (hq : Quiet o p) : SameStep K c bang o o1 ∨ ClosedStep K o o1 :=
  round_of_quiet hok h (by rw [invalid_frame]; exact hq)

theorem parse_param_some {r : Option (Parser × Bool)} {o1 : Parser} {x : LoopExit}
    (h : parse_param r = some (o1, x)) : ∃ b, r = some (o1, b) := by
  unfold parse_param at h
  cases r with
  | none => cases h
  | some y =>
    obtain ⟨p, b⟩ := y
    cases b with
    | true =>
      simp only [Option.some.injEq, Prod.mk.injEq] at h
      exact ⟨true, by rw [h.1]⟩
    | false =>
      simp only [Option.some.injEq] at h
      have h1 : o1 = p := by
        have := congrArg Prod.fst h
        rw [invalid_frame] at this
        exact this.symm
      exact ⟨false, by rw [h1]⟩

theorem close_level_step {K : PFlags} {c : Nat} {bang : Bool} {p p2 : Parser}
    (hok : LevelOk p) (h : close_level K p = some p2) :
    SameStep K c bang p p2 ∨ ClosedStep K p p2 := by
  unfold close_level at h
  by_cases h1 : p.setdef > p.level
  · simp only [h1, if_true, Option.some.injEq] at h
    subst h
    exact Or.inl (sameStep_quiet hok ⟨rfl, rfl, rfl⟩)
  · simp only [h1, if_false] at h
    by_cases h2 : p.setnode > p.level
    · simp only [h2, if_true] at h
      have hq : Quiet p { p with setnode := if p.level ≠ 0 then p.level - 1 else 0 } :=
        ⟨rfl, rfl, rfl⟩
      exact Or.inr (closedStep_pre hq (closedStep_end (levelOk_quiet hq hok) h).1)
    · simp only [h2, if_false, Option.some.injEq] at h
      subst h
      exact Or.inl (sameStep_refl hok)

theorem maskStep_of {K : PFlags} {c : Nat} {bang : Bool} {d e : OpData}
    (ht : e.time.flags = d.time.flags)
    (hp : e.params = d.params ∨ ∃ B ∈ own_bits K c bang, e.params = d.params ||| B) :
    MaskStep K c bang d e := by
  refine ⟨?_, Or.inl ht⟩
  rcases hp with hp | ⟨B, hB, hp⟩
  · exact ⟨0, by simp, by simp [hp]⟩
  · exact ⟨B, List.mem_cons_of_mem _ hB, hp⟩

theorem round_of_handler {K : PFlags} {c : Nat} {bang : Bool} {o o1 : Parser} {x : LoopExit}
    {n : Option Nat} {r : Option (Parser × Bool)} (hok : LevelOk o) (hnode : o.node = n)
    (h : parse_param r = some (o1, x)) (hnone : n = none → r = none)
    (hstep : ∀ id b, n = some id → r = some (o1, b) →
      NodeStep id o o1 ∧ ∀ d, get_opdata o.prg (some id) = some (some d) →
        ∃ e, get_opdata o1.prg (some id) = some (some e) ∧ MaskStep K c bang d e) :
    SameStep K c bang o o1 ∨ ClosedStep K o o1 := by
  obtain ⟨b, hb⟩ := parse_param_some h
  cases hn : n with
  | none =>
    rw [hnone hn] at hb
    cases hb
  | some id =>
    obtain ⟨s1, s2⟩ := hstep id b hn hb
    exact Or.inl (sameStep_of_nodeStep hok (hnode.trans hn) s1 s2)

theorem parse_amp_mask {K : PFlags} {pl : Parser → Option Nat → Option Parser}
    {fuel : Nat} {o o1 : Parser} {id : Nat} {b : Bool}
    (hpl : NestedOk pl) (hw : WfNodes o.prg.nodes o.prg.node_count)
    (h : parse_amp K pl fuel o (some id) = some (o1, b)) :
    NodeStep id o o1 ∧ ∀ d, get_opdata o.prg (some id) = some (some d) →
      ∃ e, get_opdata o1.prg (some id) = some (some e) ∧ MaskStep K 97 (o.tryc 33).1 d e := by
  obtain ⟨s1, s2⟩ := parse_amp_step hpl hw h
  refine ⟨s1, fun d hd => ?_⟩
  obtain ⟨e, he, ht, hp⟩ := s2 d hd
  refine ⟨e, he, maskStep_of ht ?_⟩
  rcases hp with ⟨-, hp⟩ | ⟨-, hp⟩
  · exact Or.inl hp
  · exact Or.inr hp

theorem parse_freq_mask {K : PFlags} {pl : Parser → Option Nat → Option Parser}
    {fuel : Nat} {o o1 : Parser} {id : Nat} {b ratio : Bool} {c : Nat}
    (hc : c = 102 ∨ c = 114)
    (hpl : NestedOk pl) (hw : WfNodes o.prg.nodes o.prg.node_count)
    (h : parse_freq K pl fuel o (some id) ratio = some (o1, b)) :
    NodeStep id o o1 ∧ ∀ d, get_opdata o.prg (some id) = some (some d) →
      ∃ e, get_opdata o1.prg (some id) = some (some e) ∧ MaskStep K c (o.tryc 33).1 d e := by
  obtain ⟨s1, s2⟩ := parse_freq_step hpl hw h
  refine ⟨s1, fun d hd => ?_⟩
  obtain ⟨e, he, ht, hp⟩ := s2 d hd
  refine ⟨e, he, maskStep_of ht ?_⟩
  rw [own_bits_freq K c hc, ← own_bits_freq K 102 (Or.inl rfl)]
  rcases hp with ⟨-, hp⟩ | ⟨-, hp⟩
  · exact Or.inl hp
  · exact Or.inr hp

theorem parse_channel_mask {K : PFlags} {fuel : Nat} {o o1 : Parser} {id : Nat} {b : Bool}
    (bang : Bool) (hw : WfNodes o.prg.nodes o.prg.node_count)
    (h : parse_channel K fuel o (some id) = some (o1, b)) :
    NodeStep id o o1 ∧ ∀ d, get_opdata o.prg (some id) = some (some d) →
      ∃ e, get_opdata o1.prg (some id) = some (some e) ∧ MaskStep K 99 bang d e := by
  obtain ⟨s1, s2⟩ := parse_channel_step hw h
  refine ⟨s1, fun d hd => ?_⟩
  obtain ⟨e, he, ht, hp⟩ := s2 d hd
  refine ⟨e, he, maskStep_of ht ?_⟩
  rcases hp with ⟨-, hp⟩ | ⟨-, hp⟩
  · exact Or.inl hp
  · exact Or.inr ⟨K.PAN, by simp [own_bits], hp⟩

theorem parse_wave_mask {K : PFlags} {o o1 : Parser} {id : Nat} {b : Bool}
    (bang : Bool) (hw : WfNodes o.prg.nodes o.prg.node_count)
    (h : parse_wave K o (some id) = some (o1, b)) :
    NodeStep id o o1 ∧ ∀ d, get_opdata o.prg (some id) = some (some d) →
      ∃ e, get_opdata o1.prg (some id) = some (some e) ∧ MaskStep K 119 bang d e := by
  obtain ⟨s1, s2⟩ := parse_wave_step hw h
  refine ⟨s1, fun d hd => ?_⟩
  obtain ⟨e, he, ht, hp⟩ := s2 d hd
  refine ⟨e, he, maskStep_of ht ?_⟩
  rcases hp with ⟨-, hp⟩ | ⟨-, hp⟩
  · exact Or.inl hp
  · exact Or.inr ⟨K.WAVE, by simp [own_bits], hp⟩

theorem parse_phase_mask {K : PFlags} {pl : Parser → Option Nat → Option Parser}
    {fuel : Nat} {o o1 : Parser} {id : Nat} {b : Bool}
    (hpl : NestedOk pl) (hw : WfNodes o.prg.nodes o.prg.node_count)
    (h : parse_phase K pl fuel o (some id) = some (o1, b)) :
    NodeStep id o o1 ∧ ∀ d, get_opdata o.prg (some id) = some (some d) →
      ∃ e, get_opdata o1.prg (some id) = some (some e) ∧
        MaskStep K 112 (o.tryc 33).1 d e := by
  obtain ⟨s1, s2⟩ := parse_phase_step hpl hw h
  refine ⟨s1, fun d hd => ?_⟩
  obtain ⟨e, he, ht, hp⟩ := s2 d hd
  refine ⟨e, he, maskStep_of ht ?_⟩
  rcases hp with ⟨-, hp⟩ | ⟨-, hb, hp | hp⟩ | ⟨-, hb, hp⟩
  · exact Or.inl hp
  · exact Or.inl hp
  · exact Or.inr ⟨K.PMODS, by simp [own_bits, hb], hp⟩
  · exact Or.inr ⟨K.PHASE, by simp [own_bits, hb], hp⟩

theorem parse_time_mask {K : PFlags} {fuel : Nat} {o o1 : Parser} {id : Nat} {b : Bool}
    (bang : Bool) (hw : WfNodes o.prg.nodes o.prg.node_count)
    (h : parse_time K fuel o (some id) = some (o1, b)) :
    NodeStep id o o1 ∧ ∀ d, get_opdata o.prg (some id) = some (some d) →
      ∃ e, get_opdata o1.prg (some id) = some (some e) ∧ MaskStep K 116 bang d e := by
  obtain ⟨s1, s2⟩ := parse_time_step hw h
  refine ⟨s1, fun d hd => ?_⟩
  obtain ⟨e, he, hp, ht⟩ := s2 d hd
  refine ⟨e, he, ⟨0, by simp, by simp [hp]⟩, ?_⟩
  rcases ht with ⟨-, ht⟩ | ⟨-, ht⟩
  · exact Or.inl ht
  · exact Or.inr ⟨rfl, ht⟩

theorem parse_amp_none (K : PFlags) (pl : Parser → Option Nat → Option Parser) (fuel : Nat)
    (o : Parser) : parse_amp K pl fuel o none = none := by
  unfold parse_amp
  simp [get_opdata]

theorem parse_channel_none (K : PFlags) (fuel : Nat) (o : Parser) :
    parse_channel K fuel o none = none := by
  unfold parse_channel
  simp [get_opdata]

theorem parse_freq_none (K : PFlags) (pl : Parser → Option Nat → Option Parser) (fuel : Nat)
    (o : Parser) (ratio : Bool) : parse_freq K pl fuel o none ratio = none := by
  unfold parse_freq
  simp [get_opdata]

theorem parse_phase_none (K : PFlags) (pl : Parser → Option Nat → Option Parser) (fuel : Nat)
    (o : Parser) : parse_phase K pl fuel o none = none := by
  unfold parse_phase
  simp [get_opdata]

theorem parse_time_none (K : PFlags) (fuel : Nat) (o : Parser) :
    parse_time K fuel o none = none := by
  unfold parse_time
  simp [get_opdata]

theorem parse_wave_none (K : PFlags) (o : Parser) : parse_wave K o none = none := by
  unfold parse_wave
  simp [get_opdata]

theorem parse_default_quiet {r : Option (Parser × Option Num)} {set : Parser → Num → Parser}
    {o o1 : Parser} {e : LoopExit} (h : parse_default r set = some (o1, e))
    (hr : ∀ p x, r = some (p, x) →
      p.prg = o.prg ∧ p.nds = o.nds ∧ p.setdef = o.setdef ∧ p.setnode = o.setnode)
    (hset : ∀ p f, (set p f).prg = p.prg ∧ (set p f).nds = p.nds ∧
      (set p f).setdef = p.setdef ∧ (set p f).setnode = p.setnode) : Quiet o o1 := by
  obtain ⟨f1, f2, -, -⟩ := parse_default_frame hr hset h
  exact quiet_of_prg f1 f2

theorem parse_ref_step {K : PFlags} {p o1 : Parser} {b : Bool} (hok : LevelOk p)
    (h : parse_ref K p = some (o1, b)) : Quiet p o1 ∨ ClosedStep K p o1 := by
  unfold parse_ref at h
  obtain ⟨hw, nd, rest, hnds, hown⟩ := hok
  have hok : LevelOk p := ⟨hw, nd, rest, hnds, hown⟩
  simp only [hnds] at h
  by_cases ht : nd.target.isSome = true
  · rw [if_pos ht] at h
    simp only [Option.some.injEq, Prod.mk.injEq] at h
    obtain ⟨rfl, -⟩ := h
    exact Or.inl (quiet_refl _)
  · rw [if_neg ht] at h
    cases hs : p.scan_sym none with
    | none => simp only [hs, reduceCtorEq] at h
    | some y =>
      obtain ⟨o2, sym, ok⟩ := y
      have hq : Quiet p o2 := parser_scan_sym_prg hs
      cases ok with
      | false =>
        simp only [hs, Option.some.injEq, Prod.mk.injEq] at h
        obtain ⟨rfl, -⟩ := h
        exact Or.inl hq
      | true =>
        cases sym with
        | none =>
          simp only [hs, Option.some.injEq, Prod.mk.injEq] at h
          obtain ⟨rfl, -⟩ := h
          exact Or.inl hq
        | some name =>
          simp only [hs] at h
          cases hsd : sym_data o2.prg name with
          | none =>
            simp only [hsd, Option.some.injEq, Prod.mk.injEq] at h
            obtain ⟨rfl, -⟩ := h
            exact Or.inl hq
          | some ref =>
            simp only [hsd] at h
            cases hg : o2.prg.nodes.get? ref with
            | none => simp only [hg, reduceCtorEq] at h
            | some rn =>
              simp only [hg] at h
              generalize hn : new_node K _ (some ref) rn.type = r at h
              cases r with
              | none => simp only [reduceCtorEq] at h
              | some o3 =>
                simp only [Option.some.injEq, Prod.mk.injEq] at h
                obtain ⟨rfl, -⟩ := h
                have hq2 : Quiet p { o2 with next_setsym := some name } :=
                  quiet_trans hq ⟨rfl, rfl, rfl⟩
                exact Or.inr (closedStep_post
                  (closedStep_pre hq2 (closedStep_new (levelOk_quiet hq2 hok) hn).1)
                  ⟨rfl, rfl, rfl⟩)

theorem parse_char_step {K : PFlags} {pl : Parser → Option Nat → Option Parser} {fuel : Nat}
    {o o1 : Parser} {c el : Nat} {x : LoopExit} (hpl : NestedOk pl) (hok : LevelOk o)
    (h : parse_char K pl fuel o c el = some (o1, x)) :
    SameStep K c (o.tryc 33).1 o o1 ∨ ClosedStep K o o1 := by
  obtain ⟨hw, nd, rest, hnds, hown⟩ := hok
  have hok : LevelOk o := ⟨hw, nd, rest, hnds, hown⟩
  have hnode : o.node = nd.node := by
    unfold Parser.node
    rw [hnds]
  unfold parse_char at h
  simp only [hnds] at h
  by_cases h1 : c = 10 ∨ c = 13
  · rw [if_pos h1] at h
    generalize hp : (if c = 10 then (o.tryc 13).2 else o) = p at h
    have hq : Quiet o p := by
      rw [← hp]
      split <;> exact ⟨rfl, rfl, rfl⟩
    generalize hr : (if nd.target.isNone = true then close_level K p else some p) = r at h
    cases r with
    | none => simp only [reduceCtorEq] at h
    | some o2 =>
      simp only [Option.some.injEq, Prod.mk.injEq] at h
      obtain ⟨rfl, -⟩ := h
      have h2 : SameStep K c (o.tryc 33).1 p o2 ∨ ClosedStep K p o2 := by
        by_cases ht : nd.target.isNone = true
        · rw [if_pos ht] at hr
          exact close_level_step (levelOk_quiet hq hok) hr
        · rw [if_neg ht] at hr
          simp only [Option.some.injEq] at hr
          subst hr
          exact Or.inl (sameStep_refl (levelOk_quiet hq hok))
      exact round_post (round_pre hq h2) ⟨rfl, rfl, rfl⟩
  rw [if_neg h1] at h
  by_cases h2 : c = 9 ∨ c = 32
  · rw [if_pos h2] at h
    cases hs : SAU_File_skipspace o.f with
    | none => simp only [hs, reduceCtorEq] at h
    | some f1 =>
      simp only [hs] at h
      exact round_of_quiet hok h ⟨rfl, rfl, hnds.symm⟩
  rw [if_neg h2] at h
  by_cases h3 : c = 35
  · rw [if_pos h3] at h
    cases hs : SAU_File_skipline o.f with
    | none => simp only [hs, reduceCtorEq] at h
    | some f1 =>
      simp only [hs] at h
      exact round_of_quiet hok h ⟨rfl, rfl, hnds.symm⟩
  rw [if_neg h3] at h
  by_cases h4 : c = 47
  · rw [if_pos h4] at h
    by_cases hsd : o.setdef > o.setnode
    · rw [if_pos hsd] at h
      exact round_of_invalid hok h (quiet_refl o)
    · rw [if_neg hsd] at h
      by_cases ht : (o.tryc 116).1 = true
      · simp only [ht, if_true, Option.some.injEq, Prod.mk.injEq] at h
        obtain ⟨rfl, -⟩ := h
        have hq : Quiet o (o.tryc 116).2 := ⟨rfl, rfl, rfl⟩
        exact Or.inl (sameStep_pre hq (sameStep_set_nd (levelOk_quiet hq hok)
          (show (o.tryc 116).2.nds = nd :: rest from hnds) rfl rfl))
      · simp only [ht, Bool.false_eq_true, if_false] at h
        cases hs : o.scan_timeval K fuel with
        | none => simp only [hs, reduceCtorEq] at h
        | some y =>
          obtain ⟨o2, w⟩ := y
          obtain ⟨hp, hn, -, -⟩ := scan_timeval_prg hs
          have hq : Quiet o o2 := quiet_of_prg hp hn
          cases w with
          | none =>
            simp only [hs] at h
            exact round_of_invalid hok h hq
          | some f =>
            simp only [hs, Option.some.injEq, Prod.mk.injEq] at h
            obtain ⟨rfl, -⟩ := h
            exact Or.inl (sameStep_pre hq (sameStep_set_nd (levelOk_quiet hq hok)
              (hn.trans hnds) rfl rfl))
  rw [if_neg h4] at h
  by_cases h5 : c = 123
  · rw [if_pos h5] at h
    exact round_of_quiet hok h (quiet_refl o)
  rw [if_neg h5] at h
  by_cases h6 : c = 125
  · rw [if_pos h6] at h
    split at h
    · exact round_of_invalid hok h (quiet_refl o)
    · exact round_of_quiet hok h ⟨rfl, rfl, hnds.symm⟩
  rw [if_neg h6] at h
  by_cases h7 : c = 60
  · rw [if_pos h7] at h
    exact round_of_quiet hok h ⟨rfl, rfl, hnds.symm⟩
  rw [if_neg h7] at h
  by_cases h8 : c = 62
  · rw [if_pos h8] at h
    by_cases hl : o.level = 0
    · rw [if_pos hl] at h
      exact round_of_quiet hok h (quiet_refl o)
    · rw [if_neg hl] at h
      cases hcl : close_level K o with
      | none => simp only [hcl, reduceCtorEq] at h
      | some o2 =>
        simp only [hcl, Option.some.injEq, Prod.mk.injEq] at h
        obtain ⟨rfl, -⟩ := h
        exact round_post (close_level_step hok hcl) ⟨rfl, rfl, rfl⟩
  rw [if_neg h8] at h
  by_cases h9 : c = 69
  · rw [if_pos h9] at h
    cases hn : new_node K o none .env with
    | none => simp only [hn, reduceCtorEq] at h
    | some o2 =>
      simp only [hn, Option.some.injEq, Prod.mk.injEq] at h
      obtain ⟨rfl, -⟩ := h
      exact Or.inr (closedStep_post (closedStep_new hok hn).1 ⟨rfl, rfl, rfl⟩)
  rw [if_neg h9] at h
  by_cases h10 : c = 81
  · rw [if_pos h10] at h
    exact round_of_quiet hok h (quiet_refl o)
  rw [if_neg h10] at h
  by_cases h11 : c = 83
  · rw [if_pos h11] at h
    exact round_of_quiet hok h ⟨rfl, rfl, hnds.symm⟩
  rw [if_neg h11] at h
  by_cases h12 : c = 87
  · rw [if_pos h12] at h
    cases hs : scan_wavetype o with
    | none => simp only [hs, reduceCtorEq] at h
    | some y =>
      obtain ⟨p, w⟩ := y
      obtain ⟨hp, hn⟩ := scan_wavetype_prg hs
      have hq : Quiet o p := quiet_of_prg hp hn
      cases w with
      | none =>
        simp only [hs] at h
        exact round_of_quiet hok h hq
      | some wave =>
        simp only [hs] at h
        cases hnew : new_node K p none .op with
        | none => simp only [hnew, reduceCtorEq] at h
        | some o2 =>
          simp only [hnew] at h
          obtain ⟨c1, c2⟩ := closedStep_new (levelOk_quiet hq hok) hnew
          cases hnds2 : o2.nds with
          | nil => simp only [hnds2, reduceCtorEq] at h
          | cons nd2 rest2 =>
            simp only [hnds2] at h
            have hnode2 : o2.node = nd2.node := by
              unfold Parser.node
              rw [hnds2]
            cases hid : nd2.node with
            | none => simp [hid, get_opdata] at h
            | some id =>
              cases hg : get_opdata o2.prg (some id) with
              | none => simp only [hid, hg, reduceCtorEq] at h
              | some od =>
                cases od with
                | none => simp only [hid, hg, reduceCtorEq] at h
                | some d =>
                  simp only [hid, hg] at h
                  generalize hset : set_opdata o2.prg id _ = r at h
                  cases r with
                  | none => simp only [reduceCtorEq] at h
                  | some prg1 =>
                    simp only [Option.some.injEq, Prod.mk.injEq] at h
                    obtain ⟨rfl, -⟩ := h
                    have c3 := closedStep_set (levelOk_quiet hq hok) c1
                      (hnode2.trans hid) hset
                    exact Or.inr (closedStep_post (closedStep_pre hq c3)
                      ⟨rfl, rfl, hnds2.symm⟩)
  rw [if_neg h12] at h
  by_cases h13 : c = 124
  · rw [if_pos h13] at h
    cases hcd : o.cur_dur with
    | none => simp only [hcd, reduceCtorEq] at h
    | some dd =>
      simp only [hcd] at h
      cases hg : o.prg.nodes.get? dd with
      | none => simp only [hg, reduceCtorEq] at h
      | some dn =>
        simp only [hg] at h
        cases hdd : dn.data with
        | dur sc =>
          simp only [hdd] at h
          split at h
          · exact round_of_quiet hok h (quiet_refl o)
          · cases hn : new_node K o none .dur with
            | none => simp only [hn, reduceCtorEq] at h
            | some o2 =>
              simp only [hn, Option.some.injEq, Prod.mk.injEq] at h
              obtain ⟨rfl, -⟩ := h
              exact Or.inr (closedStep_new hok hn).1
        | null => simp only [hdd, reduceCtorEq] at h
        | op y => simp only [hdd, reduceCtorEq] at h
        | arr y => simp only [hdd, reduceCtorEq] at h
  rw [if_neg h13] at h
  by_cases h14 : c = 92
  · rw [if_pos h14] at h
    by_cases hsd : o.setdef > o.setnode
    · rw [if_pos hsd] at h
      exact round_of_invalid hok h (quiet_refl o)
    · rw [if_neg hsd] at h
      cases hs : o.scan_timeval K fuel with
      | none => simp only [hs, reduceCtorEq] at h
      | some y =>
        obtain ⟨o2, w⟩ := y
        obtain ⟨hp, hn, -, -⟩ := scan_timeval_prg hs
        have hq : Quiet o o2 := quiet_of_prg hp hn
        cases w with
        | none =>
          simp only [hs] at h
          exact round_of_invalid hok h hq
        | some f =>
          simp only [hs] at h
          cases hid : nd.node with
          | none => simp only [hid, reduceCtorEq] at h
          | some id =>
            simp only [hid] at h
            cases hg : o2.prg.nodes.get? id with
            | none => simp only [hg, reduceCtorEq] at h
            | some n =>
              simp only [hg, Option.some.injEq, Prod.mk.injEq] at h
              obtain ⟨rfl, -⟩ := h
              exact Or.inl (sameStep_pre hq
                (sameStep_delay _ (levelOk_quiet hq hok) hg))
  rw [if_neg h14] at h
  by_cases h15 : c = 39
  · rw [if_pos h15] at h
    cases he : end_node K o with
    | none => simp only [he, reduceCtorEq] at h
    | some p =>
      simp only [he] at h
      obtain ⟨c1, -⟩ := closedStep_end hok he
      split at h
      · simp only [Option.some.injEq, Prod.mk.injEq] at h
        obtain ⟨rfl, -⟩ := h
        exact Or.inr c1
      · cases hs : p.scan_sym p.next_setsym with
        | none => simp only [hs, reduceCtorEq] at h
        | some y =>
          obtain ⟨o2, sym, ok⟩ := y
          have hq : Quiet p { o2 with next_setsym := sym } :=
            quiet_trans (parser_scan_sym_prg hs) ⟨rfl, rfl, rfl⟩
          simp only [hs] at h
          split at h
          · simp only [Option.some.injEq, Prod.mk.injEq] at h
            obtain ⟨rfl, -⟩ := h
            exact Or.inr (closedStep_post c1 hq)
          · simp only [Option.some.injEq] at h
            have h1 : o1 = { o2 with next_setsym := sym } := by
              have := congrArg Prod.fst h
              rw [invalid_frame] at this
              exact this.symm
            subst h1
            exact Or.inr (closedStep_post c1 hq)
  rw [if_neg h15] at h
  by_cases h16 : c = 58
  · rw [if_pos h16] at h
    cases he : end_node K o with
    | none => simp only [he, reduceCtorEq] at h
    | some p =>
      simp only [he] at h
      obtain ⟨c1, c2⟩ := closedStep_end hok he
      obtain ⟨b, hb⟩ := parse_param_some h
      rcases parse_ref_step c1.1.1 hb with hq | hc
      · exact Or.inr (closedStep_post c1 hq)
      · exact Or.inr (closedStep_then c1 c2 hc)
  rw [if_neg h16] at h
  by_cases h17 : c = 97
  · rw [if_pos h17] at h
    subst h17
    by_cases hsd : o.setdef > o.setnode
    · rw [if_pos hsd] at h
      exact Or.inl (sameStep_quiet hok (parse_default_quiet h
        (fun p x hp => scan_num_prg hp) (fun p f => ⟨rfl, rfl, rfl, rfl⟩)))
    · rw [if_neg hsd] at h
      by_cases hsn : o.setnode ≤ 0
      · rw [if_pos hsn] at h
        exact round_of_invalid hok h (quiet_refl o)
      · rw [if_neg hsn] at h
        exact round_of_handler hok hnode h
          (fun hn => by rw [hn]; exact parse_amp_none K pl fuel o)
          (fun id b hn hr => parse_amp_mask hpl hw (by rw [← hn]; exact hr))
  rw [if_neg h17] at h
  by_cases h18 : c = 99
  · rw [if_pos h18] at h
    subst h18
    by_cases hsd : o.setdef > o.setnode
    · rw [if_pos hsd] at h
      exact Or.inl (sameStep_quiet hok (parse_default_quiet h
        (fun p x hp => scan_num_prg hp) (fun p f => ⟨rfl, rfl, rfl, rfl⟩)))
    · rw [if_neg hsd] at h
      by_cases hsn : o.setnode ≤ 0
      · rw [if_pos hsn] at h
        exact round_of_invalid hok h (quiet_refl o)
      · rw [if_neg hsn] at h
        exact round_of_handler hok hnode h
          (fun hn => by rw [hn]; exact parse_channel_none K fuel o)
          (fun id b hn hr => parse_channel_mask _ hw (by rw [← hn]; exact hr))
  rw [if_neg h18] at h
  by_cases h19 : c = 102
  · rw [if_pos h19] at h
    subst h19
    by_cases hsd : o.setdef > o.setnode
    · rw [if_pos hsd] at h
      exact Or.inl (sameStep_quiet hok (parse_default_quiet h
        (fun p x hp => scan_num_prg hp) (fun p f => ⟨rfl, rfl, rfl, rfl⟩)))
    · rw [if_neg hsd] at h
      by_cases hsn : o.setnode ≤ 0
      · rw [if_pos hsn] at h
        exact round_of_invalid hok h (quiet_refl o)
      · rw [if_neg hsn] at h
        exact round_of_handler hok hnode h
          (fun hn => by rw [hn]; exact parse_freq_none K pl fuel o false)
          (fun id b hn hr => parse_freq_mask (Or.inl rfl) hpl hw (by rw [← hn]; exact hr))
  rw [if_neg h19] at h
  by_cases h20 : c = 112
  · rw [if_pos h20] at h
    subst h20
    by_cases hsd : o.setdef > o.setnode ∨ o.setnode ≤ 0
    · rw [if_pos hsd] at h
      exact round_of_invalid hok h (quiet_refl o)
    · rw [if_neg hsd] at h
      exact round_of_handler hok hnode h
        (fun hn => by rw [hn]; exact parse_phase_none K pl fuel o)
        (fun id b hn hr => parse_phase_mask hpl hw (by rw [← hn]; exact hr))
  rw [if_neg h20] at h
  by_cases h21 : c = 114
  · rw [if_pos h21] at h
    subst h21
    by_cases hsd : o.setdef > o.setnode
    · rw [if_pos hsd] at h
      exact Or.inl (sameStep_quiet hok (parse_default_quiet h
        (fun p x hp => scan_num_prg hp) (fun p f => ⟨rfl, rfl, rfl, rfl⟩)))
    · rw [if_neg hsd] at h
      by_cases hsn : o.setnode ≤ 0
      · rw [if_pos hsn] at h
        exact round_of_invalid hok h (quiet_refl o)
      · rw [if_neg hsn] at h
        exact round_of_handler hok hnode h
          (fun hn => by rw [hn]; exact parse_freq_none K pl fuel o true)
          (fun id b hn hr => parse_freq_mask (Or.inr rfl) hpl hw (by rw [← hn]; exact hr))
  rw [if_neg h21] at h
  by_cases h22 : c = 116
  · rw [if_pos h22] at h
    subst h22
    by_cases hsd : o.setdef > o.setnode
    · rw [if_pos hsd] at h
      exact Or.inl (sameStep_quiet hok (parse_default_quiet h
        (fun p x hp => scan_timeval_prg hp) (fun p f => ⟨rfl, rfl, rfl, rfl⟩)))
    · rw [if_neg hsd] at h
      by_cases hsn : o.setnode ≤ 0
      · rw [if_pos hsn] at h
        exact round_of_invalid hok h (quiet_refl o)
      · rw [if_neg hsn] at h
        exact round_of_handler hok hnode h
          (fun hn => by rw [hn]; exact parse_time_none K fuel o)
          (fun id b hn hr => parse_time_mask _ hw (by rw [← hn]; exact hr))
  rw [if_neg h22] at h
  by_cases h23 : c = 119
  · rw [if_pos h23] at h
    subst h23
    by_cases hsd : o.setdef > o.setnode ∨ o.setnode ≤ 0
    · rw [if_pos hsd] at h
      exact round_of_invalid hok h (quiet_refl o)
    · rw [if_neg hsd] at h
      exact round_of_handler hok hnode h
        (fun hn => by rw [hn]; exact parse_wave_none K o)
        (fun id b hn hr => parse_wave_mask _ hw (by rw [← hn]; exact hr))
  rw [if_neg h23] at h
  exact round_of_invalid hok h (quiet_refl o)

theorem keptBelow_refl (N : Nat) (a : List ProgramNode) : KeptBelow N a a :=
  fun _ n _ h => ⟨n, h, rfl, rfl, rfl, rfl⟩

theorem keptBelow_trans {N : Nat} {a b c : List ProgramNode} (h1 : KeptBelow N a b)
    (h2 : KeptBelow N b c) : KeptBelow N a c := by
  intro i n hi hn
  obtain ⟨m, hm, m1, m2, m3, m4⟩ := h1 i n hi hn
  obtain ⟨m', hm', p1, p2, p3, p4⟩ := h2 i m hi hm
  exact ⟨m', hm', p1.trans m1, p2.trans m2, p3.trans m3, p4.trans m4⟩

theorem keptBelow_of_kept {N : Nat} {j : Option Nat} {a b : List ProgramNode}
    (h : NodesKept j a b) (hj : ∀ i, j = some i → N ≤ i) : KeptBelow N a b := by
  intro i n hi hn
  obtain ⟨m, hm, m1, m2, m3, m4⟩ := h i n hn
  refine ⟨m, hm, m1, m2, m3, m4 ?_⟩
  intro hc
  have := hj i hc
  omega

theorem kept_of_keptBelow {a b : List ProgramNode} (h : KeptBelow a.length a b) :
    NodesKept none a b := by
  intro i n hn
  obtain ⟨m, hm, m1, m2, m3, m4⟩ := h i n (get?_lt hn) hn
  exact ⟨m, hm, m1, m2, m3, fun _ => m4⟩

theorem keptBelow_opdata {N : Nat} {a b : MGS_Program} (h : KeptBelow N a.nodes b.nodes)
    {i : Nat} (hi : i < N) (hlt : i < a.nodes.length) :
    get_opdata b (some i) = get_opdata a (some i) := by
  rw [get_opdata_node, get_opdata_node]
  cases hg : a.nodes.get? i with
  | none =>
    rw [List.get?_eq_none] at hg
    omega
  | some n =>
    obtain ⟨m, hm, -, m2, -, m4⟩ := h i n hi hg
    rw [hm, Option.map_some', Option.map_some', m2, m4]

theorem levelAbove_frame {N : Nat} {o o1 : Parser} (ha : LevelAbove N o)
    (hf : FrameStep o o1) (hnode : o1.node = o.node ∨ ∀ i, o1.node = some i →
      o.prg.node_count ≤ i) :
    LevelAbove N o1 ∧ o1.nds.tail = o.nds.tail ∧ KeptBelow N o.prg.nodes o1.prg.nodes := by
  obtain ⟨a1, a2, a3⟩ := ha
  obtain ⟨f1, f2, f3, f4⟩ := hf
  refine ⟨⟨f1, le_trans a2 f2, ?_⟩, f3, keptBelow_of_kept f4 a3⟩
  intro j hj
  rcases hnode with hn | hn
  · exact a3 j (hn ▸ hj)
  · exact le_trans a2 (hn j hj)

theorem round_frame {K : PFlags} {c : Nat} {bang : Bool} {N : Nat} {o o1 : Parser}
    (ha : LevelAbove N o) (h : SameStep K c bang o o1 ∨ ClosedStep K o o1) :
    LevelAbove N o1 ∧ o1.nds.tail = o.nds.tail ∧ KeptBelow N o.prg.nodes o1.prg.nodes := by
  rcases h with h | h
  · exact levelAbove_frame ha h.1 (Or.inl h.2.1)
  · exact levelAbove_frame ha h.1 (Or.inr h.2.1)

theorem parse_round_step {K : PFlags} {pl : Parser → Option Nat → Option Parser}
    {fuel : Nat} {o o1 : Parser} {el : Nat} {x : LoopExit} (hpl : NestedOk pl)
    (hok : LevelOk o) (h : parse_round K pl fuel o el = some (o1, x)) :
    ∃ f1, SAU_File_skipspace (SAU_File_GETC o.f).2 = some f1 ∧
      (SameStep K (SAU_File_GETC o.f).1 (MGS_File_TRYC f1 33).1 o o1 ∨ ClosedStep K o o1) := by
  unfold parse_round at h
  cases hs : SAU_File_skipspace (SAU_File_GETC o.f).2 with
  | none => simp only [hs, reduceCtorEq] at h
  | some f1 =>
    simp only [hs] at h
    have hq : Quiet o { o with f := f1 } := ⟨rfl, rfl, rfl⟩
    exact ⟨f1, rfl, round_pre hq (parse_char_step hpl (levelOk_quiet hq hok) h)⟩

theorem init_nodeData_step {K : PFlags} {p q : Parser} {chain : Option Nat}
    (hw : WfNodes p.prg.nodes p.prg.node_count) (hi : MGS_init_NodeData K p chain = some q) :
    LevelAbove p.prg.node_count q ∧ q.nds.tail = p.nds ∧
      KeptBelow p.prg.node_count p.prg.nodes q.prg.nodes := by
  have key : ∀ (nd : LevelData) (q : Parser),
      (if p.cur_dur.isNone = true then new_node K { p with nds := nd :: p.nds } none .dur
        else some { p with nds := nd :: p.nds }) = some q → nd.node = none →
      LevelAbove p.prg.node_count q ∧ q.nds.tail = p.nds ∧
        KeptBelow p.prg.node_count p.prg.nodes q.prg.nodes := by
    intro nd q hi hnode
    have hok0 : LevelOk { p with nds := nd :: p.nds } :=
      ⟨hw, nd, p.nds, rfl, fun j hj => by rw [hnode] at hj; cases hj⟩
    have ha0 : LevelAbove p.prg.node_count { p with nds := nd :: p.nds } :=
      ⟨hok0, le_refl _, fun j hj => by
        simp only [Parser.node, hnode] at hj
        cases hj⟩
    by_cases hcd : p.cur_dur.isNone = true
    · rw [if_pos hcd] at hi
      obtain ⟨c1, -⟩ := closedStep_new hok0 hi
      exact levelAbove_frame ha0 c1.1 (Or.inr c1.2.1)
    · rw [if_neg hcd] at hi
      simp only [Option.some.injEq] at hi
      subst hi
      exact ⟨ha0, rfl, keptBelow_refl _ _⟩
  unfold MGS_init_NodeData at hi
  exact key _ q hi rfl

theorem nested_of_loop {K : PFlags} {loop : Parser → Nat → Option (Parser × LoopExit)}
    (hloop : LoopOk loop) : NestedOk (fun p chain => parse_level_with K loop p chain) := by
  intro p chain p1 h hw
  simp only [parse_level_with] at h
  cases hi : MGS_init_NodeData K { p with reclevel := p.reclevel + 1 } chain with
  | none => simp only [hi, reduceCtorEq] at h
  | some q =>
    simp only [hi] at h
    have hq := init_nodeData_step (show WfNodes
      ({ p with reclevel := p.reclevel + 1 } : Parser).prg.nodes
      ({ p with reclevel := p.reclevel + 1 } : Parser).prg.node_count from hw) hi
    obtain ⟨q1, q2, q3⟩ := hq
    cases hl : loop q p.level with
    | none => simp only [hl, reduceCtorEq] at h
    | some r =>
      obtain ⟨r1, x⟩ := r
      simp only [hl] at h
      obtain ⟨l1, l2, l3⟩ := hloop _ _ _ _ _ hl q1
      unfold MGS_fini_NodeData at h
      cases he : end_node K r1 with
      | none => simp only [he, reduceCtorEq] at h
      | some o2 =>
        simp only [he, Option.some.injEq] at h
        subst h
        obtain ⟨c1, -⟩ := closedStep_end l1.1 he
        obtain ⟨e1, e2, e3⟩ := levelAbove_frame l1 c1.1 (Or.inr c1.2.1)
        refine ⟨e1.1.1, e1.2.1, ?_, ?_⟩
        · show o2.nds.tail = p.nds
          rw [e2, l2, q2]
        · have hk := keptBelow_trans (keptBelow_trans q3 l3) e3
          rw [hw.1] at hk
          exact kept_of_keptBelow hk

theorem parse_loop_ok (K : PFlags) (fuel : Nat) : LoopOk (parse_loop K fuel) := by
  induction fuel with
  | zero =>
    intro N o el o1 x h
    simp [parse_loop] at h
  | succ fuel ih =>
    intro N o el o1 x h ha
    rw [parse_loop] at h
    have hpl : NestedOk (fun p chain => parse_level_with K (parse_loop K fuel) p chain) :=
      nested_of_loop ih
    generalize hr : parse_round K _ fuel o el = r at h
    cases r with
    | none => simp only [reduceCtorEq] at h
    | some y =>
      obtain ⟨p, e⟩ := y
      obtain ⟨f1, -, hstep⟩ := parse_round_step hpl ha.1 hr
      obtain ⟨s1, s2, s3⟩ := round_frame ha hstep
      cases e with
      | go =>
        simp only at h
        obtain ⟨t1, t2, t3⟩ := ih _ _ _ _ _ h s1
        exact ⟨t1, t2.trans s2, keptBelow_trans s3 t3⟩
      | finish =>
        simp only [Option.some.injEq, Prod.mk.injEq] at h
        obtain ⟨rfl, -⟩ := h
        exact ⟨s1, s2, s3⟩
      | ret =>
        simp only [Option.some.injEq, Prod.mk.injEq] at h
        obtain ⟨rfl, -⟩ := h
        exact ⟨s1, s2, s3⟩

theorem parse_level_nested (K : PFlags) (fuel : Nat) : NestedOk (parse_level K fuel) :=
  nested_of_loop (parse_loop_ok K fuel)

/-- C26: the change mask of a reference holds what was set within the
reference and nothing more. For a state `o` of the parser in which the node of
the level is the reference `j` with the operator data `d`:
one round of `parse_level` (the `switch` for any character `c`, with the nested
`parse_level` for lists) either leaves `j` the node of the level, and then its
mask is the old one with one of the outcomes of the parameter `c` more
(`own_bits`: the bit of `a`, `c`, `f`, `r`, `p` or `w` itself, nothing for any
other character) and the time flag `MGS_TIME_SET` is set by `t` alone; or it
ends the node, and then the mask is the old one with `MGS_TIME` more exactly
when `MGS_TIME_SET` was set; `end_node` itself (the end of `parse_level`) gives
the same mask; once the node has ended, with the node of the level none or a
later one, no run of the loop changes its operator data; `new_node` makes a
reference with the mask 0, no time flag and the `base_id` of the node referred
to. In the script `'a W sin f 440 t 1000 / 500 :a a 0.25` the change mask of
the reference, the node 2, is the amplitude bit alone, and the node has the
`base_id` 0 of the labelled node 1. -/
theorem reference_change_mask (K : PFlags) (fuel : Nat) (o : Parser) (j : Nat)
    (n : ProgramNode) (d : OpData) (hok : level_ok o = true) (hj : o.node = some j)
    (hn : o.prg.nodes.get? j = some n) (href : n.ref_prev.isSome = true)
    (ht : n.type = .op) (hd : n.data = .op d) :
    (∀ c el o1 x, parse_char K (parse_level K fuel) fuel o c el = some (o1, x) →
      level_ok o1 = true ∧
      ∃ m e, o1.prg.nodes.get? j = some m ∧ m.ref_prev = n.ref_prev ∧ m.type = .op ∧
        m.data = .op e ∧
        ((o1.node = some j ∧
            (∃ B ∈ 0 :: own_bits K c (o.tryc 33).1, e.params = d.params ||| B) ∧
            (e.time.flags = d.time.flags ∨
              (c = 116 ∧ e.time.flags = d.time.flags ||| K.TIME_SET))) ∨
          ((∀ i, o1.node = some i → j < i) ∧
            e.params = (if d.time.flags &&& K.TIME_SET ≠ 0 then d.params ||| K.TIME
              else d.params)))) ∧
    (∀ o1, end_node K o = some o1 →
      level_ok o1 = true ∧ o1.node = none ∧
      ∃ m e, o1.prg.nodes.get? j = some m ∧ m.data = .op e ∧
        e.params = (if d.time.flags &&& K.TIME_SET ≠ 0 then d.params ||| K.TIME
          else d.params)) ∧
    (∀ fuel1 p el p1 x, level_ok p = true → j < p.prg.node_count →
      (∀ i, p.node = some i → j < i) → parse_loop K fuel1 p el = some (p1, x) →
      level_ok p1 = true ∧ (∀ i, p1.node = some i → j < i) ∧
        get_opdata p1.prg (some j) = get_opdata p.prg (some j)) ∧
    (∀ (p0 p1 : Parser) (r : Nat), new_node K p0 (some r) .op = some p1 →
      ∃ m rn e, p1.prg.nodes.getLast? = some m ∧ p0.prg.nodes.get? r = some rn ∧
        m.data = .op e ∧ e.params = 0 ∧ e.time.flags = 0 ∧ m.base_id = rn.base_id) ∧
    (parsed_op (parse samplePFlags 60 (open_text "'a W sin f 440 t 1000 / 500 :a a 0.25")
        sample_wave_names) 2).map (fun e => (e.params, e.amp))
      = some (samplePFlags.AMP, .val (1 / 4)) ∧
    node_ids (parse samplePFlags 60 (open_text "'a W sin f 440 t 1000 / 500 :a a 0.25")
        sample_wave_names) = [[0, 0, 0, 0], [1, 1, 1, 0], [2, 1, 1, 0]] := by
  have hok' : LevelOk o := (level_ok_iff o).mp hok
  have hnone : n.ref_prev.isNone = false := by
    cases hr : n.ref_prev with
    | none => rw [hr] at href; cases href
    | some r => rfl
  have hjlt : j < o.prg.node_count := by
    rw [hok'.1.1]
    exact get?_lt hn
  refine ⟨?_, ?_, ?_, ?_, by decide!, by decide!⟩
  · intro c el o1 x h
    rcases parse_char_step (parse_level_nested K fuel) hok' h with hs | hc
    · obtain ⟨hf, hnode, hdata⟩ := hs
      obtain ⟨m, e, hm, hme, hmask⟩ := hdata j n d hj hn ht hd
      obtain ⟨m', hm', r1, r2, -, -⟩ := hf.2.2.2 j n hn
      rw [hm] at hm'
      cases hm'
      unfold MaskStep at hmask
      exact ⟨(level_ok_iff o1).mpr hf.1, m, e, hm, r1, r2.trans ht, hme,
        Or.inl ⟨hnode.trans hj, hmask.1, hmask.2⟩⟩
    · obtain ⟨hf, hnode, hdata⟩ := hc
      obtain ⟨m, e, hm, hme, hp⟩ := hdata j n d hj hn ht hd
      obtain ⟨m', hm', r1, r2, -, -⟩ := hf.2.2.2 j n hn
      rw [hm] at hm'
      cases hm'
      simp only [hnone, Bool.false_eq_true, if_false] at hp
      exact ⟨(level_ok_iff o1).mpr hf.1, m, e, hm, r1, r2.trans ht, hme,
        Or.inr ⟨fun i hi => lt_of_lt_of_le hjlt (hnode i hi), hp⟩⟩
  · intro o1 h
    obtain ⟨⟨hf, -, hdata⟩, hnode⟩ := closedStep_end hok' h
    obtain ⟨m, e, hm, hme, hp⟩ := hdata j n d hj hn ht hd
    simp only [hnone, Bool.false_eq_true, if_false] at hp
    exact ⟨(level_ok_iff o1).mpr hf.1, hnode, m, e, hm, hme, hp⟩
  · intro fuel1 p el p1 x hp hcount hnode h
    have hp' : LevelOk p := (level_ok_iff p).mp hp
    obtain ⟨a1, -, a3⟩ := parse_loop_ok K fuel1 (j + 1) p el p1 x h
      ⟨hp', hcount, fun i hi => hnode i hi⟩
    refine ⟨(level_ok_iff p1).mpr a1.1, fun i hi => a1.2.2 i hi, ?_⟩
    exact keptBelow_opdata a3 (Nat.lt_succ_self j) (by rw [← hp'.1.1]; exact hcount)
  · intro p0 p1 r hp
    obtain ⟨front, m, rn, h1, h2, h3, h4, h5, -, -, -, -, h6⟩ := new_node_ref_spec hp
    obtain ⟨fn, d0, hf, hd0, hn0⟩ := h6 rfl
    simp only [ProgramNode.links, Prod.mk.injEq, if_true] at h5
    refine ⟨m, rn, _, ?_, h2, hn0, rfl, rfl, h5.2.2.2.2.2.1⟩
    rw [h1]; simp

theorem reference_change_mask_witness :
    level_ok sample_reference_amp = true ∧ sample_reference_amp.node = some 2 ∧
    (∀ c el o1 x, parse_char samplePFlags (parse_level samplePFlags 20) 20
        sample_reference_amp c el = some (o1, x) →
      level_ok o1 = true ∧
      ∃ m e, o1.prg.nodes.get? 2 = some m ∧ m.ref_prev = some 1 ∧ m.type = .op ∧
        m.data = .op e ∧
        ((o1.node = some 2 ∧
            (∃ B ∈ 0 :: own_bits samplePFlags c (sample_reference_amp.tryc 33).1,
              e.params = 0 ||| B) ∧
            (e.time.flags = 0 ∨ (c = 116 ∧ e.time.flags = 0 ||| samplePFlags.TIME_SET))) ∨
          ((∀ i, o1.node = some i → 2 < i) ∧ e.params = 0))) ∧
    (∀ o1, end_node samplePFlags sample_reference_amp = some o1 →
      level_ok o1 = true ∧ o1.node = none ∧
      ∃ m e, o1.prg.nodes.get? 2 = some m ∧ m.data = .op e ∧ e.params = 0) :=
  have h := reference_change_mask samplePFlags 20 sample_reference_amp 2
    { ref_prev := some 1, type := .op, id := 2, first_id := 1, root_id := 1, base_id := 0,
      delay := .val 0, use_next := none,
      data := .op { sample_opdata with params := 0, time := { v := .val 1, flags := 0 } } }
    { sample_opdata with params := 0, time := { v := .val 1, flags := 0 } }
    (by decide!) (by decide!) (by decide!) rfl rfl rfl
  ⟨by decide!, by decide!, h.1, h.2.1⟩

/-- The rounds of the example, evaluated: in the sample state with the reference
2 open, the round for `a` with the text `0.25` gives the node the change mask
`MGS_AMP` and leaves it open; `end_node` after it leaves that mask, and after a
round for `t` with the text `2` it adds `MGS_TIME`. -/
theorem reference_rounds_sample :
    ((parse_char samplePFlags (parse_level samplePFlags 20) 20 sample_reference_amp 97 0).map
      (fun r => (r.1.node, (parsed_op (some r.1) 2).map (fun e => (e.params, e.time.flags)))))
      = some (some 2, some (samplePFlags.AMP, 0)) ∧
    ((parse_char samplePFlags (parse_level samplePFlags 20) 20 sample_reference_amp 97 0).bind
      (fun r => (end_node samplePFlags r.1).map
        (fun p => (p.node, (parsed_op (some p) 2).map (fun e => e.params)))))
      = some (none, some samplePFlags.AMP) ∧
    ((parse_char samplePFlags (parse_level samplePFlags 20) 20
        { sample_reference with f := open_text "2" } 116 0).bind
      (fun r => (end_node samplePFlags r.1).map
        (fun p => (p.node, (parsed_op (some p) 2).map (fun e => e.params)))))
      = some (none, some samplePFlags.TIME) := by
  refine ⟨by decide!, by decide!, by decide!⟩


/-! ## Buffers of `run_block` -/

theorem mod_ids_mem {adjcs ms : List Nat} {start count m : Nat}
    (h : mod_ids adjcs start count = some ms) (hm : m ∈ ms) : m ∈ adjcs := by
  unfold mod_ids at h
  split at h
  · cases h
    exact List.mem_of_mem_drop (List.mem_of_mem_take hm)
  · cases h

theorem calc_mods_spec (cb : Nat → Option Nat) :
    ∀ (ms : List Nat) (init count : Nat), calc_mods cb ms init = some count →
      init ≤ count ∧ ∀ m ∈ ms, ∃ cm, cb m = some cm ∧ cm ≤ count := by
  intro ms
  induction ms with
  | nil =>
    intro init count h
    rw [calc_mods] at h
    cases h
    exact ⟨Nat.le_refl _, fun m hm => by cases hm⟩
  | cons m ms ih =>
    intro init count h
    rw [calc_mods] at h
    cases hc : cb m with
    | none => rw [hc] at h; cases h
    | some res =>
      rw [hc] at h
      obtain ⟨h1, h2⟩ := ih _ _ h
      refine ⟨?_, ?_⟩
      · split at h1 <;> omega
      · intro k hk
        rcases List.mem_cons.mp hk with hk | hk
        · subst hk
          refine ⟨res, hc, ?_⟩
          split at h1 <;> omega
        · exact h2 k hk

theorem calc_mods_le (cb : Nat → Option Nat) (bound : Nat) :
    ∀ (ms : List Nat) (init count : Nat), calc_mods cb ms init = some count →
      init ≤ bound → (∀ m ∈ ms, ∀ cm, cb m = some cm → cm ≤ bound) → count ≤ bound := by
  intro ms
  induction ms with
  | nil =>
    intro init count h hi _
    rw [calc_mods] at h
    cases h
    exact hi
  | cons m ms ih =>
    intro init count h hi hb
    rw [calc_mods] at h
    cases hc : cb m with
    | none => rw [hc] at h; cases h
    | some res =>
      rw [hc] at h
      have hres := hb m (List.mem_cons_self _ _) res hc
      exact ih _ _ h (by split <;> omega)
        (fun k hk cm hcm => hb k (List.mem_cons_of_mem _ hk) cm hcm)

theorem top_mods_le (bt : Nat → Option Nat) (base bound : Nat) :
    ∀ (ms : List Nat) (init top : Nat), top_mods bt base ms init = some top →
      init ≤ bound → (∀ m ∈ ms, ∀ t, bt m = some t → base + t ≤ bound) → top ≤ bound := by
  intro ms
  induction ms with
  | nil =>
    intro init top h hi _
    rw [top_mods] at h
    cases h
    exact hi
  | cons m ms ih =>
    intro init top h hi hb
    rw [top_mods] at h
    cases hc : bt m with
    | none => rw [hc] at h; cases h
    | some t =>
      rw [hc] at h
      have ht := hb m (List.mem_cons_self _ _) t hc
      exact ih _ _ h (by omega) (fun k hk t hcm => hb k (List.mem_cons_of_mem _ hk) t hcm)

theorem mem_take_of_drop_take {l : List Nat} {s c k m : Nat}
    (hm : m ∈ (l.drop s).take c) (hk : s + c ≤ k) : m ∈ l.take k := by
  obtain ⟨i, hi, rfl⟩ := List.mem_iff_getElem.mp hm
  have hi1 : i < c := by
    have := hi
    simp only [List.length_take, List.length_drop] at this
    omega
  have hi2 : s + i < l.length := by
    have := hi
    simp only [List.length_take, List.length_drop] at this
    omega
  rw [List.getElem_take, List.getElem_drop]
  apply List.mem_iff_getElem.mpr
  refine ⟨s + i, ?_, ?_⟩
  · simp only [List.length_take]
    omega
  · rw [List.getElem_take]

theorem mod_ids_subset {adjcs ms all : List Nat} {start count total m : Nat}
    (h : mod_ids adjcs start count = some ms) (hall : mod_ids adjcs 0 total = some all)
    (hle : start + count ≤ total) (hm : m ∈ ms) : m ∈ all := by
  unfold mod_ids at h hall
  split at h
  · cases h
    split at hall
    · cases hall
      rw [List.drop_zero]
      exact mem_take_of_drop_take hm hle
    · cases hall
  · cases h

theorem buf_top_bound {ops : List OperatorNode} {k id t : Nat} (bound : Nat) {we : Bool}
    {n : OperatorNode} (hn : ops.get? id = some n) (h : buf_top ops (k + 1) id we = some t)
    (hb : 3 ≤ bound)
    (hm : ∀ (ms : List Nat) (start count : Nat),
      mod_ids (node_mods n).2.2.2 start count = some ms →
      start + count ≤ (node_mods n).1 + (node_mods n).2.1 + (node_mods n).2.2.1 →
      ∀ m ∈ ms, ∀ we1 t1, buf_top ops k m we1 = some t1 → 3 + t1 ≤ bound) :
    t ≤ bound := by
  unfold buf_top at h
  rw [hn] at h
  simp only at h
  split at h
  · rename_i fmods pmods amods hf hp ha
    have bf := hm fmods _ _ hf (by omega)
    have bp := hm pmods _ _ hp (by omega)
    have ba := hm amods _ _ ha (by split <;> omega)
    cases h1 : top_mods (fun m => buf_top ops k m true) 2 fmods 1 with
    | none => rw [h1] at h; cases h
    | some t1 =>
      rw [h1] at h
      simp only at h
      have e1 := top_mods_le _ 2 bound fmods 1 t1 h1 (by omega)
        (fun m hm t ht => by have := bf m hm true t ht; omega)
      cases h2 : top_mods (fun m => buf_top ops k m false) 2 pmods
          (if (node_mods n).1 ≠ 0 then max t1 2 else t1) with
      | none => rw [h2] at h; cases h
      | some t2 =>
        rw [h2] at h
        simp only at h
        have e2 := top_mods_le _ 2 bound pmods _ t2 h2 (by split <;> omega)
          (fun m hm t ht => by have := bp m hm false t ht; omega)
        by_cases hw : we = true
        · rw [if_pos hw] at h
          cases h
          split <;> omega
        · rw [if_neg hw] at h
          cases h3 : top_mods (fun m => buf_top ops k m true)
              (if (node_mods n).2.1 ≠ 0 then 3 else 2) amods
              (if (node_mods n).2.1 ≠ 0 then max t2 2 else t2) with
          | none => rw [h3] at h; cases h
          | some t3 =>
            rw [h3] at h
            cases h
            have e3 := top_mods_le _ _ bound amods _ t3 h3 (by split <;> omega)
              (fun m hm t ht => by have := ba m hm true t ht; split <;> omega)
            split <;> omega
  · cases h

/-- In an acyclic graph with counts in the range of `uint8_t`, `calc_blocks`
does not overflow for ranks below 2^32 / 5, and the largest buffer index of
`run_block` lies below its result. -/
theorem buf_top_lt_calc (ops : List OperatorNode) (rank : Nat → Nat) (hrk : Ranked ops rank)
    (hcs : CountsSmall ops) :
    ∀ (f1 id c : Nat), 5 * (rank id + 1) < 4294967296 → calc_blocks ops f1 id = some c →
      c ≤ 5 * (rank id + 1) ∧
      ∀ (f2 : Nat) (we : Bool) (t : Nat), buf_top ops f2 id we = some t → t < c := by
  intro f1
  induction f1 with
  | zero => intro id c _ h; simp [calc_blocks] at h
  | succ f1 ih =>
    intro id c hb h
    unfold calc_blocks at h
    cases hn : ops.get? id with
    | none => simp only [hn, reduceCtorEq] at h
    | some n =>
      simp only [hn] at h
      cases hadj : n.adjcs with
      | none =>
        simp only [hadj, Option.some.injEq] at h
        subst h
        refine ⟨by unfold u32; omega, ?_⟩
        intro f2 we t ht
        cases f2 with
        | zero => simp [buf_top] at ht
        | succ k =>
          have hnm : node_mods n = (0, 0, 0, []) := by
            unfold node_mods
            rw [hadj]
          have := buf_top_bound 4 hn ht (by omega) (by
            intro ms start count hms _ m hm _ _ _
            rw [hnm] at hms
            have := mod_ids_mem hms hm
            cases this)
          unfold u32
          omega
      | some a =>
        simp only [hadj] at h
        obtain ⟨c1, c2, c3⟩ := hcs id n a hn hadj
        have hsum : u32 (a.fmodc + a.pmodc + a.amodc) = a.fmodc + a.pmodc + a.amodc := by
          unfold u32
          omega
        rw [hsum] at h
        cases hmods : mod_ids a.adjcs 0 (a.fmodc + a.pmodc + a.amodc) with
        | none => simp only [hmods, reduceCtorEq] at h
        | some mods =>
          simp only [hmods] at h
          cases hcm : calc_mods (calc_blocks ops f1) mods 0 with
          | none => simp only [hcm, reduceCtorEq] at h
          | some count =>
            simp only [hcm, Option.some.injEq] at h
            subst h
            obtain ⟨-, hall⟩ := calc_mods_spec _ _ _ _ hcm
            have hrankm : ∀ m ∈ mods, rank m < rank id := fun m hm =>
              hrk id n a hn hadj m (mod_ids_mem hmods hm)
            have hcount : count ≤ 5 * rank id := by
              apply calc_mods_le _ _ _ _ _ hcm (Nat.zero_le _)
              intro m hm cm hcmm
              have hr := hrankm m hm
              have := (ih m cm (by omega) hcmm).1
              omega
            have hu : u32 (count + 5) = count + 5 := by
              unfold u32
              omega
            rw [hu]
            refine ⟨by omega, ?_⟩
            intro f2 we t ht
            cases f2 with
            | zero => simp [buf_top] at ht
            | succ k =>
              have hnm : node_mods n = (a.fmodc, a.pmodc, a.amodc, a.adjcs) := by
                unfold node_mods
                rw [hadj]
                simp only [Nat.mod_eq_of_lt c1, Nat.mod_eq_of_lt c2, Nat.mod_eq_of_lt c3]
              have := buf_top_bound (count + 4) hn ht (by omega) (by
                intro ms start cnt hms hle m hm we1 t1 ht1
                rw [hnm] at hms hle
                have hmem := mod_ids_subset hms hmods hle hm
                obtain ⟨cm, hcmm, hcmle⟩ := hall m hmem
                have hr := hrankm m hmem
                have := (ih m cm (by omega) hcmm).2 k we1 t1 ht1
                omega)
              omega

theorem calc_mods_some (cb : Nat → Option Nat) :
    ∀ (ms : List Nat) (init : Nat), (∀ m ∈ ms, ∃ c, cb m = some c) →
      ∃ count, calc_mods cb ms init = some count := by
  intro ms
  induction ms with
  | nil => intro init _; exact ⟨init, rfl⟩
  | cons m ms ih =>
    intro init h
    obtain ⟨c, hc⟩ := h m (List.mem_cons_self _ _)
    rw [calc_mods, hc]
    exact ih _ (fun k hk => h k (List.mem_cons_of_mem _ hk))

theorem top_mods_some (bt : Nat → Option Nat) (base : Nat) :
    ∀ (ms : List Nat) (init : Nat), (∀ m ∈ ms, ∃ t, bt m = some t) →
      ∃ top, top_mods bt base ms init = some top := by
  intro ms
  induction ms with
  | nil => intro init _; exact ⟨init, rfl⟩
  | cons m ms ih =>
    intro init h
    obtain ⟨t, ht⟩ := h m (List.mem_cons_self _ _)
    rw [top_mods, ht]
    exact ih _ (fun k hk => h k (List.mem_cons_of_mem _ hk))

theorem mod_ids_some {adjcs : List Nat} {start count : Nat} (h : start + count ≤ adjcs.length) :
    mod_ids adjcs start count = some ((adjcs.drop start).take count) := by
  unfold mod_ids
  rw [if_pos h]

/-- In an acyclic graph whose adjacency lists are complete, `calc_blocks`
returns when the fuel exceeds the rank of the operator. -/
theorem calc_blocks_some (ops : List OperatorNode) (rank : Nat → Nat) (hrk : Ranked ops rank)
    (hcs : CountsSmall ops) (hcl : GraphClosed ops) :
    ∀ (fuel id : Nat), id < ops.length → rank id < fuel →
      ∃ c, calc_blocks ops fuel id = some c := by
  intro fuel
  induction fuel with
  | zero => intro id _ h; omega
  | succ fuel ih =>
    intro id hid hr
    unfold calc_blocks
    have hget : ops.get? id = some (ops.get ⟨id, hid⟩) := by
      rw [List.get?_eq_getElem?, List.getElem?_eq_getElem hid]
      rfl
    rw [hget]
    simp only
    cases hadj : (ops.get ⟨id, hid⟩).adjcs with
    | none => exact ⟨_, rfl⟩
    | some a =>
      simp only
      obtain ⟨c1, c2, c3⟩ := hcs id _ a hget hadj
      obtain ⟨hlen, hmem⟩ := hcl id _ a hget hadj
      have hsum : u32 (a.fmodc + a.pmodc + a.amodc) = a.fmodc + a.pmodc + a.amodc := by
        unfold u32
        omega
      rw [hsum, mod_ids_some (by omega : 0 + (a.fmodc + a.pmodc + a.amodc) ≤ a.adjcs.length)]
      simp only
      obtain ⟨count, hcount⟩ := calc_mods_some (calc_blocks ops fuel)
        ((a.adjcs.drop 0).take (a.fmodc + a.pmodc + a.amodc)) 0 (by
          intro m hm
          have hma : m ∈ a.adjcs := List.mem_of_mem_drop (List.mem_of_mem_take hm)
          have := hrk id _ a hget hadj m hma
          exact ih m (hmem m hma) (by omega))
      rw [hcount]
      exact ⟨_, rfl⟩

/-- In an acyclic graph whose adjacency lists are complete, the index count
`buf_top` returns when the fuel exceeds the rank of the operator. -/
theorem buf_top_some (ops : List OperatorNode) (rank : Nat → Nat) (hrk : Ranked ops rank)
    (hcs : CountsSmall ops) (hcl : GraphClosed ops) :
    ∀ (fuel id : Nat) (we : Bool), id < ops.length → rank id < fuel →
      ∃ t, buf_top ops fuel id we = some t := by
  intro fuel
  induction fuel with
  | zero => intro id _ _ h; omega
  | succ fuel ih =>
    intro id we hid hr
    unfold buf_top
    have hget : ops.get? id = some (ops.get ⟨id, hid⟩) := by
      rw [List.get?_eq_getElem?, List.getElem?_eq_getElem hid]
      rfl
    rw [hget]
    simp only
    generalize hn : ops.get ⟨id, hid⟩ = n at hget
    have hsub : ∀ (start count : Nat),
        start + count ≤ (node_mods n).1 + (node_mods n).2.1 + (node_mods n).2.2.1 →
        mod_ids (node_mods n).2.2.2 start count
            = some (((node_mods n).2.2.2.drop start).take count) ∧
          ∀ m ∈ ((node_mods n).2.2.2.drop start).take count, ∀ we1,
            ∃ t, buf_top ops fuel m we1 = some t := by
      intro start count hle
      cases hadj : n.adjcs with
      | none =>
        have hnm : node_mods n = (0, 0, 0, []) := by
          unfold node_mods
          rw [hadj]
        rw [hnm] at hle ⊢
        simp only at hle
        have h0 : start = 0 ∧ count = 0 := by omega
        obtain ⟨rfl, rfl⟩ := h0
        exact ⟨rfl, fun m hm => by simp at hm⟩
      | some a =>
        obtain ⟨c1, c2, c3⟩ := hcs id n a hget hadj
        obtain ⟨hlen, hmem⟩ := hcl id n a hget hadj
        have hnm : node_mods n = (a.fmodc, a.pmodc, a.amodc, a.adjcs) := by
          unfold node_mods
          rw [hadj]
          simp only [Nat.mod_eq_of_lt c1, Nat.mod_eq_of_lt c2, Nat.mod_eq_of_lt c3]
        rw [hnm] at hle ⊢
        simp only at hle ⊢
        refine ⟨mod_ids_some (by omega), ?_⟩
        intro m hm we1
        have hma : m ∈ a.adjcs := List.mem_of_mem_drop (List.mem_of_mem_take hm)
        have := hrk id n a hget hadj m hma
        exact ih m we1 (hmem m hma) (by omega)
    obtain ⟨ef, mf⟩ := hsub 0 (node_mods n).1 (by omega)
    obtain ⟨ep, mp⟩ := hsub (node_mods n).1 (node_mods n).2.1 (by omega)
    obtain ⟨ea, ma⟩ := hsub ((node_mods n).1 + (node_mods n).2.1)
      (if we then 0 else (node_mods n).2.2.1) (by split <;> omega)
    rw [ef, ep, ea]
    simp only
    obtain ⟨t1, h1⟩ := top_mods_some (fun m => buf_top ops fuel m true) 2 _ 1
      (fun m hm => mf m hm true)
    rw [h1]
    simp only
    obtain ⟨t2, h2⟩ := top_mods_some (fun m => buf_top ops fuel m false) 2 _
      (if (node_mods n).1 ≠ 0 then max t1 2 else t1) (fun m hm => mp m hm false)
    rw [h2]
    simp only
    by_cases hw : we = true
    · rw [if_pos hw]
      exact ⟨_, rfl⟩
    · rw [if_neg hw]
      obtain ⟨t3, h3⟩ := top_mods_some (fun m => buf_top ops fuel m true)
        (if (node_mods n).2.1 ≠ 0 then 3 else 2) _
        (if (node_mods n).2.1 ≠ 0 then max t2 2 else t2) (fun m hm => ma m hm true)
      rw [h3]
      exact ⟨_, rfl⟩

/-- C38: in an acyclic modulator graph (ranks below 2^32 / 5, modulator counts
in the range of `uint8_t`, adjacency lists complete) `calc_blocks` and the
count of buffer indices return for every operator once the fuel exceeds its
rank, and the largest index of a buffer that `run_block` uses for the
operator, counted from the `blocks` it is given and with the nested calls for
its modulators, lies below `calc_blocks` of the operator. `upsize_blocks`
returns for a voice whose carriers are operators of the graph, and the
`blockc` it leaves lies above the largest index for every carrier. The bound
holds with whatever fuel the two counts return. -/
theorem scratch_buffers_suffice (ops : List OperatorNode) (rank : Nat → Nat)
    (hrk : Ranked ops rank) (hcs : CountsSmall ops) (hcl : GraphClosed ops)
    (hbound : ∀ id, 5 * (rank id + 1) < 4294967296) :
    (∀ (fuel id : Nat) (we : Bool), id < ops.length → rank id < fuel →
      ∃ c t, calc_blocks ops fuel id = some c ∧ buf_top ops fuel id we = some t ∧ t < c) ∧
    (∀ (fuel : Nat) (vn : VoiceNode) (g : ProgramGraph) (blockc : Nat),
      vn.graph = some g → g.opc ≤ g.ops.length →
      (∀ id ∈ g.ops.take g.opc, id < ops.length ∧ rank id < fuel) →
      ∃ bc, upsize_blocks ops fuel vn blockc = some bc ∧ blockc ≤ bc ∧
        ∀ id ∈ g.ops.take g.opc, ∃ t, buf_top ops fuel id false = some t ∧ t < bc) ∧
    (∀ (f1 f2 id : Nat) (we : Bool) (c t : Nat), calc_blocks ops f1 id = some c →
      buf_top ops f2 id we = some t → t < c) := by
  refine ⟨?_, ?_, ?_⟩
  · intro fuel id we hid hr
    obtain ⟨c, hc⟩ := calc_blocks_some ops rank hrk hcs hcl fuel id hid hr
    obtain ⟨t, ht⟩ := buf_top_some ops rank hrk hcs hcl fuel id we hid hr
    exact ⟨c, t, hc, ht, (buf_top_lt_calc ops rank hrk hcs fuel id c (hbound id) hc).2 fuel we t ht⟩
  · intro fuel vn g blockc hg hopc hids
    unfold upsize_blocks
    rw [hg]
    simp only
    unfold graph_carriers
    rw [if_pos hopc]
    simp only
    obtain ⟨count, hcm⟩ := calc_mods_some (calc_blocks ops fuel) (g.ops.take g.opc) 0
      (fun m hm => calc_blocks_some ops rank hrk hcs hcl fuel m (hids m hm).1 (hids m hm).2)
    rw [hcm]
    refine ⟨_, rfl, by split <;> omega, ?_⟩
    intro id hid
    obtain ⟨t, ht⟩ := buf_top_some ops rank hrk hcs hcl fuel id false (hids id hid).1
      (hids id hid).2
    obtain ⟨-, hall⟩ := calc_mods_spec _ _ _ _ hcm
    obtain ⟨c, hc, hle⟩ := hall id hid
    have := (buf_top_lt_calc ops rank hrk hcs fuel id c (hbound id) hc).2 fuel false t ht
    refine ⟨t, ht, ?_⟩
    split <;> omega
  · intro f1 f2 id we c t hc ht
    exact (buf_top_lt_calc ops rank hrk hcs f1 id c (hbound id) hc).2 f2 we t ht

theorem sample_graph_ranked : Ranked sample_graph sample_rank := by
  intro id n a hn ha m hm
  match id with
  | 0 =>
    simp only [sample_graph, List.get?_cons_zero, Option.some.injEq] at hn
    subst hn
    simp only [Option.some.injEq] at ha
    subst ha
    simp only [List.mem_cons, List.mem_singleton, List.not_mem_nil, or_false] at hm
    rcases hm with hm | hm <;> subst hm <;> decide
  | 1 =>
    simp only [sample_graph, List.get?_cons_succ, List.get?_cons_zero, Option.some.injEq] at hn
    subst hn
    cases ha
  | 2 =>
    simp only [sample_graph, List.get?_cons_succ, List.get?_cons_zero, Option.some.injEq] at hn
    subst hn
    simp only [Option.some.injEq] at ha
    subst ha
    simp only [List.mem_singleton] at hm
    subst hm
    decide
  | 3 =>
    simp only [sample_graph, List.get?_cons_succ, List.get?_cons_zero, Option.some.injEq] at hn
    subst hn
    cases ha
  | k + 4 =>
    simp [sample_graph] at hn

theorem sample_graph_counts : CountsSmall sample_graph := by
  intro id n a hn ha
  have hmem : n ∈ sample_graph := List.get?_mem hn
  simp only [sample_graph, List.mem_cons, List.mem_singleton, List.not_mem_nil, or_false] at hmem
  rcases hmem with h | h | h | h <;> subst h <;> simp only [Option.some.injEq] at ha <;>
    first
    | (subst ha; decide)
    | cases ha

theorem sample_graph_closed : GraphClosed sample_graph := by
  intro id n a hn ha
  have hmem : n ∈ sample_graph := List.get?_mem hn
  simp only [sample_graph, List.mem_cons, List.mem_singleton, List.not_mem_nil, or_false] at hmem
  rcases hmem with h | h | h | h <;> subst h <;> simp only [Option.some.injEq] at ha <;>
    first
    | (subst ha; decide)
    | cases ha

theorem scratch_buffers_suffice_witness :
    ((0 < sample_graph.length ∧ sample_rank 0 < 11) ∧
      calc_blocks sample_graph 11 0 = some 15 ∧ buf_top sample_graph 11 0 false = some 6 ∧
      ∃ c t, calc_blocks sample_graph 11 0 = some c ∧
        buf_top sample_graph 11 0 false = some t ∧ t < c) ∧
    (upsize_blocks sample_graph 11 (sample_voice [0, 2]) 3 = some 15 ∧
      ∃ bc, upsize_blocks sample_graph 11 (sample_voice [0, 2]) 3 = some bc ∧ 3 ≤ bc ∧
        ∀ id ∈ [0, 2].take 2, ∃ t, buf_top sample_graph 11 id false = some t ∧ t < bc) :=
  ⟨⟨⟨by decide, by decide⟩, by decide!, by decide!,
      (scratch_buffers_suffice sample_graph sample_rank sample_graph_ranked sample_graph_counts
        sample_graph_closed (fun id => by unfold sample_rank; omega)).1 11 0 false
        (by decide) (by decide)⟩,
    ⟨by decide!,
      (scratch_buffers_suffice sample_graph sample_rank sample_graph_ranked sample_graph_counts
        sample_graph_closed (fun id => by unfold sample_rank; omega)).2.1 11
        (sample_voice [0, 2]) { opc := 2, ops := [0, 2] } 3 rfl (by decide)
        (by
          intro id hid
          simp only [List.take, List.mem_cons, List.mem_singleton, List.not_mem_nil,
            or_false] at hid
          rcases hid with h | h <;> subst h <;> exact ⟨by decide, by decide⟩)⟩⟩

/-- The sample graph: `calc_blocks` of the carrier is 15, the largest buffer
index of `run_block` is 6, and `upsize_blocks` raises 3 buffers to 15. -/
theorem scratch_buffers_sample_run :
    calc_blocks sample_graph 5 0 = some 15 ∧ buf_top sample_graph 5 0 false = some 6 ∧
    buf_top sample_graph 5 2 true = some 4 ∧ calc_blocks sample_graph 5 2 = some 10 ∧
    upsize_blocks sample_graph 5 (sample_voice [0]) 3 = some 15 := by
  decide!

/-! ## `flatten_events` merges the two chains -/

theorem interleaved_left_only : ∀ (as : List Nat), Interleaved as [] as
  | [] => Interleaved.nil
  | a :: as => Interleaved.left a (interleaved_left_only as)

theorem interleaved_right_only : ∀ (bs : List Nat), Interleaved [] bs bs
  | [] => Interleaved.nil
  | b :: bs => Interleaved.right b (interleaved_right_only bs)

theorem interleaved_prepend {as bs cs : List Nat} (h : Interleaved as bs cs) :
    ∀ (p : List Nat), Interleaved (p ++ as) bs (p ++ cs)
  | [] => h
  | a :: p => Interleaved.left a (interleaved_prepend h p)

theorem interleaved_sublist_left {as bs cs : List Nat} (h : Interleaved as bs cs) :
    List.Sublist as cs := by
  induction h with
  | nil => exact List.Sublist.slnil
  | left a _ ih => exact List.Sublist.cons₂ a ih
  | right b _ ih => exact List.Sublist.cons b ih

theorem interleaved_sublist_right {as bs cs : List Nat} (h : Interleaved as bs cs) :
    List.Sublist bs cs := by
  induction h with
  | nil => exact List.Sublist.slnil
  | left a _ ih => exact List.Sublist.cons a ih
  | right b _ ih => exact List.Sublist.cons₂ b ih

theorem interleaved_perm {as bs cs : List Nat} (h : Interleaved as bs cs) :
    List.Perm cs (as ++ bs) := by
  induction h with
  | nil => exact List.Perm.refl _
  | left a _ ih => exact List.Perm.cons a ih
  | right b _ ih =>
    rename_i as1 bs1 cs1 _
    exact (List.Perm.cons b ih).trans (List.perm_middle.symm)

/-- Skipping ahead changes no event: the events passed over, the event the
loop stops at and the events after it are the chain it started from. -/
theorem skip_ahead_chain (target : Nat) :
    ∀ (ss : List ParseEvent) (wait_ms : Nat) (se : ParseEvent),
      (skip_ahead target wait_ms se ss).1 ++
        (skip_ahead target wait_ms se ss).2.1 :: (skip_ahead target wait_ms se ss).2.2.1
        = se :: ss
  | [], wait_ms, se => by simp [skip_ahead]
  | se_next :: ss, wait_ms, se => by
    unfold skip_ahead
    by_cases h : u32 (u32 (wait_ms + se.wait_ms) + se_next.wait_ms) ≤ target
    · simp only [h, if_true]
      have ih := skip_ahead_chain target ss (u32 (wait_ms + se.wait_ms)) se_next
      simp only [List.cons_append, ih]
    · simp only [h, if_false, List.nil_append]

/-- The loop keeps what it has put out and interleaves the rest. -/
theorem flatten_loop_interleaved :
    ∀ (ces out ses : List ParseEvent) (wait_ms added_wait_ms : Nat),
      ∃ rest, flatten_loop out ses wait_ms added_wait_ms ces = out ++ rest ∧
        Interleaved (ses.map (fun x => x.ref)) (ces.map (fun x => x.ref))
          (rest.map (fun x => x.ref))
  | [], out, ses, wait_ms, added_wait_ms => by
    refine ⟨ses, ?_, ?_⟩
    · cases ses <;> simp [flatten_loop]
    · exact interleaved_left_only _
  | ce :: ces, out, [], wait_ms, added_wait_ms => by
    refine ⟨ce :: ces, ?_, ?_⟩
    · simp [flatten_loop]
    · exact interleaved_right_only _
  | ce :: ces, out, se0 :: ss0, wait_ms, added_wait_ms => by
    have hc := skip_ahead_chain (u32 (ce.wait_ms + added_wait_ms)) ss0 wait_ms se0
    rw [flatten_loop]
    simp only
    generalize skip_ahead (u32 (ce.wait_ms + added_wait_ms)) wait_ms se0 ss0 = r at hc ⊢
    obtain ⟨pre, se, ss, w⟩ := r
    simp only at hc ⊢
    have hrefs : (se0 :: ss0).map (fun x => x.ref) =
        pre.map (fun x => x.ref) ++ se.ref :: ss.map (fun x => x.ref) := by
      rw [← hc]
      simp
    rw [hrefs]
    by_cases h : se.wait_ms ≥ u32 (ce.wait_ms + added_wait_ms)
    · rw [if_pos h]
      obtain ⟨rest, hr, hi⟩ := flatten_loop_interleaved ces (out ++ pre ++ [ce])
        ({ se with wait_ms := u32_sub se.wait_ms (u32 (ce.wait_ms + added_wait_ms)) } :: ss) 0 0
      refine ⟨pre ++ ce :: rest, ?_, ?_⟩
      · rw [hr]
        simp
      · have := interleaved_prepend (Interleaved.right ce.ref hi) (pre.map (fun x => x.ref))
        simpa using this
    · rw [if_neg h]
      obtain ⟨rest, hr, hi⟩ := flatten_loop_interleaved ces
        (out ++ pre ++ [se, { ce with wait_ms := u32_sub ce.wait_ms w }]) ss 0
        (u32 (added_wait_ms + u32_sub ce.wait_ms w))
      refine ⟨pre ++ se :: { ce with wait_ms := u32_sub ce.wait_ms w } :: rest, ?_, ?_⟩
      · rw [hr]
        simp
      · have := interleaved_prepend
          (Interleaved.left se.ref (Interleaved.right ce.ref hi)) (pre.map (fun x => x.ref))
        simpa using this

/-- C39: `flatten_events` is a merge. The function is total on the two chains
(the loop ends); afterwards `e->composite` is null, and the chain that follows
`e` holds, by reference, the former ordinary events and the composites of `e`,
each exactly once (it is a permutation of the two chains put together), the
ordinary events in their former order and the composites in theirs. -/
theorem flatten_events_merges (e : MainEvent) :
    (flatten_events_at e).composite = [] ∧
    List.Perm ((flatten_events_at e).next.map (fun x => x.ref))
      (e.next.map (fun x => x.ref) ++ e.composite.map (fun x => x.ref)) ∧
    List.Sublist (e.next.map (fun x => x.ref))
      ((flatten_events_at e).next.map (fun x => x.ref)) ∧
    List.Sublist (e.composite.map (fun x => x.ref))
      ((flatten_events_at e).next.map (fun x => x.ref)) := by
  obtain ⟨rest, hr, hi⟩ := flatten_loop_interleaved e.composite [] e.next 0 0
  have hn : (flatten_events_at e).next = rest := by
    show flatten_events e.next e.composite = rest
    unfold flatten_events
    rw [hr]
    rfl
  rw [hn]
  exact ⟨rfl, interleaved_perm hi, interleaved_sublist_left hi, interleaved_sublist_right hi⟩

/-- The merge on the sample: composite 11 goes between the ordinary events. -/
theorem flatten_events_sample_merge :
    flatten_events_at ⟨sample_ordinary, sample_one_composite⟩
      = ⟨[⟨1, 10⟩, ⟨11, 5⟩, ⟨2, 6⟩], []⟩ := by
  decide!

/-! ## The time of the ordinary events -/

/-- C40 (the code at the failing input): ordinary events 10 ms and 6 ms apart
(at 10 ms and 16 ms) and one composite at 15 ms. The composite is put after
the first ordinary event with its wait reduced to 5 ms, and the second ordinary
event keeps its wait of 6 ms behind it: it is at 21 ms afterwards. -/
theorem flatten_events_shifts_ordinary :
    flatten_events sample_ordinary sample_one_composite = [⟨1, 10⟩, ⟨11, 5⟩, ⟨2, 6⟩] ∧
    absolute_time 2 sample_ordinary = some 16 ∧
    absolute_time 2 (flatten_events sample_ordinary sample_one_composite) = some 21 := by
  decide!

/-! ## The guard of `build_graph` -/

/-- With any non-zero `voice_params` the guard `!voice_params & SGS_P_GRAPH` is
zero whatever the flag is, and `build_graph` writes the graph of the event. -/
theorem build_graph_nonzero_params (k : Flags) (ids : Nat → Nat) (root : ProgramEvent)
    (voice_in : ParseEventData) (ovd : ProgramVoiceData)
    (hp : voice_in.voice_params ≠ 0) (hv : root.voice = some ovd) :
    build_graph k ids root voice_in =
      some { root with voice := some { ovd with graph :=
        (if voice_in.graph.length = 0 then none
         else some ({ opc := voice_in.graph.length,
                      ops := voice_in.graph.map (fun o => ids o.d.ref) } : ProgramGraph)) } } := by
  unfold build_graph
  have h0 : ¬ ((if voice_in.voice_params = 0 then 1 else 0) &&& k.P_GRAPH ≠ 0) := by
    rw [if_neg hp]
    simp
  rw [if_neg h0, hv]
  by_cases hl : voice_in.graph.length = 0
  · simp only [hl, if_true]
  · simp only [hl, if_false]

/-- The sample call of the voice part of `program_convert_enode`: the event
gets voice data without a graph, although the carrier list of the parse event
is not empty. -/
theorem convert_voice_sample_run :
    (program_convert_voice sampleFlags sample_build_state sample_pan_event).map
      (fun s => s.pa.ev_list) =
      some [{ wait_ms := 0, params := 2, voice_id := 0,
              voice := some { graph := none, attr := 0, panning := 0, valitpanning := 0 },
              operator := none }] := by
  decide!

/-! ## Operator ids are dense -/

theorem new_operators_append (l m : List OperatorFields) :
    new_operators (l ++ m) = new_operators l ++ new_operators m := by
  simp [new_operators]

theorem nodup_refs_front {l x y : List OperatorFields}
    (h : ((l ++ (x ++ y)).map (fun d => d.ref)).Nodup) :
    ((l ++ x).map (fun d => d.ref)).Nodup := by
  refine List.Nodup.sublist (List.Sublist.map _ ?_) h
  rw [← List.append_assoc]
  exact List.sublist_append_left _ _

theorem mem_refs_new_operators {l : List OperatorFields} {i : Nat} {d : OperatorFields}
    (h : (new_operators l).get? i = some d) : d.ref ∈ l.map (fun d => d.ref) := by
  have hm : d ∈ new_operators l := List.get?_mem h
  have hm1 : d ∈ l := (List.mem_filter.mp hm).1
  exact List.mem_map_of_mem _ hm1

/-- One call of `operator_alloc_inc` keeps the ids dense. -/
theorem denseIds_alloc {l : List OperatorFields} {s : BuildState} {d : OperatorFields}
    {oa : OperatorAlloc} {ids : Nat → Nat} {id : Nat} (hd : DenseIds l s)
    (hn : ((l ++ [d]).map (fun d => d.ref)).Nodup)
    (ha : operator_alloc_inc s.pa.oa s.operator_id d = some (oa, ids, id)) :
    DenseIds (l ++ [d]) (s.set_operators oa ids) := by
  obtain ⟨hids, -, -, hprev, hnew, -⟩ := operator_alloc_inc_spec ha
  obtain ⟨hc, hi⟩ := hd
  have hnot : d.ref ∉ l.map (fun d => d.ref) := by
    rw [List.map_append, List.nodup_append] at hn
    intro hm
    exact hn.2.2 hm (by simp)
  have hold : ∀ i d0, (new_operators l).get? i = some d0 → ids d0.ref = i := by
    intro i d0 h0
    have hne : d0.ref ≠ d.ref := fun he => hnot (he ▸ mem_refs_new_operators h0)
    rw [hids, Function.update_noteq hne]
    exact hi i d0 h0
  cases hp : d.on_prev with
  | some pop =>
    have hno : new_operators (l ++ [d]) = new_operators l := by
      simp [new_operators, hp]
    obtain ⟨-, hcount⟩ := hprev pop hp
    refine ⟨?_, ?_⟩
    · rw [hno]
      show oa.count = _
      rw [hcount]
      exact hc
    · rw [hno]
      exact hold
  | none =>
    have hno : new_operators (l ++ [d]) = new_operators l ++ [d] := by
      simp [new_operators, hp]
    obtain ⟨hid, hcount⟩ := hnew hp
    refine ⟨?_, ?_⟩
    · rw [hno]
      show oa.count = _
      rw [hcount, hc]
      simp
    · rw [hno]
      intro i d0 h0
      show ids d0.ref = i
      by_cases hlt : i < (new_operators l).length
      · rw [List.get?_eq_getElem?, List.getElem?_append_left hlt, ← List.get?_eq_getElem?] at h0
        exact hold i d0 h0
      · have hle : (new_operators l).length ≤ i := Nat.le_of_not_lt hlt
        rw [List.get?_eq_getElem?, List.getElem?_append_right hle] at h0
        have hi0 : i - (new_operators l).length = 0 := by
          by_contra hne
          obtain ⟨m, hm⟩ := Nat.exists_eq_succ_of_ne_zero hne
          rw [hm] at h0
          simp at h0
        rw [hi0] at h0
        simp only [List.getElem?_cons_zero, Option.some.injEq] at h0
        subst h0
        rw [hids, Function.update_same, hid, hc]
        omega

/-- The rest of the loop body changes neither the count nor the stored ids. -/
theorem denseIds_finish {k : Flags} {l : List OperatorFields} {s s1 : BuildState}
    {op : ParseOperatorData} {id : Nat} (hd : DenseIds l s)
    (h : program_follow_finish k s op id = some s1) : DenseIds l s1 := by
  obtain ⟨_, _, -, -, -, hids, -, -, hcount, -⟩ := program_follow_finish_spec h
  obtain ⟨hc, hi⟩ := hd
  refine ⟨?_, ?_⟩
  · rw [hcount]
    exact hc
  · intro i d h0
    rw [hids]
    exact hi i d h0

mutual
theorem follow_onode_dense (k : Flags) :
    ∀ (op : ParseOperatorData) (l : List OperatorFields) (s s1 : BuildState), DenseIds l s →
      ((l ++ allocated_onode k op).map (fun d => d.ref)).Nodup →
      program_follow_onode k s op = some s1 → DenseIds (l ++ allocated_onode k op) s1
  | .mk d fmods pmods amods, l, s, s1, hi, hn, hs => by
    rw [program_follow_onode] at hs
    rw [allocated_onode] at hn ⊢
    by_cases hm : d.od_flags &&& k.PSOD_MULTIPLE_OPERATORS ≠ 0
    · rw [if_pos hm] at hs hn ⊢
      cases hs
      simpa using hi
    · rw [if_neg hm] at hs hn ⊢
      cases ha : operator_alloc_inc s.pa.oa s.operator_id d with
      | none => rw [ha] at hs; cases hs
      | some r =>
        obtain ⟨oa, ids, id⟩ := r
        rw [ha] at hs
        simp only at hs
        cases h2 : program_follow_onodes k d.fmods_copy_count (s.set_operators oa ids) fmods with
        | none => rw [h2] at hs; cases hs
        | some s2 =>
          rw [h2] at hs
          simp only at hs
          cases h3 : program_follow_onodes k d.pmods_copy_count s2 pmods with
          | none => rw [h3] at hs; cases hs
          | some s3 =>
            rw [h3] at hs
            simp only at hs
            cases h4 : program_follow_onodes k d.amods_copy_count s3 amods with
            | none => rw [h4] at hs; cases hs
            | some s4 =>
              rw [h4] at hs
              simp only at hs
              have e1 : l ++ d :: (allocated_onodes k d.fmods_copy_count fmods ++
                  (allocated_onodes k d.pmods_copy_count pmods ++
                    allocated_onodes k d.amods_copy_count amods)) =
                  (l ++ [d]) ++ (allocated_onodes k d.fmods_copy_count fmods ++
                  (allocated_onodes k d.pmods_copy_count pmods ++
                    allocated_onodes k d.amods_copy_count amods)) := by simp
              rw [e1] at hn ⊢
              have n1 : ((l ++ [d]).map (fun d => d.ref)).Nodup :=
                List.Nodup.sublist (List.Sublist.map _ (List.sublist_append_left _ _)) hn
              have a1 := denseIds_alloc hi n1 ha
              have n2 := nodup_refs_front hn
              have b2 := follow_onodes_dense k fmods d.fmods_copy_count _ _ _ a1 n2 h2
              have e2 : (l ++ [d]) ++ (allocated_onodes k d.fmods_copy_count fmods ++
                  (allocated_onodes k d.pmods_copy_count pmods ++
                    allocated_onodes k d.amods_copy_count amods)) =
                  ((l ++ [d]) ++ allocated_onodes k d.fmods_copy_count fmods) ++
                  (allocated_onodes k d.pmods_copy_count pmods ++
                    allocated_onodes k d.amods_copy_count amods) := by simp
              rw [e2] at hn ⊢
              have n3 := nodup_refs_front hn
              have b3 := follow_onodes_dense k pmods d.pmods_copy_count _ _ _ b2 n3 h3
              have e3 : ((l ++ [d]) ++ allocated_onodes k d.fmods_copy_count fmods) ++
                  (allocated_onodes k d.pmods_copy_count pmods ++
                    allocated_onodes k d.amods_copy_count amods) =
                  (((l ++ [d]) ++ allocated_onodes k d.fmods_copy_count fmods) ++
                  allocated_onodes k d.pmods_copy_count pmods) ++
                    allocated_onodes k d.amods_copy_count amods := by simp
              rw [e3] at hn ⊢
              have b4 := follow_onodes_dense k amods d.amods_copy_count _ _ _ b3 hn h4
              exact denseIds_finish b4 hs
theorem follow_onodes_dense (k : Flags) :
    ∀ (ops : List ParseOperatorData) (c : Nat) (l : List OperatorFields) (s s1 : BuildState),
      DenseIds l s → ((l ++ allocated_onodes k c ops).map (fun d => d.ref)).Nodup →
      program_follow_onodes k c s ops = some s1 → DenseIds (l ++ allocated_onodes k c ops) s1
  | [], c, l, s, s1, hi, _, hs => by
    rw [program_follow_onodes] at hs
    rw [allocated_onodes]
    cases hs
    simpa using hi
  | op :: ops, 0, l, s, s1, hi, hn, hs => by
    rw [program_follow_onodes] at hs
    rw [allocated_onodes] at hn ⊢
    cases h1 : program_follow_onode k s op with
    | none => rw [h1] at hs; cases hs
    | some s2 =>
      rw [h1] at hs
      simp only at hs
      have a := follow_onode_dense k op l s s2 hi (nodup_refs_front hn) h1
      rw [← List.append_assoc] at hn ⊢
      exact follow_onodes_dense k ops 0 _ _ _ a hn hs
  | op :: ops, n + 1, l, s, s1, hi, hn, hs => by
    rw [program_follow_onodes] at hs
    rw [allocated_onodes] at hn ⊢
    exact follow_onodes_dense k ops n l s s1 hi hn hs
end

theorem convert_enode_dense {k : Flags} {l : List OperatorFields} {s s1 : BuildState}
    {e : ParseEventData} (hi : DenseIds l s)
    (hn : ((l ++ allocated_onodes k e.operators_copy_count e.operators).map
      (fun d => d.ref)).Nodup)
    (h : program_convert_enode k s e = some s1) :
    DenseIds (l ++ allocated_onodes k e.operators_copy_count e.operators) s1 := by
  unfold program_convert_enode at h
  split at h
  · cases h
  · rename_i s2 h2
    split at h
    · cases h
    · rename_i s3 h3
      obtain ⟨_, _, _, -, -, -, hids, hoa, -, -⟩ := program_convert_start_spec h2
      have hi2 : DenseIds l s2 := by
        refine ⟨?_, ?_⟩
        · rw [hoa]; exact hi.1
        · intro i d h0
          rw [hids]
          exact hi.2 i d h0
      have hi3 := follow_onodes_dense k e.operators _ _ _ _ hi2 hn h3
      rcases program_convert_voice_spec h with ⟨-, he⟩ | ⟨-, _, _, -, -, he⟩
      · rw [he]; exact hi3
      · rw [he]; exact hi3

theorem convert_enodes_dense (k : Flags) :
    ∀ (es : List ParseEventData) (l : List OperatorFields) (s s1 : BuildState), DenseIds l s →
      ((l ++ allocated_enodes k es).map (fun d => d.ref)).Nodup →
      program_convert_enodes k s es = some s1 → DenseIds (l ++ allocated_enodes k es) s1
  | [], l, s, s1, hi, _, h => by
    simp only [program_convert_enodes, Option.some.injEq] at h
    subst h
    simpa [allocated_enodes] using hi
  | e :: es, l, s, s1, hi, hn, h => by
    simp only [program_convert_enodes] at h
    rw [allocated_enodes] at hn ⊢
    split at h
    · cases h
    · rename_i s2 he
      have a := convert_enode_dense hi (nodup_refs_front hn) he
      rw [← List.append_assoc] at hn ⊢
      exact convert_enodes_dense k es _ _ _ a hn h

/-- C33: operator ids are dense and given in the order of the traversal. Let
the operator nodes handed to `operator_alloc_inc` by `program_follow_onodes`
over the whole parse result be listed in the order of the calls, each node
being met once. When `SGS_create_Program` returns a program, the node at
position `i` (from 0) among those without `on_prev` holds `i` in its
`operator_id` field, and `operator_count` is the number of such nodes. -/
theorem operator_ids_dense (k : Flags) (parse : ParseResult) (prg : Program)
    (hfresh : ((allocated_enodes k parse.events).map (fun d => d.ref)).Nodup)
    (h : SGS_create_Program k parse = some prg) :
    ∃ s, program_convert_enodes k (build_init parse) parse.events = some s ∧
      prg.operator_count = (new_operators (allocated_enodes k parse.events)).length ∧
      ∀ i d, (new_operators (allocated_enodes k parse.events)).get? i = some d →
        s.operator_id d.ref = i := by
  unfold SGS_create_Program at h
  split at h
  · cases h
  · rename_i s hs
    simp only [Option.some.injEq] at h
    subst h
    have h0 : DenseIds [] (build_init parse) := by
      refine ⟨rfl, ?_⟩
      intro i d hd
      simp [new_operators] at hd
    have hd := convert_enodes_dense k parse.events [] _ _ h0 (by simpa using hfresh) hs
    rw [List.nil_append] at hd
    refine ⟨s, hs, ?_, hd.2⟩
    rw [(program_alloc_fini_fields _ _).2.2.1]
    exact hd.1

theorem operator_ids_dense_witness :
    ((allocated_enodes sampleFlags sample_parse_update.events).map (fun d => d.ref)).Nodup ∧
    SGS_create_Program sampleFlags sample_parse_update = some sample_program_update ∧
    ∃ s, program_convert_enodes sampleFlags (build_init sample_parse_update)
        sample_parse_update.events = some s ∧
      sample_program_update.operator_count =
        (new_operators (allocated_enodes sampleFlags sample_parse_update.events)).length ∧
      ∀ i d, (new_operators (allocated_enodes sampleFlags
          sample_parse_update.events)).get? i = some d → s.operator_id d.ref = i :=
  ⟨by decide!, by decide!,
    operator_ids_dense sampleFlags sample_parse_update sample_program_update (by decide!)
      (by decide!)⟩

/-- The ids on the sample: nodes 1, 2 and 4 are new and hold 0, 1 and 2; node 3
updates node 1 and holds its id; three operators are counted. -/
theorem operator_ids_sample_run :
    (allocated_enodes sampleFlags sample_parse_update.events).map (fun d => d.ref)
      = [1, 2, 3, 4] ∧
    (new_operators (allocated_enodes sampleFlags sample_parse_update.events)).map
      (fun d => d.ref) = [1, 2, 4] ∧
    (program_convert_enodes sampleFlags (build_init sample_parse_update)
        sample_parse_update.events).map
      (fun s => [s.operator_id 1, s.operator_id 2, s.operator_id 3, s.operator_id 4,
        s.pa.oa.count]) = some [0, 1, 0, 2, 3] := by
  decide!

end Sgensys
